import Mathlib

/-!
Semantic analysis, code generation and the driver of the C-subset compiler.

A shallow embedding of `src/semantic.h`, `src/semantic.cpp`, `src/codegen.h`,
`src/codegen.cpp`, the control flow of `src/main.cpp` and the node model of `src/ast.h`,
followed by theorems about the symbol table, the type rules, the analyzer's traversal,
the assembly text the generator writes and the exit codes of the driver.

Modelling conventions.

* `std::unordered_map<std::string, std::unique_ptr<SymbolInfo>>` is an association
  list with at most one entry per key; only `find` and `operator[]` are used by the
  code, and both are insensitive to iteration order.
* `std::vector` is a `List`; index `0` is the global scope and `push_back` appends at
  the end.  Indexing a vector out of range is undefined behaviour in the source; the
  model reads an absent scope as the empty map and ignores writes to it.  Tables built
  by the constructor and the member functions never index out of range (`SymbolTable.WF`).
* `int` is `Int`.  The only `int` arithmetic in the analyzer is the scope counter, which
  is bounded by the nesting depth of the tree, so no wrap-around is modelled.  The
  counters of the generator (`stackOffset`, `labelCounter`, `paramOffset`) grow with the
  size of the program; every value stored in them is reduced by `toInt32`, and the
  theorems that depend on their values state the range in which no reduction happens
  (signed overflow is undefined in the source).
* A stream is the list of the lines written to it, one entry per `std::endl`; an `int`
  is written in decimal, as `toString` on `Int` does.
* A visit of the generator that dereferences a null pointer returns `none`.
* A `SymbolInfo*` returned by `lookup` is a scope index together with the name; the only
  field ever written through such a pointer is `isInitialized`.
* Visitors that mutate the tree in place return the updated node next to the new
  analyzer state.
-/

namespace CCompiler

/-! ## Symbol table (`semantic.h` 11-39, `semantic.cpp` 6-51) -/

/-- Entry of the symbol table (`struct SymbolInfo`). -/
structure SymbolInfo where
  name : String
  type : String
  kind : String
  scopeLevel : Int
  isInitialized : Bool
deriving DecidableEq, Repr

/-- The constructor `SymbolInfo(n, t, k, level)`: the flag starts out false. -/
def SymbolInfo.new (n t k : String) (level : Int) : SymbolInfo :=
  { name := n, type := t, kind := k, scopeLevel := level, isInitialized := false }

/-- One scope: a map from names to symbols. -/
abbrev Scope := List (String × SymbolInfo)

/-- Lookup of a key, `scopes[i].find(name)`; `none` stands for `end()`. -/
def Scope.find : Scope → String → Option SymbolInfo
  | [], _ => none
  | (k, v) :: rest, name => if k = name then some v else Scope.find rest name

/-- Assignment through `operator[]`: overwrite the entry of an existing key, otherwise
add a new entry. -/
def Scope.assign : Scope → String → SymbolInfo → Scope
  | [], name, v => [(name, v)]
  | (k, w) :: rest, name, v =>
    if k = name then (k, v) :: rest else (k, w) :: Scope.assign rest name v

/-- The write `symbol->isInitialized = true` on the entry stored under `name`. -/
def Scope.setInitialized : Scope → String → Scope
  | [], _ => []
  | (k, w) :: rest, name =>
    if k = name then (k, { w with isInitialized := true }) :: rest
    else (k, w) :: Scope.setInitialized rest name

/-- The class `SymbolTable`: the scope stack and the index of the current scope. -/
structure SymbolTable where
  scopes : List Scope
  currentScope : Int
deriving DecidableEq, Repr

namespace SymbolTable

/-- The scope `scopes[i]`. -/
def scopeAt (t : SymbolTable) (i : Nat) : Scope := t.scopes.getD i []

/-- Member `enterScope`: push an empty map and increment the index. -/
def enterScope (t : SymbolTable) : SymbolTable :=
  { scopes := t.scopes ++ [[]], currentScope := t.currentScope + 1 }

/-- Member `exitScope`: pop and decrement, but only when `currentScope > 0`. -/
def exitScope (t : SymbolTable) : SymbolTable :=
  if t.currentScope > 0 then
    { scopes := t.scopes.dropLast, currentScope := t.currentScope - 1 }
  else t

/-- The constructor: `currentScope(-1)` followed by `enterScope()`. -/
def new : SymbolTable := enterScope { scopes := [], currentScope := -1 }

/-- Member `lookupInCurrentScope`. -/
def lookupInCurrentScope (t : SymbolTable) (name : String) : Option SymbolInfo :=
  if t.currentScope ≥ 0 then (t.scopeAt t.currentScope.toNat).find name else none

/-- Member `declare`: the returned flag and the table afterwards. -/
def declare (t : SymbolTable) (name type kind : String) : Bool × SymbolTable :=
  if (t.lookupInCurrentScope name).isSome then (false, t)
  else
    (true,
      { t with
        scopes := t.scopes.modify
          (fun s => s.assign name (SymbolInfo.new name type kind t.currentScope))
          t.currentScope.toNat })

/-- The loop of `lookup`, `for (i = n - 1; i >= 0; i--)`: the index of the first scope
that has the name, and the entry found there. -/
def lookupFrom (scopes : List Scope) (name : String) : Nat → Option (Nat × SymbolInfo)
  | 0 => none
  | i + 1 =>
    match Scope.find (scopes.getD i []) name with
    | some sym => some (i, sym)
    | none => lookupFrom scopes name i

/-- Member `lookup`, keeping the scope index the returned pointer points into. -/
def lookupEntry (t : SymbolTable) (name : String) : Option (Nat × SymbolInfo) :=
  if t.currentScope ≥ 0 then lookupFrom t.scopes name (t.currentScope.toNat + 1) else none

/-- Member `lookup`: the symbol the returned pointer points to, `none` for `nullptr`. -/
def lookup (t : SymbolTable) (name : String) : Option SymbolInfo :=
  (t.lookupEntry name).map Prod.snd

/-- The write `symbol->isInitialized = true` through a pointer into scope `i`. -/
def setInitialized (t : SymbolTable) (i : Nat) (name : String) : SymbolTable :=
  { t with scopes := t.scopes.modify (fun s => s.setInitialized name) i }

/-- Member `getCurrentScopeLevel`. -/
def getCurrentScopeLevel (t : SymbolTable) : Int := t.currentScope

/-- Number of scopes on the stack. -/
def depth (t : SymbolTable) : Nat := t.scopes.length

/-- Shape of every table the class can be in: the index points at the last scope. -/
def WF (t : SymbolTable) : Prop :=
  0 ≤ t.currentScope ∧ (t.scopes.length : Int) = t.currentScope + 1

instance (t : SymbolTable) : Decidable t.WF := by
  unfold WF; exact inferInstance

end SymbolTable

/-! ## Types (`semantic.h` 42-63) -/

/-- Transient type of an expression (`struct TypeInfo`). -/
structure TypeInfo where
  baseType : String
  isValid : Bool
deriving DecidableEq, Repr

namespace TypeInfo

/-- The constructor `TypeInfo(type = "void", valid = true)` with both defaults. -/
def default : TypeInfo := { baseType := "void", isValid := true }

/-- The constructor `TypeInfo(type)`: `valid` defaults to true. -/
def ofType (type : String) : TypeInfo := { baseType := type, isValid := true }

/-- The value `TypeInfo("", false)` used after an error. -/
def invalid : TypeInfo := { baseType := "", isValid := false }

/-- Member `isNumeric`. -/
def isNumeric (t : TypeInfo) : Bool :=
  t.baseType == "int" || t.baseType == "char" || t.baseType == "float"
    || t.baseType == "double"

/-- Member `isInteger`. -/
def isInteger (t : TypeInfo) : Bool :=
  t.baseType == "int" || t.baseType == "char"

/-- Member `canAssignTo`. -/
def canAssignTo (t target : TypeInfo) : Bool :=
  if !t.isValid || !target.isValid then false
  else if t.baseType == target.baseType then true
  else if t.isNumeric && target.isNumeric then true
  else false

end TypeInfo

/-! ## Syntax tree (`ast.h`) -/

/-- Annotation block carried by every node (`struct SemanticInfo`). -/
structure SemanticInfo where
  type : String
  isInitialized : Bool
  scopeLevel : Int
  symbolKind : String
  hasSemanticError : Bool
  errorMessage : String
deriving DecidableEq, Repr

/-- The default constructor of `SemanticInfo`. -/
def SemanticInfo.new : SemanticInfo :=
  { type := "", isInitialized := false, scopeLevel := 0, symbolKind := "",
    hasSemanticError := false, errorMessage := "" }

/-- The data members of the base class `ASTNode`. -/
structure ASTNode where
  semanticInfo : SemanticInfo
  lineNumber : Int
deriving DecidableEq, Repr

/-- A node as the parser's constructors leave it, with its line set. -/
def ASTNode.atLine (line : Int) : ASTNode :=
  { semanticInfo := SemanticInfo.new, lineNumber := line }

/-- The class `Identifier`. -/
structure Identifier where
  node : ASTNode
  name : String
deriving DecidableEq, Repr

/-- The subclasses of `Expression`. -/
inductive Expression where
  | IntegerLiteral (node : ASTNode) (value : Int)
  | Identifier (id : Identifier)
  | BinaryExpression (node : ASTNode) (left : Expression) (op : String) (right : Expression)
  | UnaryExpression (node : ASTNode) (op : String) (operand : Expression)
  | AssignmentExpression (node : ASTNode) (left : Identifier) (right : Expression)
  | FunctionCall (node : ASTNode) (name : String) (arguments : List Expression)
deriving Repr

/-- The subclasses of `Statement`; an `Option` is a pointer the code tests for null. -/
inductive Statement where
  | ExpressionStatement (node : ASTNode) (expression : Option Expression)
  | VariableDeclaration (node : ASTNode) (type : String) (names : List String)
      (initDeclarators : List (String × Option Expression))
  | CompoundStatement (node : ASTNode) (statements : List Statement)
  | IfStatement (node : ASTNode) (condition : Expression) (thenStmt : Statement)
      (elseStmt : Option Statement)
  | WhileStatement (node : ASTNode) (condition : Expression) (body : Statement)
  | ForStatement (node : ASTNode) (init : Option Statement) (condition : Option Expression)
      (update : Option Expression) (body : Statement)
  | ReturnStatement (node : ASTNode) (value : Option Expression)
deriving Repr

/-- The class `FunctionDefinition`; `body` is a `CompoundStatement`, given by its node
and its statements. -/
structure FunctionDefinition where
  node : ASTNode
  returnType : String
  name : String
  parameters : List (String × String)
  bodyNode : ASTNode
  bodyStatements : List Statement
deriving Repr

/-- An element of `Program::declarations`: a function definition or a statement
(a global variable declaration). -/
inductive TopLevel where
  | FunctionDefinition (f : FunctionDefinition)
  | Statement (s : Statement)
deriving Repr

/-- The class `Program`. -/
structure Program where
  node : ASTNode
  declarations : List TopLevel
deriving Repr

/-! ## Analyzer (`semantic.h` 65-127, `semantic.cpp` 75-463) -/

/-- The class `SemanticError`. -/
structure SemanticError where
  message : String
  errorType : String
  line : Int
  column : Int
  context : String
deriving DecidableEq, Repr

/-- The data members of the class `SemanticAnalyzer`. -/
structure SemanticAnalyzer where
  symbolTable : SymbolTable
  errors : List SemanticError
  warnings : List String
  currentExpressionType : TypeInfo
  currentFunctionReturnType : String
  hasReturnStatement : Bool
  currentLine : Int
  currentContext : String
deriving DecidableEq, Repr

namespace SemanticAnalyzer

/-- The constructor `SemanticAnalyzer()`. -/
def new : SemanticAnalyzer :=
  { symbolTable := SymbolTable.new, errors := [], warnings := [],
    currentExpressionType := TypeInfo.default, currentFunctionReturnType := "",
    hasReturnStatement := false, currentLine := 0, currentContext := "" }

/-- Member `hasErrors`. -/
def hasErrors (a : SemanticAnalyzer) : Bool := !a.errors.isEmpty

/-- Member `addError(message, errorType, context)`. -/
def addError (a : SemanticAnalyzer) (message errorType context : String) : SemanticAnalyzer :=
  let finalContext := if context.isEmpty then a.currentContext else context
  { a with errors := a.errors ++
      [{ message := message, errorType := errorType, line := a.currentLine, column := 0,
         context := finalContext }] }

/-- Member `addError(message)` with both default arguments. -/
def addErrorDefault (a : SemanticAnalyzer) (message : String) : SemanticAnalyzer :=
  a.addError message "语义错误" ""

/-- Member `addWarning`. -/
def addWarning (a : SemanticAnalyzer) (message : String) : SemanticAnalyzer :=
  { a with warnings := a.warnings ++ [message] }

/-- Member `isValidBinaryOperation`. -/
def isValidBinaryOperation (op : String) (left right : TypeInfo) : Bool :=
  if !left.isValid || !right.isValid then false
  else if op == "+" || op == "-" || op == "*" || op == "/" || op == "%" then
    left.isNumeric && right.isNumeric
  else if op == "==" || op == "!=" || op == "<" || op == ">" || op == "<=" || op == ">=" then
    left.isNumeric && right.isNumeric
  else if op == "&&" || op == "||" then true
  else false

/-- Member `isValidUnaryOperation`. -/
def isValidUnaryOperation (op : String) (operand : TypeInfo) : Bool :=
  if !operand.isValid then false
  else if op == "-" || op == "+" then operand.isNumeric
  else if op == "!" then true
  else false

/-- Member `getResultType`. -/
def getResultType (op : String) (left right : TypeInfo) : String :=
  if op == "==" || op == "!=" || op == "<" || op == ">" || op == "<=" || op == ">="
      || op == "&&" || op == "||" then "int"
  else if left.baseType == "double" || right.baseType == "double" then "double"
  else if left.baseType == "float" || right.baseType == "float" then "float"
  else "int"

/-- The tail of `getExpressionType`: put the saved `oldType` back. -/
def restoreType (a : SemanticAnalyzer) (oldType : TypeInfo) : SemanticAnalyzer :=
  { a with currentExpressionType := oldType }

/-- Member `visit(Identifier*)`. -/
def visitIdentifier (a : SemanticAnalyzer) (id : Identifier) : SemanticAnalyzer × Identifier :=
  let a0 := { a with currentLine := id.node.lineNumber,
                     currentContext := "标识符 '" ++ id.name ++ "'" }
  match a0.symbolTable.lookup id.name with
  | none =>
    ({ a0.addError ("未声明的标识符 '" ++ id.name ++ "'") "未声明错误" "标识符使用" with
         currentExpressionType := TypeInfo.invalid },
     { id with node := { id.node with semanticInfo :=
         { id.node.semanticInfo with hasSemanticError := true,
                                     errorMessage := "未声明的标识符" } } })
  | some symbol =>
    let a1 := if symbol.kind == "variable" && !symbol.isInitialized then
        a0.addWarning ("使用了未初始化的变量 '" ++ id.name ++ "'")
      else a0
    ({ a1 with currentExpressionType := TypeInfo.ofType symbol.type },
     { id with node := { id.node with semanticInfo :=
         { id.node.semanticInfo with type := symbol.type, symbolKind := symbol.kind,
                                     isInitialized := symbol.isInitialized,
                                     scopeLevel := symbol.scopeLevel } } })

/-- The `visit` members for the subclasses of `Expression` (`accept` dispatches on the
dynamic type).  A call `getExpressionType(e)` is the visit of `e`, a read of
`currentExpressionType`, and `restoreType` with the value saved before the visit. -/
def visitExpression (a : SemanticAnalyzer) : Expression → SemanticAnalyzer × Expression
  | .IntegerLiteral node value =>
    ({ a with currentExpressionType := TypeInfo.ofType "int" },
     .IntegerLiteral
       { node with semanticInfo :=
           { node.semanticInfo with type := "int", symbolKind := "literal",
                                    isInitialized := true } } value)
  | .Identifier id =>
    let r := visitIdentifier a id
    (r.1, .Identifier r.2)
  | .BinaryExpression node left op right =>
    let a0 := { a with currentLine := node.lineNumber,
                       currentContext := "二元表达式 '" ++ op ++ "'" }
    let rl := visitExpression a0 left
    let leftType := rl.1.currentExpressionType
    let a1 := rl.1.restoreType a0.currentExpressionType
    let rr := visitExpression a1 right
    let rightType := rr.1.currentExpressionType
    let a2 := rr.1.restoreType a1.currentExpressionType
    if !isValidBinaryOperation op leftType rightType then
      ({ a2.addError ("无效的二元运算: " ++ leftType.baseType ++ " " ++ op ++ " "
            ++ rightType.baseType) "类型错误" "二元运算表达式" with
           currentExpressionType := TypeInfo.invalid },
       .BinaryExpression
         { node with semanticInfo :=
             { node.semanticInfo with hasSemanticError := true,
                                      errorMessage := "无效的二元运算" } }
         rl.2 op rr.2)
    else
      let resultType := getResultType op leftType rightType
      ({ a2 with currentExpressionType := TypeInfo.ofType resultType },
       .BinaryExpression
         { node with semanticInfo :=
             { node.semanticInfo with type := resultType, symbolKind := "expression",
                                      isInitialized := true } }
         rl.2 op rr.2)
  | .UnaryExpression node op operand =>
    let ro := visitExpression a operand
    let operandType := ro.1.currentExpressionType
    let a1 := ro.1.restoreType a.currentExpressionType
    if !isValidUnaryOperation op operandType then
      ({ a1.addErrorDefault ("无效的一元运算: " ++ op ++ operandType.baseType) with
           currentExpressionType := TypeInfo.invalid },
       .UnaryExpression node op ro.2)
    else
      ({ a1 with currentExpressionType := operandType }, .UnaryExpression node op ro.2)
  | .AssignmentExpression node left right =>
    let a0 := { a with currentLine := node.lineNumber, currentContext := "赋值表达式" }
    match a0.symbolTable.lookupEntry left.name with
    | none =>
      ({ a0.addError ("未声明的变量 '" ++ left.name ++ "'") "未声明错误" "赋值表达式左值" with
           currentExpressionType := TypeInfo.invalid },
       .AssignmentExpression node left right)
    | some (i, symbol) =>
      if symbol.kind != "variable" && symbol.kind != "parameter" then
        ({ a0.addError ("不能给非变量 '" ++ left.name ++ "' 赋值") "赋值错误" "赋值表达式" with
             currentExpressionType := TypeInfo.invalid },
         .AssignmentExpression node left right)
      else
        let rr := visitExpression a0 right
        let rightType := rr.1.currentExpressionType
        let a1 := rr.1.restoreType a0.currentExpressionType
        let leftType := TypeInfo.ofType symbol.type
        if !rightType.canAssignTo leftType then
          ({ a1.addError ("类型不匹配: 不能将 " ++ rightType.baseType ++ " 赋值给 "
                ++ leftType.baseType) "类型错误" "赋值表达式" with
               currentExpressionType := TypeInfo.invalid },
           .AssignmentExpression node left rr.2)
        else
          ({ a1 with symbolTable := a1.symbolTable.setInitialized i left.name,
                     currentExpressionType := leftType },
           .AssignmentExpression node left rr.2)
  | .FunctionCall node name arguments =>
    let a0 := { a with currentLine := node.lineNumber,
                       currentContext := "函数调用 '" ++ name ++ "'" }
    match a0.symbolTable.lookup name with
    | none =>
      ({ a0.addError ("未声明的函数 '" ++ name ++ "'") "未声明错误" "函数调用" with
           currentExpressionType := TypeInfo.invalid },
       .FunctionCall node name arguments)
    | some symbol =>
      if symbol.kind != "function" then
        ({ a0.addError ("'" ++ name ++ "' 不是函数") "类型错误" "函数调用" with
             currentExpressionType := TypeInfo.invalid },
         .FunctionCall node name arguments)
      else
        ({ a0 with currentExpressionType := TypeInfo.ofType symbol.type },
         .FunctionCall node name arguments)

/-- Member `getExpressionType`: the type left by the visit, the analyzer with the saved
type restored, and the visited node. -/
def getExpressionType (a : SemanticAnalyzer) (expr : Expression) :
    TypeInfo × SemanticAnalyzer × Expression :=
  let r := visitExpression a expr
  (r.1.currentExpressionType, r.1.restoreType a.currentExpressionType, r.2)

/-- The first loop of `visit(VariableDeclaration*)`, over `names`. -/
def declareNames (a : SemanticAnalyzer) (type : String) : List String → SemanticAnalyzer
  | [] => a
  | name :: rest =>
    let d := a.symbolTable.declare name type "variable"
    let a1 := { a with symbolTable := d.2 }
    let a2 := if !d.1 then
        a1.addError ("重复声明变量 '" ++ name ++ "'") "重复声明错误" "变量声明"
      else a1
    declareNames a2 type rest

/-- The write `symbol->isInitialized = true` after `symbol = symbolTable.lookup(name)`,
guarded by `if (symbol)`. -/
def markInitialized (a : SemanticAnalyzer) (name : String) : SemanticAnalyzer :=
  match a.symbolTable.lookupEntry name with
  | some (i, _) => { a with symbolTable := a.symbolTable.setInitialized i name }
  | none => a

/-- The second loop of `visit(VariableDeclaration*)`, over `initDeclarators`. -/
def visitInitDeclarators (a : SemanticAnalyzer) (type : String) :
    List (String × Option Expression) → SemanticAnalyzer × List (String × Option Expression)
  | [] => (a, [])
  | (name, expr) :: rest =>
    let d := a.symbolTable.declare name type "variable"
    let a1 := { a with symbolTable := d.2 }
    if !d.1 then
      let r := visitInitDeclarators
        (a1.addError ("重复声明变量 '" ++ name ++ "'") "重复声明错误" "变量声明") type rest
      (r.1, (name, expr) :: r.2)
    else
      match expr with
      | none =>
        let r := visitInitDeclarators a1 type rest
        (r.1, (name, none) :: r.2)
      | some e =>
        let g := getExpressionType a1 e
        let initType := g.1
        let a2 := g.2.1
        let varType := TypeInfo.ofType type
        let a3 := if !initType.canAssignTo varType then
            a2.addError ("初始化类型不匹配: 不能将 " ++ initType.baseType ++ " 赋值给 "
              ++ varType.baseType) "类型错误" "变量初始化"
          else a2.markInitialized name
        let r := visitInitDeclarators a3 type rest
        (r.1, (name, some g.2.2) :: r.2)

/-- The call `e->accept(this)` on a pointer that is tested for null first. -/
def visitOptionalExpression (a : SemanticAnalyzer) :
    Option Expression → SemanticAnalyzer × Option Expression
  | none => (a, none)
  | some e =>
    let r := visitExpression a e
    (r.1, some r.2)

mutual

/-- The `visit` members for the subclasses of `Statement`. -/
def visitStatement (a : SemanticAnalyzer) : Statement → SemanticAnalyzer × Statement
  | .ExpressionStatement node expression =>
    let r := visitOptionalExpression a expression
    (r.1, .ExpressionStatement node r.2)
  | .VariableDeclaration node type names initDeclarators =>
    let a0 := { a with currentLine := node.lineNumber, currentContext := "变量声明" }
    let a1 := declareNames a0 type names
    let r := visitInitDeclarators a1 type initDeclarators
    (r.1, .VariableDeclaration node type names r.2)
  | .CompoundStatement node statements =>
    let a0 := { a with symbolTable := a.symbolTable.enterScope }
    let r := visitStatements a0 statements
    ({ r.1 with symbolTable := r.1.symbolTable.exitScope }, .CompoundStatement node r.2)
  | .IfStatement node condition thenStmt none =>
    let rc := visitExpression a condition
    let rt := visitStatement rc.1 thenStmt
    (rt.1, .IfStatement node rc.2 rt.2 none)
  | .IfStatement node condition thenStmt (some elseStmt) =>
    let rc := visitExpression a condition
    let rt := visitStatement rc.1 thenStmt
    let re := visitStatement rt.1 elseStmt
    (re.1, .IfStatement node rc.2 rt.2 (some re.2))
  | .WhileStatement node condition body =>
    let rc := visitExpression a condition
    let rb := visitStatement rc.1 body
    (rb.1, .WhileStatement node rc.2 rb.2)
  | .ForStatement node none condition update body =>
    let rc := visitOptionalExpression a condition
    let ru := visitOptionalExpression rc.1 update
    let rb := visitStatement ru.1 body
    (rb.1, .ForStatement node none rc.2 ru.2 rb.2)
  | .ForStatement node (some init) condition update body =>
    let ri := visitStatement a init
    let rc := visitOptionalExpression ri.1 condition
    let ru := visitOptionalExpression rc.1 update
    let rb := visitStatement ru.1 body
    (rb.1, .ForStatement node (some ri.2) rc.2 ru.2 rb.2)
  | .ReturnStatement node none =>
    let a0 := { a with hasReturnStatement := true }
    if a0.currentFunctionReturnType != "void" then
      (a0.addErrorDefault "非void函数必须返回值", .ReturnStatement node none)
    else (a0, .ReturnStatement node none)
  | .ReturnStatement node (some value) =>
    let a0 := { a with hasReturnStatement := true }
    let g := getExpressionType a0 value
    let returnType := g.1
    let a1 := g.2.1
    let expectedType := TypeInfo.ofType a1.currentFunctionReturnType
    if !returnType.canAssignTo expectedType then
      (a1.addErrorDefault ("返回类型不匹配: 期望 " ++ expectedType.baseType ++ ", 实际 "
          ++ returnType.baseType),
       .ReturnStatement node (some g.2.2))
    else (a1, .ReturnStatement node (some g.2.2))

/-- The loop `for (stmt : statements) stmt->accept(this)`. -/
def visitStatements (a : SemanticAnalyzer) : List Statement → SemanticAnalyzer × List Statement
  | [] => (a, [])
  | stmt :: rest =>
    let r := visitStatement a stmt
    let rs := visitStatements r.1 rest
    (rs.1, r.2 :: rs.2)

end

/-- The parameter loop of `visit(FunctionDefinition*)`; a parameter is a
`(type, name)` pair. -/
def declareParameters (a : SemanticAnalyzer) : List (String × String) → SemanticAnalyzer
  | [] => a
  | (type, name) :: rest =>
    let d := a.symbolTable.declare name type "parameter"
    let a1 := { a with symbolTable := d.2 }
    let a2 := if !d.1 then
        a1.addError ("重复声明参数 '" ++ name ++ "'") "重复声明错误" "函数参数"
      else a1.markInitialized name
    declareParameters a2 rest

/-- Member `visit(FunctionDefinition*)`. -/
def visitFunctionDefinition (a : SemanticAnalyzer) (f : FunctionDefinition) :
    SemanticAnalyzer × FunctionDefinition :=
  let a0 := { a with currentLine := f.node.lineNumber,
                     currentContext := "函数定义 '" ++ f.name ++ "'" }
  let d := a0.symbolTable.declare f.name f.returnType "function"
  let a1 := { a0 with symbolTable := d.2 }
  let a2 := if !d.1 then
      a1.addError ("重复声明函数 '" ++ f.name ++ "'") "重复声明错误" "函数定义"
    else a1
  let a3 := { a2 with symbolTable := a2.symbolTable.enterScope,
                      currentFunctionReturnType := f.returnType,
                      hasReturnStatement := false }
  let a4 := declareParameters a3 f.parameters
  let a5 := { a4 with symbolTable := a4.symbolTable.enterScope }
  let r := visitStatements a5 f.bodyStatements
  let a6 := { r.1 with symbolTable := r.1.symbolTable.exitScope }
  let a7 := if f.returnType != "void" && !a6.hasReturnStatement then
      a6.addWarning ("函数 '" ++ f.name ++ "' 可能没有返回值")
    else a6
  ({ a7 with symbolTable := a7.symbolTable.exitScope }, { f with bodyStatements := r.2 })

/-- The call `declaration->accept(this)` on an element of `Program::declarations`. -/
def visitTopLevel (a : SemanticAnalyzer) : TopLevel → SemanticAnalyzer × TopLevel
  | .FunctionDefinition f =>
    let r := visitFunctionDefinition a f
    (r.1, .FunctionDefinition r.2)
  | .Statement s =>
    let r := visitStatement a s
    (r.1, .Statement r.2)

/-- The loop of `visit(Program*)`. -/
def visitDeclarations (a : SemanticAnalyzer) : List TopLevel → SemanticAnalyzer × List TopLevel
  | [] => (a, [])
  | d :: rest =>
    let r := visitTopLevel a d
    let rs := visitDeclarations r.1 rest
    (rs.1, r.2 :: rs.2)

/-- Member `visit(Program*)`. -/
def visitProgram (a : SemanticAnalyzer) (program : Program) : SemanticAnalyzer × Program :=
  let r := visitDeclarations a program.declarations
  (r.1, { program with declarations := r.2 })

/-- The text one error adds to the output of `printResults`. -/
def printError (error : SemanticError) : String :=
  "[" ++ error.errorType ++ "]"
    ++ (if error.line > 0 then
          " 行 " ++ toString error.line
            ++ (if error.column > 0 then ":" ++ toString error.column else "")
        else "")
    ++ (if !error.context.isEmpty then " 在 " ++ error.context else "")
    ++ ": " ++ error.message ++ "\n"

/-- Member `printResults`: the text written to standard output. -/
def printResults (a : SemanticAnalyzer) : String :=
  "\n=== 语义分析结果 ===\n"
    ++ (if !a.errors.isEmpty then
          "\n语义错误 (" ++ toString a.errors.length ++ " 个):\n"
            ++ String.join (a.errors.map printError)
        else "")
    ++ (if !a.warnings.isEmpty then
          "\n警告 (" ++ toString a.warnings.length ++ " 个):\n"
            ++ String.join (a.warnings.map (fun warning => "警告: " ++ warning ++ "\n"))
        else "")
    ++ (if a.errors.isEmpty && a.warnings.isEmpty then
          "\n✓ 语义分析通过，未发现错误或警告。\n"
        else "")
    ++ "====================\n"

/-- What a call of `analyze` leaves behind: the returned flag, the analyzer, the tree
with its annotations, and the text written to standard output. -/
structure AnalyzeResult where
  result : Bool
  analyzer : SemanticAnalyzer
  program : Program
  output : String

/-- Member `analyze(program, silent)`. -/
def analyze (a : SemanticAnalyzer) (program : Program) (silent : Bool) : AnalyzeResult :=
  let a0 := { a with errors := [], warnings := [] }
  let out0 := if !silent then "\n=== 语义分析过程 ===\n开始语义分析...\n" else ""
  let r := visitProgram a0 program
  let out1 := if !silent then out0 ++ "语义分析完成。\n" ++ printResults r.1 else out0
  { result := !r.1.hasErrors, analyzer := r.1, program := r.2, output := out1 }

/-! ### Observations on a traversal -/

mutual

/-- Every call of a statement `visit` made while `visitStatement a s` runs, in order:
the analyzer as it is when the call starts, and the statement visited. -/
def statementVisits (a : SemanticAnalyzer) : Statement → List (SemanticAnalyzer × Statement)
  | .ExpressionStatement node expression => [(a, .ExpressionStatement node expression)]
  | .VariableDeclaration node type names initDeclarators =>
    [(a, .VariableDeclaration node type names initDeclarators)]
  | .CompoundStatement node statements =>
    (a, .CompoundStatement node statements)
      :: statementsVisits { a with symbolTable := a.symbolTable.enterScope } statements
  | .IfStatement node condition thenStmt none =>
    (a, .IfStatement node condition thenStmt none)
      :: statementVisits (visitExpression a condition).1 thenStmt
  | .IfStatement node condition thenStmt (some elseStmt) =>
    (a, .IfStatement node condition thenStmt (some elseStmt))
      :: (statementVisits (visitExpression a condition).1 thenStmt
          ++ statementVisits (visitStatement (visitExpression a condition).1 thenStmt).1 elseStmt)
  | .WhileStatement node condition body =>
    (a, .WhileStatement node condition body)
      :: statementVisits (visitExpression a condition).1 body
  | .ForStatement node none condition update body =>
    (a, .ForStatement node none condition update body)
      :: statementVisits
          (visitOptionalExpression (visitOptionalExpression a condition).1 update).1 body
  | .ForStatement node (some init) condition update body =>
    (a, .ForStatement node (some init) condition update body)
      :: (statementVisits a init
          ++ statementVisits
              (visitOptionalExpression
                (visitOptionalExpression (visitStatement a init).1 condition).1 update).1 body)
  | .ReturnStatement node value => [(a, .ReturnStatement node value)]

/-- The statement visits made by the loop over a statement list. -/
def statementsVisits (a : SemanticAnalyzer) : List Statement → List (SemanticAnalyzer × Statement)
  | [] => []
  | stmt :: rest => statementVisits a stmt ++ statementsVisits (visitStatement a stmt).1 rest

end

/-- What every `visit` keeps of the analyzer it starts from: the shape of the scope
stack, the diagnostics recorded so far (lists only grow at the end), and the return
type of the enclosing function. -/
structure Step (a b : SemanticAnalyzer) : Prop where
  currentScope : b.symbolTable.currentScope = a.symbolTable.currentScope
  length : b.symbolTable.scopes.length = a.symbolTable.scopes.length
  errors : ∃ added, b.errors = a.errors ++ added
  warnings : ∃ added, b.warnings = a.warnings ++ added

end SemanticAnalyzer

/-- The base-class part (`semanticInfo`, `lineNumber`) of an expression node. -/
def Expression.node : Expression → ASTNode
  | .IntegerLiteral node _ => node
  | .Identifier id => id.node
  | .BinaryExpression node _ _ _ => node
  | .UnaryExpression node _ _ => node
  | .AssignmentExpression node _ _ => node
  | .FunctionCall node _ _ => node

/-! ### Identifier nodes of a tree -/

mutual

/-- All `Identifier` nodes below an expression, assignment targets and call arguments
included. -/
def Expression.identifiers : Expression → List CCompiler.Identifier
  | .IntegerLiteral _ _ => []
  | .Identifier id => [id]
  | .BinaryExpression _ left _ right => left.identifiers ++ right.identifiers
  | .UnaryExpression _ _ operand => operand.identifiers
  | .AssignmentExpression _ left right => left :: right.identifiers
  | .FunctionCall _ _ arguments => Expression.identifiersOfList arguments

/-- All `Identifier` nodes below a list of expressions. -/
def Expression.identifiersOfList : List Expression → List CCompiler.Identifier
  | [] => []
  | e :: rest => e.identifiers ++ Expression.identifiersOfList rest

end

/-- The `Identifier` nodes of an expression in operand position: all of them except
assignment targets and what lies inside the arguments of a call. -/
def Expression.operandIdentifiers : Expression → List CCompiler.Identifier
  | .IntegerLiteral _ _ => []
  | .Identifier id => [id]
  | .BinaryExpression _ left _ right => left.operandIdentifiers ++ right.operandIdentifiers
  | .UnaryExpression _ _ operand => operand.operandIdentifiers
  | .AssignmentExpression _ _ right => right.operandIdentifiers
  | .FunctionCall _ _ _ => []

/-- The `Identifier` nodes in operand position that the visit of an expression does not
reach when the symbol table is `t`: those on the right of an assignment whose target
`lookup` does not find, or finds with a kind other than variable and parameter (the two
early returns of `visit(AssignmentExpression*)`). -/
def Expression.unreachedIdentifiers (t : SymbolTable) : Expression → List CCompiler.Identifier
  | .IntegerLiteral _ _ => []
  | .Identifier _ => []
  | .BinaryExpression _ left _ right =>
    left.unreachedIdentifiers t ++ right.unreachedIdentifiers t
  | .UnaryExpression _ _ operand => operand.unreachedIdentifiers t
  | .AssignmentExpression _ left right =>
    match t.lookupEntry left.name with
    | none => right.operandIdentifiers
    | some (_, symbol) =>
      if symbol.kind != "variable" && symbol.kind != "parameter" then right.operandIdentifiers
      else right.unreachedIdentifiers t
  | .FunctionCall _ _ _ => []

/-- All `Identifier` nodes below an optional expression. -/
def Expression.identifiersOfOption : Option Expression → List CCompiler.Identifier
  | none => []
  | some e => e.identifiers

/-- All `Identifier` nodes in the initializers of a declaration. -/
def Expression.identifiersOfInit : List (String × Option Expression) → List CCompiler.Identifier
  | [] => []
  | (_, e) :: rest => Expression.identifiersOfOption e ++ Expression.identifiersOfInit rest

mutual

/-- All `Identifier` nodes below a statement. -/
def Statement.identifiers : Statement → List CCompiler.Identifier
  | .ExpressionStatement _ expression => Expression.identifiersOfOption expression
  | .VariableDeclaration _ _ _ initDeclarators => Expression.identifiersOfInit initDeclarators
  | .CompoundStatement _ statements => Statement.identifiersOfList statements
  | .IfStatement _ condition thenStmt none => condition.identifiers ++ thenStmt.identifiers
  | .IfStatement _ condition thenStmt (some elseStmt) =>
    condition.identifiers ++ thenStmt.identifiers ++ elseStmt.identifiers
  | .WhileStatement _ condition body => condition.identifiers ++ body.identifiers
  | .ForStatement _ none condition update body =>
    Expression.identifiersOfOption condition ++ Expression.identifiersOfOption update
      ++ body.identifiers
  | .ForStatement _ (some init) condition update body =>
    init.identifiers ++ Expression.identifiersOfOption condition
      ++ Expression.identifiersOfOption update ++ body.identifiers
  | .ReturnStatement _ value => Expression.identifiersOfOption value

/-- All `Identifier` nodes below a list of statements. -/
def Statement.identifiersOfList : List Statement → List CCompiler.Identifier
  | [] => []
  | s :: rest => s.identifiers ++ Statement.identifiersOfList rest

end

/-- All `Identifier` nodes below a top-level declaration. -/
def TopLevel.identifiers : TopLevel → List CCompiler.Identifier
  | .FunctionDefinition f => Statement.identifiersOfList f.bodyStatements
  | .Statement s => s.identifiers

/-- All `Identifier` nodes of a program. -/
def Program.identifiers (program : Program) : List CCompiler.Identifier :=
  (program.declarations.map TopLevel.identifiers).flatten

/-! ### Return statements, nodes and type names of a tree -/

/-- The analyzer as `visit(FunctionDefinition*)` has it when it reaches
`node->body->accept(this)`: the function is declared, the function scope entered, the
return type set, the return flag reset and the parameters declared. -/
def SemanticAnalyzer.enterFunction (a : SemanticAnalyzer) (f : FunctionDefinition) :
    SemanticAnalyzer :=
  let a0 := { a with currentLine := f.node.lineNumber,
                     currentContext := "函数定义 '" ++ f.name ++ "'" }
  let d := a0.symbolTable.declare f.name f.returnType "function"
  let a1 := { a0 with symbolTable := d.2 }
  let a2 := if !d.1 then
      a1.addError ("重复声明函数 '" ++ f.name ++ "'") "重复声明错误" "函数定义"
    else a1
  let a3 := { a2 with symbolTable := a2.symbolTable.enterScope,
                      currentFunctionReturnType := f.returnType,
                      hasReturnStatement := false }
  SemanticAnalyzer.declareParameters a3 f.parameters

mutual

/-- Whether a `ReturnStatement` node occurs in a statement, at any depth. -/
def Statement.containsReturn : Statement → Bool
  | .ExpressionStatement _ _ => false
  | .VariableDeclaration _ _ _ _ => false
  | .CompoundStatement _ statements => Statement.containsReturnList statements
  | .IfStatement _ _ thenStmt none => thenStmt.containsReturn
  | .IfStatement _ _ thenStmt (some elseStmt) =>
    thenStmt.containsReturn || elseStmt.containsReturn
  | .WhileStatement _ _ body => body.containsReturn
  | .ForStatement _ none _ _ body => body.containsReturn
  | .ForStatement _ (some init) _ _ body => init.containsReturn || body.containsReturn
  | .ReturnStatement _ _ => true

/-- Whether a `ReturnStatement` node occurs in a list of statements. -/
def Statement.containsReturnList : List Statement → Bool
  | [] => false
  | s :: rest => s.containsReturn || Statement.containsReturnList rest

end

mutual

/-- The base-class parts of all nodes below an expression, the expression included. -/
def Expression.nodes : Expression → List ASTNode
  | .IntegerLiteral node _ => [node]
  | .Identifier id => [id.node]
  | .BinaryExpression node left _ right => node :: (left.nodes ++ right.nodes)
  | .UnaryExpression node _ operand => node :: operand.nodes
  | .AssignmentExpression node left right => node :: left.node :: right.nodes
  | .FunctionCall node _ arguments => node :: Expression.nodesOfList arguments

/-- The nodes below a list of expressions. -/
def Expression.nodesOfList : List Expression → List ASTNode
  | [] => []
  | e :: rest => e.nodes ++ Expression.nodesOfList rest

end

/-- The nodes below an optional expression. -/
def Expression.nodesOfOption : Option Expression → List ASTNode
  | none => []
  | some e => e.nodes

/-- The nodes in the initializers of a declaration. -/
def Expression.nodesOfInit : List (String × Option Expression) → List ASTNode
  | [] => []
  | (_, e) :: rest => Expression.nodesOfOption e ++ Expression.nodesOfInit rest

mutual

/-- The base-class parts of all nodes below a statement, the statement included. -/
def Statement.nodes : Statement → List ASTNode
  | .ExpressionStatement node expression => node :: Expression.nodesOfOption expression
  | .VariableDeclaration node _ _ initDeclarators =>
    node :: Expression.nodesOfInit initDeclarators
  | .CompoundStatement node statements => node :: Statement.nodesOfList statements
  | .IfStatement node condition thenStmt none => node :: (condition.nodes ++ thenStmt.nodes)
  | .IfStatement node condition thenStmt (some elseStmt) =>
    node :: (condition.nodes ++ thenStmt.nodes ++ elseStmt.nodes)
  | .WhileStatement node condition body => node :: (condition.nodes ++ body.nodes)
  | .ForStatement node none condition update body =>
    node :: (Expression.nodesOfOption condition ++ Expression.nodesOfOption update
      ++ body.nodes)
  | .ForStatement node (some init) condition update body =>
    node :: (init.nodes ++ Expression.nodesOfOption condition
      ++ Expression.nodesOfOption update ++ body.nodes)
  | .ReturnStatement node value => node :: Expression.nodesOfOption value

/-- The nodes below a list of statements. -/
def Statement.nodesOfList : List Statement → List ASTNode
  | [] => []
  | s :: rest => s.nodes ++ Statement.nodesOfList rest

end

/-- The nodes of a function definition: its own, its body's and all below. -/
def FunctionDefinition.nodes (f : FunctionDefinition) : List ASTNode :=
  f.node :: f.bodyNode :: Statement.nodesOfList f.bodyStatements

/-- The nodes below a top-level declaration. -/
def TopLevel.nodes : TopLevel → List ASTNode
  | .FunctionDefinition f => f.nodes
  | .Statement s => s.nodes

/-- The nodes below a list of top-level declarations. -/
def TopLevel.nodesOfList : List TopLevel → List ASTNode
  | [] => []
  | d :: rest => d.nodes ++ TopLevel.nodesOfList rest

/-- All nodes of a program, the root included. -/
def Program.nodes (program : Program) : List ASTNode :=
  program.node :: TopLevel.nodesOfList program.declarations

mutual

/-- The type names written in the variable declarations below a statement. -/
def Statement.typeNames : Statement → List String
  | .ExpressionStatement _ _ => []
  | .VariableDeclaration _ type _ _ => [type]
  | .CompoundStatement _ statements => Statement.typeNamesOfList statements
  | .IfStatement _ _ thenStmt none => thenStmt.typeNames
  | .IfStatement _ _ thenStmt (some elseStmt) => thenStmt.typeNames ++ elseStmt.typeNames
  | .WhileStatement _ _ body => body.typeNames
  | .ForStatement _ none _ _ body => body.typeNames
  | .ForStatement _ (some init) _ _ body => init.typeNames ++ body.typeNames
  | .ReturnStatement _ _ => []

/-- The type names written in the declarations of a list of statements. -/
def Statement.typeNamesOfList : List Statement → List String
  | [] => []
  | s :: rest => s.typeNames ++ Statement.typeNamesOfList rest

end

/-- The type names of a function definition: return type, parameter types, and the
declarations of the body. -/
def FunctionDefinition.typeNames (f : FunctionDefinition) : List String :=
  f.returnType :: (f.parameters.map Prod.fst ++ Statement.typeNamesOfList f.bodyStatements)

/-- The type names below a top-level declaration. -/
def TopLevel.typeNames : TopLevel → List String
  | .FunctionDefinition f => f.typeNames
  | .Statement s => s.typeNames

/-- The type names of a list of top-level declarations. -/
def TopLevel.typeNamesOfList : List TopLevel → List String
  | [] => []
  | d :: rest => d.typeNames ++ TopLevel.typeNamesOfList rest

/-- All type names written in a program. -/
def Program.typeNames (program : Program) : List String :=
  TopLevel.typeNamesOfList program.declarations

/-- The closed set of type names: int, char, float, double, void. -/
def isTypeName (s : String) : Bool :=
  s == "int" || s == "char" || s == "float" || s == "double" || s == "void"

/-- A type string that is one of the five type names or empty. -/
def isTypeString (s : String) : Bool := s == "" || isTypeName s

/-- The declared types of all symbols in a table. -/
def SymbolTable.types (t : SymbolTable) : List String :=
  t.scopes.flatten.map (fun entry => entry.2.type)

/-- Every symbol of the table has a declared type from the closed set. -/
def SymbolTable.typesClosed (t : SymbolTable) : Prop :=
  ∀ ty ∈ t.types, isTypeName ty = true

/-- Every type name of the list is from the closed set. -/
def typeNamesClosed (names : List String) : Prop :=
  ∀ ty ∈ names, isTypeName ty = true

/-- Every node of the list carries a type string from the closed set or the empty one. -/
def nodesClosed (nodes : List ASTNode) : Prop :=
  ∀ n ∈ nodes, isTypeString n.semanticInfo.type = true

/-! ## Code generator (`codegen.h`, `codegen.cpp`) -/

/-- The value an `int` holds after an arithmetic result is stored in it: reduction to
32 bits in two's complement.  It is the identity on `-2^31 .. 2^31 - 1`. -/
def toInt32 (x : Int) : Int := (x + 2147483648) % 4294967296 - 2147483648

/-- The member `std::unordered_map<std::string, int> symbolTable` of the generator: the
base-pointer offset stored for each name. -/
abbrev Frame := List (String × Int)

/-- Lookup `symbolTable.find(name)`; `none` stands for `end()`. -/
def Frame.find : Frame → String → Option Int
  | [], _ => none
  | (k, v) :: rest, name => if k = name then some v else Frame.find rest name

/-- Assignment `symbolTable[name] = offset`: overwrite the entry of an existing key,
otherwise add a new entry. -/
def Frame.assign : Frame → String → Int → Frame
  | [], name, v => [(name, v)]
  | (k, w) :: rest, name, v =>
    if k = name then (k, v) :: rest else (k, w) :: Frame.assign rest name v

/-- The class `CodeGenerator`.  `output` holds the lines written to the stream `output`,
one entry per `std::endl`; `errorOutput` the lines written to `std::cerr`. -/
structure CodeGenerator where
  output : List String
  errorOutput : List String
  symbolTable : Frame
  stackOffset : Int
  labelCounter : Int
  currentFunction : String
deriving DecidableEq, Repr

namespace CodeGenerator

/-- The constructor `CodeGenerator(out)`, on a stream nothing has been written to. -/
def new : CodeGenerator :=
  { output := [], errorOutput := [], symbolTable := [], stackOffset := 0, labelCounter := 0,
    currentFunction := "" }

/-- One statement `output << ... << std::endl`. -/
def emit (g : CodeGenerator) (line : String) : CodeGenerator :=
  { g with output := g.output ++ [line] }

/-- Several statements `output << ... << std::endl` in a row. -/
def emitLines (g : CodeGenerator) (lines : List String) : CodeGenerator :=
  { g with output := g.output ++ lines }

/-- Member `generateLabel(prefix)`: the label and the generator with the counter
incremented (`labelCounter++`). -/
def generateLabel (g : CodeGenerator) (pfx : String) : String × CodeGenerator :=
  (pfx ++ toString g.labelCounter, { g with labelCounter := toInt32 (g.labelCounter + 1) })

/-- Member `allocateVariable(name)`. -/
def allocateVariable (g : CodeGenerator) (name : String) : CodeGenerator :=
  let offset := toInt32 (g.stackOffset + 8)
  { g with stackOffset := offset, symbolTable := Frame.assign g.symbolTable name offset }

/-- Member `getVariableAddress(name)`: the address text, empty for a name the map does
not have, in which case one line goes to `std::cerr`. -/
def getVariableAddress (g : CodeGenerator) (name : String) : String × CodeGenerator :=
  match Frame.find g.symbolTable name with
  | none =>
    ("", { g with errorOutput :=
                    g.errorOutput ++ ["Error: Undefined variable '" ++ name ++ "'"] })
  | some offset => ("-" ++ toString offset ++ "(%rbp)", g)

/-- The operator chain of `visit(BinaryExpression*)`: the instructions written once the
left value is in `%rax` and the right value in `%rbx`. -/
def binaryInstructions (op : String) : List String :=
  if op == "+" then ["    addq %rbx, %rax"]
  else if op == "-" then ["    subq %rbx, %rax"]
  else if op == "*" then ["    imulq %rbx, %rax"]
  else if op == "/" then ["    cqto", "    idivq %rbx"]
  else if op == "%" then ["    cqto", "    idivq %rbx", "    movq %rdx, %rax"]
  else if op == "==" then ["    cmpq %rbx, %rax", "    sete %al", "    movzbq %al, %rax"]
  else if op == "!=" then ["    cmpq %rbx, %rax", "    setne %al", "    movzbq %al, %rax"]
  else if op == "<" then ["    cmpq %rbx, %rax", "    setl %al", "    movzbq %al, %rax"]
  else if op == ">" then ["    cmpq %rbx, %rax", "    setg %al", "    movzbq %al, %rax"]
  else if op == "<=" then ["    cmpq %rbx, %rax", "    setle %al", "    movzbq %al, %rax"]
  else if op == ">=" then ["    cmpq %rbx, %rax", "    setge %al", "    movzbq %al, %rax"]
  else if op == "&&" then
    ["    testq %rax, %rax", "    setne %al", "    testq %rbx, %rbx", "    setne %bl",
     "    andb %bl, %al", "    movzbq %al, %rax"]
  else if op == "||" then
    ["    orq %rbx, %rax", "    testq %rax, %rax", "    setne %al", "    movzbq %al, %rax"]
  else []

/-- The operator chain of `visit(UnaryExpression*)`. -/
def unaryInstructions (op : String) : List String :=
  if op == "-" then ["    negq %rax"]
  else if op == "!" then ["    testq %rax, %rax", "    sete %al", "    movzbq %al, %rax"]
  else []

/-- Lines 57-60 of `visit(BinaryExpression*)`: with the right value in `%rax`, take a
fresh 8-byte slot (`stackOffset += 8`) and store the value there. -/
def spillRight (g : CodeGenerator) : CodeGenerator :=
  let rightTempOffset := toInt32 (g.stackOffset + 8)
  ({ g with stackOffset := rightTempOffset }).emit
    ("    movq %rax, -" ++ toString rightTempOffset ++ "(%rbp)")

/-- The store `movq %rax, address` after `getVariableAddress(name)`, written when the
address is not empty. -/
def storeVariable (g : CodeGenerator) (name : String) : CodeGenerator :=
  let r := getVariableAddress g name
  if !r.1.isEmpty then r.2.emit ("    movq %rax, " ++ r.1) else r.2

mutual

/-- The `visit` members for the subclasses of `Expression`. -/
def visitExpression (g : CodeGenerator) : Expression → CodeGenerator
  | .IntegerLiteral _ value => g.emit ("    movq $" ++ toString value ++ ", %rax")
  | .Identifier id =>
    let r := getVariableAddress g id.name
    if !r.1.isEmpty then r.2.emit ("    movq " ++ r.1 ++ ", %rax") else r.2
  | .BinaryExpression _ left op right =>
    let g1 := spillRight (visitExpression g right)
    let rightTempOffset := g1.stackOffset
    let g2 := visitExpression g1 left
    (g2.emit ("    movq -" ++ toString rightTempOffset ++ "(%rbp), %rbx")).emitLines
      (binaryInstructions op)
  | .UnaryExpression _ op operand =>
    (visitExpression g operand).emitLines (unaryInstructions op)
  | .AssignmentExpression _ left right =>
    storeVariable (visitExpression g right) left.name
  | .FunctionCall _ name arguments =>
    if name == "printf" then g.emit "    # printf function call"
    else
      let g1 := (visitArguments g arguments).emit ("    call " ++ name)
      if !arguments.isEmpty then
        g1.emit ("    add $" ++ toString (arguments.length * 8 % 18446744073709551616)
          ++ ", %rsp")
      else g1

/-- The loop `for (int i = arguments.size() - 1; i >= 0; i--)` of `visit(FunctionCall*)`:
the arguments from the last to the first, each followed by a push.  The index is an
`int`; the model is exact for fewer than `2^31` arguments. -/
def visitArguments (g : CodeGenerator) : List Expression → CodeGenerator
  | [] => g
  | argument :: rest =>
    (visitExpression (visitArguments g rest) argument).emit "    push %rax"

end

/-- One round of the first loop of `visit(VariableDeclaration*)`. -/
def declareName (g : CodeGenerator) (type name : String) : CodeGenerator :=
  (g.allocateVariable name).emit ("    # Variable declaration: " ++ type ++ " " ++ name)

/-- The first loop of `visit(VariableDeclaration*)`, over `names`. -/
def declareNames (g : CodeGenerator) (type : String) : List String → CodeGenerator
  | [] => g
  | name :: rest => declareNames (declareName g type name) type rest

/-- The start of one round of the second loop of `visit(VariableDeclaration*)`: the slot
and the comment. -/
def declareInitialized (g : CodeGenerator) (type name : String) : CodeGenerator :=
  (g.allocateVariable name).emit
    ("    # Variable declaration with initialization: " ++ type ++ " " ++ name)

/-- The second loop of `visit(VariableDeclaration*)`, over `initDeclarators`. -/
def visitInitDeclarators (g : CodeGenerator) (type : String) :
    List (String × Option Expression) → CodeGenerator
  | [] => g
  | (name, none) :: rest => visitInitDeclarators (declareInitialized g type name) type rest
  | (name, some initExpr) :: rest =>
    visitInitDeclarators
      (storeVariable (visitExpression (declareInitialized g type name) initExpr) name)
      type rest

/-- An expression the code visits only when the pointer is not null. -/
def visitOptionalExpression (g : CodeGenerator) : Option Expression → CodeGenerator
  | none => g
  | some e => visitExpression g e

/-- The start of `visit(IfStatement*)`, up to the conditional jump: the two labels and
the generator before the then-branch. -/
def ifHead (g : CodeGenerator) (condition : Expression) : String × String × CodeGenerator :=
  let falseLabel := generateLabel g "if_false"
  let endLabel := generateLabel falseLabel.2 "if_end"
  (falseLabel.1, endLabel.1,
    ((visitExpression endLabel.2 condition).emit "    testq %rax, %rax").emit
      ("    je " ++ falseLabel.1))

/-- The start of `visit(WhileStatement*)`, up to the conditional jump: the two labels and
the generator before the body. -/
def whileHead (g : CodeGenerator) (condition : Expression) :
    String × String × CodeGenerator :=
  let loopLabel := generateLabel g "while_loop"
  let endLabel := generateLabel loopLabel.2 "while_end"
  (loopLabel.1, endLabel.1,
    ((visitExpression (endLabel.2.emit (loopLabel.1 ++ ":")) condition).emit
      "    testq %rax, %rax").emit ("    je " ++ endLabel.1))

/-- The three labels of `visit(ForStatement*)` and the generator after them. -/
def forLabels (g : CodeGenerator) : String × String × String × CodeGenerator :=
  let loopLabel := generateLabel g "for_loop"
  let updateLabel := generateLabel loopLabel.2 "for_update"
  let endLabel := generateLabel updateLabel.2 "for_end"
  (loopLabel.1, updateLabel.1, endLabel.1, endLabel.2)

/-- Lines 251-258 of `visit(ForStatement*)`: the loop label and the test, which is
written only when there is a condition. -/
def forTest (g : CodeGenerator) (loopLabel endLabel : String) :
    Option Expression → CodeGenerator
  | none => g.emit (loopLabel ++ ":")
  | some condition =>
    ((visitExpression (g.emit (loopLabel ++ ":")) condition).emit "    testq %rax, %rax").emit
      ("    je " ++ endLabel)

/-- Lines 263-270 of `visit(ForStatement*)`: what follows the body. -/
def forTail (g : CodeGenerator) (loopLabel updateLabel endLabel : String)
    (update : Option Expression) : CodeGenerator :=
  ((visitOptionalExpression (g.emit (updateLabel ++ ":")) update).emit
    ("    jmp " ++ loopLabel)).emit (endLabel ++ ":")

mutual

/-- The `visit` members for the subclasses of `Statement`.  `none` is the dereference
of a null `expression` in `visit(ExpressionStatement*)`, after which nothing is
written. -/
def visitStatement (g : CodeGenerator) : Statement → Option CodeGenerator
  | .ExpressionStatement _ none => none
  | .ExpressionStatement _ (some expression) => some (visitExpression g expression)
  | .VariableDeclaration _ type names initDeclarators =>
    some (visitInitDeclarators (declareNames g type names) type initDeclarators)
  | .CompoundStatement _ statements => visitStatements g statements
  | .IfStatement _ condition thenStmt none =>
    let h := ifHead g condition
    (visitStatement h.2.2 thenStmt).map fun g1 =>
      ((g1.emit ("    jmp " ++ h.2.1)).emit (h.1 ++ ":")).emit (h.2.1 ++ ":")
  | .IfStatement _ condition thenStmt (some elseStmt) =>
    let h := ifHead g condition
    (visitStatement h.2.2 thenStmt).bind fun g1 =>
      (visitStatement ((g1.emit ("    jmp " ++ h.2.1)).emit (h.1 ++ ":")) elseStmt).map
        fun g2 => g2.emit (h.2.1 ++ ":")
  | .WhileStatement _ condition body =>
    let h := whileHead g condition
    (visitStatement h.2.2 body).map fun g1 =>
      (g1.emit ("    jmp " ++ h.1)).emit (h.2.1 ++ ":")
  | .ForStatement _ none condition update body =>
    let l := forLabels g
    (visitStatement (forTest l.2.2.2 l.1 l.2.2.1 condition) body).map fun g1 =>
      forTail g1 l.1 l.2.1 l.2.2.1 update
  | .ForStatement _ (some init) condition update body =>
    let l := forLabels g
    (visitStatement l.2.2.2 init).bind fun g0 =>
      (visitStatement (forTest g0 l.1 l.2.2.1 condition) body).map fun g1 =>
        forTail g1 l.1 l.2.1 l.2.2.1 update
  | .ReturnStatement _ none =>
    some (((g.emit "    movq $0, %rax").emit "    leave").emit "    ret")
  | .ReturnStatement _ (some value) =>
    some (((visitExpression g value).emit "    leave").emit "    ret")

/-- The loop of `visit(CompoundStatement*)`. -/
def visitStatements (g : CodeGenerator) : List Statement → Option CodeGenerator
  | [] => some g
  | stmt :: rest => (visitStatement g stmt).bind fun g1 => visitStatements g1 rest

end

/-- The parameter loop of `visit(FunctionDefinition*)`; a parameter is a `(type, name)`
pair and `paramOffset` the local `int` of that name. -/
def registerParameters (g : CodeGenerator) (paramOffset : Int) :
    List (String × String) → CodeGenerator
  | [] => g
  | (_, name) :: rest =>
    registerParameters
      { g with symbolTable := Frame.assign g.symbolTable name (toInt32 (-paramOffset)) }
      (toInt32 (paramOffset + 8)) rest

/-- Lines 284-300 of `visit(FunctionDefinition*)`: the generator when the body is
reached. -/
def enterFunction (g : CodeGenerator) (f : FunctionDefinition) : CodeGenerator :=
  let g0 := { g with currentFunction := f.name, symbolTable := [], stackOffset := 0 }
  let g1 := g0.emitLines
    [".section .text", ".globl " ++ f.name, f.name ++ ":", "    pushq %rbp",
     "    movq %rsp, %rbp"]
  registerParameters g1 16 f.parameters

/-- Lines 307-311 of `visit(FunctionDefinition*)`: the comment on the stack space, written
when `stackOffset` is positive. -/
def stackComment (g : CodeGenerator) : CodeGenerator :=
  if g.stackOffset > 0 then
    g.emit ("    # Stack space allocated: " ++ toString g.stackOffset ++ " bytes")
  else g

/-- Lines 307-325 of `visit(FunctionDefinition*)`: what follows the body. -/
def leaveFunction (g : CodeGenerator) (f : FunctionDefinition) : CodeGenerator :=
  let endLabel := generateLabel (stackComment g) "func_end"
  let g2 := (endLabel.2.emit (endLabel.1 ++ ":")).emit
    "    # Default return (if no explicit return)"
  let g3 := if f.returnType != "void" then g2.emit "    movq $0, %rax" else g2
  ((g3.emit "    leave").emit "    ret").emit ""

/-- Member `visit(FunctionDefinition*)`. -/
def visitFunctionDefinition (g : CodeGenerator) (f : FunctionDefinition) :
    Option CodeGenerator :=
  (visitStatement (enterFunction g f) (.CompoundStatement f.bodyNode f.bodyStatements)).map
    fun g1 => leaveFunction g1 f

/-- The call `decl->accept(this)` on an element of `Program::declarations`. -/
def visitTopLevel (g : CodeGenerator) : TopLevel → Option CodeGenerator
  | .FunctionDefinition f => visitFunctionDefinition g f
  | .Statement s => visitStatement g s

/-- The loop of `visit(Program*)`. -/
def visitDeclarations (g : CodeGenerator) : List TopLevel → Option CodeGenerator
  | [] => some g
  | decl :: rest => (visitTopLevel g decl).bind fun g1 => visitDeclarations g1 rest

/-- Member `visit(Program*)`. -/
def visitProgram (g : CodeGenerator) (program : Program) : Option CodeGenerator :=
  visitDeclarations ((g.emit "# Generated by C Compiler").emit "") program.declarations

/-- Member `generateAssembly(program)`; `none` for the program is the null pointer. -/
def generateAssembly (g : CodeGenerator) : Option Program → Option CodeGenerator
  | none => some g
  | some program => visitProgram g program

end CodeGenerator

/-! ### Observations on code generation -/

/-- What a visit of the generator does to its two counters: a call of `generateLabel`
(prefix and counter value used), a call of `allocateVariable` (name and offset
assigned), or the spill slot taken by a binary expression (offset assigned). -/
inductive Event where
  | label (pfx : String) (counter : Int)
  | variable (name : String) (offset : Int)
  | spill (offset : Int)
deriving DecidableEq, Repr

/-- The counter values of the labels in a list of events, in order. -/
def Event.labelNumbers : List Event → List Int
  | [] => []
  | .label _ counter :: rest => counter :: Event.labelNumbers rest
  | _ :: rest => Event.labelNumbers rest

/-- The offsets of the stack slots (variables and spills) in a list of events, in
order. -/
def Event.slots : List Event → List Int
  | [] => []
  | .label _ _ :: rest => Event.slots rest
  | .variable _ offset :: rest => offset :: Event.slots rest
  | .spill offset :: rest => offset :: Event.slots rest

/-- The list `start, start + step, ..., start + step * (n - 1)`. -/
def arithmeticRun (start step : Int) (n : Nat) : List Int :=
  (List.range n).map fun (i : Nat) => start + step * (i : Int)

namespace CodeGenerator

mutual

/-- The events of `visitExpression g e`, in the order in which they happen. -/
def expressionEvents (g : CodeGenerator) : Expression → List Event
  | .IntegerLiteral _ _ => []
  | .Identifier _ => []
  | .BinaryExpression _ left _ right =>
    let g1 := spillRight (visitExpression g right)
    expressionEvents g right ++ [.spill g1.stackOffset] ++ expressionEvents g1 left
  | .UnaryExpression _ _ operand => expressionEvents g operand
  | .AssignmentExpression _ _ right => expressionEvents g right
  | .FunctionCall _ name arguments =>
    if name == "printf" then [] else argumentsEvents g arguments

/-- The events of `visitArguments g arguments`. -/
def argumentsEvents (g : CodeGenerator) : List Expression → List Event
  | [] => []
  | argument :: rest =>
    argumentsEvents g rest ++ expressionEvents (visitArguments g rest) argument

end

/-- The events of `declareNames g type names`. -/
def declareNamesEvents (g : CodeGenerator) (type : String) : List String → List Event
  | [] => []
  | name :: rest =>
    .variable name (g.allocateVariable name).stackOffset ::
      declareNamesEvents (declareName g type name) type rest

/-- The events of `visitInitDeclarators g type initDeclarators`. -/
def initDeclaratorsEvents (g : CodeGenerator) (type : String) :
    List (String × Option Expression) → List Event
  | [] => []
  | (name, none) :: rest =>
    .variable name (g.allocateVariable name).stackOffset ::
      initDeclaratorsEvents (declareInitialized g type name) type rest
  | (name, some initExpr) :: rest =>
    .variable name (g.allocateVariable name).stackOffset ::
      (expressionEvents (declareInitialized g type name) initExpr ++
        initDeclaratorsEvents
          (storeVariable (visitExpression (declareInitialized g type name) initExpr) name)
          type rest)

/-- The events of `visitOptionalExpression g e`. -/
def optionalExpressionEvents (g : CodeGenerator) : Option Expression → List Event
  | none => []
  | some e => expressionEvents g e

/-- The events of `ifHead g condition`. -/
def ifHeadEvents (g : CodeGenerator) (condition : Expression) : List Event :=
  [.label "if_false" g.labelCounter,
   .label "if_end" (generateLabel g "if_false").2.labelCounter] ++
    expressionEvents (generateLabel (generateLabel g "if_false").2 "if_end").2 condition

/-- The events of `whileHead g condition`. -/
def whileHeadEvents (g : CodeGenerator) (condition : Expression) : List Event :=
  [.label "while_loop" g.labelCounter,
   .label "while_end" (generateLabel g "while_loop").2.labelCounter] ++
    expressionEvents
      ((generateLabel (generateLabel g "while_loop").2 "while_end").2.emit
        ((generateLabel g "while_loop").1 ++ ":")) condition

/-- The events of `forLabels g`. -/
def forLabelsEvents (g : CodeGenerator) : List Event :=
  [.label "for_loop" g.labelCounter,
   .label "for_update" (generateLabel g "for_loop").2.labelCounter,
   .label "for_end" (generateLabel (generateLabel g "for_loop").2 "for_update").2.labelCounter]

/-- The events of `forTest g loopLabel endLabel condition`. -/
def forTestEvents (g : CodeGenerator) (loopLabel : String) : Option Expression → List Event
  | none => []
  | some condition => expressionEvents (g.emit (loopLabel ++ ":")) condition

/-- The events of `forTail g loopLabel updateLabel endLabel update`. -/
def forTailEvents (g : CodeGenerator) (updateLabel : String) (update : Option Expression) :
    List Event :=
  optionalExpressionEvents (g.emit (updateLabel ++ ":")) update

mutual

/-- The events of `visitStatement g s`, in the order in which they happen; when the
visit stops at a null expression, the events up to there. -/
def statementEvents (g : CodeGenerator) : Statement → List Event
  | .ExpressionStatement _ none => []
  | .ExpressionStatement _ (some expression) => expressionEvents g expression
  | .VariableDeclaration _ type names initDeclarators =>
    declareNamesEvents g type names ++
      initDeclaratorsEvents (declareNames g type names) type initDeclarators
  | .CompoundStatement _ statements => statementsEvents g statements
  | .IfStatement _ condition thenStmt none =>
    ifHeadEvents g condition ++ statementEvents (ifHead g condition).2.2 thenStmt
  | .IfStatement _ condition thenStmt (some elseStmt) =>
    let h := ifHead g condition
    ifHeadEvents g condition ++ statementEvents h.2.2 thenStmt ++
      (match visitStatement h.2.2 thenStmt with
       | none => []
       | some g1 =>
         statementEvents ((g1.emit ("    jmp " ++ h.2.1)).emit (h.1 ++ ":")) elseStmt)
  | .WhileStatement _ condition body =>
    whileHeadEvents g condition ++ statementEvents (whileHead g condition).2.2 body
  | .ForStatement _ none condition update body =>
    let l := forLabels g
    forLabelsEvents g ++ forTestEvents l.2.2.2 l.1 condition ++
      statementEvents (forTest l.2.2.2 l.1 l.2.2.1 condition) body ++
      (match visitStatement (forTest l.2.2.2 l.1 l.2.2.1 condition) body with
       | none => []
       | some g1 => forTailEvents g1 l.2.1 update)
  | .ForStatement _ (some init) condition update body =>
    let l := forLabels g
    forLabelsEvents g ++ statementEvents l.2.2.2 init ++
      (match visitStatement l.2.2.2 init with
       | none => []
       | some g0 =>
         forTestEvents g0 l.1 condition ++
           statementEvents (forTest g0 l.1 l.2.2.1 condition) body ++
           (match visitStatement (forTest g0 l.1 l.2.2.1 condition) body with
            | none => []
            | some g1 => forTailEvents g1 l.2.1 update))
  | .ReturnStatement _ none => []
  | .ReturnStatement _ (some value) => expressionEvents g value

/-- The events of `visitStatements g statements`. -/
def statementsEvents (g : CodeGenerator) : List Statement → List Event
  | [] => []
  | stmt :: rest =>
    statementEvents g stmt ++
      (match visitStatement g stmt with
       | none => []
       | some g1 => statementsEvents g1 rest)

end

/-- The events of the body of a function, visited as `visitFunctionDefinition g f`
visits it. -/
def bodyEvents (g : CodeGenerator) (f : FunctionDefinition) : List Event :=
  statementsEvents (enterFunction g f) f.bodyStatements

/-- The events of `visitFunctionDefinition g f`: those of the body, then the label
`func_end`. -/
def functionEvents (g : CodeGenerator) (f : FunctionDefinition) : List Event :=
  bodyEvents g f ++
    (match visitStatements (enterFunction g f) f.bodyStatements with
     | none => []
     | some g1 => [.label "func_end" (stackComment g1).labelCounter])

/-- The events of `visitTopLevel g d`. -/
def topLevelEvents (g : CodeGenerator) : TopLevel → List Event
  | .FunctionDefinition f => functionEvents g f
  | .Statement s => statementEvents g s

/-- The events of `visitDeclarations g declarations`. -/
def declarationsEvents (g : CodeGenerator) : List TopLevel → List Event
  | [] => []
  | decl :: rest =>
    topLevelEvents g decl ++
      (match visitTopLevel g decl with
       | none => []
       | some g1 => declarationsEvents g1 rest)

/-- The events of `visitProgram g program`. -/
def programEvents (g : CodeGenerator) (program : Program) : List Event :=
  declarationsEvents ((g.emit "# Generated by C Compiler").emit "") program.declarations

end CodeGenerator

mutual

/-- Every `ExpressionStatement` below the statement has an expression (no null
`expression` pointer). -/
def Statement.complete : Statement → Bool
  | .ExpressionStatement _ expression => expression.isSome
  | .VariableDeclaration _ _ _ _ => true
  | .CompoundStatement _ statements => Statement.completeList statements
  | .IfStatement _ _ thenStmt none => thenStmt.complete
  | .IfStatement _ _ thenStmt (some elseStmt) => thenStmt.complete && elseStmt.complete
  | .WhileStatement _ _ body => body.complete
  | .ForStatement _ none _ _ body => body.complete
  | .ForStatement _ (some init) _ _ body => init.complete && body.complete
  | .ReturnStatement _ _ => true

/-- Every `ExpressionStatement` below the statements of the list has an expression. -/
def Statement.completeList : List Statement → Bool
  | [] => true
  | s :: rest => s.complete && Statement.completeList rest

end

/-- Every `ExpressionStatement` below the declaration has an expression. -/
def TopLevel.complete : TopLevel → Bool
  | .FunctionDefinition f => Statement.completeList f.bodyStatements
  | .Statement s => s.complete

/-- Every `ExpressionStatement` of the program has an expression. -/
def Program.complete (program : Program) : Bool :=
  program.declarations.all TopLevel.complete

mutual

/-- The names declared by the variable declarations below a statement, at any depth. -/
def Statement.declaredNames : Statement → List String
  | .ExpressionStatement _ _ => []
  | .VariableDeclaration _ _ names initDeclarators => names ++ initDeclarators.map Prod.fst
  | .CompoundStatement _ statements => Statement.declaredNamesOfList statements
  | .IfStatement _ _ thenStmt none => thenStmt.declaredNames
  | .IfStatement _ _ thenStmt (some elseStmt) =>
    thenStmt.declaredNames ++ elseStmt.declaredNames
  | .WhileStatement _ _ body => body.declaredNames
  | .ForStatement _ none _ _ body => body.declaredNames
  | .ForStatement _ (some init) _ _ body => init.declaredNames ++ body.declaredNames
  | .ReturnStatement _ _ => []

/-- The names declared below the statements of a list. -/
def Statement.declaredNamesOfList : List Statement → List String
  | [] => []
  | s :: rest => s.declaredNames ++ Statement.declaredNamesOfList rest

end

/-- The counter moves along a run: `values` lists `c + first`, `c + first + step`, ... and
the counter ends at `c + step * values.length`. -/
def CounterRun (first step c c' : Int) (values : List Int) : Prop :=
  values = arithmeticRun (c + first) step values.length ∧ c' = c + step * values.length

/-- The counter stays an `int`: it starts at `c ≥ 0` and `count` steps do not take it to
`2^31`. -/
def CounterRange (step c : Int) (count : Nat) : Prop :=
  0 ≤ c ∧ c + step * count < 2147483648

/-- The label counter is not taken to `2^31` by the labels of the events. -/
def CodeGenerator.LabelRange (g : CodeGenerator) (events : List Event) : Prop :=
  CounterRange 1 g.labelCounter (Event.labelNumbers events).length

/-- The stack offset is not taken to `2^31` by the slots of the events. -/
def CodeGenerator.SlotRange (g : CodeGenerator) (events : List Event) : Prop :=
  CounterRange 8 g.stackOffset (Event.slots events).length

/-- The label counter moves from `g` to `g'` along the labels of the events: they carry
the counter values `g.labelCounter`, `g.labelCounter + 1`, ... -/
def CodeGenerator.LabelRun (g g' : CodeGenerator) (events : List Event) : Prop :=
  CounterRun 0 1 g.labelCounter g'.labelCounter (Event.labelNumbers events)

/-- The stack offset moves from `g` to `g'` along the slots of the events: they carry the
offsets `g.stackOffset + 8`, `g.stackOffset + 16`, ... -/
def CodeGenerator.SlotRun (g g' : CodeGenerator) (events : List Event) : Prop :=
  CounterRun 8 8 g.stackOffset g'.stackOffset (Event.slots events)

/-! ### Shape of the symbol table -/

/-- Whether scope `j` of the table has an entry under the key `name`. -/
def SymbolTable.hasKey (t : SymbolTable) (j : Nat) (name : String) : Bool :=
  (Scope.find (t.scopeAt j) name).isSome

/-- The shape of a table: the index points at the last scope, and every entry stored in
scope `i` under a key carries that key as its name and `i` as its scope level. -/
def SymbolTable.Invariant (t : SymbolTable) : Prop :=
  t.WF ∧ ∀ (i : Nat) (entry : String × SymbolInfo),
    entry ∈ t.scopeAt i → entry.2.name = entry.1 ∧ entry.2.scopeLevel = (i : Int)

/-- The tables the class can be in: built by the constructor and changed by the members
`enterScope`, `exitScope` and `declare`, and by the write of an initialization flag
through a pointer that `lookup` returned. -/
inductive SymbolTable.Reachable : SymbolTable → Prop where
  | new : SymbolTable.Reachable SymbolTable.new
  | enterScope {t : SymbolTable} :
    SymbolTable.Reachable t → SymbolTable.Reachable t.enterScope
  | exitScope {t : SymbolTable} :
    SymbolTable.Reachable t → SymbolTable.Reachable t.exitScope
  | declare {t : SymbolTable} (name type kind : String) :
    SymbolTable.Reachable t → SymbolTable.Reachable (t.declare name type kind).2
  | setInitialized {t : SymbolTable} (i : Nat) (name : String) :
    SymbolTable.Reachable t → SymbolTable.Reachable (t.setInitialized i name)

namespace SemanticAnalyzer

/-- The analyzer as `visit(FunctionDefinition*)` has it when the first statement of the
body is reached: `enterFunction`, then the `enterScope` of the body's
`CompoundStatement`. -/
def enterBody (a : SemanticAnalyzer) (f : FunctionDefinition) : SemanticAnalyzer :=
  { enterFunction a f with symbolTable := (enterFunction a f).symbolTable.enterScope }

/-- The analyzer as the loop over a statement list has it each time it reaches a
statement of the list, with that statement. -/
def statementStarts (a : SemanticAnalyzer) : List Statement → List (SemanticAnalyzer × Statement)
  | [] => []
  | stmt :: rest => (a, stmt) :: statementStarts (visitStatement a stmt).1 rest

/-- The error `visit(FunctionCall*)` records at line `line` for a name that `lookup` does
not find. -/
def undeclaredFunction (name : String) (line : Int) : SemanticError :=
  { message := "未声明的函数 '" ++ name ++ "'", errorType := "未声明错误", line := line,
    column := 0, context := "函数调用" }

/-- The error `visit(FunctionDefinition*)` records for a name the current scope already
has. -/
def redeclaredFunction (name : String) (line : Int) : SemanticError :=
  { message := "重复声明函数 '" ++ name ++ "'", errorType := "重复声明错误", line := line,
    column := 0, context := "函数定义" }

end SemanticAnalyzer

/-- Whether an error is the undeclared-function error for `name`, at any line. -/
def SemanticError.isUndeclaredFunction (e : SemanticError) (name : String) : Bool :=
  e.errorType == "未声明错误" && e.context == "函数调用"
    && e.message == "未声明的函数 '" ++ name ++ "'"

namespace SemanticAnalyzer

/-- What carries a key of scope `j` through a visit: a well-formed table whose current
scope is not below `j` and that has the key. -/
structure Holds (j : Nat) (m : String) (a : SemanticAnalyzer) : Prop where
  wf : a.symbolTable.WF
  le : (j : Int) ≤ a.symbolTable.currentScope
  key : a.symbolTable.hasKey j m = true

/-- No error recorded between `a` and `b` is the undeclared-function error for `name`. -/
def NoUndeclaredCall (name : String) (a b : SemanticAnalyzer) : Prop :=
  ∃ added, b.errors = a.errors ++ added ∧ ∀ e ∈ added, e.isUndeclaredFunction name = false

end SemanticAnalyzer

/-! ### Counting the slots of a function body -/

mutual

/-- The number of `BinaryExpression` nodes below an expression, the expression included,
leaving out those inside the arguments of a call of `printf`. -/
def Expression.binaryCount : Expression → Nat
  | .IntegerLiteral _ _ => 0
  | .Identifier _ => 0
  | .BinaryExpression _ left _ right => right.binaryCount + 1 + left.binaryCount
  | .UnaryExpression _ _ operand => operand.binaryCount
  | .AssignmentExpression _ _ right => right.binaryCount
  | .FunctionCall _ name arguments =>
    if name == "printf" then 0 else Expression.binaryCountOfList arguments

/-- The number of counted `BinaryExpression` nodes below a list of expressions. -/
def Expression.binaryCountOfList : List Expression → Nat
  | [] => 0
  | e :: rest => Expression.binaryCountOfList rest + e.binaryCount

end

/-- The number of counted `BinaryExpression` nodes below an optional expression. -/
def Expression.binaryCountOfOption : Option Expression → Nat
  | none => 0
  | some e => e.binaryCount

/-- The number of counted `BinaryExpression` nodes in the initializers of a
declaration. -/
def Expression.binaryCountOfInit : List (String × Option Expression) → Nat
  | [] => 0
  | (_, e) :: rest => Expression.binaryCountOfOption e + Expression.binaryCountOfInit rest

mutual

/-- The number of variable declarators (plain and initialized) plus the number of counted
`BinaryExpression` nodes below a statement. -/
def Statement.slotCount : Statement → Nat
  | .ExpressionStatement _ expression => Expression.binaryCountOfOption expression
  | .VariableDeclaration _ _ names initDeclarators =>
    names.length + (initDeclarators.length + Expression.binaryCountOfInit initDeclarators)
  | .CompoundStatement _ statements => Statement.slotCountOfList statements
  | .IfStatement _ condition thenStmt none => condition.binaryCount + thenStmt.slotCount
  | .IfStatement _ condition thenStmt (some elseStmt) =>
    condition.binaryCount + thenStmt.slotCount + elseStmt.slotCount
  | .WhileStatement _ condition body => condition.binaryCount + body.slotCount
  | .ForStatement _ none condition update body =>
    Expression.binaryCountOfOption condition + body.slotCount
      + Expression.binaryCountOfOption update
  | .ForStatement _ (some init) condition update body =>
    init.slotCount + (Expression.binaryCountOfOption condition + body.slotCount
      + Expression.binaryCountOfOption update)
  | .ReturnStatement _ value => Expression.binaryCountOfOption value

/-- The number of declarators and counted `BinaryExpression` nodes below a list of
statements. -/
def Statement.slotCountOfList : List Statement → Nat
  | [] => 0
  | s :: rest => s.slotCount + Statement.slotCountOfList rest

end

namespace CodeGenerator

mutual

/-- The frame offsets the assignments below an expression store to, in the order of the
stores: for `x = e`, the value the frame map holds for `x` when `visitExpression g`
reaches the store (none when the map does not have `x` and no store is written). -/
def assignmentOffsets (g : CodeGenerator) : Expression → List Int
  | .IntegerLiteral _ _ => []
  | .Identifier _ => []
  | .BinaryExpression _ left _ right =>
    assignmentOffsets g right ++ assignmentOffsets (spillRight (visitExpression g right)) left
  | .UnaryExpression _ _ operand => assignmentOffsets g operand
  | .AssignmentExpression _ left right =>
    assignmentOffsets g right ++
      (Frame.find (visitExpression g right).symbolTable left.name).toList
  | .FunctionCall _ name arguments =>
    if name == "printf" then [] else argumentsAssignmentOffsets g arguments

/-- The frame offsets the assignments below the arguments of a call store to. -/
def argumentsAssignmentOffsets (g : CodeGenerator) : List Expression → List Int
  | [] => []
  | argument :: rest =>
    argumentsAssignmentOffsets g rest ++ assignmentOffsets (visitArguments g rest) argument

end

end CodeGenerator

/-! ## Driver (`main.cpp`)

The scanner and the parser (`yylex`, `yyparse`, `program_root`) are only declared in
`main.cpp` and generated from grammar files; the driver is modelled over an arbitrary
outcome of theirs.  Of a run the model keeps the value `main` returns and the code
generator, whose output is all that the default mode writes to `std::cout`; the banners
and tree prints of the other modes are not modelled. -/

/-- What the driver gets from outside: the file system, the scanner and the parser. -/
structure Environment where
  /-- Whether `fopen(inputFile, "r")` returns a stream. -/
  opens : String → Bool
  /-- The values `yylex()` returns on the file until it returns 0, the 0 left out. -/
  tokens : String → List Int
  /-- The value `yyparse()` returns on the file; the flag tells whether the scanner has
  run over the file before (the lexical phase of `--all-phases`), which the state of
  the scanner may depend on. -/
  parseResult : String → Bool → Int
  /-- The pointer `program_root` after `yyparse()`; `none` is `nullptr`. -/
  programRoot : String → Bool → Option Program

/-- The local variables of `main` that the argument loop sets. -/
structure Options where
  inputFile : String
  outputFile : String
  tokensOnly : Bool
  tokensDFA : Bool
  astOnly : Bool
  semanticOnly : Bool
  allPhases : Bool
deriving DecidableEq, Repr

/-- The initial values of the locals of `main`. -/
def Options.initial : Options :=
  { inputFile := "", outputFile := "", tokensOnly := false, tokensDFA := false,
    astOnly := false, semanticOnly := false, allPhases := false }

/-- How the argument loop of `main` ends: with a `return` inside the loop, or past its
end with the locals set. -/
inductive Parsed where
  | returned (code : Int)
  | options (o : Options)
deriving DecidableEq, Repr

/-- The loop `for (int i = 1; i < argc; i++)` of `main`, over `argv[1..]`.  The test
`argv[i][0] != '-'` reads the terminating zero of an empty argument, which is not a
minus sign either. -/
def parseArguments : List String → Options → Parsed
  | [], o => .options o
  | arg :: rest, o =>
    if arg == "-h" || arg == "--help" then .returned 0
    else if arg == "-v" || arg == "--version" then .returned 0
    else if arg == "--tokens" then parseArguments rest { o with tokensOnly := true }
    else if arg == "--tokens-dfa" then parseArguments rest { o with tokensDFA := true }
    else if arg == "--ast" then parseArguments rest { o with astOnly := true }
    else if arg == "--semantic" then parseArguments rest { o with semanticOnly := true }
    else if arg == "--all-phases" then parseArguments rest { o with allPhases := true }
    else if arg == "-o" then
      match rest with
      | next :: rest' => parseArguments rest' { o with outputFile := next }
      | [] => .returned 1
    else if arg.data.head? != some '-' then
      if o.inputFile.isEmpty then parseArguments rest { o with inputFile := arg }
      else .returned 1
    else .returned 1

/-- The counters of the token loop of `performLexicalAnalysis`: tokens are counted until
the scanner returns 0 or `ERROR_TOKEN` (280), which is counted as one error and ends the
loop. -/
def countTokens : List Int → Nat × Nat
  | [] => (0, 0)
  | token :: rest =>
    if token == 280 then (0, 1)
    else ((countTokens rest).1 + 1, (countTokens rest).2)

/-- What `performLexicalAnalysis` reports: whether the file could be opened (otherwise
one line goes to `std::cerr` and nothing else happens), the number of valid tokens and
the number of lexical errors; the banner of failure is printed when the latter is
positive. -/
structure LexicalReport where
  opened : Bool
  tokenCount : Nat
  errorCount : Nat
deriving DecidableEq, Repr

/-- Function `performLexicalAnalysis(inputFile, showDFA)`; its return type is `void`. -/
def performLexicalAnalysis (env : Environment) (inputFile : String) (_showDFA : Bool) :
    LexicalReport :=
  if !env.opens inputFile then { opened := false, tokenCount := 0, errorCount := 0 }
  else
    { opened := true, tokenCount := (countTokens (env.tokens inputFile)).1,
      errorCount := (countTokens (env.tokens inputFile)).2 }

/-- Function `performSyntaxAnalysis(inputFile, printAST)`: `none` when it returns false,
otherwise the tree `program_root` points to. -/
def performSyntaxAnalysis (env : Environment) (inputFile : String) (_printAST : Bool)
    (afterScan : Bool) : Option Program :=
  if !env.opens inputFile then none
  else if env.parseResult inputFile afterScan != 0 then none
  else env.programRoot inputFile afterScan

/-- Function `performSyntaxAnalysisQuiet(inputFile)`: `none` when it returns false,
otherwise the tree `program_root` points to. -/
def performSyntaxAnalysisQuiet (env : Environment) (inputFile : String) : Option Program :=
  if !env.opens inputFile then none
  else if env.parseResult inputFile false != 0 then none
  else env.programRoot inputFile false

/-- What a run of `main` leaves behind: the value returned, and the code generator after
`generateAssembly` when the run constructed one (`none` when it never did). -/
structure Run where
  exitCode : Int
  generator : Option CodeGenerator
deriving DecidableEq, Repr

/-- Lines 291-410 of `main`: what follows the argument loop.  `none` is a run that ends
inside `generateAssembly`, at the dereference of a null pointer. -/
def runMode (env : Environment) (o : Options) : Option Run :=
  if o.inputFile.isEmpty then some { exitCode := 1, generator := none }
  else if o.tokensOnly then
    let _report := performLexicalAnalysis env o.inputFile false
    some { exitCode := 0, generator := none }
  else if o.tokensDFA then
    let _report := performLexicalAnalysis env o.inputFile true
    some { exitCode := 0, generator := none }
  else if o.astOnly then
    match performSyntaxAnalysis env o.inputFile true false with
    | some _ => some { exitCode := 0, generator := none }
    | none => some { exitCode := 1, generator := none }
  else if o.semanticOnly then
    match performSyntaxAnalysis env o.inputFile false false with
    | some program =>
      let success := (SemanticAnalyzer.analyze SemanticAnalyzer.new program false).result
      some { exitCode := if success then 0 else 1, generator := none }
    | none => some { exitCode := 1, generator := none }
  else if o.allPhases then
    let _report := performLexicalAnalysis env o.inputFile true
    match performSyntaxAnalysis env o.inputFile true true with
    | none => some { exitCode := 1, generator := none }
    | some program =>
      let semanticSuccess :=
        (SemanticAnalyzer.analyze SemanticAnalyzer.new program false).result
      some { exitCode := if semanticSuccess then 0 else 1, generator := none }
  else
    match performSyntaxAnalysisQuiet env o.inputFile with
    | none => some { exitCode := 1, generator := none }
    | some program =>
      let analysis := SemanticAnalyzer.analyze SemanticAnalyzer.new program true
      if !analysis.result then some { exitCode := 1, generator := none }
      else
        (CodeGenerator.generateAssembly CodeGenerator.new (some analysis.program)).map
          fun g => { exitCode := 0, generator := some g }

/-- Function `main(argc, argv)`; `argv` includes the program name `argv[0]`. -/
def main (env : Environment) (argv : List String) : Option Run :=
  match parseArguments argv.tail Options.initial with
  | .returned code => some { exitCode := code, generator := none }
  | .options o => runMode env o

/-! ### Sample trees -/

namespace Examples

/-- The expression `y + 1`. -/
def undeclaredSum : Expression :=
  .BinaryExpression (ASTNode.atLine 1) (.Identifier ⟨ASTNode.atLine 1, "y"⟩) "+"
    (.IntegerLiteral (ASTNode.atLine 1) 1)

/-- The expression `c + 1`. -/
def charSum : Expression :=
  .BinaryExpression (ASTNode.atLine 1) (.Identifier ⟨ASTNode.atLine 1, "c"⟩) "+"
    (.IntegerLiteral (ASTNode.atLine 1) 1)

/-- The statement `return y;`. -/
def returnUndeclared : Statement :=
  .ReturnStatement (ASTNode.atLine 1) (some (.Identifier ⟨ASTNode.atLine 1, "y"⟩))

/-- The expression `x = y`. -/
def assignUndeclared : Expression :=
  .AssignmentExpression (ASTNode.atLine 2) ⟨ASTNode.atLine 2, "x"⟩
    (.Identifier ⟨ASTNode.atLine 2, "y"⟩)

/-- The block `{ int x; { x = 1; } }`. -/
def nestedBlock : Statement :=
  .CompoundStatement (ASTNode.atLine 1)
    [.VariableDeclaration (ASTNode.atLine 1) "int" ["x"] [],
     .CompoundStatement (ASTNode.atLine 2)
       [.ExpressionStatement (ASTNode.atLine 2)
          (some (.AssignmentExpression (ASTNode.atLine 2) ⟨ASTNode.atLine 2, "x"⟩
            (.IntegerLiteral (ASTNode.atLine 2) 1)))]]

/-- The program `int main() { int x; x = 5; return x; }`. -/
def assignProgram : Program :=
  { node := ASTNode.atLine 0,
    declarations :=
      [.FunctionDefinition
        { node := ASTNode.atLine 1, returnType := "int", name := "main", parameters := [],
          bodyNode := ASTNode.atLine 1,
          bodyStatements :=
            [.VariableDeclaration (ASTNode.atLine 1) "int" ["x"] [],
             .ExpressionStatement (ASTNode.atLine 1)
               (some (.AssignmentExpression (ASTNode.atLine 1) ⟨ASTNode.atLine 1, "x"⟩
                 (.IntegerLiteral (ASTNode.atLine 1) 5))),
             .ReturnStatement (ASTNode.atLine 1)
               (some (.Identifier ⟨ASTNode.atLine 1, "x"⟩))] }] }

/-- The program `int main() { return y; }`. -/
def returnUndeclaredProgram : Program :=
  { node := ASTNode.atLine 0,
    declarations :=
      [.FunctionDefinition
        { node := ASTNode.atLine 1, returnType := "int", name := "main", parameters := [],
          bodyNode := ASTNode.atLine 1, bodyStatements := [returnUndeclared] }] }

/-- An analyzer whose global scope declares the initialized variables `int x` and
`char c`. -/
def withGlobals : SemanticAnalyzer :=
  { SemanticAnalyzer.new with
    symbolTable :=
      { scopes := [[("x", { name := "x", type := "int", kind := "variable", scopeLevel := 0,
                            isInitialized := true }),
                    ("c", { name := "c", type := "char", kind := "variable", scopeLevel := 0,
                            isInitialized := true })]],
        currentScope := 0 } }

/-- The node `c` of `charSum` as the analyzer annotates it under `withGlobals`. -/
def charNode : Identifier :=
  { node := { semanticInfo := { type := "char", isInitialized := true, scopeLevel := 0,
                                symbolKind := "variable", hasSemanticError := false,
                                errorMessage := "" },
              lineNumber := 1 },
    name := "c" }

/-- A table with `int x` in the global scope and an empty inner scope. -/
def shadowTable : SymbolTable :=
  { scopes := [[("x", SymbolInfo.new "x" "int" "variable" 0)], []], currentScope := 1 }

/-- The program `int main() { int x; x = 1; y = x; return 0; }` (lines 1 to 4). -/
def undeclaredTargetProgram : Program :=
  { node := ASTNode.atLine 0,
    declarations :=
      [.FunctionDefinition
        { node := ASTNode.atLine 1, returnType := "int", name := "main", parameters := [],
          bodyNode := ASTNode.atLine 1,
          bodyStatements :=
            [.VariableDeclaration (ASTNode.atLine 1) "int" ["x"] [],
             .ExpressionStatement (ASTNode.atLine 2)
               (some (.AssignmentExpression (ASTNode.atLine 2) ⟨ASTNode.atLine 2, "x"⟩
                 (.IntegerLiteral (ASTNode.atLine 2) 1))),
             .ExpressionStatement (ASTNode.atLine 3)
               (some (.AssignmentExpression (ASTNode.atLine 3) ⟨ASTNode.atLine 3, "y"⟩
                 (.Identifier ⟨ASTNode.atLine 3, "x"⟩))),
             .ReturnStatement (ASTNode.atLine 4)
               (some (.IntegerLiteral (ASTNode.atLine 4) 0))] }] }

/-- The program `int main() { int x; int x; return 0; }` (lines 1 to 3). -/
def redeclareProgram : Program :=
  { node := ASTNode.atLine 0,
    declarations :=
      [.FunctionDefinition
        { node := ASTNode.atLine 1, returnType := "int", name := "main", parameters := [],
          bodyNode := ASTNode.atLine 1,
          bodyStatements :=
            [.VariableDeclaration (ASTNode.atLine 1) "int" ["x"] [],
             .VariableDeclaration (ASTNode.atLine 2) "int" ["x"] [],
             .ReturnStatement (ASTNode.atLine 3)
               (some (.IntegerLiteral (ASTNode.atLine 3) 0))] }] }

/-- The program `int main() { int x; return x + 1; }`. -/
def uninitializedProgram : Program :=
  { node := ASTNode.atLine 0,
    declarations :=
      [.FunctionDefinition
        { node := ASTNode.atLine 1, returnType := "int", name := "main", parameters := [],
          bodyNode := ASTNode.atLine 1,
          bodyStatements :=
            [.VariableDeclaration (ASTNode.atLine 1) "int" ["x"] [],
             .ReturnStatement (ASTNode.atLine 2)
               (some (.BinaryExpression (ASTNode.atLine 2)
                 (.Identifier ⟨ASTNode.atLine 2, "x"⟩) "+"
                 (.IntegerLiteral (ASTNode.atLine 2) 1)))] }] }

/-- The program `int f() { return 0; } int main() { return f(y); }`, `y` undeclared. -/
def callUndeclaredArgument : Program :=
  { node := ASTNode.atLine 0,
    declarations :=
      [.FunctionDefinition
        { node := ASTNode.atLine 1, returnType := "int", name := "f", parameters := [],
          bodyNode := ASTNode.atLine 1,
          bodyStatements :=
            [.ReturnStatement (ASTNode.atLine 1)
               (some (.IntegerLiteral (ASTNode.atLine 1) 0))] },
       .FunctionDefinition
        { node := ASTNode.atLine 2, returnType := "int", name := "main", parameters := [],
          bodyNode := ASTNode.atLine 2,
          bodyStatements :=
            [.ReturnStatement (ASTNode.atLine 2)
               (some (.FunctionCall (ASTNode.atLine 2) "f"
                 [.Identifier ⟨ASTNode.atLine 2, "y"⟩]))] }] }

/-- The function `int g() { if (1) return 1; }`. -/
def returnInBranch : FunctionDefinition :=
  { node := ASTNode.atLine 1, returnType := "int", name := "g", parameters := [],
    bodyNode := ASTNode.atLine 1,
    bodyStatements :=
      [.IfStatement (ASTNode.atLine 1) (.IntegerLiteral (ASTNode.atLine 1) 1)
         (.ReturnStatement (ASTNode.atLine 1) (some (.IntegerLiteral (ASTNode.atLine 1) 1)))
         none] }

/-- The function `int h() { 1; }`. -/
def noReturn : FunctionDefinition :=
  { node := ASTNode.atLine 1, returnType := "int", name := "h", parameters := [],
    bodyNode := ASTNode.atLine 1,
    bodyStatements :=
      [.ExpressionStatement (ASTNode.atLine 1) (some (.IntegerLiteral (ASTNode.atLine 1) 1))] }

/-- An analyzer inside a function returning `int`, whose global scope declares the
function `void f` and the initialized variable `int x`. -/
def withVoidFunction : SemanticAnalyzer :=
  { SemanticAnalyzer.new with
    currentFunctionReturnType := "int",
    symbolTable :=
      { scopes := [[("f", SymbolInfo.new "f" "void" "function" 0),
                    ("x", { name := "x", type := "int", kind := "variable", scopeLevel := 0,
                            isInitialized := true })]],
        currentScope := 0 } }

/-- The call `f()`. -/
def callF : Expression := .FunctionCall (ASTNode.atLine 1) "f" []

/-- The expression `-f()`. -/
def negatedCall : Expression := .UnaryExpression (ASTNode.atLine 1) "-" callF

/-- The call `x()`. -/
def callVariable : Expression := .FunctionCall (ASTNode.atLine 1) "x" []

/-- The expression `x = f()`. -/
def assignCall : Expression :=
  .AssignmentExpression (ASTNode.atLine 1) ⟨ASTNode.atLine 1, "x"⟩ callF

/-- The statement `int z = f();`. -/
def declareFromCall : Statement :=
  .VariableDeclaration (ASTNode.atLine 1) "int" [] [("z", some callF)]

/-- The statement `return f();`. -/
def returnCall : Statement := .ReturnStatement (ASTNode.atLine 1) (some callF)

/-- The function `int f(int a, int b) { return a + b; }`. -/
def addFunction : FunctionDefinition :=
  { node := ASTNode.atLine 1, returnType := "int", name := "f",
    parameters := [("int", "a"), ("int", "b")], bodyNode := ASTNode.atLine 1,
    bodyStatements :=
      [.ReturnStatement (ASTNode.atLine 1)
        (some (.BinaryExpression (ASTNode.atLine 1) (.Identifier ⟨ASTNode.atLine 1, "a"⟩) "+"
          (.Identifier ⟨ASTNode.atLine 1, "b"⟩)))] }

/-- The call `f(1, 2)`. -/
def callWithTwo : Expression :=
  .FunctionCall (ASTNode.atLine 2) "f"
    [.IntegerLiteral (ASTNode.atLine 2) 1, .IntegerLiteral (ASTNode.atLine 2) 2]

/-- The program `int f(int a, int b) { return a + b; } int main() { return f(1,2); }`. -/
def callProgram : Program :=
  { node := ASTNode.atLine 0,
    declarations :=
      [.FunctionDefinition addFunction,
       .FunctionDefinition
        { node := ASTNode.atLine 2, returnType := "int", name := "main", parameters := [],
          bodyNode := ASTNode.atLine 2,
          bodyStatements := [.ReturnStatement (ASTNode.atLine 2) (some callWithTwo)] }] }

/-- The statement `if (a) return 1;`. -/
def ifReturn : Statement :=
  .IfStatement (ASTNode.atLine 1) (.Identifier ⟨ASTNode.atLine 1, "a"⟩)
    (.ReturnStatement (ASTNode.atLine 1) (some (.IntegerLiteral (ASTNode.atLine 1) 1))) none

/-- The statement `for (;;) return 2;`. -/
def bareFor : Statement :=
  .ForStatement (ASTNode.atLine 1) none none none
    (.ReturnStatement (ASTNode.atLine 1) (some (.IntegerLiteral (ASTNode.atLine 1) 2)))

/-- The program
`int f(int a) { if (a) return 1; while (a) a = a - 1; return 0; }
int main() { for (;;) return 2; }`. -/
def labelProgram : Program :=
  { node := ASTNode.atLine 0,
    declarations :=
      [.FunctionDefinition
        { node := ASTNode.atLine 1, returnType := "int", name := "f",
          parameters := [("int", "a")], bodyNode := ASTNode.atLine 1,
          bodyStatements :=
            [ifReturn,
             .WhileStatement (ASTNode.atLine 1) (.Identifier ⟨ASTNode.atLine 1, "a"⟩)
               (.ExpressionStatement (ASTNode.atLine 1)
                 (some (.AssignmentExpression (ASTNode.atLine 1) ⟨ASTNode.atLine 1, "a"⟩
                   (.BinaryExpression (ASTNode.atLine 1)
                     (.Identifier ⟨ASTNode.atLine 1, "a"⟩) "-"
                     (.IntegerLiteral (ASTNode.atLine 1) 1))))),
             .ReturnStatement (ASTNode.atLine 1)
               (some (.IntegerLiteral (ASTNode.atLine 1) 0))] },
       .FunctionDefinition
        { node := ASTNode.atLine 2, returnType := "int", name := "main", parameters := [],
          bodyNode := ASTNode.atLine 2, bodyStatements := [bareFor] }] }

/-- The function `int h() { int a; int b = 1 + 2; return a * b; }`. -/
def slotFunction : FunctionDefinition :=
  { node := ASTNode.atLine 1, returnType := "int", name := "h", parameters := [],
    bodyNode := ASTNode.atLine 1,
    bodyStatements :=
      [.VariableDeclaration (ASTNode.atLine 1) "int" ["a"] [],
       .VariableDeclaration (ASTNode.atLine 1) "int" []
         [("b", some (.BinaryExpression (ASTNode.atLine 1)
            (.IntegerLiteral (ASTNode.atLine 1) 1) "+"
            (.IntegerLiteral (ASTNode.atLine 1) 2)))],
       .ReturnStatement (ASTNode.atLine 1)
         (some (.BinaryExpression (ASTNode.atLine 1) (.Identifier ⟨ASTNode.atLine 1, "a"⟩) "*"
           (.Identifier ⟨ASTNode.atLine 1, "b"⟩)))] }

/-- The function `void e() { }`. -/
def emptyVoid : FunctionDefinition :=
  { node := ASTNode.atLine 1, returnType := "void", name := "e", parameters := [],
    bodyNode := ASTNode.atLine 1, bodyStatements := [] }

/-- The function `int z(int a) { }`. -/
def emptyInt : FunctionDefinition :=
  { node := ASTNode.atLine 1, returnType := "int", name := "z", parameters := [("int", "a")],
    bodyNode := ASTNode.atLine 1, bodyStatements := [] }

/-- The statements `int x; { int x; } x;` of a function body. -/
def shadowBody : List Statement :=
  [.VariableDeclaration (ASTNode.atLine 1) "int" ["x"] [],
   .CompoundStatement (ASTNode.atLine 2)
     [.VariableDeclaration (ASTNode.atLine 2) "int" ["x"] []],
   .ExpressionStatement (ASTNode.atLine 3) (some (.Identifier ⟨ASTNode.atLine 3, "x"⟩))]

/-- The statements `{ int y; } y;` of a function body. -/
def escapeBody : List Statement :=
  [.CompoundStatement (ASTNode.atLine 1)
     [.VariableDeclaration (ASTNode.atLine 1) "int" ["y"] []],
   .ExpressionStatement (ASTNode.atLine 2) (some (.Identifier ⟨ASTNode.atLine 2, "y"⟩))]

/-- The program `int f(int n) { return f(n); } int main() { return f(1); }` (lines 1
and 2). -/
def recursiveProgram : Program :=
  { node := ASTNode.atLine 0,
    declarations :=
      [.FunctionDefinition
        { node := ASTNode.atLine 1, returnType := "int", name := "f",
          parameters := [("int", "n")], bodyNode := ASTNode.atLine 1,
          bodyStatements :=
            [.ReturnStatement (ASTNode.atLine 1)
               (some (.FunctionCall (ASTNode.atLine 1) "f"
                 [.Identifier ⟨ASTNode.atLine 1, "n"⟩]))] },
       .FunctionDefinition
        { node := ASTNode.atLine 2, returnType := "int", name := "main", parameters := [],
          bodyNode := ASTNode.atLine 2,
          bodyStatements :=
            [.ReturnStatement (ASTNode.atLine 2)
               (some (.FunctionCall (ASTNode.atLine 2) "f"
                 [.IntegerLiteral (ASTNode.atLine 2) 1]))] }] }

/-- The program `int main() { g(); return 0; } int g() { return 0; }` (lines 1 and 2). -/
def forwardCallProgram : Program :=
  { node := ASTNode.atLine 0,
    declarations :=
      [.FunctionDefinition
        { node := ASTNode.atLine 1, returnType := "int", name := "main", parameters := [],
          bodyNode := ASTNode.atLine 1,
          bodyStatements :=
            [.ExpressionStatement (ASTNode.atLine 1)
               (some (.FunctionCall (ASTNode.atLine 1) "g" [])),
             .ReturnStatement (ASTNode.atLine 1)
               (some (.IntegerLiteral (ASTNode.atLine 1) 0))] },
       .FunctionDefinition
        { node := ASTNode.atLine 2, returnType := "int", name := "g", parameters := [],
          bodyNode := ASTNode.atLine 2,
          bodyStatements :=
            [.ReturnStatement (ASTNode.atLine 2)
               (some (.IntegerLiteral (ASTNode.atLine 2) 0))] }] }

/-- The function `int f() { int x; int x; return 0; }` at line 2, a second definition of
`f` whose body declares `x` twice. -/
def secondDefinition : FunctionDefinition :=
  { node := ASTNode.atLine 2, returnType := "int", name := "f", parameters := [],
    bodyNode := ASTNode.atLine 2,
    bodyStatements :=
      [.VariableDeclaration (ASTNode.atLine 2) "int" ["x"] [],
       .VariableDeclaration (ASTNode.atLine 3) "int" ["x"] [],
       .ReturnStatement (ASTNode.atLine 4) (some (.IntegerLiteral (ASTNode.atLine 4) 0))] }

/-- The program `int f() { return 0; } int f() { int x; int x; return 0; }`. -/
def duplicateFunctionProgram : Program :=
  { node := ASTNode.atLine 0,
    declarations :=
      [.FunctionDefinition
        { node := ASTNode.atLine 1, returnType := "int", name := "f", parameters := [],
          bodyNode := ASTNode.atLine 1,
          bodyStatements :=
            [.ReturnStatement (ASTNode.atLine 1)
               (some (.IntegerLiteral (ASTNode.atLine 1) 0))] },
       .FunctionDefinition secondDefinition] }

/-- The function `int f(int a) { int a; a = 1; return a; }` (lines 1 to 3). -/
def shadowParameter : FunctionDefinition :=
  { node := ASTNode.atLine 1, returnType := "int", name := "f", parameters := [("int", "a")],
    bodyNode := ASTNode.atLine 1,
    bodyStatements :=
      [.VariableDeclaration (ASTNode.atLine 1) "int" ["a"] [],
       .ExpressionStatement (ASTNode.atLine 2)
         (some (.AssignmentExpression (ASTNode.atLine 2) ⟨ASTNode.atLine 2, "a"⟩
           (.IntegerLiteral (ASTNode.atLine 2) 1))),
       .ReturnStatement (ASTNode.atLine 3) (some (.Identifier ⟨ASTNode.atLine 3, "a"⟩))] }

/-- The statement `int x = x;`. -/
def selfInitialized : Statement :=
  .VariableDeclaration (ASTNode.atLine 1) "int" []
    [("x", some (.Identifier ⟨ASTNode.atLine 1, "x"⟩))]

/-- A declaration node of type `int` with the plain name `x` in `names` and the
declarator `y = x` in `initDeclarators`. -/
def plainAfterInitialized : Statement :=
  .VariableDeclaration (ASTNode.atLine 1) "int" ["x"]
    [("y", some (.Identifier ⟨ASTNode.atLine 1, "x"⟩))]

/-- The statements `int x; int x = y;` with `y` declared nowhere (lines 1 and 2). -/
def duplicateInitialized : List Statement :=
  [.VariableDeclaration (ASTNode.atLine 1) "int" ["x"] [],
   .VariableDeclaration (ASTNode.atLine 2) "int" []
     [("x", some (.Identifier ⟨ASTNode.atLine 2, "y"⟩))]]

/-- The function
`int p() { int a; int b = 1 + 2; printf(a * b); return f(a + b) - (a = 3); }`. -/
def slotCounting : FunctionDefinition :=
  { node := ASTNode.atLine 1, returnType := "int", name := "p", parameters := [],
    bodyNode := ASTNode.atLine 1,
    bodyStatements :=
      [.VariableDeclaration (ASTNode.atLine 1) "int" ["a"] [],
       .VariableDeclaration (ASTNode.atLine 1) "int" []
         [("b", some (.BinaryExpression (ASTNode.atLine 1)
            (.IntegerLiteral (ASTNode.atLine 1) 1) "+"
            (.IntegerLiteral (ASTNode.atLine 1) 2)))],
       .ExpressionStatement (ASTNode.atLine 1)
         (some (.FunctionCall (ASTNode.atLine 1) "printf"
           [.BinaryExpression (ASTNode.atLine 1) (.Identifier ⟨ASTNode.atLine 1, "a"⟩) "*"
             (.Identifier ⟨ASTNode.atLine 1, "b"⟩)])),
       .ReturnStatement (ASTNode.atLine 1)
         (some (.BinaryExpression (ASTNode.atLine 1)
           (.FunctionCall (ASTNode.atLine 1) "f"
             [.BinaryExpression (ASTNode.atLine 1) (.Identifier ⟨ASTNode.atLine 1, "a"⟩) "+"
               (.Identifier ⟨ASTNode.atLine 1, "b"⟩)])
           "-"
           (.AssignmentExpression (ASTNode.atLine 1) ⟨ASTNode.atLine 1, "a"⟩
             (.IntegerLiteral (ASTNode.atLine 1) 3))))] }

/-- The expression `f(1) + 2`. -/
def callPlusTwo : Expression :=
  .BinaryExpression (ASTNode.atLine 2)
    (.FunctionCall (ASTNode.atLine 2) "f" [.IntegerLiteral (ASTNode.atLine 2) 1]) "+"
    (.IntegerLiteral (ASTNode.atLine 2) 2)

/-- The program `int f(int a) { return a; } int main() { return f(1) + 2; }`. -/
def callInLeftOperand : Program :=
  { node := ASTNode.atLine 0,
    declarations :=
      [.FunctionDefinition
        { node := ASTNode.atLine 1, returnType := "int", name := "f",
          parameters := [("int", "a")], bodyNode := ASTNode.atLine 1,
          bodyStatements :=
            [.ReturnStatement (ASTNode.atLine 1)
               (some (.Identifier ⟨ASTNode.atLine 1, "a"⟩))] },
       .FunctionDefinition
        { node := ASTNode.atLine 2, returnType := "int", name := "main", parameters := [],
          bodyNode := ASTNode.atLine 2,
          bodyStatements := [.ReturnStatement (ASTNode.atLine 2) (some callPlusTwo)] }] }

/-- The program `int g; int main() { g = 1; return g; }`. -/
def globalVariable : Program :=
  { node := ASTNode.atLine 0,
    declarations :=
      [.Statement (.VariableDeclaration (ASTNode.atLine 1) "int" ["g"] []),
       .FunctionDefinition
        { node := ASTNode.atLine 2, returnType := "int", name := "main", parameters := [],
          bodyNode := ASTNode.atLine 2,
          bodyStatements :=
            [.ExpressionStatement (ASTNode.atLine 2)
               (some (.AssignmentExpression (ASTNode.atLine 2) ⟨ASTNode.atLine 2, "g"⟩
                 (.IntegerLiteral (ASTNode.atLine 2) 1))),
             .ReturnStatement (ASTNode.atLine 3)
               (some (.Identifier ⟨ASTNode.atLine 3, "g"⟩))] }] }

/-- The program `int f() { return 0; } int main() { return f; }`. -/
def functionAsValue : Program :=
  { node := ASTNode.atLine 0,
    declarations :=
      [.FunctionDefinition
        { node := ASTNode.atLine 1, returnType := "int", name := "f", parameters := [],
          bodyNode := ASTNode.atLine 1,
          bodyStatements :=
            [.ReturnStatement (ASTNode.atLine 1)
               (some (.IntegerLiteral (ASTNode.atLine 1) 0))] },
       .FunctionDefinition
        { node := ASTNode.atLine 2, returnType := "int", name := "main", parameters := [],
          bodyNode := ASTNode.atLine 2,
          bodyStatements :=
            [.ReturnStatement (ASTNode.atLine 2)
               (some (.Identifier ⟨ASTNode.atLine 2, "f"⟩))] }] }

/-- Surroundings in which no file can be opened. -/
def noFile : Environment :=
  { opens := fun _ => false, tokens := fun _ => [], parseResult := fun _ _ => 1,
    programRoot := fun _ _ => none }

/-- Surroundings in which every file holds `int main() { return y; }`. -/
def undeclaredSource : Environment :=
  { opens := fun _ => true,
    tokens := fun _ => [260, 259, 40, 41, 123, 269, 259, 59, 125],
    parseResult := fun _ _ => 0,
    programRoot := fun _ _ => some returnUndeclaredProgram }

/-- Surroundings in which every file holds `int main() { int x; x = 5; return x; }`. -/
def assignSource : Environment :=
  { opens := fun _ => true,
    tokens := fun _ => [260, 259, 40, 41, 123, 260, 259, 59, 259, 61, 258, 59, 269, 259, 59,
                        125],
    parseResult := fun _ _ => 0,
    programRoot := fun _ _ => some assignProgram }

/-- Surroundings in which the scanner meets a character it has no rule for after two
tokens, and the parser fails. -/
def lexicalError : Environment :=
  { opens := fun _ => true, tokens := fun _ => [260, 259, 280, 59],
    parseResult := fun _ _ => 1, programRoot := fun _ _ => none }

end Examples

/-! ## Lemmas on scopes and the symbol table -/

theorem Scope.find_append_of_none (s : Scope) (name : String) (e : String × SymbolInfo)
    (h : Scope.find s name = none) :
    Scope.find (s ++ [e]) name = if e.1 = name then some e.2 else none := by
  induction s with
  | nil => simp [Scope.find]
  | cons p rest ih =>
    obtain ⟨k, v⟩ := p
    simp only [Scope.find] at h
    by_cases hk : k = name
    · simp [hk] at h
    · simp only [hk, if_false] at h
      simp [Scope.find, hk, ih h]

theorem Scope.find_append_of_ne (s : Scope) (name : String) (e : String × SymbolInfo)
    (h : e.1 ≠ name) :
    Scope.find (s ++ [e]) name = Scope.find s name := by
  induction s with
  | nil => simp [Scope.find, h]
  | cons p rest ih =>
    obtain ⟨k, v⟩ := p
    by_cases hk : k = name <;> simp [Scope.find, hk, ih]

theorem Scope.assign_of_find_none (s : Scope) (name : String) (v : SymbolInfo)
    (h : Scope.find s name = none) : Scope.assign s name v = s ++ [(name, v)] := by
  induction s with
  | nil => rfl
  | cons p rest ih =>
    obtain ⟨k, w⟩ := p
    simp only [Scope.find] at h
    by_cases hk : k = name
    · simp [hk] at h
    · simp only [hk, if_false] at h
      simp [Scope.assign, hk, ih h]

/-- A well-formed table is a list of outer scopes followed by the current scope. -/
theorem SymbolTable.WF.split {t : SymbolTable} (h : t.WF) :
    ∃ outer top, t.scopes = outer ++ [top] ∧ t.currentScope = (outer.length : Int) := by
  obtain ⟨h0, h1⟩ := h
  have hne : t.scopes ≠ [] := by
    intro he
    rw [he] at h1
    simp at h1
    omega
  refine ⟨t.scopes.dropLast, t.scopes.getLast hne, (List.dropLast_append_getLast hne).symm, ?_⟩
  simp only [List.length_dropLast]
  omega

theorem SymbolTable.scopeAt_current (outer : List Scope) (top : Scope) :
    SymbolTable.scopeAt { scopes := outer ++ [top], currentScope := (outer.length : Int) }
      (Int.toNat (outer.length : Int)) = top := by
  simp [SymbolTable.scopeAt, List.getD_eq_getElem?_getD]

theorem SymbolTable.scopeAt_length (outer : List Scope) (top : Scope) (c : Int) :
    SymbolTable.scopeAt { scopes := outer ++ [top], currentScope := c } outer.length = top := by
  simp [SymbolTable.scopeAt, List.getD_eq_getElem?_getD]

theorem SymbolTable.modify_current (outer : List Scope) (top : Scope) (f : Scope → Scope) :
    List.modify f outer.length (outer ++ [top]) = outer ++ [f top] := by
  induction outer with
  | nil => rfl
  | cons s rest ih =>
    have h := List.modify_succ_cons f s (rest ++ [top]) rest.length
    rw [ih] at h
    exact h

theorem SymbolTable.lookupFrom_eq_some (scopes : List Scope) (name : String) (n i : Nat)
    (sym : SymbolInfo) :
    SymbolTable.lookupFrom scopes name n = some (i, sym) ↔
      i < n ∧ Scope.find (scopes.getD i []) name = some sym ∧
        ∀ j, i < j → j < n → Scope.find (scopes.getD j []) name = none := by
  induction n with
  | zero => simp [SymbolTable.lookupFrom]
  | succ n ih =>
    simp only [SymbolTable.lookupFrom]
    cases hf : Scope.find (scopes.getD n []) name with
    | some s =>
      simp only [Option.some.injEq, Prod.mk.injEq]
      constructor
      · rintro ⟨rfl, rfl⟩
        exact ⟨Nat.lt_succ_self _, hf, fun j h1 h2 => by omega⟩
      · rintro ⟨h1, h2, h3⟩
        have hin : i = n := by
          by_contra hne
          have hlt : i < n := by omega
          have := h3 n hlt (Nat.lt_succ_self _)
          rw [hf] at this
          exact Option.noConfusion this
        subst hin
        rw [hf] at h2
        exact ⟨rfl, Option.some.inj h2⟩
    | none =>
      simp only
      rw [ih]
      constructor
      · rintro ⟨h1, h2, h3⟩
        refine ⟨by omega, h2, fun j hj1 hj2 => ?_⟩
        by_cases hjn : j = n
        · subst hjn; exact hf
        · exact h3 j hj1 (by omega)
      · rintro ⟨h1, h2, h3⟩
        have hin : i ≠ n := by
          rintro rfl
          rw [hf] at h2
          exact Option.noConfusion h2
        exact ⟨by omega, h2, fun j hj1 hj2 => h3 j hj1 (by omega)⟩

theorem SymbolTable.lookupFrom_eq_none (scopes : List Scope) (name : String) (n : Nat) :
    SymbolTable.lookupFrom scopes name n = none ↔
      ∀ i, i < n → Scope.find (scopes.getD i []) name = none := by
  induction n with
  | zero => simp [SymbolTable.lookupFrom]
  | succ n ih =>
    simp only [SymbolTable.lookupFrom]
    cases hf : Scope.find (scopes.getD n []) name with
    | some s =>
      constructor
      · intro h
        exact Option.noConfusion h
      · intro h
        have := h n (Nat.lt_succ_self _)
        rw [hf] at this
        exact Option.noConfusion this
    | none =>
      simp only
      rw [ih]
      constructor
      · intro h i hi
        by_cases hin : i = n
        · subst hin; exact hf
        · exact h i (by omega)
      · intro h i hi
        exact h i (by omega)

/-- Scopes above the starting index do not influence the loop of `lookup`. -/
theorem SymbolTable.lookupFrom_append (outer extra : List Scope) (name : String) (n : Nat)
    (hn : n ≤ outer.length) :
    SymbolTable.lookupFrom (outer ++ extra) name n = SymbolTable.lookupFrom outer name n := by
  induction n with
  | zero => rfl
  | succ n ih =>
    have hlt : n < outer.length := by omega
    simp only [SymbolTable.lookupFrom, List.getD_eq_getElem?_getD,
      List.getElem?_append_left hlt, ih (by omega)]

theorem SymbolTable.lookupFrom_top (outer : List Scope) (top : Scope) (name : String) :
    SymbolTable.lookupFrom (outer ++ [top]) name (outer.length + 1) =
      match Scope.find top name with
      | some sym => some (outer.length, sym)
      | none => SymbolTable.lookupFrom outer name outer.length := by
  have hg : (outer ++ [top]).getD outer.length [] = top := by
    simp [List.getD_eq_getElem?_getD]
  simp only [SymbolTable.lookupFrom, hg,
    SymbolTable.lookupFrom_append outer [top] name outer.length (le_refl _)]

theorem SymbolTable.exitScope_enterScope (t : SymbolTable) (h : 0 ≤ t.currentScope) :
    t.enterScope.exitScope = t := by
  obtain ⟨scopes, cur⟩ := t
  simp only at h
  have h1 : cur + 1 > 0 := by omega
  simp [SymbolTable.enterScope, SymbolTable.exitScope, h1]

theorem SymbolTable.WF_enterScope {t : SymbolTable} (h : t.WF) : t.enterScope.WF := by
  obtain ⟨h0, h1⟩ := h
  refine ⟨?_, ?_⟩
  · simp only [SymbolTable.enterScope]; omega
  · simp only [SymbolTable.enterScope, List.length_append, List.length_singleton]
    push_cast
    omega

theorem SymbolTable.WF_new : SymbolTable.new.WF := by decide

/-- The table with outer scopes `outer` and current scope `top`. -/
theorem SymbolTable.declare_split (outer : List Scope) (top : Scope) (name type kind : String) :
    SymbolTable.declare { scopes := outer ++ [top], currentScope := (outer.length : Int) }
        name type kind =
      if (Scope.find top name).isSome then
        (false, { scopes := outer ++ [top], currentScope := (outer.length : Int) })
      else
        (true, { scopes := outer ++
                   [top ++ [(name, SymbolInfo.new name type kind (outer.length : Int))]],
                 currentScope := (outer.length : Int) }) := by
  have hcur := SymbolTable.scopeAt_current outer top
  have h0 : (outer.length : Int) ≥ 0 := Int.natCast_nonneg _
  simp only [SymbolTable.declare, SymbolTable.lookupInCurrentScope, hcur, h0, if_true]
  cases hf : Scope.find top name with
  | some sym => simp
  | none =>
    simp [SymbolTable.modify_current, Scope.assign_of_find_none _ _ _ hf]

theorem SymbolTable.lookupEntry_split (outer : List Scope) (top : Scope) (name : String) :
    SymbolTable.lookupEntry { scopes := outer ++ [top], currentScope := (outer.length : Int) }
        name =
      match Scope.find top name with
      | some sym => some (outer.length, sym)
      | none => SymbolTable.lookupFrom outer name outer.length := by
  have h0 : (outer.length : Int) ≥ 0 := Int.natCast_nonneg _
  simp only [SymbolTable.lookupEntry, h0, if_true, Int.toNat_ofNat, SymbolTable.lookupFrom_top]

theorem SymbolTable.exitScope_split (outer : List Scope) (top : Scope) (h : outer ≠ []) :
    SymbolTable.exitScope { scopes := outer ++ [top], currentScope := (outer.length : Int) } =
      { scopes := outer, currentScope := (outer.length : Int) - 1 } := by
  have hpos : (outer.length : Int) > 0 := by
    have := List.length_pos.mpr h
    omega
  simp [SymbolTable.exitScope, hpos]

/-- Popping the scope a declaration was made in forgets the declaration. -/
theorem SymbolTable.exitScope_declare (t : SymbolTable) (name type kind : String) (h : t.WF)
    (hpos : 0 < t.currentScope) :
    (t.declare name type kind).2.exitScope = t.exitScope := by
  obtain ⟨outer, top, hs, hc⟩ := h.split
  obtain ⟨scopes, cur⟩ := t
  simp only at hs hc hpos
  subst hs hc
  have hne : outer ≠ [] := by
    rintro rfl
    simp at hpos
  rw [SymbolTable.declare_split]
  split
  · rfl
  · rw [SymbolTable.exitScope_split _ _ hne, SymbolTable.exitScope_split _ _ hne]

/-- A name just declared is what `lookup` finds, whatever the outer scopes hold. -/
theorem SymbolTable.lookup_declare (t : SymbolTable) (name type kind : String) (h : t.WF)
    (hd : (t.declare name type kind).1 = true) :
    (t.declare name type kind).2.lookup name =
      some (SymbolInfo.new name type kind t.currentScope) := by
  obtain ⟨outer, top, hs, hc⟩ := h.split
  obtain ⟨scopes, cur⟩ := t
  simp only at hs hc
  subst hs hc
  rw [SymbolTable.declare_split] at hd ⊢
  cases hf : Scope.find top name with
  | some sym => simp [hf] at hd
  | none =>
    simp only [hf, Option.isSome_none, Bool.false_eq_true, if_false, SymbolTable.lookup,
      SymbolTable.lookupEntry_split]
    rw [Scope.find_append_of_none _ _ _ hf]
    simp

theorem SymbolTable.declare_enterScope_fst (t : SymbolTable) (name type kind : String)
    (h : t.WF) : (t.enterScope.declare name type kind).1 = true := by
  obtain ⟨h0, h1⟩ := h
  obtain ⟨scopes, cur⟩ := t
  simp only at h0 h1
  have hc : cur + 1 = ((scopes.length : Nat) : Int) := by omega
  simp only [SymbolTable.enterScope, hc]
  rw [SymbolTable.declare_split]
  simp [Scope.find]

theorem Scope.find_setInitialized (s : Scope) (n m : String) :
    Scope.find (Scope.setInitialized s n) m =
      (Scope.find s m).map
        (fun w => if n = m then { w with isInitialized := true } else w) := by
  induction s with
  | nil => rfl
  | cons p rest ih =>
    obtain ⟨k, w⟩ := p
    by_cases hk : k = n
    · subst hk
      by_cases hm : k = m
      · simp [Scope.setInitialized, Scope.find, hm]
      · simp [Scope.setInitialized, Scope.find, hm]
    · by_cases hm : k = m
      · subst hm
        simp [Scope.setInitialized, Scope.find, hk, Ne.symm hk]
      · simp [Scope.setInitialized, Scope.find, hk, hm, ih]

theorem SymbolTable.getD_modify_setInitialized (scopes : List Scope) (i j : Nat) (n : String) :
    (List.modify (fun s => Scope.setInitialized s n) i scopes).getD j [] =
      if i = j then Scope.setInitialized (scopes.getD j []) n else scopes.getD j [] := by
  simp only [List.getD_eq_getElem?_getD, List.getElem?_modify]
  cases h : scopes[j]? with
  | none =>
    by_cases hij : i = j <;> simp [hij, Scope.setInitialized]
  | some s =>
    by_cases hij : i = j <;> simp [hij]

/-- Setting an initialization flag changes neither where `lookup` finds a name nor the
declared type and kind it finds there. -/
theorem SymbolTable.lookupFrom_setInitialized (scopes : List Scope) (i : Nat) (n m : String) :
    ∀ k, (SymbolTable.lookupFrom (List.modify (fun s => Scope.setInitialized s n) i scopes) m k).map
          (fun p => (p.1, p.2.type, p.2.kind)) =
        (SymbolTable.lookupFrom scopes m k).map (fun p => (p.1, p.2.type, p.2.kind))
  | 0 => rfl
  | k + 1 => by
    have ih := SymbolTable.lookupFrom_setInitialized scopes i n m k
    simp only [SymbolTable.lookupFrom, SymbolTable.getD_modify_setInitialized]
    by_cases hik : i = k
    · subst hik
      simp only [if_true, Scope.find_setInitialized]
      cases hf : Scope.find (scopes.getD i []) m with
      | none =>
        simp only [Option.map_none']
        exact ih
      | some w =>
        simp only [Option.map_some']
        by_cases hnm : n = m <;> simp [hnm]
    · simp only [hik, if_false]
      cases hf : Scope.find (scopes.getD k []) m with
      | none => exact ih
      | some w => rfl

theorem SymbolTable.lookup_type_setInitialized (t : SymbolTable) (i : Nat) (n m : String) :
    ((t.setInitialized i n).lookup m).map SymbolInfo.type = (t.lookup m).map SymbolInfo.type := by
  simp only [SymbolTable.lookup, SymbolTable.lookupEntry, SymbolTable.setInitialized]
  split
  · have h := congrArg (Option.map (fun p : Nat × String × String => p.2.1))
      (SymbolTable.lookupFrom_setInitialized t.scopes i n m (t.currentScope.toNat + 1))
    simp only [Option.map_map] at h ⊢
    exact h
  · rfl

theorem SymbolTable.lookup_eq_none_iff (t : SymbolTable) (name : String) :
    t.lookup name = none ↔ t.lookupEntry name = none := by
  simp [SymbolTable.lookup]

theorem SymbolTable.lookupEntry_shape_setInitialized (t : SymbolTable) (i : Nat)
    (n m : String) :
    ((t.setInitialized i n).lookupEntry m).map (fun p => (p.1, p.2.type, p.2.kind)) =
      (t.lookupEntry m).map (fun p => (p.1, p.2.type, p.2.kind)) := by
  simp only [SymbolTable.lookupEntry, SymbolTable.setInitialized]
  split
  · exact SymbolTable.lookupFrom_setInitialized t.scopes i n m (t.currentScope.toNat + 1)
  · rfl

/-- Setting the flag through the pointer `lookup` returned flags exactly that entry. -/
theorem SymbolTable.lookupFrom_setInitialized_found (scopes : List Scope) (i : Nat)
    (n : String) (sym : SymbolInfo) :
    ∀ k, SymbolTable.lookupFrom scopes n k = some (i, sym) →
      SymbolTable.lookupFrom (List.modify (fun s => Scope.setInitialized s n) i scopes) n k =
        some (i, { sym with isInitialized := true })
  | 0, h => by simp [SymbolTable.lookupFrom] at h
  | k + 1, h => by
    simp only [SymbolTable.lookupFrom] at h
    simp only [SymbolTable.lookupFrom, SymbolTable.getD_modify_setInitialized]
    cases hf : Scope.find (scopes.getD k []) n with
    | some w =>
      rw [hf] at h
      simp only [Option.some.injEq, Prod.mk.injEq] at h
      obtain ⟨h1, h2⟩ := h
      subst h1 h2
      simp only [if_true, Scope.find_setInitialized, hf, Option.map_some']
    | none =>
      rw [hf] at h
      simp only at h
      have hik : i ≠ k := by
        rintro rfl
        have := (SymbolTable.lookupFrom_eq_some scopes n i i sym).1 h
        omega
      simp only [hik, if_false, hf]
      exact SymbolTable.lookupFrom_setInitialized_found scopes i n sym k h

theorem SymbolTable.lookup_setInitialized_found (t : SymbolTable) (i : Nat) (n : String)
    (sym : SymbolInfo) (h : t.lookupEntry n = some (i, sym)) :
    (t.setInitialized i n).lookup n = some { sym with isInitialized := true } := by
  simp only [SymbolTable.lookupEntry] at h
  simp only [SymbolTable.lookup, SymbolTable.lookupEntry, SymbolTable.setInitialized]
  split
  · rename_i hc
    simp only [hc, if_true] at h
    rw [SymbolTable.lookupFrom_setInitialized_found _ _ _ _ _ h]
    rfl
  · rename_i hc
    simp only [hc, if_false] at h
    exact Option.noConfusion h

theorem Scope.find_mem : ∀ (s : Scope) (n : String) (v : SymbolInfo),
    Scope.find s n = some v → (n, v) ∈ s
  | [], _, _, h => by simp [Scope.find] at h
  | (k, w) :: rest, n, v, h => by
    simp only [Scope.find] at h
    by_cases hk : k = n
    · simp only [hk, if_true, Option.some.injEq] at h
      subst hk h
      exact List.mem_cons_self _ _
    · simp only [hk, if_false] at h
      exact List.mem_cons_of_mem _ (Scope.find_mem rest n v h)

theorem Scope.setInitialized_mem : ∀ (s : Scope) (n : String) (e : String × SymbolInfo),
    e ∈ Scope.setInitialized s n → ∃ e' ∈ s, e'.2.type = e.2.type
  | [], _, _, h => by simp [Scope.setInitialized] at h
  | (k, w) :: rest, n, e, h => by
    simp only [Scope.setInitialized] at h
    by_cases hk : k = n
    · simp only [hk, if_true, List.mem_cons] at h
      rcases h with h | h
      · exact ⟨(k, w), List.mem_cons_self _ _, by rw [h]⟩
      · exact ⟨e, List.mem_cons_of_mem _ h, rfl⟩
    · simp only [hk, if_false, List.mem_cons] at h
      rcases h with h | h
      · exact ⟨(k, w), List.mem_cons_self _ _, by rw [h]⟩
      · obtain ⟨e', h1, h2⟩ := Scope.setInitialized_mem rest n e h
        exact ⟨e', List.mem_cons_of_mem _ h1, h2⟩

theorem Scope.assign_mem : ∀ (s : Scope) (n : String) (v : SymbolInfo)
    (e : String × SymbolInfo), e ∈ Scope.assign s n v → e ∈ s ∨ e.2 = v
  | [], n, v, e, h => by
    simp only [Scope.assign, List.mem_singleton] at h
    exact Or.inr (by rw [h])
  | (k, w) :: rest, n, v, e, h => by
    simp only [Scope.assign] at h
    by_cases hk : k = n
    · simp only [hk, if_true, List.mem_cons] at h
      rcases h with h | h
      · exact Or.inr (by rw [h])
      · exact Or.inl (List.mem_cons_of_mem _ h)
    · simp only [hk, if_false, List.mem_cons] at h
      rcases h with h | h
      · exact Or.inl (by rw [h]; exact List.mem_cons_self _ _)
      · rcases Scope.assign_mem rest n v e h with h1 | h1
        · exact Or.inl (List.mem_cons_of_mem _ h1)
        · exact Or.inr h1

theorem SymbolTable.mem_modify {α : Type} (f : α → α) :
    ∀ (l : List α) (i : Nat) (x : α), x ∈ List.modify f i l → x ∈ l ∨ ∃ y ∈ l, x = f y
  | [], i, x, h => by
    cases i <;> simp [List.modify] at h
  | y :: rest, 0, x, h => by
    have h0 : List.modify f 0 (y :: rest) = f y :: rest := rfl
    rw [h0, List.mem_cons] at h
    rcases h with h | h
    · exact Or.inr ⟨y, List.mem_cons_self _ _, h⟩
    · exact Or.inl (List.mem_cons_of_mem _ h)
  | y :: rest, i + 1, x, h => by
    rw [List.modify_succ_cons, List.mem_cons] at h
    rcases h with h | h
    · exact Or.inl (by rw [h]; exact List.mem_cons_self _ _)
    · rcases SymbolTable.mem_modify f rest i x h with h1 | ⟨z, h1, h2⟩
      · exact Or.inl (List.mem_cons_of_mem _ h1)
      · exact Or.inr ⟨z, List.mem_cons_of_mem _ h1, h2⟩

theorem SymbolTable.mem_types_iff (t : SymbolTable) (ty : String) :
    ty ∈ t.types ↔ ∃ s ∈ t.scopes, ∃ e ∈ s, e.2.type = ty := by
  simp only [SymbolTable.types, List.mem_map, List.mem_flatten]
  constructor
  · rintro ⟨e, ⟨s, hs, he⟩, h⟩
    exact ⟨s, hs, e, he, h⟩
  · rintro ⟨s, hs, e, he, h⟩
    exact ⟨e, ⟨s, hs, he⟩, h⟩

theorem SymbolTable.types_setInitialized (t : SymbolTable) (i : Nat) (n ty : String)
    (h : ty ∈ (t.setInitialized i n).types) : ty ∈ t.types := by
  rw [SymbolTable.mem_types_iff] at h ⊢
  obtain ⟨s, hs, e, he, hty⟩ := h
  rcases SymbolTable.mem_modify _ _ _ _ hs with h1 | ⟨s0, h1, h2⟩
  · exact ⟨s, h1, e, he, hty⟩
  · subst h2
    obtain ⟨e', he', ht'⟩ := Scope.setInitialized_mem s0 n e he
    exact ⟨s0, h1, e', he', ht'.trans hty⟩

theorem SymbolTable.types_declare (t : SymbolTable) (n type k ty : String)
    (h : ty ∈ (t.declare n type k).2.types) : ty = type ∨ ty ∈ t.types := by
  simp only [SymbolTable.declare] at h
  split at h
  · exact Or.inr h
  · rw [SymbolTable.mem_types_iff] at h
    obtain ⟨s, hs, e, he, hty⟩ := h
    rcases SymbolTable.mem_modify _ _ _ _ hs with h1 | ⟨s0, h1, h2⟩
    · exact Or.inr ((SymbolTable.mem_types_iff t ty).2 ⟨s, h1, e, he, hty⟩)
    · subst h2
      rcases Scope.assign_mem s0 _ _ e he with h3 | h3
      · exact Or.inr ((SymbolTable.mem_types_iff t ty).2 ⟨s0, h1, e, h3, hty⟩)
      · refine Or.inl ?_
        rw [← hty, h3]
        rfl

theorem SymbolTable.types_enterScope (t : SymbolTable) : t.enterScope.types = t.types := by
  simp [SymbolTable.types, SymbolTable.enterScope]

theorem SymbolTable.types_exitScope (t : SymbolTable) (ty : String)
    (h : ty ∈ t.exitScope.types) : ty ∈ t.types := by
  simp only [SymbolTable.exitScope] at h
  split at h
  · rw [SymbolTable.mem_types_iff] at h ⊢
    obtain ⟨s, hs, e, he, hty⟩ := h
    exact ⟨s, List.mem_of_mem_dropLast hs, e, he, hty⟩
  · exact h

theorem SymbolTable.lookup_mem_types (t : SymbolTable) (n : String) (sym : SymbolInfo)
    (h : t.lookup n = some sym) : sym.type ∈ t.types := by
  simp only [SymbolTable.lookup, SymbolTable.lookupEntry, Option.map_eq_some', Prod.exists,
    exists_eq_right] at h
  obtain ⟨i, h⟩ := h
  split at h
  · have hf := ((SymbolTable.lookupFrom_eq_some t.scopes n _ i sym).1 h).2.1
    have hm := Scope.find_mem _ _ _ hf
    rw [SymbolTable.mem_types_iff]
    rw [List.getD_eq_getElem?_getD] at hm
    cases hs : t.scopes[i]? with
    | none => simp [hs] at hm
    | some s =>
      simp only [hs, Option.getD_some] at hm
      exact ⟨s, List.getElem?_mem hs, (n, sym), hm, rfl⟩
  · exact Option.noConfusion h

theorem SymbolTable.typesClosed_declare {t : SymbolTable} (h : t.typesClosed)
    (n type k : String) (ht : isTypeName type = true) :
    (t.declare n type k).2.typesClosed := by
  intro ty hty
  rcases SymbolTable.types_declare t n type k ty hty with h1 | h1
  · rw [h1]; exact ht
  · exact h ty h1

theorem SymbolTable.typesClosed_setInitialized {t : SymbolTable} (h : t.typesClosed)
    (i : Nat) (n : String) : (t.setInitialized i n).typesClosed :=
  fun ty hty => h ty (SymbolTable.types_setInitialized t i n ty hty)

theorem SymbolTable.typesClosed_enterScope {t : SymbolTable} (h : t.typesClosed) :
    t.enterScope.typesClosed := by
  intro ty hty
  rw [SymbolTable.types_enterScope] at hty
  exact h ty hty

theorem SymbolTable.typesClosed_exitScope {t : SymbolTable} (h : t.typesClosed) :
    t.exitScope.typesClosed :=
  fun ty hty => h ty (SymbolTable.types_exitScope t ty hty)

theorem isTypeString_of_isTypeName {s : String} (h : isTypeName s = true) :
    isTypeString s = true := by
  simp [isTypeString, h]

theorem nodesClosed_cons {n : ASTNode} {l : List ASTNode} :
    nodesClosed (n :: l) ↔ isTypeString n.semanticInfo.type = true ∧ nodesClosed l := by
  simp [nodesClosed]

theorem nodesClosed_append {l1 l2 : List ASTNode} :
    nodesClosed (l1 ++ l2) ↔ nodesClosed l1 ∧ nodesClosed l2 := by
  unfold nodesClosed
  exact List.forall_mem_append

theorem nodesClosed_nil : nodesClosed [] := by
  intro n hn
  simp at hn

theorem typeNamesClosed_append {l1 l2 : List String} :
    typeNamesClosed (l1 ++ l2) ↔ typeNamesClosed l1 ∧ typeNamesClosed l2 := by
  unfold typeNamesClosed
  exact List.forall_mem_append

theorem typeNamesClosed_cons {n : String} {l : List String} :
    typeNamesClosed (n :: l) ↔ isTypeName n = true ∧ typeNamesClosed l := by
  simp [typeNamesClosed]

/-! ## Lemmas on the operator rules -/

theorem SemanticAnalyzer.isValidBinaryOperation_numericOps (op : String) (l r : TypeInfo)
    (hl : l.isValid = true) (hr : r.isValid = true)
    (hop : op ∈ ["+", "-", "*", "/", "%", "==", "!=", "<", ">", "<=", ">="]) :
    SemanticAnalyzer.isValidBinaryOperation op l r = (l.isNumeric && r.isNumeric) ∧
      op ≠ "&&" ∧ op ≠ "||" := by
  simp only [List.mem_cons, List.mem_singleton, List.mem_nil_iff, or_false] at hop
  rcases hop with h | h | h | h | h | h | h | h | h | h | h <;> subst h <;>
    refine ⟨?_, by decide, by decide⟩ <;>
    simp [SemanticAnalyzer.isValidBinaryOperation, hl, hr]

theorem SemanticAnalyzer.isValidBinaryOperation_logicOps (op : String) (l r : TypeInfo)
    (hl : l.isValid = true) (hr : r.isValid = true) (hop : op = "&&" ∨ op = "||") :
    SemanticAnalyzer.isValidBinaryOperation op l r = true := by
  rcases hop with h | h <;> subst h <;>
    simp [SemanticAnalyzer.isValidBinaryOperation, hl, hr]

theorem SemanticAnalyzer.isValidBinaryOperation_otherOps (op : String) (l r : TypeInfo)
    (hop : op ∉ ["+", "-", "*", "/", "%", "==", "!=", "<", ">", "<=", ">=", "&&", "||"]) :
    SemanticAnalyzer.isValidBinaryOperation op l r = false := by
  simp only [List.mem_cons, List.mem_singleton, List.mem_nil_iff, or_false, not_or] at hop
  obtain ⟨h1, h2, h3, h4, h5, h6, h7, h8, h9, h10, h11, h12, h13⟩ := hop
  simp [SemanticAnalyzer.isValidBinaryOperation, *]

theorem SemanticAnalyzer.getResultType_intOps (op : String) (l r : TypeInfo)
    (hop : op ∈ ["==", "!=", "<", ">", "<=", ">=", "&&", "||"]) :
    SemanticAnalyzer.getResultType op l r = "int" := by
  simp only [List.mem_cons, List.mem_singleton, List.mem_nil_iff, or_false] at hop
  rcases hop with h | h | h | h | h | h | h | h <;> subst h <;>
    simp [SemanticAnalyzer.getResultType]

/-! ## Lemmas on the traversal -/

namespace SemanticAnalyzer

@[simp] theorem addError_symbolTable (a : SemanticAnalyzer) (m t c : String) :
    (a.addError m t c).symbolTable = a.symbolTable := rfl

@[simp] theorem addError_warnings (a : SemanticAnalyzer) (m t c : String) :
    (a.addError m t c).warnings = a.warnings := rfl

@[simp] theorem addError_errors (a : SemanticAnalyzer) (m t c : String) :
    (a.addError m t c).errors = a.errors ++
      [{ message := m, errorType := t, line := a.currentLine, column := 0,
         context := if c.isEmpty then a.currentContext else c }] := rfl

@[simp] theorem addErrorDefault_symbolTable (a : SemanticAnalyzer) (m : String) :
    (a.addErrorDefault m).symbolTable = a.symbolTable := rfl

@[simp] theorem addErrorDefault_warnings (a : SemanticAnalyzer) (m : String) :
    (a.addErrorDefault m).warnings = a.warnings := rfl

@[simp] theorem addErrorDefault_errors (a : SemanticAnalyzer) (m : String) :
    (a.addErrorDefault m).errors = a.errors ++
      [{ message := m, errorType := "语义错误", line := a.currentLine, column := 0,
         context := a.currentContext }] := rfl

@[simp] theorem addWarning_symbolTable (a : SemanticAnalyzer) (m : String) :
    (a.addWarning m).symbolTable = a.symbolTable := rfl

@[simp] theorem addWarning_errors (a : SemanticAnalyzer) (m : String) :
    (a.addWarning m).errors = a.errors := rfl

@[simp] theorem addWarning_warnings (a : SemanticAnalyzer) (m : String) :
    (a.addWarning m).warnings = a.warnings ++ [m] := rfl

@[simp] theorem restoreType_symbolTable (a : SemanticAnalyzer) (t : TypeInfo) :
    (a.restoreType t).symbolTable = a.symbolTable := rfl

@[simp] theorem restoreType_errors (a : SemanticAnalyzer) (t : TypeInfo) :
    (a.restoreType t).errors = a.errors := rfl

@[simp] theorem restoreType_warnings (a : SemanticAnalyzer) (t : TypeInfo) :
    (a.restoreType t).warnings = a.warnings := rfl

theorem Step.refl (a : SemanticAnalyzer) : Step a a :=
  ⟨rfl, rfl, ⟨[], by simp⟩, ⟨[], by simp⟩⟩

theorem Step.trans {a b c : SemanticAnalyzer} (h1 : Step a b) (h2 : Step b c) : Step a c := by
  obtain ⟨n1, hn1⟩ := h1.errors
  obtain ⟨m1, hm1⟩ := h1.warnings
  obtain ⟨n2, hn2⟩ := h2.errors
  obtain ⟨m2, hm2⟩ := h2.warnings
  exact ⟨h2.currentScope.trans h1.currentScope, h2.length.trans h1.length,
    ⟨n1 ++ n2, by rw [hn2, hn1, List.append_assoc]⟩,
    ⟨m1 ++ m2, by rw [hm2, hm1, List.append_assoc]⟩⟩

theorem visitIdentifier_step (a : SemanticAnalyzer) (id : Identifier) :
    Step a (visitIdentifier a id).1 := by
  unfold visitIdentifier
  simp only
  split
  · refine ⟨?_, ?_, ?_, ?_⟩ <;> simp
  · split <;> refine ⟨?_, ?_, ?_, ?_⟩ <;> simp

theorem visitExpression_step :
    ∀ (a : SemanticAnalyzer) (e : Expression), Step a (visitExpression a e).1
  | a, .IntegerLiteral node value => by
    simp only [visitExpression]
    refine ⟨?_, ?_, ?_, ?_⟩ <;> simp
  | a, .Identifier id => by
    simp only [visitExpression]
    exact visitIdentifier_step a id
  | a, .BinaryExpression node left op right => by
    have hl := visitExpression_step
      { a with currentLine := node.lineNumber, currentContext := "二元表达式 '" ++ op ++ "'" } left
    have hr := visitExpression_step
      ((visitExpression { a with currentLine := node.lineNumber,
                                 currentContext := "二元表达式 '" ++ op ++ "'" } left).1.restoreType
        a.currentExpressionType) right
    obtain ⟨n1, hn1⟩ := hl.errors
    obtain ⟨m1, hm1⟩ := hl.warnings
    obtain ⟨n2, hn2⟩ := hr.errors
    obtain ⟨m2, hm2⟩ := hr.warnings
    have c1 := hl.currentScope
    have c2 := hr.currentScope
    have l1 := hl.length
    have l2 := hr.length
    simp only [restoreType_errors, restoreType_warnings, restoreType_symbolTable] at *
    simp only [visitExpression]
    split <;> refine ⟨?_, ?_, ?_, ?_⟩ <;> simp [*]
  | a, .UnaryExpression node op operand => by
    have ho := visitExpression_step a operand
    obtain ⟨n1, hn1⟩ := ho.errors
    obtain ⟨m1, hm1⟩ := ho.warnings
    have c1 := ho.currentScope
    have l1 := ho.length
    simp only [visitExpression]
    split <;> refine ⟨?_, ?_, ?_, ?_⟩ <;> simp [*]
  | a, .AssignmentExpression node left right => by
    have hr := visitExpression_step
      { a with currentLine := node.lineNumber, currentContext := "赋值表达式" } right
    obtain ⟨n1, hn1⟩ := hr.errors
    obtain ⟨m1, hm1⟩ := hr.warnings
    have c1 := hr.currentScope
    have l1 := hr.length
    simp only at hn1 hm1 c1 l1
    simp only [visitExpression]
    split
    · refine ⟨?_, ?_, ?_, ?_⟩ <;> simp
    · split
      · refine ⟨?_, ?_, ?_, ?_⟩ <;> simp
      · split <;> refine ⟨?_, ?_, ?_, ?_⟩ <;> simp [SymbolTable.setInitialized, *]
  | a, .FunctionCall node name arguments => by
    simp only [visitExpression]
    split
    · refine ⟨?_, ?_, ?_, ?_⟩ <;> simp
    · split <;> refine ⟨?_, ?_, ?_, ?_⟩ <;> simp

theorem Step.WF {a b : SemanticAnalyzer} (h : Step a b) (hw : a.symbolTable.WF) :
    b.symbolTable.WF := by
  obtain ⟨h0, h1⟩ := hw
  refine ⟨?_, ?_⟩
  · rw [h.currentScope]; exact h0
  · rw [h.currentScope, h.length]; exact h1

theorem Step.depth {a b : SemanticAnalyzer} (h : Step a b) :
    b.symbolTable.depth = a.symbolTable.depth := h.length

theorem declare_currentScope (t : SymbolTable) (n ty k : String) :
    (t.declare n ty k).2.currentScope = t.currentScope := by
  simp only [SymbolTable.declare]; split <;> rfl

theorem declare_length (t : SymbolTable) (n ty k : String) :
    (t.declare n ty k).2.scopes.length = t.scopes.length := by
  simp only [SymbolTable.declare]; split
  · rfl
  · simp

theorem markInitialized_step (a : SemanticAnalyzer) (n : String) :
    Step a (a.markInitialized n) := by
  unfold markInitialized
  split
  · refine ⟨?_, ?_, ?_, ?_⟩ <;> simp [SymbolTable.setInitialized]
  · exact Step.refl a

theorem declareNames_step (type : String) :
    ∀ (names : List String) (a : SemanticAnalyzer), Step a (declareNames a type names)
  | [], a => Step.refl a
  | name :: rest, a => by
    simp only [declareNames]
    refine Step.trans ?_ (declareNames_step type rest _)
    split <;> refine ⟨?_, ?_, ?_, ?_⟩ <;> simp [declare_currentScope, declare_length]

theorem getExpressionType_step (a : SemanticAnalyzer) (e : Expression) :
    Step a (getExpressionType a e).2.1 := by
  have h := visitExpression_step a e
  obtain ⟨n1, hn1⟩ := h.errors
  obtain ⟨m1, hm1⟩ := h.warnings
  refine ⟨?_, ?_, ?_, ?_⟩ <;>
    simp [getExpressionType, h.currentScope, h.length, hn1, hm1]

theorem visitInitDeclarators_step (type : String) :
    ∀ (inits : List (String × Option Expression)) (a : SemanticAnalyzer),
      Step a (visitInitDeclarators a type inits).1
  | [], a => Step.refl a
  | (name, none) :: rest, a => by
    simp only [visitInitDeclarators]
    split <;> refine Step.trans ?_ (visitInitDeclarators_step type rest _) <;>
      refine ⟨?_, ?_, ?_, ?_⟩ <;> simp [declare_currentScope, declare_length]
  | (name, some e) :: rest, a => by
    have hd : Step a { a with symbolTable := (a.symbolTable.declare name type "variable").2 } := by
      refine ⟨?_, ?_, ?_, ?_⟩ <;> simp [declare_currentScope, declare_length]
    have hg := getExpressionType_step
      { a with symbolTable := (a.symbolTable.declare name type "variable").2 } e
    simp only [visitInitDeclarators]
    split
    · refine Step.trans ?_ (visitInitDeclarators_step type rest _)
      refine ⟨?_, ?_, ?_, ?_⟩ <;> simp [declare_currentScope, declare_length]
    · refine Step.trans ?_ (visitInitDeclarators_step type rest _)
      refine hd.trans (hg.trans ?_)
      split
      · refine ⟨?_, ?_, ?_, ?_⟩ <;> simp
      · exact markInitialized_step _ _

theorem visitOptionalExpression_step (a : SemanticAnalyzer) (e : Option Expression) :
    Step a (visitOptionalExpression a e).1 := by
  cases e with
  | none => exact Step.refl a
  | some e => exact visitExpression_step a e

theorem exitScope_of_pos (t : SymbolTable) (h : 0 < t.currentScope) :
    t.exitScope.currentScope = t.currentScope - 1 ∧
      t.exitScope.scopes.length = t.scopes.length - 1 := by
  have h' : t.currentScope > 0 := h
  simp [SymbolTable.exitScope, h']

mutual

theorem visitStatement_step :
    ∀ (a : SemanticAnalyzer) (s : Statement), 0 ≤ a.symbolTable.currentScope →
      Step a (visitStatement a s).1
  | a, .ExpressionStatement node expression, _ => by
    simp only [visitStatement]
    exact visitOptionalExpression_step a expression
  | a, .VariableDeclaration node type names initDeclarators, _ => by
    simp only [visitStatement]
    refine Step.trans ?_ (visitInitDeclarators_step type initDeclarators _)
    refine Step.trans ?_ (declareNames_step type names _)
    refine ⟨?_, ?_, ?_, ?_⟩ <;> simp
  | a, .CompoundStatement node statements, h => by
    have ih := visitStatements_step { a with symbolTable := a.symbolTable.enterScope }
      statements (by simp only [SymbolTable.enterScope]; omega)
    obtain ⟨n1, hn1⟩ := ih.errors
    obtain ⟨m1, hm1⟩ := ih.warnings
    have c1 : _ = a.symbolTable.currentScope + 1 := ih.currentScope
    have l1 : _ = (a.symbolTable.scopes ++ [[]]).length := ih.length
    rw [List.length_append, List.length_singleton] at l1
    have hpos : 0 < (visitStatements { a with symbolTable := a.symbolTable.enterScope }
        statements).1.symbolTable.currentScope := by
      rw [c1]; omega
    obtain ⟨e1, e2⟩ := exitScope_of_pos _ hpos
    simp only [visitStatement]
    refine ⟨?_, ?_, ?_, ?_⟩
    · simp only [e1, c1]; omega
    · simp only [e2, l1]; omega
    · exact ⟨n1, hn1⟩
    · exact ⟨m1, hm1⟩
  | a, .IfStatement node condition thenStmt none, h => by
    have hc := visitExpression_step a condition
    have ht := visitStatement_step (visitExpression a condition).1 thenStmt
      (by rw [hc.currentScope]; exact h)
    simp only [visitStatement]
    exact hc.trans ht
  | a, .IfStatement node condition thenStmt (some elseStmt), h => by
    have hc := visitExpression_step a condition
    have ht := visitStatement_step (visitExpression a condition).1 thenStmt
      (by rw [hc.currentScope]; exact h)
    have he := visitStatement_step (visitStatement (visitExpression a condition).1 thenStmt).1
      elseStmt (by rw [ht.currentScope, hc.currentScope]; exact h)
    simp only [visitStatement]
    exact (hc.trans ht).trans he
  | a, .WhileStatement node condition body, h => by
    have hc := visitExpression_step a condition
    have hb := visitStatement_step (visitExpression a condition).1 body
      (by rw [hc.currentScope]; exact h)
    simp only [visitStatement]
    exact hc.trans hb
  | a, .ForStatement node none condition update body, h => by
    have hc := visitOptionalExpression_step a condition
    have hu := visitOptionalExpression_step (visitOptionalExpression a condition).1 update
    have hb := visitStatement_step
      (visitOptionalExpression (visitOptionalExpression a condition).1 update).1 body
      (by rw [hu.currentScope, hc.currentScope]; exact h)
    simp only [visitStatement]
    exact (hc.trans hu).trans hb
  | a, .ForStatement node (some init) condition update body, h => by
    have hi := visitStatement_step a init h
    have hc := visitOptionalExpression_step (visitStatement a init).1 condition
    have hu := visitOptionalExpression_step
      (visitOptionalExpression (visitStatement a init).1 condition).1 update
    have hb := visitStatement_step
      (visitOptionalExpression
        (visitOptionalExpression (visitStatement a init).1 condition).1 update).1 body
      (by rw [hu.currentScope, hc.currentScope, hi.currentScope]; exact h)
    simp only [visitStatement]
    exact ((hi.trans hc).trans hu).trans hb
  | a, .ReturnStatement node none, _ => by
    simp only [visitStatement]
    split <;> refine ⟨?_, ?_, ?_, ?_⟩ <;> simp
  | a, .ReturnStatement node (some value), _ => by
    have hg := getExpressionType_step { a with hasReturnStatement := true } value
    obtain ⟨n1, hn1⟩ := hg.errors
    obtain ⟨m1, hm1⟩ := hg.warnings
    have c1 := hg.currentScope
    have l1 := hg.length
    simp only at hn1 hm1 c1 l1
    simp only [visitStatement]
    split <;> refine ⟨?_, ?_, ?_, ?_⟩ <;> simp [*]

theorem visitStatements_step :
    ∀ (a : SemanticAnalyzer) (l : List Statement), 0 ≤ a.symbolTable.currentScope →
      Step a (visitStatements a l).1
  | a, [], _ => by
    simp only [visitStatements]
    exact Step.refl a
  | a, stmt :: rest, h => by
    have h1 := visitStatement_step a stmt h
    have h2 := visitStatements_step (visitStatement a stmt).1 rest
      (by rw [h1.currentScope]; exact h)
    simp only [visitStatements]
    exact h1.trans h2

end

theorem declareParameters_step :
    ∀ (params : List (String × String)) (a : SemanticAnalyzer),
      Step a (declareParameters a params)
  | [], a => Step.refl a
  | (type, name) :: rest, a => by
    have hd : Step a { a with symbolTable := (a.symbolTable.declare name type "parameter").2 } := by
      refine ⟨?_, ?_, ?_, ?_⟩ <;> simp [declare_currentScope, declare_length]
    simp only [declareParameters]
    refine Step.trans ?_ (declareParameters_step rest _)
    split
    · refine ⟨?_, ?_, ?_, ?_⟩ <;> simp [declare_currentScope, declare_length]
    · exact hd.trans (markInitialized_step _ _)

theorem visitFunctionDefinition_step (a : SemanticAnalyzer) (f : FunctionDefinition)
    (h : 0 ≤ a.symbolTable.currentScope) : Step a (visitFunctionDefinition a f).1 := by
  unfold visitFunctionDefinition
  lift_lets
  extract_lets a0 d a1 a2 a3 a4 a5 r r1 a6 a7
  have h01 : Step a a1 := by
    refine ⟨?_, ?_, ?_, ?_⟩ <;> simp [a1, a0, d, declare_currentScope, declare_length]
  have h12 : Step a1 a2 := by
    simp only [a2]
    split
    · refine ⟨?_, ?_, ?_, ?_⟩ <;> simp
    · exact Step.refl _
  have h02 := h01.trans h12
  have h34 : Step a3 a4 := declareParameters_step _ _
  have c3 : a3.symbolTable.currentScope = a2.symbolTable.currentScope + 1 := rfl
  have l3 : a3.symbolTable.scopes.length = a2.symbolTable.scopes.length + 1 := by
    simp [a3, SymbolTable.enterScope]
  have c5 : a5.symbolTable.currentScope = a4.symbolTable.currentScope + 1 := rfl
  have l5 : a5.symbolTable.scopes.length = a4.symbolTable.scopes.length + 1 := by
    simp [a5, SymbolTable.enterScope]
  have c2 := h02.currentScope
  have c4 := h34.currentScope
  have h5r : Step a5 r.1 := visitStatements_step a5 _ (by omega)
  have cr := h5r.currentScope
  obtain ⟨e6c, e6l⟩ := exitScope_of_pos r.1.symbolTable (by omega)
  have c6 : a6.symbolTable.currentScope = r.1.symbolTable.currentScope - 1 := e6c
  have l6 : a6.symbolTable.scopes.length = r.1.symbolTable.scopes.length - 1 := e6l
  have h67 : Step a6 a7 := by
    simp only [a7]
    split
    · refine ⟨?_, ?_, ?_, ?_⟩ <;> simp
    · exact Step.refl _
  have c7 := h67.currentScope
  obtain ⟨e8c, e8l⟩ := exitScope_of_pos a7.symbolTable (by omega)
  obtain ⟨n2, hn2⟩ := h02.errors
  obtain ⟨n4, hn4⟩ := h34.errors
  obtain ⟨nr, hnr⟩ := h5r.errors
  obtain ⟨n7, hn7⟩ := h67.errors
  obtain ⟨m2, hm2⟩ := h02.warnings
  obtain ⟨m4, hm4⟩ := h34.warnings
  obtain ⟨mr, hmr⟩ := h5r.warnings
  obtain ⟨m7, hm7⟩ := h67.warnings
  have e3 : a3.errors = a2.errors := rfl
  have e5 : a5.errors = a4.errors := rfl
  have e6 : a6.errors = r.1.errors := rfl
  have w3 : a3.warnings = a2.warnings := rfl
  have w5 : a5.warnings = a4.warnings := rfl
  have w6 : a6.warnings = r.1.warnings := rfl
  refine ⟨?_, ?_, ?_, ?_⟩
  · show a7.symbolTable.exitScope.currentScope = _
    omega
  · show a7.symbolTable.exitScope.scopes.length = _
    have := h02.length
    have := h34.length
    have := h5r.length
    have := h67.length
    omega
  · refine ⟨n2 ++ n4 ++ nr ++ n7, ?_⟩
    show a7.errors = _
    rw [hn7, e6, hnr, e5, hn4, e3, hn2]
    simp only [List.append_assoc]
  · refine ⟨m2 ++ m4 ++ mr ++ m7, ?_⟩
    show a7.warnings = _
    rw [hm7, w6, hmr, w5, hm4, w3, hm2]
    simp only [List.append_assoc]

theorem visitTopLevel_step (a : SemanticAnalyzer) (d : TopLevel)
    (h : 0 ≤ a.symbolTable.currentScope) : Step a (visitTopLevel a d).1 := by
  cases d with
  | FunctionDefinition f => exact visitFunctionDefinition_step a f h
  | Statement s => exact visitStatement_step a s h

theorem visitDeclarations_step :
    ∀ (l : List TopLevel) (a : SemanticAnalyzer), 0 ≤ a.symbolTable.currentScope →
      Step a (visitDeclarations a l).1
  | [], a, _ => Step.refl a
  | d :: rest, a, h => by
    have h1 := visitTopLevel_step a d h
    have h2 := visitDeclarations_step rest (visitTopLevel a d).1
      (by rw [h1.currentScope]; exact h)
    simp only [visitDeclarations]
    exact h1.trans h2

theorem visitProgram_step (a : SemanticAnalyzer) (program : Program)
    (h : 0 ≤ a.symbolTable.currentScope) : Step a (visitProgram a program).1 :=
  visitDeclarations_step program.declarations a h

/-- A step keeps the table well formed and at least as deep as it was. -/
theorem Step.WF_depth {a b : SemanticAnalyzer} (h : Step a b) (hw : a.symbolTable.WF) :
    b.symbolTable.WF ∧ a.symbolTable.depth ≤ b.symbolTable.depth :=
  ⟨h.WF hw, le_of_eq h.depth.symm⟩

mutual

theorem statementVisits_WF :
    ∀ (a : SemanticAnalyzer) (s : Statement), a.symbolTable.WF →
      ∀ p ∈ statementVisits a s,
        p.1.symbolTable.WF ∧ a.symbolTable.depth ≤ p.1.symbolTable.depth
  | a, .ExpressionStatement node expression, h, p, hp => by
    simp only [statementVisits, List.mem_singleton] at hp
    subst hp
    exact ⟨h, le_refl _⟩
  | a, .VariableDeclaration node type names initDeclarators, h, p, hp => by
    simp only [statementVisits, List.mem_singleton] at hp
    subst hp
    exact ⟨h, le_refl _⟩
  | a, .CompoundStatement node statements, h, p, hp => by
    simp only [statementVisits, List.mem_cons] at hp
    rcases hp with hp | hp
    · subst hp
      exact ⟨h, le_refl _⟩
    · have hw : SymbolTable.WF
          ({ a with symbolTable := a.symbolTable.enterScope } : SemanticAnalyzer).symbolTable :=
        SymbolTable.WF_enterScope h
      obtain ⟨h1, h2⟩ := statementsVisits_WF _ statements hw p hp
      refine ⟨h1, le_trans ?_ h2⟩
      simp [SymbolTable.depth, SymbolTable.enterScope]
  | a, .IfStatement node condition thenStmt none, h, p, hp => by
    simp only [statementVisits, List.mem_cons] at hp
    have hc := (visitExpression_step a condition).WF_depth h
    rcases hp with hp | hp
    · subst hp
      exact ⟨h, le_refl _⟩
    · obtain ⟨h1, h2⟩ := statementVisits_WF _ thenStmt hc.1 p hp
      exact ⟨h1, le_trans hc.2 h2⟩
  | a, .IfStatement node condition thenStmt (some elseStmt), h, p, hp => by
    simp only [statementVisits, List.mem_cons, List.mem_append] at hp
    have hc := (visitExpression_step a condition).WF_depth h
    have ht := (visitStatement_step (visitExpression a condition).1 thenStmt hc.1.1).WF_depth hc.1
    rcases hp with hp | hp | hp
    · subst hp
      exact ⟨h, le_refl _⟩
    · obtain ⟨h1, h2⟩ := statementVisits_WF _ thenStmt hc.1 p hp
      exact ⟨h1, le_trans hc.2 h2⟩
    · obtain ⟨h1, h2⟩ := statementVisits_WF _ elseStmt ht.1 p hp
      exact ⟨h1, le_trans hc.2 (le_trans ht.2 h2)⟩
  | a, .WhileStatement node condition body, h, p, hp => by
    simp only [statementVisits, List.mem_cons] at hp
    have hc := (visitExpression_step a condition).WF_depth h
    rcases hp with hp | hp
    · subst hp
      exact ⟨h, le_refl _⟩
    · obtain ⟨h1, h2⟩ := statementVisits_WF _ body hc.1 p hp
      exact ⟨h1, le_trans hc.2 h2⟩
  | a, .ForStatement node none condition update body, h, p, hp => by
    simp only [statementVisits, List.mem_cons] at hp
    have hc := (visitOptionalExpression_step a condition).WF_depth h
    have hu := (visitOptionalExpression_step (visitOptionalExpression a condition).1
      update).WF_depth hc.1
    rcases hp with hp | hp
    · subst hp
      exact ⟨h, le_refl _⟩
    · obtain ⟨h1, h2⟩ := statementVisits_WF _ body hu.1 p hp
      exact ⟨h1, le_trans hc.2 (le_trans hu.2 h2)⟩
  | a, .ForStatement node (some init) condition update body, h, p, hp => by
    simp only [statementVisits, List.mem_cons, List.mem_append] at hp
    have hi := (visitStatement_step a init h.1).WF_depth h
    have hc := (visitOptionalExpression_step (visitStatement a init).1 condition).WF_depth hi.1
    have hu := (visitOptionalExpression_step
      (visitOptionalExpression (visitStatement a init).1 condition).1 update).WF_depth hc.1
    rcases hp with hp | hp | hp
    · subst hp
      exact ⟨h, le_refl _⟩
    · exact statementVisits_WF _ init h p hp
    · obtain ⟨h1, h2⟩ := statementVisits_WF _ body hu.1 p hp
      exact ⟨h1, le_trans hi.2 (le_trans hc.2 (le_trans hu.2 h2))⟩
  | a, .ReturnStatement node value, h, p, hp => by
    simp only [statementVisits, List.mem_singleton] at hp
    subst hp
    exact ⟨h, le_refl _⟩

theorem statementsVisits_WF :
    ∀ (a : SemanticAnalyzer) (l : List Statement), a.symbolTable.WF →
      ∀ p ∈ statementsVisits a l,
        p.1.symbolTable.WF ∧ a.symbolTable.depth ≤ p.1.symbolTable.depth
  | a, [], _, p, hp => by
    simp only [statementsVisits, List.not_mem_nil] at hp
  | a, stmt :: rest, h, p, hp => by
    simp only [statementsVisits, List.mem_append] at hp
    have hs := (visitStatement_step a stmt h.1).WF_depth h
    rcases hp with hp | hp
    · exact statementVisits_WF a stmt h p hp
    · obtain ⟨h1, h2⟩ := statementsVisits_WF _ rest hs.1 p hp
      exact ⟨h1, le_trans hs.2 h2⟩

end

/-- The visit of an expression changes no declared type: what `lookup` finds for a name
has the same type afterwards. -/
theorem visitExpression_lookup_type :
    ∀ (a : SemanticAnalyzer) (e : Expression) (m : String),
      ((visitExpression a e).1.symbolTable.lookup m).map SymbolInfo.type =
        (a.symbolTable.lookup m).map SymbolInfo.type
  | a, .IntegerLiteral node value, m => by
    simp only [visitExpression]
  | a, .Identifier id, m => by
    simp only [visitExpression, visitIdentifier]
    split
    · rfl
    · split <;> rfl
  | a, .BinaryExpression node left op right, m => by
    have hl := visitExpression_lookup_type
      { a with currentLine := node.lineNumber, currentContext := "二元表达式 '" ++ op ++ "'" }
      left m
    have hr := visitExpression_lookup_type
      ((visitExpression { a with currentLine := node.lineNumber,
                                 currentContext := "二元表达式 '" ++ op ++ "'" } left).1.restoreType
        a.currentExpressionType) right m
    simp only [restoreType_symbolTable] at hl hr
    simp only [visitExpression]
    split <;> simp [hr, hl]
  | a, .UnaryExpression node op operand, m => by
    have ho := visitExpression_lookup_type a operand m
    simp only [visitExpression]
    split <;> simp [ho]
  | a, .AssignmentExpression node left right, m => by
    have hr := visitExpression_lookup_type
      { a with currentLine := node.lineNumber, currentContext := "赋值表达式" } right m
    simp only at hr
    simp only [visitExpression]
    split
    · rfl
    · split
      · rfl
      · split
        · simp [hr]
        · simp [SymbolTable.lookup_type_setInitialized, hr]
  | a, .FunctionCall node name arguments, m => by
    simp only [visitExpression]
    split
    · rfl
    · split <;> rfl

theorem visitIdentifier_annotates (a : SemanticAnalyzer) (id : Identifier) :
    (a.symbolTable.lookup id.name = none ∧
      (visitIdentifier a id).2.node.semanticInfo.hasSemanticError = true) ∨
    ∃ symbol, a.symbolTable.lookup id.name = some symbol ∧
      (visitIdentifier a id).2.node.semanticInfo.type = symbol.type ∧
      (visitIdentifier a id).2.node.semanticInfo.symbolKind = symbol.kind ∧
      (visitIdentifier a id).2.node.semanticInfo.scopeLevel = symbol.scopeLevel ∧
      (visitIdentifier a id).2.node.semanticInfo.isInitialized = symbol.isInitialized := by
  cases hl : a.symbolTable.lookup id.name with
  | none =>
    refine Or.inl ⟨rfl, ?_⟩
    simp [visitIdentifier, hl]
  | some symbol =>
    refine Or.inr ⟨symbol, rfl, ?_⟩
    simp [visitIdentifier, hl]

theorem visitIdentifier_name (a : SemanticAnalyzer) (id : Identifier) :
    (visitIdentifier a id).2.name = id.name := by
  simp only [visitIdentifier]
  split <;> rfl

theorem operandIdentifiers_annotated :
    ∀ (e : Expression) (a : SemanticAnalyzer),
      ∀ id ∈ (visitExpression a e).2.operandIdentifiers,
        id.node.semanticInfo.hasSemanticError = true ∨
        (a.symbolTable.lookup id.name).map SymbolInfo.type = some id.node.semanticInfo.type ∨
        id ∈ e.operandIdentifiers
  | .IntegerLiteral node value, a, id, hid => by
    simp [visitExpression, Expression.operandIdentifiers] at hid
  | .Identifier i, a, id, hid => by
    simp only [visitExpression, Expression.operandIdentifiers, List.mem_singleton] at hid
    subst hid
    rcases visitIdentifier_annotates a i with ⟨_, h⟩ | ⟨symbol, h1, h2, _⟩
    · exact Or.inl h
    · refine Or.inr (Or.inl ?_)
      rw [visitIdentifier_name, h1, h2]
      rfl
  | .BinaryExpression node left op right, a, id, hid => by
    have ihl := operandIdentifiers_annotated left
      { a with currentLine := node.lineNumber, currentContext := "二元表达式 '" ++ op ++ "'" } id
    have ihr := operandIdentifiers_annotated right
      ((visitExpression { a with currentLine := node.lineNumber,
                                 currentContext := "二元表达式 '" ++ op ++ "'" } left).1.restoreType
        a.currentExpressionType) id
    have hty := visitExpression_lookup_type
      { a with currentLine := node.lineNumber, currentContext := "二元表达式 '" ++ op ++ "'" }
      left id.name
    simp only [restoreType_symbolTable] at ihr
    simp only [visitExpression] at hid
    simp only [Expression.operandIdentifiers, List.mem_append]
    split at hid <;>
      (simp only [Expression.operandIdentifiers, List.mem_append] at hid
       rcases hid with h | h
       · rcases ihl h with h1 | h1 | h1
         · exact Or.inl h1
         · exact Or.inr (Or.inl h1)
         · exact Or.inr (Or.inr (Or.inl h1))
       · rcases ihr h with h1 | h1 | h1
         · exact Or.inl h1
         · exact Or.inr (Or.inl (hty.symm.trans h1))
         · exact Or.inr (Or.inr (Or.inr h1)))
  | .UnaryExpression node op operand, a, id, hid => by
    have ih := operandIdentifiers_annotated operand a id
    simp only [visitExpression] at hid
    simp only [Expression.operandIdentifiers]
    split at hid <;> exact ih hid
  | .AssignmentExpression node left right, a, id, hid => by
    have ih := operandIdentifiers_annotated right
      { a with currentLine := node.lineNumber, currentContext := "赋值表达式" } id
    simp only [visitExpression] at hid
    simp only [Expression.operandIdentifiers]
    split at hid
    · exact Or.inr (Or.inr hid)
    · split at hid
      · exact Or.inr (Or.inr hid)
      · split at hid <;> exact ih hid
  | .FunctionCall node name arguments, a, id, hid => by
    simp only [visitExpression] at hid
    split at hid
    · exact Or.inr (Or.inr hid)
    · split at hid <;> exact Or.inr (Or.inr hid)

theorem isValidUnaryOperation_valid (op : String) (t : TypeInfo)
    (h : isValidUnaryOperation op t = true) : t.isValid = true := by
  cases hv : t.isValid with
  | true => rfl
  | false => simp [isValidUnaryOperation, hv] at h

/-- An expression type is invalid only when the visit that produced it ended by
recording an error. -/
theorem invalid_type_has_error :
    ∀ (a : SemanticAnalyzer) (e : Expression),
      (visitExpression a e).1.currentExpressionType.isValid = true ∨
        a.errors.length < (visitExpression a e).1.errors.length
  | a, .IntegerLiteral node value => by
    simp only [visitExpression]
    exact Or.inl rfl
  | a, .Identifier id => by
    simp only [visitExpression, visitIdentifier]
    split
    · exact Or.inr (by simp)
    · exact Or.inl rfl
  | a, .BinaryExpression node left op right => by
    have hl := visitExpression_step
      { a with currentLine := node.lineNumber, currentContext := "二元表达式 '" ++ op ++ "'" } left
    have hr := visitExpression_step
      ((visitExpression { a with currentLine := node.lineNumber,
                                 currentContext := "二元表达式 '" ++ op ++ "'" } left).1.restoreType
        a.currentExpressionType) right
    obtain ⟨n1, hn1⟩ := hl.errors
    obtain ⟨n2, hn2⟩ := hr.errors
    simp only [restoreType_errors] at hn1 hn2
    simp only [visitExpression]
    split
    · refine Or.inr ?_
      simp only [addError_errors, restoreType_errors, hn2, hn1, List.length_append,
        List.length_singleton]
      omega
    · exact Or.inl rfl
  | a, .UnaryExpression node op operand => by
    have ho := visitExpression_step a operand
    obtain ⟨n1, hn1⟩ := ho.errors
    simp only [visitExpression]
    split
    · refine Or.inr ?_
      simp only [addErrorDefault_errors, restoreType_errors, hn1, List.length_append,
        List.length_singleton]
      omega
    · rename_i hc
      have hc' : isValidUnaryOperation op
          (visitExpression a operand).1.currentExpressionType = true := by
        cases hv : isValidUnaryOperation op (visitExpression a operand).1.currentExpressionType
        · simp [hv] at hc
        · rfl
      exact Or.inl (isValidUnaryOperation_valid _ _ hc')
  | a, .AssignmentExpression node left right => by
    have hr := visitExpression_step
      { a with currentLine := node.lineNumber, currentContext := "赋值表达式" } right
    obtain ⟨n1, hn1⟩ := hr.errors
    simp only at hn1
    simp only [visitExpression]
    split
    · exact Or.inr (by simp)
    · split
      · exact Or.inr (by simp)
      · split
        · refine Or.inr ?_
          simp only [addError_errors, restoreType_errors, hn1, List.length_append,
            List.length_singleton]
          omega
        · exact Or.inl rfl
  | a, .FunctionCall node name arguments => by
    simp only [visitExpression]
    split
    · exact Or.inr (by simp)
    · split
      · exact Or.inr (by simp)
      · exact Or.inl rfl

@[simp] theorem addError_returnType (a : SemanticAnalyzer) (m t c : String) :
    (a.addError m t c).currentFunctionReturnType = a.currentFunctionReturnType := rfl

@[simp] theorem addError_hasReturn (a : SemanticAnalyzer) (m t c : String) :
    (a.addError m t c).hasReturnStatement = a.hasReturnStatement := rfl

@[simp] theorem addErrorDefault_returnType (a : SemanticAnalyzer) (m : String) :
    (a.addErrorDefault m).currentFunctionReturnType = a.currentFunctionReturnType := rfl

@[simp] theorem addErrorDefault_hasReturn (a : SemanticAnalyzer) (m : String) :
    (a.addErrorDefault m).hasReturnStatement = a.hasReturnStatement := rfl

@[simp] theorem addWarning_returnType (a : SemanticAnalyzer) (m : String) :
    (a.addWarning m).currentFunctionReturnType = a.currentFunctionReturnType := rfl

@[simp] theorem addWarning_hasReturn (a : SemanticAnalyzer) (m : String) :
    (a.addWarning m).hasReturnStatement = a.hasReturnStatement := rfl

@[simp] theorem restoreType_returnType (a : SemanticAnalyzer) (t : TypeInfo) :
    (a.restoreType t).currentFunctionReturnType = a.currentFunctionReturnType := rfl

@[simp] theorem restoreType_hasReturn (a : SemanticAnalyzer) (t : TypeInfo) :
    (a.restoreType t).hasReturnStatement = a.hasReturnStatement := rfl

/-- What an expression visit never touches: the return type of the enclosing function
and the flag for a return statement seen. -/
theorem visitExpression_frame :
    ∀ (a : SemanticAnalyzer) (e : Expression),
      (visitExpression a e).1.currentFunctionReturnType = a.currentFunctionReturnType ∧
      (visitExpression a e).1.hasReturnStatement = a.hasReturnStatement
  | a, .IntegerLiteral node value => by
    simp [visitExpression]
  | a, .Identifier id => by
    simp only [visitExpression, visitIdentifier]
    split
    · exact ⟨rfl, rfl⟩
    · split <;> exact ⟨rfl, rfl⟩
  | a, .BinaryExpression node left op right => by
    have hl := visitExpression_frame
      { a with currentLine := node.lineNumber, currentContext := "二元表达式 '" ++ op ++ "'" } left
    have hr := visitExpression_frame
      ((visitExpression { a with currentLine := node.lineNumber,
                                 currentContext := "二元表达式 '" ++ op ++ "'" } left).1.restoreType
        a.currentExpressionType) right
    simp only [restoreType_returnType, restoreType_hasReturn] at hl hr
    simp only [visitExpression]
    split <;> simp [hr.1, hr.2, hl.1, hl.2]
  | a, .UnaryExpression node op operand => by
    have ho := visitExpression_frame a operand
    simp only [visitExpression]
    split <;> simp [ho.1, ho.2]
  | a, .AssignmentExpression node left right => by
    have hr := visitExpression_frame
      { a with currentLine := node.lineNumber, currentContext := "赋值表达式" } right
    simp only at hr
    simp only [visitExpression]
    split
    · exact ⟨rfl, rfl⟩
    · split
      · exact ⟨rfl, rfl⟩
      · split <;> simp [hr.1, hr.2]
  | a, .FunctionCall node name arguments => by
    simp only [visitExpression]
    split
    · exact ⟨rfl, rfl⟩
    · split <;> exact ⟨rfl, rfl⟩

theorem getExpressionType_frame (a : SemanticAnalyzer) (e : Expression) :
    (getExpressionType a e).2.1.currentFunctionReturnType = a.currentFunctionReturnType ∧
    (getExpressionType a e).2.1.hasReturnStatement = a.hasReturnStatement := by
  have h := visitExpression_frame a e
  exact ⟨h.1, h.2⟩

/-- An expression visit changes neither the scope in which a name is found nor the
declared type and kind found there. -/
theorem visitExpression_lookupEntry_shape :
    ∀ (a : SemanticAnalyzer) (e : Expression) (m : String),
      ((visitExpression a e).1.symbolTable.lookupEntry m).map
          (fun p => (p.1, p.2.type, p.2.kind)) =
        (a.symbolTable.lookupEntry m).map (fun p => (p.1, p.2.type, p.2.kind))
  | a, .IntegerLiteral node value, m => by
    simp only [visitExpression]
  | a, .Identifier id, m => by
    simp only [visitExpression, visitIdentifier]
    split
    · rfl
    · split <;> rfl
  | a, .BinaryExpression node left op right, m => by
    have hl := visitExpression_lookupEntry_shape
      { a with currentLine := node.lineNumber, currentContext := "二元表达式 '" ++ op ++ "'" }
      left m
    have hr := visitExpression_lookupEntry_shape
      ((visitExpression { a with currentLine := node.lineNumber,
                                 currentContext := "二元表达式 '" ++ op ++ "'" } left).1.restoreType
        a.currentExpressionType) right m
    simp only [restoreType_symbolTable] at hl hr
    simp only [visitExpression]
    split <;> simp [hr, hl]
  | a, .UnaryExpression node op operand, m => by
    have ho := visitExpression_lookupEntry_shape a operand m
    simp only [visitExpression]
    split <;> simp [ho]
  | a, .AssignmentExpression node left right, m => by
    have hr := visitExpression_lookupEntry_shape
      { a with currentLine := node.lineNumber, currentContext := "赋值表达式" } right m
    simp only at hr
    simp only [visitExpression]
    split
    · rfl
    · split
      · rfl
      · split
        · simp [hr]
        · simp [SymbolTable.lookupEntry_shape_setInitialized, hr]
  | a, .FunctionCall node name arguments, m => by
    simp only [visitExpression]
    split
    · rfl
    · split <;> rfl

theorem lookupEntry_after_expression (a : SemanticAnalyzer) (e : Expression) (m : String)
    (i : Nat) (symbol : SymbolInfo) (h : a.symbolTable.lookupEntry m = some (i, symbol)) :
    ∃ symbol', (visitExpression a e).1.symbolTable.lookupEntry m = some (i, symbol') ∧
      symbol'.type = symbol.type ∧ symbol'.kind = symbol.kind := by
  have hshape := visitExpression_lookupEntry_shape a e m
  rw [h] at hshape
  cases hl : (visitExpression a e).1.symbolTable.lookupEntry m with
  | none => rw [hl] at hshape; simp at hshape
  | some p =>
    obtain ⟨j, sym1⟩ := p
    rw [hl] at hshape
    simp only [Option.map_some', Option.some.injEq, Prod.mk.injEq] at hshape
    obtain ⟨hj, ht, hkk⟩ := hshape
    subst hj
    exact ⟨sym1, rfl, ht, hkk⟩

/-- Tables that agree on where a name is found and on the kind found there have the same
unreached identifiers. -/
theorem unreachedIdentifiers_congr (t t' : SymbolTable)
    (h : ∀ m, (t'.lookupEntry m).map (fun p => (p.1, p.2.type, p.2.kind)) =
      (t.lookupEntry m).map (fun p => (p.1, p.2.type, p.2.kind))) :
    ∀ e : Expression, e.unreachedIdentifiers t' = e.unreachedIdentifiers t
  | .IntegerLiteral _ _ => rfl
  | .Identifier _ => rfl
  | .BinaryExpression _ left _ right => by
    simp only [Expression.unreachedIdentifiers, unreachedIdentifiers_congr t t' h left,
      unreachedIdentifiers_congr t t' h right]
  | .UnaryExpression _ _ operand => by
    simp only [Expression.unreachedIdentifiers, unreachedIdentifiers_congr t t' h operand]
  | .AssignmentExpression _ left right => by
    have hm := h left.name
    have ih := unreachedIdentifiers_congr t t' h right
    simp only [Expression.unreachedIdentifiers]
    cases h1 : t'.lookupEntry left.name with
    | none =>
      cases h2 : t.lookupEntry left.name with
      | none => rfl
      | some p => rw [h1, h2] at hm; simp at hm
    | some p' =>
      cases h2 : t.lookupEntry left.name with
      | none => rw [h1, h2] at hm; simp at hm
      | some p =>
        rw [h1, h2] at hm
        simp only [Option.map_some', Option.some.injEq, Prod.mk.injEq] at hm
        obtain ⟨_, _, hk⟩ := hm
        simp only [hk, ih]
  | .FunctionCall _ _ _ => rfl

/-- The unreached identifiers after an expression visit are those before it. -/
theorem unreachedIdentifiers_after (a : SemanticAnalyzer) (e e' : Expression) :
    e'.unreachedIdentifiers (visitExpression a e).1.symbolTable =
      e'.unreachedIdentifiers a.symbolTable :=
  unreachedIdentifiers_congr _ _ (visitExpression_lookupEntry_shape a e) e'

/-- In the tree an expression visit returns, an identifier in operand position is flagged,
or carries the declared type of its symbol, or is one the visit did not reach. -/
theorem operandIdentifiers_reached :
    ∀ (e : Expression) (a : SemanticAnalyzer),
      ∀ id ∈ (visitExpression a e).2.operandIdentifiers,
        id.node.semanticInfo.hasSemanticError = true ∨
        (a.symbolTable.lookup id.name).map SymbolInfo.type = some id.node.semanticInfo.type ∨
        id ∈ e.unreachedIdentifiers a.symbolTable
  | .IntegerLiteral node value, a, id, hid => by
    simp [visitExpression, Expression.operandIdentifiers] at hid
  | .Identifier i, a, id, hid => by
    simp only [visitExpression, Expression.operandIdentifiers, List.mem_singleton] at hid
    subst hid
    rcases visitIdentifier_annotates a i with ⟨_, h⟩ | ⟨symbol, h1, h2, _⟩
    · exact Or.inl h
    · refine Or.inr (Or.inl ?_)
      rw [visitIdentifier_name, h1, h2]
      rfl
  | .BinaryExpression node left op right, a, id, hid => by
    have ihl := operandIdentifiers_reached left
      { a with currentLine := node.lineNumber, currentContext := "二元表达式 '" ++ op ++ "'" } id
    have ihr := operandIdentifiers_reached right
      ((visitExpression { a with currentLine := node.lineNumber,
                                 currentContext := "二元表达式 '" ++ op ++ "'" } left).1.restoreType
        a.currentExpressionType) id
    have hty := visitExpression_lookup_type
      { a with currentLine := node.lineNumber, currentContext := "二元表达式 '" ++ op ++ "'" }
      left id.name
    have hun := unreachedIdentifiers_after
      { a with currentLine := node.lineNumber, currentContext := "二元表达式 '" ++ op ++ "'" }
      left right
    simp only [restoreType_symbolTable] at ihr
    simp only [visitExpression] at hid
    simp only [Expression.unreachedIdentifiers, List.mem_append]
    split at hid <;>
      (simp only [Expression.operandIdentifiers, List.mem_append] at hid
       rcases hid with h | h
       · rcases ihl h with h1 | h1 | h1
         · exact Or.inl h1
         · exact Or.inr (Or.inl h1)
         · exact Or.inr (Or.inr (Or.inl h1))
       · rcases ihr h with h1 | h1 | h1
         · exact Or.inl h1
         · exact Or.inr (Or.inl (hty.symm.trans h1))
         · exact Or.inr (Or.inr (Or.inr (hun ▸ h1))))
  | .UnaryExpression node op operand, a, id, hid => by
    have ih := operandIdentifiers_reached operand a id
    simp only [visitExpression] at hid
    simp only [Expression.unreachedIdentifiers]
    split at hid <;> exact ih hid
  | .AssignmentExpression node left right, a, id, hid => by
    have ih := operandIdentifiers_reached right
      { a with currentLine := node.lineNumber, currentContext := "赋值表达式" } id
    simp only [visitExpression] at hid
    split at hid
    · rename_i hl
      have hl1 : a.symbolTable.lookupEntry left.name = none := hl
      simp only [Expression.unreachedIdentifiers, hl1]
      exact Or.inr (Or.inr hid)
    · rename_i i symbol hl
      have hl1 : a.symbolTable.lookupEntry left.name = some (i, symbol) := hl
      split at hid
      · rename_i hk
        simp only [Expression.unreachedIdentifiers, hl1, hk, if_true]
        exact Or.inr (Or.inr hid)
      · rename_i hk
        simp only [Expression.unreachedIdentifiers, hl1, hk, if_false]
        split at hid <;> exact ih hid
  | .FunctionCall node name arguments, a, id, hid => by
    simp only [visitExpression] at hid
    split at hid
    · simp [Expression.operandIdentifiers] at hid
    · split at hid <;> simp [Expression.operandIdentifiers] at hid

/-- The identifiers an expression visit does not reach are in the tree it returns, as
they were in the tree visited. -/
theorem unreachedIdentifiers_kept :
    ∀ (e : Expression) (a : SemanticAnalyzer),
      ∀ id ∈ e.unreachedIdentifiers a.symbolTable,
        id ∈ e.operandIdentifiers ∧ id ∈ (visitExpression a e).2.operandIdentifiers
  | .IntegerLiteral node value, a, id, hid => by
    simp [Expression.unreachedIdentifiers] at hid
  | .Identifier i, a, id, hid => by
    simp [Expression.unreachedIdentifiers] at hid
  | .BinaryExpression node left op right, a, id, hid => by
    have ihl := unreachedIdentifiers_kept left
      { a with currentLine := node.lineNumber, currentContext := "二元表达式 '" ++ op ++ "'" } id
    have ihr := unreachedIdentifiers_kept right
      ((visitExpression { a with currentLine := node.lineNumber,
                                 currentContext := "二元表达式 '" ++ op ++ "'" } left).1.restoreType
        a.currentExpressionType) id
    have hun := unreachedIdentifiers_after
      { a with currentLine := node.lineNumber, currentContext := "二元表达式 '" ++ op ++ "'" }
      left right
    simp only [restoreType_symbolTable] at ihr
    rw [hun] at ihr
    simp only [Expression.unreachedIdentifiers, List.mem_append] at hid
    simp only [visitExpression, Expression.operandIdentifiers, List.mem_append]
    rcases hid with h | h
    · have := ihl h
      split <;> simp only [Expression.operandIdentifiers, List.mem_append] <;>
        exact ⟨Or.inl this.1, Or.inl this.2⟩
    · have := ihr h
      split <;> simp only [Expression.operandIdentifiers, List.mem_append] <;>
        exact ⟨Or.inr this.1, Or.inr this.2⟩
  | .UnaryExpression node op operand, a, id, hid => by
    have ih := unreachedIdentifiers_kept operand a id
    simp only [Expression.unreachedIdentifiers] at hid
    simp only [visitExpression, Expression.operandIdentifiers]
    split <;> exact ih hid
  | .AssignmentExpression node left right, a, id, hid => by
    have ih := unreachedIdentifiers_kept right
      { a with currentLine := node.lineNumber, currentContext := "赋值表达式" } id
    cases hl : a.symbolTable.lookupEntry left.name with
    | none =>
      have hl0 : ({ a with currentLine := node.lineNumber, currentContext := "赋值表达式" }
          : SemanticAnalyzer).symbolTable.lookupEntry left.name = none := hl
      simp only [Expression.unreachedIdentifiers, hl] at hid
      simp only [visitExpression, hl0, Expression.operandIdentifiers]
      exact ⟨hid, hid⟩
    | some p =>
      obtain ⟨i, symbol⟩ := p
      have hl0 : ({ a with currentLine := node.lineNumber, currentContext := "赋值表达式" }
          : SemanticAnalyzer).symbolTable.lookupEntry left.name = some (i, symbol) := hl
      cases hk : (symbol.kind != "variable" && symbol.kind != "parameter") with
      | true =>
        simp only [Expression.unreachedIdentifiers, hl, hk, if_true] at hid
        simp only [visitExpression, hl0, hk, if_true, Expression.operandIdentifiers]
        exact ⟨hid, hid⟩
      | false =>
        simp only [Expression.unreachedIdentifiers, hl, hk, Bool.false_eq_true, if_false] at hid
        simp only [visitExpression, hl0, hk, Bool.false_eq_true, if_false]
        split <;> exact ih hid
  | .FunctionCall node name arguments, a, id, hid => by
    simp [Expression.unreachedIdentifiers] at hid

theorem markInitialized_frame (a : SemanticAnalyzer) (n : String) :
    (a.markInitialized n).currentFunctionReturnType = a.currentFunctionReturnType ∧
    (a.markInitialized n).hasReturnStatement = a.hasReturnStatement ∧
    (a.markInitialized n).errors = a.errors ∧
    (a.markInitialized n).warnings = a.warnings := by
  unfold markInitialized
  split <;> exact ⟨rfl, rfl, rfl, rfl⟩

theorem declareNames_frame (type : String) :
    ∀ (names : List String) (a : SemanticAnalyzer),
      (declareNames a type names).currentFunctionReturnType = a.currentFunctionReturnType ∧
      (declareNames a type names).hasReturnStatement = a.hasReturnStatement
  | [], a => ⟨rfl, rfl⟩
  | name :: rest, a => by
    simp only [declareNames]
    split
    · have ih := declareNames_frame type rest
        (({ a with symbolTable := (a.symbolTable.declare name type "variable").2 }
          : SemanticAnalyzer).addError ("重复声明变量 '" ++ name ++ "'") "重复声明错误" "变量声明")
      exact ih
    · exact declareNames_frame type rest
        { a with symbolTable := (a.symbolTable.declare name type "variable").2 }

theorem visitInitDeclarators_frame (type : String) :
    ∀ (inits : List (String × Option Expression)) (a : SemanticAnalyzer),
      (visitInitDeclarators a type inits).1.currentFunctionReturnType =
          a.currentFunctionReturnType ∧
      (visitInitDeclarators a type inits).1.hasReturnStatement = a.hasReturnStatement
  | [], a => ⟨rfl, rfl⟩
  | (name, none) :: rest, a => by
    simp only [visitInitDeclarators]
    split
    · exact visitInitDeclarators_frame type rest
        (({ a with symbolTable := (a.symbolTable.declare name type "variable").2 }
          : SemanticAnalyzer).addError ("重复声明变量 '" ++ name ++ "'") "重复声明错误" "变量声明")
    · exact visitInitDeclarators_frame type rest
        { a with symbolTable := (a.symbolTable.declare name type "variable").2 }
  | (name, some e) :: rest, a => by
    have hg := getExpressionType_frame
      { a with symbolTable := (a.symbolTable.declare name type "variable").2 } e
    simp only [visitInitDeclarators]
    split
    · exact visitInitDeclarators_frame type rest
        (({ a with symbolTable := (a.symbolTable.declare name type "variable").2 }
          : SemanticAnalyzer).addError ("重复声明变量 '" ++ name ++ "'") "重复声明错误" "变量声明")
    · split
      · have ih := visitInitDeclarators_frame type rest
          ((getExpressionType
            { a with symbolTable := (a.symbolTable.declare name type "variable").2 }
            e).2.1.addError
            ("初始化类型不匹配: 不能将 " ++ (getExpressionType
              { a with symbolTable := (a.symbolTable.declare name type "variable").2 }
              e).1.baseType ++ " 赋值给 " ++ (TypeInfo.ofType type).baseType)
            "类型错误" "变量初始化")
        simp only [addError_returnType, addError_hasReturn] at ih
        exact ⟨ih.1.trans hg.1, ih.2.trans hg.2⟩
      · have ih := visitInitDeclarators_frame type rest
          ((getExpressionType
            { a with symbolTable := (a.symbolTable.declare name type "variable").2 }
            e).2.1.markInitialized name)
        have hm := markInitialized_frame (getExpressionType
            { a with symbolTable := (a.symbolTable.declare name type "variable").2 }
            e).2.1 name
        exact ⟨ih.1.trans (hm.1.trans hg.1), ih.2.trans (hm.2.1.trans hg.2)⟩

theorem visitOptionalExpression_frame (a : SemanticAnalyzer) (e : Option Expression) :
    (visitOptionalExpression a e).1.currentFunctionReturnType = a.currentFunctionReturnType ∧
    (visitOptionalExpression a e).1.hasReturnStatement = a.hasReturnStatement := by
  cases e with
  | none => exact ⟨rfl, rfl⟩
  | some e => exact visitExpression_frame a e

mutual

/-- The flag is set after the visit of a statement exactly when it was set before or a
return statement occurs in the statement. -/
theorem visitStatement_hasReturn :
    ∀ (a : SemanticAnalyzer) (s : Statement),
      (visitStatement a s).1.hasReturnStatement = (a.hasReturnStatement || s.containsReturn)
  | a, .ExpressionStatement node expression => by
    simp only [visitStatement, Statement.containsReturn, Bool.or_false]
    exact (visitOptionalExpression_frame a expression).2
  | a, .VariableDeclaration node type names initDeclarators => by
    simp only [visitStatement, Statement.containsReturn, Bool.or_false]
    rw [(visitInitDeclarators_frame type initDeclarators _).2, (declareNames_frame type names _).2]
  | a, .CompoundStatement node statements => by
    have ih := visitStatements_hasReturn
      { a with symbolTable := a.symbolTable.enterScope } statements
    simp only [visitStatement, Statement.containsReturn]
    exact ih
  | a, .IfStatement node condition thenStmt none => by
    have hc := (visitExpression_frame a condition).2
    have ht := visitStatement_hasReturn (visitExpression a condition).1 thenStmt
    simp only [visitStatement, Statement.containsReturn]
    rw [ht, hc]
  | a, .IfStatement node condition thenStmt (some elseStmt) => by
    have hc := (visitExpression_frame a condition).2
    have ht := visitStatement_hasReturn (visitExpression a condition).1 thenStmt
    have he := visitStatement_hasReturn
      (visitStatement (visitExpression a condition).1 thenStmt).1 elseStmt
    simp only [visitStatement, Statement.containsReturn]
    rw [he, ht, hc, Bool.or_assoc]
  | a, .WhileStatement node condition body => by
    have hc := (visitExpression_frame a condition).2
    have hb := visitStatement_hasReturn (visitExpression a condition).1 body
    simp only [visitStatement, Statement.containsReturn]
    rw [hb, hc]
  | a, .ForStatement node none condition update body => by
    have hc := (visitOptionalExpression_frame a condition).2
    have hu := (visitOptionalExpression_frame (visitOptionalExpression a condition).1 update).2
    have hb := visitStatement_hasReturn
      (visitOptionalExpression (visitOptionalExpression a condition).1 update).1 body
    simp only [visitStatement, Statement.containsReturn]
    rw [hb, hu, hc]
  | a, .ForStatement node (some init) condition update body => by
    have hi := visitStatement_hasReturn a init
    have hc := (visitOptionalExpression_frame (visitStatement a init).1 condition).2
    have hu := (visitOptionalExpression_frame
      (visitOptionalExpression (visitStatement a init).1 condition).1 update).2
    have hb := visitStatement_hasReturn
      (visitOptionalExpression
        (visitOptionalExpression (visitStatement a init).1 condition).1 update).1 body
    simp only [visitStatement, Statement.containsReturn]
    rw [hb, hu, hc, hi, Bool.or_assoc]
  | a, .ReturnStatement node none => by
    simp only [visitStatement, Statement.containsReturn, Bool.or_true]
    split <;> rfl
  | a, .ReturnStatement node (some value) => by
    have hg := (getExpressionType_frame { a with hasReturnStatement := true } value).2
    simp only [visitStatement, Statement.containsReturn, Bool.or_true]
    split
    · simp only [addErrorDefault_hasReturn]
      exact hg
    · exact hg

theorem visitStatements_hasReturn :
    ∀ (a : SemanticAnalyzer) (l : List Statement),
      (visitStatements a l).1.hasReturnStatement =
        (a.hasReturnStatement || Statement.containsReturnList l)
  | a, [] => by
    simp [visitStatements, Statement.containsReturnList]
  | a, stmt :: rest => by
    have h1 := visitStatement_hasReturn a stmt
    have h2 := visitStatements_hasReturn (visitStatement a stmt).1 rest
    simp only [visitStatements, Statement.containsReturnList]
    rw [h2, h1, Bool.or_assoc]

end

theorem declareParameters_frame :
    ∀ (params : List (String × String)) (a : SemanticAnalyzer),
      (declareParameters a params).currentFunctionReturnType = a.currentFunctionReturnType ∧
      (declareParameters a params).hasReturnStatement = a.hasReturnStatement
  | [], a => ⟨rfl, rfl⟩
  | (type, name) :: rest, a => by
    simp only [declareParameters]
    split
    · exact declareParameters_frame rest
        (({ a with symbolTable := (a.symbolTable.declare name type "parameter").2 }
          : SemanticAnalyzer).addError ("重复声明参数 '" ++ name ++ "'") "重复声明错误" "函数参数")
    · have ih := declareParameters_frame rest
        (({ a with symbolTable := (a.symbolTable.declare name type "parameter").2 }
          : SemanticAnalyzer).markInitialized name)
      have hm := markInitialized_frame
        ({ a with symbolTable := (a.symbolTable.declare name type "parameter").2 }
          : SemanticAnalyzer) name
      exact ⟨ih.1.trans hm.1, ih.2.trans hm.2.1⟩

theorem enterFunction_frame (a : SemanticAnalyzer) (f : FunctionDefinition) :
    (enterFunction a f).currentFunctionReturnType = f.returnType ∧
    (enterFunction a f).hasReturnStatement = false := by
  unfold enterFunction
  exact declareParameters_frame f.parameters _

theorem getResultType_isTypeName (op : String) (l r : TypeInfo) :
    isTypeName (getResultType op l r) = true := by
  simp only [getResultType]
  split
  · decide
  · split
    · decide
    · split <;> decide

theorem visitIdentifier_closed (a : SemanticAnalyzer) (id : Identifier)
    (ht : a.symbolTable.typesClosed)
    (hn : isTypeString id.node.semanticInfo.type = true) :
    (visitIdentifier a id).1.symbolTable = a.symbolTable ∧
    isTypeString (visitIdentifier a id).2.node.semanticInfo.type = true := by
  cases hl : a.symbolTable.lookup id.name with
  | none =>
    have h' : ({ a with currentLine := id.node.lineNumber,
                        currentContext := "标识符 '" ++ id.name ++ "'" }
        : SemanticAnalyzer).symbolTable.lookup id.name = none := hl
    simp only [visitIdentifier, h']
    exact ⟨rfl, hn⟩
  | some symbol =>
    have h' : ({ a with currentLine := id.node.lineNumber,
                        currentContext := "标识符 '" ++ id.name ++ "'" }
        : SemanticAnalyzer).symbolTable.lookup id.name = some symbol := hl
    have hty := isTypeString_of_isTypeName
      (ht _ (SymbolTable.lookup_mem_types _ _ _ hl))
    simp only [visitIdentifier, h']
    refine ⟨?_, hty⟩
    split <;> rfl

/-- An expression visit keeps the declared types of the table in the closed set and the
type strings of the nodes in the closed set or empty. -/
theorem visitExpression_closed :
    ∀ (a : SemanticAnalyzer) (e : Expression),
      a.symbolTable.typesClosed → nodesClosed e.nodes →
        (visitExpression a e).1.symbolTable.typesClosed ∧
        nodesClosed (visitExpression a e).2.nodes
  | a, .IntegerLiteral node value, ht, _ => by
    simp only [visitExpression, Expression.nodes]
    refine ⟨ht, ?_⟩
    intro n hn
    simp only [List.mem_singleton] at hn
    subst hn
    rfl
  | a, .Identifier id, ht, hn => by
    have h := visitIdentifier_closed a id ht
      (hn id.node (by simp [Expression.nodes]))
    simp only [visitExpression, Expression.nodes]
    refine ⟨?_, ?_⟩
    · rw [h.1]; exact ht
    · intro n hm
      simp only [List.mem_singleton] at hm
      subst hm
      exact h.2
  | a, .BinaryExpression node left op right, ht, hn => by
    simp only [Expression.nodes, nodesClosed_cons, nodesClosed_append] at hn
    obtain ⟨h0, hnl, hnr⟩ := hn
    have ihl := visitExpression_closed
      { a with currentLine := node.lineNumber, currentContext := "二元表达式 '" ++ op ++ "'" }
      left ht hnl
    have ihr := visitExpression_closed
      ((visitExpression { a with currentLine := node.lineNumber,
                                 currentContext := "二元表达式 '" ++ op ++ "'" } left).1.restoreType
        a.currentExpressionType) right ihl.1 hnr
    simp only [visitExpression]
    split
    · simp only [Expression.nodes, nodesClosed_cons, nodesClosed_append]
      exact ⟨ihr.1, h0, ihl.2, ihr.2⟩
    · simp only [Expression.nodes, nodesClosed_cons, nodesClosed_append]
      exact ⟨ihr.1, isTypeString_of_isTypeName (getResultType_isTypeName _ _ _), ihl.2, ihr.2⟩
  | a, .UnaryExpression node op operand, ht, hn => by
    simp only [Expression.nodes, nodesClosed_cons] at hn
    obtain ⟨h0, hno⟩ := hn
    have ih := visitExpression_closed a operand ht hno
    simp only [visitExpression]
    split <;>
      (simp only [Expression.nodes, nodesClosed_cons]
       exact ⟨ih.1, h0, ih.2⟩)
  | a, .AssignmentExpression node left right, ht, hn => by
    simp only [Expression.nodes, nodesClosed_cons] at hn
    obtain ⟨h0, h1, hnr⟩ := hn
    have ih := visitExpression_closed
      { a with currentLine := node.lineNumber, currentContext := "赋值表达式" } right ht hnr
    simp only [visitExpression]
    split
    · simp only [Expression.nodes, nodesClosed_cons]
      exact ⟨ht, h0, h1, hnr⟩
    · split
      · simp only [Expression.nodes, nodesClosed_cons]
        exact ⟨ht, h0, h1, hnr⟩
      · split
        · simp only [Expression.nodes, nodesClosed_cons]
          exact ⟨ih.1, h0, h1, ih.2⟩
        · simp only [Expression.nodes, nodesClosed_cons]
          exact ⟨SymbolTable.typesClosed_setInitialized ih.1 _ _, h0, h1, ih.2⟩
  | a, .FunctionCall node name arguments, ht, hn => by
    simp only [visitExpression]
    split
    · exact ⟨ht, hn⟩
    · split <;> exact ⟨ht, hn⟩

theorem getExpressionType_closed (a : SemanticAnalyzer) (e : Expression)
    (ht : a.symbolTable.typesClosed) (hn : nodesClosed e.nodes) :
    (getExpressionType a e).2.1.symbolTable.typesClosed ∧
    nodesClosed (getExpressionType a e).2.2.nodes :=
  visitExpression_closed a e ht hn

theorem visitOptionalExpression_closed (a : SemanticAnalyzer) (e : Option Expression)
    (ht : a.symbolTable.typesClosed) (hn : nodesClosed (Expression.nodesOfOption e)) :
    (visitOptionalExpression a e).1.symbolTable.typesClosed ∧
    nodesClosed (Expression.nodesOfOption (visitOptionalExpression a e).2) := by
  cases e with
  | none => exact ⟨ht, hn⟩
  | some e => exact visitExpression_closed a e ht hn

theorem markInitialized_closed (a : SemanticAnalyzer) (n : String)
    (ht : a.symbolTable.typesClosed) : (a.markInitialized n).symbolTable.typesClosed := by
  unfold markInitialized
  split
  · exact SymbolTable.typesClosed_setInitialized ht _ _
  · exact ht

theorem declareNames_closed (type : String) (hty : isTypeName type = true) :
    ∀ (names : List String) (a : SemanticAnalyzer), a.symbolTable.typesClosed →
      (declareNames a type names).symbolTable.typesClosed
  | [], _, ht => ht
  | name :: rest, a, ht => by
    have hd := SymbolTable.typesClosed_declare ht name type "variable" hty
    simp only [declareNames]
    split
    · exact declareNames_closed type hty rest _ hd
    · exact declareNames_closed type hty rest _ hd

theorem visitInitDeclarators_closed (type : String) (hty : isTypeName type = true) :
    ∀ (inits : List (String × Option Expression)) (a : SemanticAnalyzer),
      a.symbolTable.typesClosed → nodesClosed (Expression.nodesOfInit inits) →
        (visitInitDeclarators a type inits).1.symbolTable.typesClosed ∧
        nodesClosed (Expression.nodesOfInit (visitInitDeclarators a type inits).2)
  | [], _, ht, hn => ⟨ht, hn⟩
  | (name, none) :: rest, a, ht, hn => by
    have hd := SymbolTable.typesClosed_declare ht name type "variable" hty
    simp only [Expression.nodesOfInit, Expression.nodesOfOption, List.nil_append] at hn
    simp only [visitInitDeclarators]
    split
    · have ih := visitInitDeclarators_closed type hty rest
        (({ a with symbolTable := (a.symbolTable.declare name type "variable").2 }
          : SemanticAnalyzer).addError ("重复声明变量 '" ++ name ++ "'") "重复声明错误" "变量声明")
        hd hn
      simp only [Expression.nodesOfInit, Expression.nodesOfOption, List.nil_append]
      exact ih
    · have ih := visitInitDeclarators_closed type hty rest
        { a with symbolTable := (a.symbolTable.declare name type "variable").2 } hd hn
      simp only [Expression.nodesOfInit, Expression.nodesOfOption, List.nil_append]
      exact ih
  | (name, some e) :: rest, a, ht, hn => by
    have hd := SymbolTable.typesClosed_declare ht name type "variable" hty
    simp only [Expression.nodesOfInit, Expression.nodesOfOption, nodesClosed_append] at hn
    obtain ⟨hne, hnr⟩ := hn
    have hg := getExpressionType_closed
      { a with symbolTable := (a.symbolTable.declare name type "variable").2 } e hd hne
    simp only [visitInitDeclarators]
    split
    · have ih := visitInitDeclarators_closed type hty rest
        (({ a with symbolTable := (a.symbolTable.declare name type "variable").2 }
          : SemanticAnalyzer).addError ("重复声明变量 '" ++ name ++ "'") "重复声明错误" "变量声明")
        hd hnr
      simp only [Expression.nodesOfInit, Expression.nodesOfOption, nodesClosed_append]
      exact ⟨ih.1, hne, ih.2⟩
    · split
      · have ih := visitInitDeclarators_closed type hty rest
          ((getExpressionType
            { a with symbolTable := (a.symbolTable.declare name type "variable").2 }
            e).2.1.addError
            ("初始化类型不匹配: 不能将 " ++ (getExpressionType
              { a with symbolTable := (a.symbolTable.declare name type "variable").2 }
              e).1.baseType ++ " 赋值给 " ++ (TypeInfo.ofType type).baseType)
            "类型错误" "变量初始化") hg.1 hnr
        simp only [Expression.nodesOfInit, Expression.nodesOfOption, nodesClosed_append]
        exact ⟨ih.1, hg.2, ih.2⟩
      · have ih := visitInitDeclarators_closed type hty rest
          ((getExpressionType
            { a with symbolTable := (a.symbolTable.declare name type "variable").2 }
            e).2.1.markInitialized name) (markInitialized_closed _ _ hg.1) hnr
        simp only [Expression.nodesOfInit, Expression.nodesOfOption, nodesClosed_append]
        exact ⟨ih.1, hg.2, ih.2⟩

mutual

/-- A statement visit keeps the declared types of the table and the type strings of the
nodes in the closed set when the type names of its declarations are in it. -/
theorem visitStatement_closed :
    ∀ (a : SemanticAnalyzer) (s : Statement),
      a.symbolTable.typesClosed → typeNamesClosed s.typeNames → nodesClosed s.nodes →
        (visitStatement a s).1.symbolTable.typesClosed ∧
        nodesClosed (visitStatement a s).2.nodes
  | a, .ExpressionStatement node expression, ht, _, hn => by
    simp only [Statement.nodes, nodesClosed_cons] at hn
    have h := visitOptionalExpression_closed a expression ht hn.2
    simp only [visitStatement, Statement.nodes, nodesClosed_cons]
    exact ⟨h.1, hn.1, h.2⟩
  | a, .VariableDeclaration node type names initDeclarators, ht, hty, hn => by
    simp only [Statement.nodes, nodesClosed_cons] at hn
    simp only [Statement.typeNames, typeNamesClosed_cons] at hty
    have h1 := declareNames_closed type hty.1 names
      { a with currentLine := node.lineNumber, currentContext := "变量声明" } ht
    have h2 := visitInitDeclarators_closed type hty.1 initDeclarators _ h1 hn.2
    simp only [visitStatement, Statement.nodes, nodesClosed_cons]
    exact ⟨h2.1, hn.1, h2.2⟩
  | a, .CompoundStatement node statements, ht, hty, hn => by
    simp only [Statement.nodes, nodesClosed_cons] at hn
    simp only [Statement.typeNames] at hty
    have ih := visitStatements_closed
      { a with symbolTable := a.symbolTable.enterScope } statements
      (SymbolTable.typesClosed_enterScope ht) hty hn.2
    simp only [visitStatement, Statement.nodes, nodesClosed_cons]
    exact ⟨SymbolTable.typesClosed_exitScope ih.1, hn.1, ih.2⟩
  | a, .IfStatement node condition thenStmt none, ht, hty, hn => by
    simp only [Statement.nodes, nodesClosed_cons, nodesClosed_append] at hn
    simp only [Statement.typeNames] at hty
    have hc := visitExpression_closed a condition ht hn.2.1
    have h1 := visitStatement_closed (visitExpression a condition).1 thenStmt hc.1 hty hn.2.2
    simp only [visitStatement, Statement.nodes, nodesClosed_cons, nodesClosed_append]
    exact ⟨h1.1, hn.1, hc.2, h1.2⟩
  | a, .IfStatement node condition thenStmt (some elseStmt), ht, hty, hn => by
    simp only [Statement.nodes, nodesClosed_cons, nodesClosed_append] at hn
    simp only [Statement.typeNames, typeNamesClosed_append] at hty
    have hc := visitExpression_closed a condition ht hn.2.1.1
    have h1 := visitStatement_closed (visitExpression a condition).1 thenStmt hc.1 hty.1
      hn.2.1.2
    have h2 := visitStatement_closed
      (visitStatement (visitExpression a condition).1 thenStmt).1 elseStmt h1.1 hty.2 hn.2.2
    simp only [visitStatement, Statement.nodes, nodesClosed_cons, nodesClosed_append]
    exact ⟨h2.1, hn.1, ⟨hc.2, h1.2⟩, h2.2⟩
  | a, .WhileStatement node condition body, ht, hty, hn => by
    simp only [Statement.nodes, nodesClosed_cons, nodesClosed_append] at hn
    simp only [Statement.typeNames] at hty
    have hc := visitExpression_closed a condition ht hn.2.1
    have h1 := visitStatement_closed (visitExpression a condition).1 body hc.1 hty hn.2.2
    simp only [visitStatement, Statement.nodes, nodesClosed_cons, nodesClosed_append]
    exact ⟨h1.1, hn.1, hc.2, h1.2⟩
  | a, .ForStatement node none condition update body, ht, hty, hn => by
    simp only [Statement.nodes, nodesClosed_cons, nodesClosed_append] at hn
    simp only [Statement.typeNames] at hty
    have hc := visitOptionalExpression_closed a condition ht hn.2.1.1
    have hu := visitOptionalExpression_closed (visitOptionalExpression a condition).1 update
      hc.1 hn.2.1.2
    have hb := visitStatement_closed
      (visitOptionalExpression (visitOptionalExpression a condition).1 update).1 body
      hu.1 hty hn.2.2
    simp only [visitStatement, Statement.nodes, nodesClosed_cons, nodesClosed_append]
    exact ⟨hb.1, hn.1, ⟨hc.2, hu.2⟩, hb.2⟩
  | a, .ForStatement node (some init) condition update body, ht, hty, hn => by
    simp only [Statement.nodes, nodesClosed_cons, nodesClosed_append] at hn
    simp only [Statement.typeNames, typeNamesClosed_append] at hty
    have hi := visitStatement_closed a init ht hty.1 hn.2.1.1.1
    have hc := visitOptionalExpression_closed (visitStatement a init).1 condition
      hi.1 hn.2.1.1.2
    have hu := visitOptionalExpression_closed
      (visitOptionalExpression (visitStatement a init).1 condition).1 update hc.1 hn.2.1.2
    have hb := visitStatement_closed
      (visitOptionalExpression
        (visitOptionalExpression (visitStatement a init).1 condition).1 update).1 body
      hu.1 hty.2 hn.2.2
    simp only [visitStatement, Statement.nodes, nodesClosed_cons, nodesClosed_append]
    exact ⟨hb.1, hn.1, ⟨⟨hi.2, hc.2⟩, hu.2⟩, hb.2⟩
  | a, .ReturnStatement node none, ht, _, hn => by
    simp only [visitStatement]
    split <;> exact ⟨ht, hn⟩
  | a, .ReturnStatement node (some value), ht, _, hn => by
    simp only [Statement.nodes, nodesClosed_cons, Expression.nodesOfOption] at hn
    have hg := getExpressionType_closed { a with hasReturnStatement := true } value ht hn.2
    simp only [visitStatement]
    split <;>
      (simp only [Statement.nodes, nodesClosed_cons, Expression.nodesOfOption]
       exact ⟨hg.1, hn.1, hg.2⟩)

theorem visitStatements_closed :
    ∀ (a : SemanticAnalyzer) (l : List Statement),
      a.symbolTable.typesClosed → typeNamesClosed (Statement.typeNamesOfList l) →
      nodesClosed (Statement.nodesOfList l) →
        (visitStatements a l).1.symbolTable.typesClosed ∧
        nodesClosed (Statement.nodesOfList (visitStatements a l).2)
  | a, [], ht, _, hn => ⟨ht, hn⟩
  | a, stmt :: rest, ht, hty, hn => by
    simp only [Statement.nodesOfList, nodesClosed_append] at hn
    simp only [Statement.typeNamesOfList, typeNamesClosed_append] at hty
    have h1 := visitStatement_closed a stmt ht hty.1 hn.1
    have h2 := visitStatements_closed (visitStatement a stmt).1 rest h1.1 hty.2 hn.2
    simp only [visitStatements, Statement.nodesOfList, nodesClosed_append]
    exact ⟨h2.1, h1.2, h2.2⟩

end

theorem declareParameters_closed :
    ∀ (params : List (String × String)) (a : SemanticAnalyzer),
      a.symbolTable.typesClosed → typeNamesClosed (params.map Prod.fst) →
        (declareParameters a params).symbolTable.typesClosed
  | [], _, ht, _ => ht
  | (type, name) :: rest, a, ht, hty => by
    simp only [List.map_cons, typeNamesClosed_cons] at hty
    have hd := SymbolTable.typesClosed_declare ht name type "parameter" hty.1
    simp only [declareParameters]
    split
    · exact declareParameters_closed rest _ hd hty.2
    · exact declareParameters_closed rest _
        (markInitialized_closed
          ({ a with symbolTable := (a.symbolTable.declare name type "parameter").2 }
            : SemanticAnalyzer) name hd) hty.2

theorem ite_symbolTable (c : Prop) [Decidable c] (x y : SemanticAnalyzer)
    (h : x.symbolTable = y.symbolTable) :
    (if c then x else y).symbolTable = y.symbolTable := by
  split
  · exact h
  · rfl

theorem enterFunction_closed (a : SemanticAnalyzer) (f : FunctionDefinition)
    (ht : a.symbolTable.typesClosed) (hr : isTypeName f.returnType = true)
    (hp : typeNamesClosed (f.parameters.map Prod.fst)) :
    (enterFunction a f).symbolTable.typesClosed := by
  have hd := SymbolTable.typesClosed_declare ht f.name f.returnType "function" hr
  unfold enterFunction
  refine declareParameters_closed f.parameters _ ?_ hp
  refine SymbolTable.typesClosed_enterScope ?_
  show SymbolTable.typesClosed (ite _ _ _ : SemanticAnalyzer).symbolTable
  split
  · rw [addError_symbolTable]; exact hd
  · exact hd

theorem visitFunctionDefinition_eq (a : SemanticAnalyzer) (f : FunctionDefinition) :
    (visitFunctionDefinition a f).1.symbolTable =
      (visitStatement (enterFunction a f)
        (.CompoundStatement f.bodyNode f.bodyStatements)).1.symbolTable.exitScope ∧
    (visitFunctionDefinition a f).2 =
      { f with bodyStatements := (visitStatements
          { enterFunction a f with symbolTable := (enterFunction a f).symbolTable.enterScope }
          f.bodyStatements).2 } := by
  refine ⟨?_, rfl⟩
  unfold visitFunctionDefinition
  simp only [visitStatement]
  show SymbolTable.exitScope (ite _ (addWarning _ _) _ : SemanticAnalyzer).symbolTable = _
  rw [ite_symbolTable _ _ _ (addWarning_symbolTable _ _)]
  rfl

theorem visitFunctionDefinition_closed (a : SemanticAnalyzer) (f : FunctionDefinition)
    (ht : a.symbolTable.typesClosed) (hty : typeNamesClosed f.typeNames)
    (hn : nodesClosed f.nodes) :
    (visitFunctionDefinition a f).1.symbolTable.typesClosed ∧
    nodesClosed (visitFunctionDefinition a f).2.nodes := by
  simp only [FunctionDefinition.typeNames, typeNamesClosed_cons, typeNamesClosed_append] at hty
  simp only [FunctionDefinition.nodes, nodesClosed_cons] at hn
  have he := enterFunction_closed a f ht hty.1 hty.2.1
  have hb := visitStatements_closed
    { enterFunction a f with symbolTable := (enterFunction a f).symbolTable.enterScope }
    f.bodyStatements (SymbolTable.typesClosed_enterScope he) hty.2.2 hn.2.2
  obtain ⟨h1, h2⟩ := visitFunctionDefinition_eq a f
  rw [h1, h2]
  refine ⟨SymbolTable.typesClosed_exitScope ?_, ?_⟩
  · simp only [visitStatement]
    exact SymbolTable.typesClosed_exitScope hb.1
  · simp only [FunctionDefinition.nodes, nodesClosed_cons]
    exact ⟨hn.1, hn.2.1, hb.2⟩

theorem visitTopLevel_closed (a : SemanticAnalyzer) (d : TopLevel)
    (ht : a.symbolTable.typesClosed) (hty : typeNamesClosed d.typeNames)
    (hn : nodesClosed d.nodes) :
    (visitTopLevel a d).1.symbolTable.typesClosed ∧
    nodesClosed (visitTopLevel a d).2.nodes := by
  cases d with
  | FunctionDefinition f => exact visitFunctionDefinition_closed a f ht hty hn
  | Statement s => exact visitStatement_closed a s ht hty hn

theorem visitDeclarations_closed :
    ∀ (l : List TopLevel) (a : SemanticAnalyzer),
      a.symbolTable.typesClosed → typeNamesClosed (TopLevel.typeNamesOfList l) →
      nodesClosed (TopLevel.nodesOfList l) →
        (visitDeclarations a l).1.symbolTable.typesClosed ∧
        nodesClosed (TopLevel.nodesOfList (visitDeclarations a l).2)
  | [], _, ht, _, hn => ⟨ht, hn⟩
  | d :: rest, a, ht, hty, hn => by
    simp only [TopLevel.nodesOfList, nodesClosed_append] at hn
    simp only [TopLevel.typeNamesOfList, typeNamesClosed_append] at hty
    have h1 := visitTopLevel_closed a d ht hty.1 hn.1
    have h2 := visitDeclarations_closed rest (visitTopLevel a d).1 h1.1 hty.2 hn.2
    simp only [visitDeclarations, TopLevel.nodesOfList, nodesClosed_append]
    exact ⟨h2.1, h1.2, h2.2⟩

end SemanticAnalyzer

/-! ## Symbol table: C1, C2, C3 -/

/-- C1: on a well-formed table `declare` returns false exactly when the current (top)
scope already has an entry for the name, whatever the outer scopes hold; when it
returns false the table is unchanged; when it returns true the scope index and every
other scope are unchanged and the current scope has gained one entry for the name,
with the given type and kind, `scopeLevel` the current scope index and
`isInitialized` false. -/
theorem SymbolTable.declare_spec (t : SymbolTable) (name type kind : String) (h : t.WF) :
    ((t.declare name type kind).1 = false ↔
        ∃ sym, Scope.find (t.scopeAt t.currentScope.toNat) name = some sym) ∧
    ((t.declare name type kind).1 = false → (t.declare name type kind).2 = t) ∧
    ((t.declare name type kind).1 = true →
        (t.declare name type kind).2.currentScope = t.currentScope ∧
        (t.declare name type kind).2.scopes =
          t.scopes.set t.currentScope.toNat
            (t.scopeAt t.currentScope.toNat ++
              [(name, { name := name, type := type, kind := kind,
                        scopeLevel := t.currentScope, isInitialized := false })]) ∧
        (t.declare name type kind).2.lookupInCurrentScope name =
          some { name := name, type := type, kind := kind,
                 scopeLevel := t.currentScope, isInitialized := false } ∧
        ∀ other, other ≠ name →
          (t.declare name type kind).2.lookupInCurrentScope other =
            t.lookupInCurrentScope other) := by
  obtain ⟨outer, top, hs, hc⟩ := h.split
  obtain ⟨scopes, cur⟩ := t
  simp only at hs hc
  subst hs hc
  have hcur := SymbolTable.scopeAt_current outer top
  have h0 : (outer.length : Int) ≥ 0 := Int.natCast_nonneg _
  rw [SymbolTable.declare_split]
  simp only [hcur]
  cases hf : Scope.find top name with
  | some sym => simp
  | none =>
    simp only [Option.isSome_none, Bool.false_eq_true, if_false, Bool.true_eq_false, false_iff,
      not_exists, false_implies, true_implies, Int.toNat_ofNat, SymbolTable.lookupInCurrentScope,
      h0, if_true, SymbolTable.scopeAt_length]
    refine ⟨by simp, trivial, trivial, ?_, ?_, ?_⟩
    · simp [SymbolInfo.new]
    · rw [Scope.find_append_of_none _ _ _ hf]
      simp [SymbolInfo.new]
    · intro other hne
      exact Scope.find_append_of_ne top other _ (Ne.symm hne)

/-- Witness for C1: with `x` declared in the global scope only, declaring `x` in the
empty inner scope succeeds and adds the entry there; declaring it again fails. -/
theorem SymbolTable.declare_spec_witness :
    Examples.shadowTable.WF ∧
    (Examples.shadowTable.declare "x" "char" "variable").1 = true ∧
    ((Examples.shadowTable.declare "x" "char" "variable").2.currentScope = 1 ∧
      (Examples.shadowTable.declare "x" "char" "variable").2.scopes =
        [[("x", SymbolInfo.new "x" "int" "variable" 0)],
         [("x", SymbolInfo.new "x" "char" "variable" 1)]] ∧
      (Examples.shadowTable.declare "x" "char" "variable").2.lookupInCurrentScope "x" =
        some (SymbolInfo.new "x" "char" "variable" 1)) ∧
    (Examples.shadowTable.declare "x" "char" "variable").2.lookupInCurrentScope "y" =
      Examples.shadowTable.lookupInCurrentScope "y" ∧
    ((Examples.shadowTable.declare "x" "char" "variable").2.declare "x" "int" "variable").1
      = false ∧
    ((Examples.shadowTable.declare "x" "char" "variable").2.declare "x" "int" "variable").2 =
      (Examples.shadowTable.declare "x" "char" "variable").2 :=
  ⟨by decide, by decide,
   ⟨((SymbolTable.declare_spec Examples.shadowTable "x" "char" "variable" (by decide)).2.2
      (by decide)).1,
    ((SymbolTable.declare_spec Examples.shadowTable "x" "char" "variable" (by decide)).2.2
      (by decide)).2.1,
    ((SymbolTable.declare_spec Examples.shadowTable "x" "char" "variable" (by decide)).2.2
      (by decide)).2.2.1⟩,
   ((SymbolTable.declare_spec Examples.shadowTable "x" "char" "variable" (by decide)).2.2
      (by decide)).2.2.2 "y" (by decide),
   by decide,
   (SymbolTable.declare_spec (Examples.shadowTable.declare "x" "char" "variable").2
      "x" "int" "variable" (by decide)).2.1 (by decide)⟩

/-- C2: on a well-formed table `lookup` returns the entry of the innermost
(highest-index) scope that has the name, and returns null exactly when no scope on the
stack has it; a name declared in a freshly entered scope is what `lookup` then returns,
shadowing any outer declaration, and after `exitScope` `lookup` returns what it
returned before the scope was entered. -/
theorem SymbolTable.lookup_spec (t : SymbolTable) (name : String) (h : t.WF) :
    (∀ sym, t.lookup name = some sym ↔
        ∃ i, i < t.scopes.length ∧ Scope.find (t.scopeAt i) name = some sym ∧
          ∀ j, i < j → j < t.scopes.length → Scope.find (t.scopeAt j) name = none) ∧
    (t.lookup name = none ↔
        ∀ i, i < t.scopes.length → Scope.find (t.scopeAt i) name = none) ∧
    (∀ type kind,
        (t.enterScope.declare name type kind).1 = true ∧
        (t.enterScope.declare name type kind).2.lookup name =
          some { name := name, type := type, kind := kind,
                 scopeLevel := t.currentScope + 1, isInitialized := false } ∧
        (t.enterScope.declare name type kind).2.exitScope.lookup name = t.lookup name) := by
  have hwf := h
  obtain ⟨h0, h1⟩ := h
  have hlen : t.currentScope.toNat + 1 = t.scopes.length := by omega
  refine ⟨?_, ?_, ?_⟩
  · intro sym
    simp only [SymbolTable.lookup, SymbolTable.lookupEntry, ge_iff_le, h0, if_true,
      Option.map_eq_some', Prod.exists, exists_eq_right, SymbolTable.scopeAt, hlen]
    exact exists_congr fun i => SymbolTable.lookupFrom_eq_some t.scopes name _ i sym
  · simp only [SymbolTable.lookup, SymbolTable.lookupEntry, ge_iff_le, h0, if_true,
      Option.map_eq_none', SymbolTable.scopeAt, hlen]
    exact SymbolTable.lookupFrom_eq_none t.scopes name _
  · intro type kind
    have hd := SymbolTable.declare_enterScope_fst t name type kind hwf
    have hwe := SymbolTable.WF_enterScope hwf
    have hpos : 0 < t.enterScope.currentScope := by
      simp only [SymbolTable.enterScope]; omega
    refine ⟨hd, ?_, ?_⟩
    · rw [SymbolTable.lookup_declare _ _ _ _ hwe hd]
      rfl
    · rw [SymbolTable.exitScope_declare _ _ _ _ hwe hpos,
        SymbolTable.exitScope_enterScope _ h0]

/-- Witness for C2: the global `int x` is shadowed by an inner `char x` and comes back
after `exitScope`; an undeclared name gives null. -/
theorem SymbolTable.lookup_spec_witness :
    Examples.withGlobals.symbolTable.WF ∧
    Examples.withGlobals.symbolTable.lookup "x" =
      some { name := "x", type := "int", kind := "variable", scopeLevel := 0,
             isInitialized := true } ∧
    ((Examples.withGlobals.symbolTable.enterScope.declare "x" "char" "variable").1 = true ∧
      (Examples.withGlobals.symbolTable.enterScope.declare "x" "char" "variable").2.lookup "x" =
        some { name := "x", type := "char", kind := "variable", scopeLevel := 0 + 1,
               isInitialized := false } ∧
      (Examples.withGlobals.symbolTable.enterScope.declare "x" "char"
          "variable").2.exitScope.lookup "x" =
        Examples.withGlobals.symbolTable.lookup "x") ∧
    Examples.withGlobals.symbolTable.lookup "y" = none :=
  ⟨by decide, by decide,
   (SymbolTable.lookup_spec Examples.withGlobals.symbolTable "x" (by decide)).2.2
      "char" "variable",
   (SymbolTable.lookup_spec Examples.withGlobals.symbolTable "y" (by decide)).2.1.2
      (by decide)⟩

/-- C3: `exitScope` leaves a table whose current scope is the global scope (index 0)
unchanged; on any other table it removes exactly the top scope and decrements the
index, and every outer scope stays as it was. -/
theorem SymbolTable.exitScope_spec (t : SymbolTable) (h : t.WF) :
    (t.currentScope = 0 → t.exitScope = t) ∧
    (t.currentScope ≠ 0 →
        t.exitScope.currentScope = t.currentScope - 1 ∧
        (∃ top, t.scopes = t.exitScope.scopes ++ [top]) ∧
        t.exitScope.scopes.length + 1 = t.scopes.length ∧
        ∀ i, i < t.exitScope.scopes.length → t.exitScope.scopeAt i = t.scopeAt i) := by
  obtain ⟨outer, top, hs, hc⟩ := h.split
  obtain ⟨scopes, cur⟩ := t
  simp only at hs hc
  subst hs hc
  refine ⟨?_, ?_⟩
  · intro h0
    simp only at h0
    simp [SymbolTable.exitScope, h0]
  · intro hne
    simp only at hne
    have hne2 : outer ≠ [] := by
      rintro rfl
      simp at hne
    rw [SymbolTable.exitScope_split _ _ hne2]
    refine ⟨rfl, ⟨top, rfl⟩, by simp, ?_⟩
    intro i hi
    simp only at hi
    simp [SymbolTable.scopeAt, List.getD_eq_getElem?_getD, List.getElem?_append_left hi]

/-- Witness for C3: the fresh table, and a table with one inner scope. -/
theorem SymbolTable.exitScope_spec_witness :
    SymbolTable.new.WF ∧ SymbolTable.new.enterScope.WF ∧
    SymbolTable.new.exitScope = SymbolTable.new ∧
    SymbolTable.new.enterScope.exitScope.currentScope =
      SymbolTable.new.enterScope.currentScope - 1 ∧
    SymbolTable.new.enterScope.exitScope.scopes.length + 1 =
      SymbolTable.new.enterScope.scopes.length ∧
    SymbolTable.new.enterScope.exitScope.scopeAt 0 = SymbolTable.new.enterScope.scopeAt 0 :=
  ⟨by decide, by decide,
   (SymbolTable.exitScope_spec SymbolTable.new (by decide)).1 (by decide),
   ((SymbolTable.exitScope_spec SymbolTable.new.enterScope (by decide)).2 (by decide)).1,
   ((SymbolTable.exitScope_spec SymbolTable.new.enterScope (by decide)).2 (by decide)).2.2.1,
   ((SymbolTable.exitScope_spec SymbolTable.new.enterScope (by decide)).2 (by decide)).2.2.2
      0 (by decide)⟩

/-! ## Traversal: C4, C5, C6 -/

namespace SemanticAnalyzer

/-- C4: started from a well-formed table (the shape of every table the analyzer can
reach), the visit of any statement ends with the scope stack as deep as it started; and
every statement visited on the way, at any nesting depth, starts with a stack of depth
at least 1 (and at least the starting depth) and ends at the depth it started with. -/
theorem scope_depth_preserved (a : SemanticAnalyzer) (s : Statement)
    (h : a.symbolTable.WF) :
    (visitStatement a s).1.symbolTable.depth = a.symbolTable.depth ∧
    1 ≤ a.symbolTable.depth ∧
    ∀ p ∈ statementVisits a s,
      1 ≤ p.1.symbolTable.depth ∧
      a.symbolTable.depth ≤ p.1.symbolTable.depth ∧
      (visitStatement p.1 p.2).1.symbolTable.depth = p.1.symbolTable.depth := by
  have hpos : ∀ b : SemanticAnalyzer, b.symbolTable.WF → 1 ≤ b.symbolTable.depth := by
    intro b hb
    obtain ⟨h0, h1⟩ := hb
    simp only [SymbolTable.depth]
    omega
  refine ⟨(visitStatement_step a s h.1).depth, hpos a h, ?_⟩
  intro p hp
  obtain ⟨h1, h2⟩ := statementVisits_WF a s h p hp
  exact ⟨hpos p.1 h1, h2, (visitStatement_step p.1 p.2 h1.1).depth⟩

/-- Witness for C4: the block `{ int x; { x = 1; } }` visited by a fresh analyzer.
Its four statement visits start at depths 1, 2, 2 and 3; the last is the assignment in
the inner block. -/
theorem scope_depth_preserved_witness :
    SemanticAnalyzer.new.symbolTable.WF ∧
    (visitStatement SemanticAnalyzer.new Examples.nestedBlock).1.symbolTable.depth =
      SemanticAnalyzer.new.symbolTable.depth ∧
    1 ≤ SemanticAnalyzer.new.symbolTable.depth ∧
    (statementVisits SemanticAnalyzer.new Examples.nestedBlock).map
      (fun p => p.1.symbolTable.depth) = [1, 2, 2, 3] ∧
    (1 ≤ ((statementVisits SemanticAnalyzer.new Examples.nestedBlock).get
            ⟨3, by decide⟩).1.symbolTable.depth ∧
      SemanticAnalyzer.new.symbolTable.depth ≤
        ((statementVisits SemanticAnalyzer.new Examples.nestedBlock).get
            ⟨3, by decide⟩).1.symbolTable.depth ∧
      (visitStatement
          ((statementVisits SemanticAnalyzer.new Examples.nestedBlock).get ⟨3, by decide⟩).1
          ((statementVisits SemanticAnalyzer.new Examples.nestedBlock).get
            ⟨3, by decide⟩).2).1.symbolTable.depth =
        ((statementVisits SemanticAnalyzer.new Examples.nestedBlock).get
            ⟨3, by decide⟩).1.symbolTable.depth) :=
  ⟨by decide,
   (scope_depth_preserved SemanticAnalyzer.new Examples.nestedBlock (by decide)).1,
   (scope_depth_preserved SemanticAnalyzer.new Examples.nestedBlock (by decide)).2.1,
   by decide,
   (scope_depth_preserved SemanticAnalyzer.new Examples.nestedBlock (by decide)).2.2
     ((statementVisits SemanticAnalyzer.new Examples.nestedBlock).get ⟨3, by decide⟩)
     (List.get_mem _ _ _)⟩

/-- C5 as stated fails for `int main() { int x; x = 5; return x; }`: the analysis
succeeds, and the `Identifier` node `x` on the left of the assignment ends with no
error flag and an empty type string. -/
theorem target_identifier_counterexample :
    (analyze SemanticAnalyzer.new Examples.assignProgram true).result = true ∧
    ∃ id ∈ (analyze SemanticAnalyzer.new Examples.assignProgram true).program.identifiers,
      id.name = "x" ∧ id.node.semanticInfo.hasSemanticError = false ∧
        id.node.semanticInfo.type = "" :=
  ⟨by decide, ⟨ASTNode.atLine 1, "x"⟩, by decide, rfl, rfl, rfl⟩

/-- C5, amended to the identifiers the analyzer visits.  Every `Identifier` node that
`visit(Identifier*)` runs on ends with its error flag set (when `lookup` finds no
symbol) or with the type, kind, scope level and flag of the symbol `lookup` resolved,
a type that is non-empty when the declared type is.  The visit of an assignment hands
back its target node as it was.  In the tree an expression visit returns, every
identifier in operand position is flagged, or carries the declared type of the symbol
`lookup` finds for its name, or was not reached: it lies on the right of an assignment
whose target `lookup` does not resolve to a variable or a parameter.  The identifiers
not reached are nodes of the tree visited and come back in the tree returned. -/
theorem visited_identifier_annotated :
    (∀ (a : SemanticAnalyzer) (id : Identifier),
        (a.symbolTable.lookup id.name = none ∧
          (visitIdentifier a id).2.node.semanticInfo.hasSemanticError = true) ∨
        ∃ symbol, a.symbolTable.lookup id.name = some symbol ∧
          (visitIdentifier a id).2.node.semanticInfo.type = symbol.type ∧
          (symbol.type ≠ "" → (visitIdentifier a id).2.node.semanticInfo.type ≠ "") ∧
          (visitIdentifier a id).2.node.semanticInfo.symbolKind = symbol.kind ∧
          (visitIdentifier a id).2.node.semanticInfo.scopeLevel = symbol.scopeLevel ∧
          (visitIdentifier a id).2.node.semanticInfo.isInitialized = symbol.isInitialized) ∧
    (∀ (a : SemanticAnalyzer) (node : ASTNode) (left : Identifier) (right : Expression),
        ∃ right', (visitExpression a (.AssignmentExpression node left right)).2 =
          .AssignmentExpression node left right') ∧
    (∀ (a : SemanticAnalyzer) (e : Expression),
        ∀ id ∈ (visitExpression a e).2.operandIdentifiers,
          id.node.semanticInfo.hasSemanticError = true ∨
          (a.symbolTable.lookup id.name).map SymbolInfo.type = some id.node.semanticInfo.type ∨
          id ∈ e.unreachedIdentifiers a.symbolTable) ∧
    (∀ (a : SemanticAnalyzer) (e : Expression),
        ∀ id ∈ e.unreachedIdentifiers a.symbolTable,
          id ∈ e.operandIdentifiers ∧ id ∈ (visitExpression a e).2.operandIdentifiers) ∧
    (∀ (a : SemanticAnalyzer) (node : ASTNode) (left : Identifier) (right : Expression),
        (a.symbolTable.lookup left.name = none ∨
          ∃ symbol, a.symbolTable.lookup left.name = some symbol ∧
            symbol.kind ≠ "variable" ∧ symbol.kind ≠ "parameter") →
          (Expression.AssignmentExpression node left right).unreachedIdentifiers a.symbolTable =
            right.operandIdentifiers) ∧
    (∀ (a : SemanticAnalyzer) (node : ASTNode) (left : Identifier) (right : Expression)
        (symbol : SymbolInfo), a.symbolTable.lookup left.name = some symbol →
          symbol.kind = "variable" ∨ symbol.kind = "parameter" →
          (Expression.AssignmentExpression node left right).unreachedIdentifiers a.symbolTable =
            right.unreachedIdentifiers a.symbolTable) := by
  refine ⟨?_, ?_, fun a e => operandIdentifiers_reached e a,
    fun a e => unreachedIdentifiers_kept e a, ?_, ?_⟩
  rotate_left 2
  · intro a node left right h
    simp only [Expression.unreachedIdentifiers]
    unfold SymbolTable.lookup at h
    cases hl : a.symbolTable.lookupEntry left.name with
    | none => rfl
    | some p =>
      rw [hl] at h
      rcases h with h | ⟨symbol, h1, h2, h3⟩
      · simp at h
      · simp only [Option.map_some', Option.some.injEq] at h1
        subst h1
        simp [h2, h3]
  · intro a node left right symbol h hk
    simp only [Expression.unreachedIdentifiers]
    unfold SymbolTable.lookup at h
    cases hl : a.symbolTable.lookupEntry left.name with
    | none => rw [hl] at h; simp at h
    | some p =>
      rw [hl] at h
      simp only [Option.map_some', Option.some.injEq] at h
      subst h
      rcases hk with hk | hk <;> simp [hk]
  · intro a id
    rcases visitIdentifier_annotates a id with h | ⟨symbol, h1, h2, h3⟩
    · exact Or.inl h
    · exact Or.inr ⟨symbol, h1, h2, fun hne => by rw [h2]; exact hne, h3⟩
  · intro a node left right
    simp only [visitExpression]
    split
    · exact ⟨_, rfl⟩
    · split
      · exact ⟨_, rfl⟩
      · split <;> exact ⟨_, rfl⟩

/-- Witness for C5 (amended): in the tree returned for `c + 1` the node `c` carries the
declared type `char` of the symbol `lookup` finds; the visit reaches every identifier of
`c + 1`. -/
theorem visited_identifier_annotated_witness :
    Examples.charNode ∈
      (visitExpression Examples.withGlobals Examples.charSum).2.operandIdentifiers ∧
    (Examples.charNode.node.semanticInfo.hasSemanticError = true ∨
      (Examples.withGlobals.symbolTable.lookup Examples.charNode.name).map SymbolInfo.type =
        some Examples.charNode.node.semanticInfo.type ∨
      Examples.charNode ∈
        Examples.charSum.unreachedIdentifiers Examples.withGlobals.symbolTable) ∧
    (Examples.withGlobals.symbolTable.lookup Examples.charNode.name).map SymbolInfo.type =
      some "char" ∧
    Examples.charNode.node.semanticInfo.hasSemanticError = false ∧
    Examples.charSum.unreachedIdentifiers Examples.withGlobals.symbolTable = [] :=
  ⟨by decide,
   visited_identifier_annotated.2.2.1 Examples.withGlobals Examples.charSum Examples.charNode
     (by decide),
   by decide, by decide, by decide⟩

/-- C6: `analyze` returns true exactly when the error list it leaves is empty; that list
is the one the traversal builds from cleared lists, so diagnostics left by an earlier
call have no influence; a traversal only ever appends to the error list, so an empty
list at the end means that no error was recorded; and the flag, the analyzer (error and
warning lists included) and the annotated tree are the same for both values of
`silent`, which only decides whether text is printed. -/
theorem analyze_spec (a : SemanticAnalyzer) (program : Program) (silent : Bool) :
    ((analyze a program silent).result = true ↔
        (analyze a program silent).analyzer.errors = []) ∧
    (analyze a program silent).analyzer =
        (visitProgram { a with errors := [], warnings := [] } program).1 ∧
    (∀ es ws, analyze { a with errors := es, warnings := ws } program silent =
        analyze a program silent) ∧
    (∀ b : SemanticAnalyzer, b.symbolTable.WF →
        ∃ added, (visitProgram b program).1.errors = b.errors ++ added) ∧
    ((analyze a program true).result = (analyze a program false).result ∧
      (analyze a program true).analyzer = (analyze a program false).analyzer ∧
      (analyze a program true).program = (analyze a program false).program ∧
      (analyze a program true).output = "") := by
  refine ⟨?_, rfl, fun _ _ => rfl, ?_, rfl, rfl, rfl, rfl⟩
  · simp only [analyze, hasErrors]
    cases (visitProgram { a with errors := [], warnings := [] } program).1.errors <;> simp
  · intro b hb
    exact (visitProgram_step b program hb.1).errors

/-- Witness for C6: the program `int main() { return y; }` analyzed by a fresh
analyzer. -/
theorem analyze_spec_witness :
    SemanticAnalyzer.new.symbolTable.WF ∧
    (∃ added, (visitProgram SemanticAnalyzer.new Examples.returnUndeclaredProgram).1.errors =
        SemanticAnalyzer.new.errors ++ added) ∧
    (analyze SemanticAnalyzer.new Examples.returnUndeclaredProgram false).result = false ∧
    (analyze SemanticAnalyzer.new Examples.assignProgram true).result = true :=
  ⟨by decide,
   (analyze_spec SemanticAnalyzer.new Examples.returnUndeclaredProgram true).2.2.2.1
      SemanticAnalyzer.new (by decide),
   by decide, by decide⟩

end SemanticAnalyzer

/-! ## Type rules: C7, C8, C9 -/

/-- C7: `canAssignTo` holds exactly when both types are valid and the base names are
equal or both are numeric, where numeric means one of int, char, float, double; void is
assignable to void, a numeric type is assignable neither to nor from void, and an
invalid type is assignable to nothing and nothing is assignable to it. -/
theorem TypeInfo.canAssignTo_spec (s t : TypeInfo) :
    (s.canAssignTo t = true ↔
        s.isValid = true ∧ t.isValid = true ∧
          (s.baseType = t.baseType ∨ (s.isNumeric = true ∧ t.isNumeric = true))) ∧
    (s.isNumeric = true ↔
        s.baseType = "int" ∨ s.baseType = "char" ∨ s.baseType = "float"
          ∨ s.baseType = "double") ∧
    (TypeInfo.ofType "void").canAssignTo (TypeInfo.ofType "void") = true ∧
    (s.isNumeric = true → ∀ v,
        s.canAssignTo { baseType := "void", isValid := v } = false ∧
        TypeInfo.canAssignTo { baseType := "void", isValid := v } s = false) ∧
    (s.isValid = false → s.canAssignTo t = false ∧ t.canAssignTo s = false ∧
        s.canAssignTo s = false) := by
  obtain ⟨sb, sv⟩ := s
  obtain ⟨tb, tv⟩ := t
  have hnum : ∀ b v, TypeInfo.isNumeric { baseType := b, isValid := v } = true ↔
      b = "int" ∨ b = "char" ∨ b = "float" ∨ b = "double" := by
    intro b v
    simp [TypeInfo.isNumeric, or_assoc]
  refine ⟨?_, hnum sb sv, by decide, ?_, ?_⟩
  · cases sv <;> cases tv <;> simp [TypeInfo.canAssignTo]
  · intro h v
    have hv : TypeInfo.isNumeric { baseType := "void", isValid := v } = false := by
      simp [TypeInfo.isNumeric]
    have hne : sb ≠ "void" := by
      rcases (hnum sb sv).1 h with h | h | h | h <;> rw [h] <;> decide
    have hne2 : "void" ≠ sb := fun e => hne e.symm
    cases sv <;> cases v <;> simp [TypeInfo.canAssignTo, hv, hne, hne2]
  · intro h
    simp only at h
    subst h
    simp [TypeInfo.canAssignTo]

/-- Witness for C7 at `int` and `double`, `void` and the invalid type. -/
theorem TypeInfo.canAssignTo_spec_witness :
    ((TypeInfo.ofType "int").canAssignTo { baseType := "void", isValid := true } = false ∧
      TypeInfo.canAssignTo { baseType := "void", isValid := true } (TypeInfo.ofType "int")
        = false) ∧
    (TypeInfo.invalid.canAssignTo (TypeInfo.ofType "int") = false ∧
      (TypeInfo.ofType "int").canAssignTo TypeInfo.invalid = false ∧
      TypeInfo.invalid.canAssignTo TypeInfo.invalid = false) ∧
    (TypeInfo.ofType "int").canAssignTo (TypeInfo.ofType "double") = true :=
  ⟨(TypeInfo.canAssignTo_spec (TypeInfo.ofType "int") (TypeInfo.ofType "double")).2.2.2.1
      (by decide) true,
   (TypeInfo.canAssignTo_spec TypeInfo.invalid (TypeInfo.ofType "int")).2.2.2.2 (by decide),
   (TypeInfo.canAssignTo_spec (TypeInfo.ofType "int") (TypeInfo.ofType "double")).1.2
      ⟨by decide, by decide, Or.inr ⟨by decide, by decide⟩⟩⟩

/-- C8: for valid operand types, `isValidBinaryOperation` holds exactly when the
operator is arithmetic or a comparison and both operands are numeric, or the operator
is `&&` or `||` (then for any valid operands, void included); it is false for every
operator outside the thirteen; and for a comparison or logical operator the result
type is int. -/
theorem SemanticAnalyzer.isValidBinaryOperation_spec (op : String) (l r : TypeInfo)
    (hl : l.isValid = true) (hr : r.isValid = true) :
    (SemanticAnalyzer.isValidBinaryOperation op l r = true ↔
        (op ∈ ["+", "-", "*", "/", "%", "==", "!=", "<", ">", "<=", ">="] ∧
            l.isNumeric = true ∧ r.isNumeric = true) ∨
          op = "&&" ∨ op = "||") ∧
    (op ∉ ["+", "-", "*", "/", "%", "==", "!=", "<", ">", "<=", ">=", "&&", "||"] →
        SemanticAnalyzer.isValidBinaryOperation op l r = false) ∧
    (op ∈ ["==", "!=", "<", ">", "<=", ">=", "&&", "||"] →
        SemanticAnalyzer.getResultType op l r = "int") := by
  refine ⟨?_, SemanticAnalyzer.isValidBinaryOperation_otherOps op l r,
    SemanticAnalyzer.getResultType_intOps op l r⟩
  by_cases h1 : op ∈ ["+", "-", "*", "/", "%", "==", "!=", "<", ">", "<=", ">="]
  · obtain ⟨e, n1, n2⟩ := SemanticAnalyzer.isValidBinaryOperation_numericOps op l r hl hr h1
    rw [e, Bool.and_eq_true]
    constructor
    · intro h
      exact Or.inl ⟨h1, h⟩
    · rintro (⟨_, h⟩ | h | h)
      · exact h
      · exact absurd h n1
      · exact absurd h n2
  · by_cases h2 : op = "&&" ∨ op = "||"
    · rw [SemanticAnalyzer.isValidBinaryOperation_logicOps op l r hl hr h2]
      exact ⟨fun _ => Or.inr h2, fun _ => rfl⟩
    · have h3 : op ∉ ["+", "-", "*", "/", "%", "==", "!=", "<", ">", "<=", ">=", "&&", "||"] := by
        intro hm
        have hsplit : ["+", "-", "*", "/", "%", "==", "!=", "<", ">", "<=", ">=", "&&", "||"]
            = ["+", "-", "*", "/", "%", "==", "!=", "<", ">", "<=", ">="] ++ ["&&", "||"] := rfl
        rw [hsplit, List.mem_append] at hm
        rcases hm with h | h
        · exact h1 h
        · simp only [List.mem_cons, List.mem_singleton, List.mem_nil_iff, or_false] at h
          exact h2 h
      rw [SemanticAnalyzer.isValidBinaryOperation_otherOps op l r h3]
      constructor
      · intro h
        exact Bool.noConfusion h
      · rintro (⟨h, _⟩ | h)
        · exact absurd h h1
        · exact absurd h h2

/-- Witness for C8: `int < char`, `void && int`, and the operator `^`. -/
theorem SemanticAnalyzer.isValidBinaryOperation_spec_witness :
    SemanticAnalyzer.isValidBinaryOperation "<" (TypeInfo.ofType "int") (TypeInfo.ofType "char")
        = true ∧
    SemanticAnalyzer.isValidBinaryOperation "&&" (TypeInfo.ofType "void") (TypeInfo.ofType "int")
        = true ∧
    SemanticAnalyzer.isValidBinaryOperation "^" (TypeInfo.ofType "int") (TypeInfo.ofType "int")
        = false ∧
    SemanticAnalyzer.getResultType "<" (TypeInfo.ofType "int") (TypeInfo.ofType "char") = "int" :=
  ⟨(SemanticAnalyzer.isValidBinaryOperation_spec "<" (TypeInfo.ofType "int")
      (TypeInfo.ofType "char") rfl rfl).1.2 (Or.inl ⟨by decide, by decide, by decide⟩),
   (SemanticAnalyzer.isValidBinaryOperation_spec "&&" (TypeInfo.ofType "void")
      (TypeInfo.ofType "int") rfl rfl).1.2 (Or.inr (Or.inl rfl)),
   (SemanticAnalyzer.isValidBinaryOperation_spec "^" (TypeInfo.ofType "int")
      (TypeInfo.ofType "int") rfl rfl).2.1 (by decide),
   (SemanticAnalyzer.isValidBinaryOperation_spec "<" (TypeInfo.ofType "int")
      (TypeInfo.ofType "char") rfl rfl).2.2 (by decide)⟩

namespace SemanticAnalyzer

/-- C9: for an arithmetic operator and numeric operand types the result type is double
if an operand is double, else float if an operand is float, else int, and never char;
and this is the type the visit of a binary expression leaves as the type of the
expression and writes into the node, without recording an error. -/
theorem arithmetic_result_type (op : String) (hop : op ∈ ["+", "-", "*", "/", "%"]) :
    (∀ l r : TypeInfo, l.isNumeric = true → r.isNumeric = true →
        getResultType op l r =
          (if l.baseType = "double" ∨ r.baseType = "double" then "double"
           else if l.baseType = "float" ∨ r.baseType = "float" then "float" else "int") ∧
        getResultType op l r ≠ "char") ∧
    (∀ (a : SemanticAnalyzer) (node : ASTNode) (left right : Expression),
        let gl := getExpressionType
          { a with currentLine := node.lineNumber,
                   currentContext := "二元表达式 '" ++ op ++ "'" } left
        let gr := getExpressionType gl.2.1 right
        gl.1.isValid = true → gl.1.isNumeric = true →
        gr.1.isValid = true → gr.1.isNumeric = true →
        (visitExpression a (.BinaryExpression node left op right)).1.currentExpressionType =
            TypeInfo.ofType
              (if gl.1.baseType = "double" ∨ gr.1.baseType = "double" then "double"
               else if gl.1.baseType = "float" ∨ gr.1.baseType = "float" then "float"
               else "int") ∧
        (visitExpression a (.BinaryExpression node left op right)).2.node.semanticInfo.type =
            (if gl.1.baseType = "double" ∨ gr.1.baseType = "double" then "double"
             else if gl.1.baseType = "float" ∨ gr.1.baseType = "float" then "float"
             else "int") ∧
        (visitExpression a (.BinaryExpression node left op right)).1.errors = gr.2.1.errors) := by
  have hres : ∀ l r : TypeInfo, getResultType op l r =
      (if l.baseType = "double" ∨ r.baseType = "double" then "double"
       else if l.baseType = "float" ∨ r.baseType = "float" then "float" else "int") := by
    intro l r
    simp only [List.mem_cons, List.mem_singleton, List.mem_nil_iff, or_false] at hop
    rcases hop with h | h | h | h | h <;> subst h <;> simp [getResultType]
  refine ⟨?_, ?_⟩
  · intro l r _ _
    refine ⟨hres l r, ?_⟩
    rw [hres]
    split
    · decide
    · split <;> decide
  · intro a node left right gl gr v1 n1 v2 n2
    have hvalid : isValidBinaryOperation op gl.1 gr.1 = true := by
      have hmem : op ∈ ["+", "-", "*", "/", "%", "==", "!=", "<", ">", "<=", ">="] := by
        simp only [List.mem_cons, List.mem_singleton, List.mem_nil_iff, or_false] at hop ⊢
        rcases hop with h | h | h | h | h <;> simp [h]
      rw [(isValidBinaryOperation_numericOps op gl.1 gr.1 v1 v2 hmem).1, n1, n2]
      rfl
    have hvalid' : isValidBinaryOperation op
        (visitExpression { a with currentLine := node.lineNumber,
                                  currentContext := "二元表达式 '" ++ op ++ "'" } left).1.currentExpressionType
        (visitExpression
          ((visitExpression { a with currentLine := node.lineNumber,
                                     currentContext := "二元表达式 '" ++ op ++ "'" } left).1.restoreType
            a.currentExpressionType) right).1.currentExpressionType = true := hvalid
    simp only [visitExpression, hvalid', Bool.not_true, Bool.false_eq_true, if_false, hres,
      Expression.node]
    exact ⟨rfl, rfl, rfl⟩

/-- Witness for C9: `char + int` is int, and so is `c + 1` for a variable `char c`. -/
theorem arithmetic_result_type_witness :
    getResultType "+" (TypeInfo.ofType "char") (TypeInfo.ofType "int") = "int" ∧
    (visitExpression Examples.withGlobals Examples.charSum).1.currentExpressionType =
      TypeInfo.ofType "int" :=
  ⟨by
    have h := ((arithmetic_result_type "+" (by decide)).1 (TypeInfo.ofType "char")
      (TypeInfo.ofType "int") (by decide) (by decide)).1
    exact h.trans (by decide),
   by
    have h := ((arithmetic_result_type "+" (by decide)).2 Examples.withGlobals
      (ASTNode.atLine 1) (.Identifier ⟨ASTNode.atLine 1, "c"⟩)
      (.IntegerLiteral (ASTNode.atLine 1) 1) (by decide) (by decide) (by decide) (by decide)).1
    exact h.trans (by decide)⟩

end SemanticAnalyzer

/-! ## Error propagation: C10 -/

namespace SemanticAnalyzer

/-- C10 as stated fails for `y + 1` with `y` undeclared: the left operand is invalid
because of the one error recorded inside it, after both operands the error list has
one entry, and the visit of the sum ends with two; `return y;` ends with two errors as
well. -/
theorem errors_cascade_counterexample :
    (getExpressionType
        { SemanticAnalyzer.new with currentLine := 1, currentContext := "二元表达式 '+'" }
        (.Identifier ⟨ASTNode.atLine 1, "y"⟩)).1.isValid = false ∧
    (getExpressionType
        (getExpressionType
          { SemanticAnalyzer.new with currentLine := 1, currentContext := "二元表达式 '+'" }
          (.Identifier ⟨ASTNode.atLine 1, "y"⟩)).2.1
        (.IntegerLiteral (ASTNode.atLine 1) 1)).2.1.errors.length = 1 ∧
    (visitExpression SemanticAnalyzer.new Examples.undeclaredSum).1.errors.length = 2 ∧
    (visitStatement SemanticAnalyzer.new Examples.returnUndeclared).1.errors.length = 2 := by
  decide

/-- C10, amended: an invalid operand makes the parent invalid, and the parent records
one error of its own.  A binary expression with an invalid operand yields the invalid
type, sets the error flag of its node and appends exactly one type error to the errors
recorded up to the end of its operands; a return statement with an invalid value
appends exactly one error; an assignment to a variable or parameter with an invalid
right-hand side yields the invalid type and appends exactly one type error.  An
operand is invalid only if its own visit recorded an error. -/
theorem invalid_operand_adds_one_error :
    (∀ (a : SemanticAnalyzer) (node : ASTNode) (left : Expression) (op : String)
        (right : Expression),
        let gl := getExpressionType
          { a with currentLine := node.lineNumber,
                   currentContext := "二元表达式 '" ++ op ++ "'" } left
        let gr := getExpressionType gl.2.1 right
        let r := visitExpression a (.BinaryExpression node left op right)
        gl.1.isValid = false ∨ gr.1.isValid = false →
          r.1.currentExpressionType = TypeInfo.invalid ∧
          r.2.node.semanticInfo.hasSemanticError = true ∧
          (∃ err, err.errorType = "类型错误" ∧ r.1.errors = gr.2.1.errors ++ [err]) ∧
          r.1.errors.length = gr.2.1.errors.length + 1) ∧
    (∀ (a : SemanticAnalyzer) (node : ASTNode) (value : Expression),
        let g := getExpressionType { a with hasReturnStatement := true } value
        let r := visitStatement a (.ReturnStatement node (some value))
        g.1.isValid = false →
          (∃ err, r.1.errors = g.2.1.errors ++ [err]) ∧
          r.1.errors.length = g.2.1.errors.length + 1) ∧
    (∀ (a : SemanticAnalyzer) (node : ASTNode) (left : Identifier) (right : Expression)
        (i : Nat) (symbol : SymbolInfo),
        let a0 : SemanticAnalyzer :=
          { a with currentLine := node.lineNumber, currentContext := "赋值表达式" }
        let g := getExpressionType a0 right
        let r := visitExpression a (.AssignmentExpression node left right)
        a.symbolTable.lookupEntry left.name = some (i, symbol) →
        symbol.kind = "variable" ∨ symbol.kind = "parameter" →
        g.1.isValid = false →
          r.1.currentExpressionType = TypeInfo.invalid ∧
          (∃ err, err.errorType = "类型错误" ∧ r.1.errors = g.2.1.errors ++ [err]) ∧
          r.1.errors.length = g.2.1.errors.length + 1) ∧
    (∀ (a : SemanticAnalyzer) (e : Expression),
        (getExpressionType a e).1.isValid = false →
          a.errors.length < (getExpressionType a e).2.1.errors.length) := by
  refine ⟨?_, ?_, ?_, ?_⟩
  · intro a node left op right gl gr r hinv
    have hno : isValidBinaryOperation op gl.1 gr.1 = false := by
      simp only [isValidBinaryOperation]
      rcases hinv with h | h <;> simp [h]
    have hno' : isValidBinaryOperation op
        (visitExpression { a with currentLine := node.lineNumber,
                                  currentContext := "二元表达式 '" ++ op ++ "'" } left).1.currentExpressionType
        (visitExpression
          ((visitExpression { a with currentLine := node.lineNumber,
                                     currentContext := "二元表达式 '" ++ op ++ "'" } left).1.restoreType
            a.currentExpressionType) right).1.currentExpressionType = false := hno
    have hr : r = visitExpression a (.BinaryExpression node left op right) := rfl
    simp only [visitExpression, hno', Bool.not_false, if_true] at hr
    rw [hr]
    refine ⟨rfl, rfl, ⟨_, rfl, rfl⟩, ?_⟩
    simp [gr, gl, getExpressionType]
  · intro a node value g r hinv
    have hno : g.1.canAssignTo (TypeInfo.ofType g.2.1.currentFunctionReturnType) = false := by
      simp [TypeInfo.canAssignTo, hinv]
    have hr : r = visitStatement a (.ReturnStatement node (some value)) := rfl
    simp only [visitStatement, hno, Bool.not_false, if_true] at hr
    rw [hr]
    refine ⟨⟨_, rfl⟩, ?_⟩
    simp [addErrorDefault]
  · intro a node left right i symbol a0 g r hl hk hinv
    have hk' : (symbol.kind != "variable" && symbol.kind != "parameter") = false := by
      rcases hk with h | h <;> simp [h]
    have hno : g.1.canAssignTo (TypeInfo.ofType symbol.type) = false := by
      simp [TypeInfo.canAssignTo, hinv]
    have hno' : TypeInfo.canAssignTo
        (visitExpression { a with currentLine := node.lineNumber,
                                  currentContext := "赋值表达式" } right).1.currentExpressionType
        (TypeInfo.ofType symbol.type) = false := hno
    have hr : r = visitExpression a (.AssignmentExpression node left right) := rfl
    simp only [visitExpression, hl, hk', Bool.false_eq_true, if_false, hno', Bool.not_false,
      if_true] at hr
    rw [hr]
    refine ⟨rfl, ⟨_, rfl, rfl⟩, ?_⟩
    simp [g, a0, getExpressionType]
  · intro a e hinv
    rcases invalid_type_has_error a e with h | h
    · have hinv' : (visitExpression a e).1.currentExpressionType.isValid = false := hinv
      rw [h] at hinv'
      exact Bool.noConfusion hinv'
    · exact h

/-- Witness for C10 (amended): `y + 1`, `return y;` and `x = y` with `y` undeclared. -/
theorem invalid_operand_adds_one_error_witness :
    (visitExpression SemanticAnalyzer.new Examples.undeclaredSum).1.currentExpressionType
        = TypeInfo.invalid ∧
    (visitExpression SemanticAnalyzer.new Examples.undeclaredSum).1.errors.length = 1 + 1 ∧
    (visitStatement SemanticAnalyzer.new Examples.returnUndeclared).1.errors.length = 1 + 1 ∧
    (visitExpression Examples.withGlobals Examples.assignUndeclared).1.errors.length = 1 + 1 ∧
    SemanticAnalyzer.new.errors.length <
      (getExpressionType SemanticAnalyzer.new (.Identifier ⟨ASTNode.atLine 1, "y"⟩)).2.1.errors.length :=
  ⟨(invalid_operand_adds_one_error.1 SemanticAnalyzer.new (ASTNode.atLine 1)
      (.Identifier ⟨ASTNode.atLine 1, "y"⟩) "+" (.IntegerLiteral (ASTNode.atLine 1) 1)
      (Or.inl (by decide))).1,
   (invalid_operand_adds_one_error.1 SemanticAnalyzer.new (ASTNode.atLine 1)
      (.Identifier ⟨ASTNode.atLine 1, "y"⟩) "+" (.IntegerLiteral (ASTNode.atLine 1) 1)
      (Or.inl (by decide))).2.2.2,
   (invalid_operand_adds_one_error.2.1 SemanticAnalyzer.new (ASTNode.atLine 1)
      (.Identifier ⟨ASTNode.atLine 1, "y"⟩) (by decide)).2,
   (invalid_operand_adds_one_error.2.2.1 Examples.withGlobals (ASTNode.atLine 2)
      ⟨ASTNode.atLine 2, "x"⟩ (.Identifier ⟨ASTNode.atLine 2, "y"⟩) 0
      { name := "x", type := "int", kind := "variable", scopeLevel := 0, isInitialized := true }
      (by decide) (Or.inl rfl) (by decide)).2.2,
   invalid_operand_adds_one_error.2.2.2 SemanticAnalyzer.new
      (.Identifier ⟨ASTNode.atLine 1, "y"⟩) (by decide)⟩

end SemanticAnalyzer

/-! ## Diagnostics of single constructs: C11, C12, C13, C14 -/

namespace SemanticAnalyzer

/-- C11 as stated fails: analyzing `int main() { return y; }` with a fresh analyzer
returns false and leaves two errors, not one: the undeclared-identifier error naming
`y`, then the return statement's own return-type mismatch. -/
theorem return_undeclared_counterexample :
    (analyze SemanticAnalyzer.new Examples.returnUndeclaredProgram true).result = false ∧
    (analyze SemanticAnalyzer.new Examples.returnUndeclaredProgram true).analyzer.errors.length
      = 2 ∧
    (analyze SemanticAnalyzer.new Examples.returnUndeclaredProgram true).analyzer.errors =
      [{ message := "未声明的标识符 'y'", errorType := "未声明错误", line := 1, column := 0,
         context := "标识符使用" },
       { message := "返回类型不匹配: 期望 int, 实际 ", errorType := "语义错误", line := 1,
         column := 0, context := "标识符 'y'" }] := by
  decide

/-- C11, amended: a return statement whose value is a single identifier that `lookup`
does not find contributes exactly two errors, first the undeclared-identifier error
naming the identifier and then one return-type mismatch, so exactly one of them is an
undeclared error; for `int main() { return y; }` these are the whole error list and
`analyze` returns false. -/
theorem return_undeclared_two_errors (a : SemanticAnalyzer) (node : ASTNode)
    (id : Identifier) (h : a.symbolTable.lookup id.name = none) :
    (visitStatement a (.ReturnStatement node (some (.Identifier id)))).1.errors =
      a.errors ++
        [{ message := "未声明的标识符 '" ++ id.name ++ "'", errorType := "未声明错误",
           line := id.node.lineNumber, column := 0, context := "标识符使用" },
         { message := "返回类型不匹配: 期望 " ++ a.currentFunctionReturnType ++ ", 实际 ",
           errorType := "语义错误", line := id.node.lineNumber, column := 0,
           context := "标识符 '" ++ id.name ++ "'" }] ∧
    (visitStatement a (.ReturnStatement node (some (.Identifier id)))).1.errors.length =
      a.errors.length + 2 := by
  have h' : ({ a with hasReturnStatement := true } : SemanticAnalyzer).symbolTable.lookup
      id.name = none := h
  have he : (visitStatement a (.ReturnStatement node (some (.Identifier id)))).1.errors =
      a.errors ++
        [{ message := "未声明的标识符 '" ++ id.name ++ "'", errorType := "未声明错误",
           line := id.node.lineNumber, column := 0, context := "标识符使用" },
         { message := "返回类型不匹配: 期望 " ++ a.currentFunctionReturnType ++ ", 实际 ",
           errorType := "语义错误", line := id.node.lineNumber, column := 0,
           context := "标识符 '" ++ id.name ++ "'" }] := by
    simp [visitStatement, getExpressionType, visitExpression, visitIdentifier, h,
      TypeInfo.canAssignTo, TypeInfo.invalid, TypeInfo.ofType, addErrorDefault, addError,
      restoreType, (by decide : "标识符使用".isEmpty = false), (by decide : "".isEmpty = true)]
  refine ⟨he, ?_⟩
  rw [he]
  simp

/-- Witness for C11 (amended): `return y;` visited by a fresh analyzer. -/
theorem return_undeclared_two_errors_witness :
    SemanticAnalyzer.new.symbolTable.lookup "y" = none ∧
    (visitStatement SemanticAnalyzer.new Examples.returnUndeclared).1.errors.length = 0 + 2 :=
  ⟨by decide,
   (return_undeclared_two_errors SemanticAnalyzer.new (ASTNode.atLine 1)
      ⟨ASTNode.atLine 1, "y"⟩ (by decide)).2⟩

/-- C12: an assignment whose left name `lookup` does not find records exactly one
error, an undeclared error naming the left identifier, yields the invalid type, and
does not touch the right-hand side: no warning is added, the symbol table is unchanged
and the tree comes back as it was.  For `int main() { int x; x = 1; y = x; return 0; }`
the error list is that one undeclared error. -/
theorem assignment_undeclared_target (a : SemanticAnalyzer) (node : ASTNode)
    (left : Identifier) (right : Expression) (h : a.symbolTable.lookup left.name = none) :
    (visitExpression a (.AssignmentExpression node left right)).1.errors =
      a.errors ++
        [{ message := "未声明的变量 '" ++ left.name ++ "'", errorType := "未声明错误",
           line := node.lineNumber, column := 0, context := "赋值表达式左值" }] ∧
    (visitExpression a (.AssignmentExpression node left right)).1.currentExpressionType =
      TypeInfo.invalid ∧
    (visitExpression a (.AssignmentExpression node left right)).1.warnings = a.warnings ∧
    (visitExpression a (.AssignmentExpression node left right)).1.symbolTable =
      a.symbolTable ∧
    (visitExpression a (.AssignmentExpression node left right)).2 =
      .AssignmentExpression node left right ∧
    (analyze SemanticAnalyzer.new Examples.undeclaredTargetProgram true).analyzer.errors =
      [{ message := "未声明的变量 'y'", errorType := "未声明错误", line := 3, column := 0,
         context := "赋值表达式左值" }] := by
  have h' : ({ a with currentLine := node.lineNumber, currentContext := "赋值表达式" }
      : SemanticAnalyzer).symbolTable.lookupEntry left.name = none :=
    (SymbolTable.lookup_eq_none_iff _ _).1 h
  refine ⟨?_, ?_, ?_, ?_, ?_, by decide⟩ <;>
    simp [visitExpression, h', addError, (by decide : "赋值表达式左值".isEmpty = false)]

/-- Witness for C12: `y = x` visited where only `x` and `c` are declared. -/
theorem assignment_undeclared_target_witness :
    Examples.withGlobals.symbolTable.lookup "y" = none ∧
    (visitExpression Examples.withGlobals
        (.AssignmentExpression (ASTNode.atLine 3) ⟨ASTNode.atLine 3, "y"⟩
          (.Identifier ⟨ASTNode.atLine 3, "x"⟩))).1.errors =
      Examples.withGlobals.errors ++
        [{ message := "未声明的变量 '" ++ "y" ++ "'", errorType := "未声明错误",
           line := 3, column := 0, context := "赋值表达式左值" }] :=
  ⟨by decide,
   (assignment_undeclared_target Examples.withGlobals (ASTNode.atLine 3)
      ⟨ASTNode.atLine 3, "y"⟩ (.Identifier ⟨ASTNode.atLine 3, "x"⟩) (by decide)).1⟩

/-- C13: the declaration of a plain name that the current scope already has records
exactly one redeclaration error and leaves the symbol table, and so the existing
symbol with its type, kind and initialization flag, unchanged.  For
`int main() { int x; int x; return 0; }` the error list is one redeclaration error,
raised on the line of the second declaration. -/
theorem redeclaration_one_error (a : SemanticAnalyzer) (node : ASTNode)
    (type name : String) (symbol : SymbolInfo)
    (h : a.symbolTable.lookupInCurrentScope name = some symbol) :
    (visitStatement a (.VariableDeclaration node type [name] [])).1.errors =
      a.errors ++
        [{ message := "重复声明变量 '" ++ name ++ "'", errorType := "重复声明错误",
           line := node.lineNumber, column := 0, context := "变量声明" }] ∧
    (visitStatement a (.VariableDeclaration node type [name] [])).1.symbolTable =
      a.symbolTable ∧
    (visitStatement a (.VariableDeclaration node type [name] [])).1.symbolTable.lookupInCurrentScope
      name = some symbol ∧
    (analyze SemanticAnalyzer.new Examples.redeclareProgram true).analyzer.errors =
      [{ message := "重复声明变量 'x'", errorType := "重复声明错误", line := 2, column := 0,
         context := "变量声明" }] := by
  have hd : a.symbolTable.declare name type "variable" = (false, a.symbolTable) := by
    simp [SymbolTable.declare, h]
  have hs : (visitStatement a (.VariableDeclaration node type [name] [])).1.symbolTable =
      a.symbolTable := by
    simp [visitStatement, declareNames, visitInitDeclarators, hd]
  refine ⟨?_, hs, ?_, by decide⟩
  · simp [visitStatement, declareNames, visitInitDeclarators, hd, addError,
      (by decide : "变量声明".isEmpty = false)]
  · rw [hs]
    exact h

/-- Witness for C13: `int x;` visited where the global scope already has `x`. -/
theorem redeclaration_one_error_witness :
    Examples.withGlobals.symbolTable.lookupInCurrentScope "x" =
      some { name := "x", type := "int", kind := "variable", scopeLevel := 0,
             isInitialized := true } ∧
    (visitStatement Examples.withGlobals
        (.VariableDeclaration (ASTNode.atLine 2) "char" ["x"] [])).1.symbolTable =
      Examples.withGlobals.symbolTable :=
  ⟨by decide,
   (redeclaration_one_error Examples.withGlobals (ASTNode.atLine 2) "char" "x"
      { name := "x", type := "int", kind := "variable", scopeLevel := 0,
        isInitialized := true } (by decide)).2.1⟩

/-- C14: an identifier that `lookup` resolves adds no error, and adds exactly one
warning, naming it, when the symbol is of kind variable with its initialization flag
false, and no warning otherwise (parameters, functions, initialized variables).  For
`int main() { int x; return x + 1; }` there are no errors and one warning and
`analyze` returns true. -/
theorem uninitialized_warning (a : SemanticAnalyzer) (id : Identifier) (symbol : SymbolInfo)
    (h : a.symbolTable.lookup id.name = some symbol) :
    (visitIdentifier a id).1.errors = a.errors ∧
    (symbol.kind = "variable" → symbol.isInitialized = false →
        (visitIdentifier a id).1.warnings =
          a.warnings ++ ["使用了未初始化的变量 '" ++ id.name ++ "'"]) ∧
    (symbol.kind ≠ "variable" ∨ symbol.isInitialized = true →
        (visitIdentifier a id).1.warnings = a.warnings) ∧
    ((analyze SemanticAnalyzer.new Examples.uninitializedProgram true).analyzer.errors = [] ∧
      (analyze SemanticAnalyzer.new Examples.uninitializedProgram true).analyzer.warnings =
        ["使用了未初始化的变量 'x'"] ∧
      (analyze SemanticAnalyzer.new Examples.uninitializedProgram true).result = true) := by
  have h' : ({ a with currentLine := id.node.lineNumber,
                      currentContext := "标识符 '" ++ id.name ++ "'" }
      : SemanticAnalyzer).symbolTable.lookup id.name = some symbol := h
  refine ⟨?_, ?_, ?_, by decide⟩
  · simp only [visitIdentifier, h']
    split <;> rfl
  · intro hk hi
    simp [visitIdentifier, h', hk, hi, addWarning]
  · intro hc
    simp only [visitIdentifier, h']
    rcases hc with hc | hc
    · simp [hc]
    · simp [hc]

/-- Witness for C14: an uninitialized `int x`, and the initialized global `x`. -/
theorem uninitialized_warning_witness :
    Examples.shadowTable.lookup "x" = some (SymbolInfo.new "x" "int" "variable" 0) ∧
    (visitIdentifier { SemanticAnalyzer.new with symbolTable := Examples.shadowTable }
        ⟨ASTNode.atLine 1, "x"⟩).1.warnings =
      SemanticAnalyzer.new.warnings ++ ["使用了未初始化的变量 '" ++ "x" ++ "'"] ∧
    (visitIdentifier Examples.withGlobals ⟨ASTNode.atLine 1, "x"⟩).1.warnings =
      Examples.withGlobals.warnings :=
  ⟨by decide,
   (uninitialized_warning { SemanticAnalyzer.new with symbolTable := Examples.shadowTable }
      ⟨ASTNode.atLine 1, "x"⟩ (SymbolInfo.new "x" "int" "variable" 0) (by decide)).2.1
      rfl rfl,
   (uninitialized_warning Examples.withGlobals ⟨ASTNode.atLine 1, "x"⟩
      { name := "x", type := "int", kind := "variable", scopeLevel := 0,
        isInitialized := true } (by decide)).2.2.1 (Or.inr rfl)⟩

end SemanticAnalyzer

/-! ## Assignments, calls and returns: C15, C16, C17, C18 -/

namespace SemanticAnalyzer

/-- C15: an assignment whose target `lookup` resolves to a variable or parameter
analyzes the right-hand side.  When its type is assignable to the declared type of the
target, the visit sets the initialization flag of that symbol (and changes nothing
else in the table), yields the declared type and records no error of its own; when it
is not assignable, the table is left as the right-hand side left it, the invalid type
is yielded and one type-mismatch error is recorded.  For
`int main() { int x; x = 5; return x; }` there are no errors and no warnings. -/
theorem assignment_marks_initialized (a : SemanticAnalyzer) (node : ASTNode)
    (left : Identifier) (right : Expression) (i : Nat) (symbol : SymbolInfo)
    (h : a.symbolTable.lookupEntry left.name = some (i, symbol))
    (hk : symbol.kind = "variable" ∨ symbol.kind = "parameter") :
    let g := getExpressionType
      { a with currentLine := node.lineNumber, currentContext := "赋值表达式" } right
    let r := visitExpression a (.AssignmentExpression node left right)
    (g.1.canAssignTo (TypeInfo.ofType symbol.type) = true →
        r.1.currentExpressionType = TypeInfo.ofType symbol.type ∧
        r.1.errors = g.2.1.errors ∧
        r.1.symbolTable = g.2.1.symbolTable.setInitialized i left.name ∧
        ∃ symbol', r.1.symbolTable.lookup left.name = some symbol' ∧
          symbol'.isInitialized = true ∧ symbol'.type = symbol.type ∧
          symbol'.kind = symbol.kind) ∧
    (g.1.canAssignTo (TypeInfo.ofType symbol.type) = false →
        r.1.currentExpressionType = TypeInfo.invalid ∧
        r.1.symbolTable = g.2.1.symbolTable ∧
        r.1.errors = g.2.1.errors ++
          [{ message := "类型不匹配: 不能将 " ++ g.1.baseType ++ " 赋值给 " ++ symbol.type,
             errorType := "类型错误", line := g.2.1.currentLine, column := 0,
             context := "赋值表达式" }]) ∧
    ((analyze SemanticAnalyzer.new Examples.assignProgram true).analyzer.errors = [] ∧
      (analyze SemanticAnalyzer.new Examples.assignProgram true).analyzer.warnings = []) := by
  intro g r
  have hk' : (symbol.kind != "variable" && symbol.kind != "parameter") = false := by
    rcases hk with h1 | h1 <;> simp [h1]
  have h0 : ({ a with currentLine := node.lineNumber, currentContext := "赋值表达式" }
      : SemanticAnalyzer).symbolTable.lookupEntry left.name = some (i, symbol) := h
  have hr : r = visitExpression a (.AssignmentExpression node left right) := rfl
  simp only [visitExpression, h0, hk', Bool.false_eq_true, if_false] at hr
  refine ⟨?_, ?_, by decide⟩
  · intro hc
    have hc' : TypeInfo.canAssignTo
        (visitExpression { a with currentLine := node.lineNumber,
                                  currentContext := "赋值表达式" } right).1.currentExpressionType
        (TypeInfo.ofType symbol.type) = true := hc
    simp only [hc', Bool.not_true, Bool.false_eq_true, if_false] at hr
    rw [hr]
    refine ⟨rfl, rfl, rfl, ?_⟩
    obtain ⟨sym1, hl, ht, hkk⟩ := lookupEntry_after_expression
      { a with currentLine := node.lineNumber, currentContext := "赋值表达式" } right
      left.name i symbol h0
    exact ⟨{ sym1 with isInitialized := true },
      SymbolTable.lookup_setInitialized_found _ _ _ _ hl, rfl, ht, hkk⟩
  · intro hc
    have hc' : TypeInfo.canAssignTo
        (visitExpression { a with currentLine := node.lineNumber,
                                  currentContext := "赋值表达式" } right).1.currentExpressionType
        (TypeInfo.ofType symbol.type) = false := hc
    simp only [hc', Bool.not_false, if_true] at hr
    rw [hr]
    refine ⟨rfl, rfl, ?_⟩
    simp [g, getExpressionType, addError, TypeInfo.ofType, restoreType,
      (by decide : "赋值表达式".isEmpty = false)]

/-- Witness for C15: `x = 5` where the current scope has an uninitialized `int x`. -/
theorem assignment_marks_initialized_witness :
    Examples.shadowTable.exitScope.lookupEntry "x" =
      some (0, SymbolInfo.new "x" "int" "variable" 0) ∧
    (visitExpression { SemanticAnalyzer.new with symbolTable := Examples.shadowTable.exitScope }
        (.AssignmentExpression (ASTNode.atLine 1) ⟨ASTNode.atLine 1, "x"⟩
          (.IntegerLiteral (ASTNode.atLine 1) 5))).1.currentExpressionType =
      TypeInfo.ofType "int" ∧
    (visitExpression { SemanticAnalyzer.new with symbolTable := Examples.shadowTable.exitScope }
        (.AssignmentExpression (ASTNode.atLine 1) ⟨ASTNode.atLine 1, "x"⟩
          (.IntegerLiteral (ASTNode.atLine 1) 5))).1.symbolTable.lookup "x" =
      some { name := "x", type := "int", kind := "variable", scopeLevel := 0,
             isInitialized := true } ∧
    (visitExpression Examples.withVoidFunction Examples.assignCall).1.symbolTable =
      Examples.withVoidFunction.symbolTable :=
  ⟨by decide,
   ((assignment_marks_initialized
      { SemanticAnalyzer.new with symbolTable := Examples.shadowTable.exitScope }
      (ASTNode.atLine 1) ⟨ASTNode.atLine 1, "x"⟩ (.IntegerLiteral (ASTNode.atLine 1) 5) 0
      (SymbolInfo.new "x" "int" "variable" 0) (by decide) (Or.inl rfl)).1 (by decide)).1,
   by decide,
   ((assignment_marks_initialized Examples.withVoidFunction (ASTNode.atLine 1)
      ⟨ASTNode.atLine 1, "x"⟩ Examples.callF 0
      { name := "x", type := "int", kind := "variable", scopeLevel := 0,
        isInitialized := true } (by decide) (Or.inl rfl)).2.1 (by decide)).2.1⟩

/-- C16, the code at the failing input: the visit of a call never looks at the
arguments, so the analyzer state it leaves is the one it leaves for the call without
arguments, and the arguments come back unvisited; the program
`int f() { return 0; } int main() { return f(y); }` with `y` undeclared is accepted
with an empty error list. -/
theorem call_arguments_not_analyzed :
    (∀ (a : SemanticAnalyzer) (node : ASTNode) (name : String) (arguments : List Expression),
        (visitExpression a (.FunctionCall node name arguments)).1 =
          (visitExpression a (.FunctionCall node name [])).1 ∧
        (visitExpression a (.FunctionCall node name arguments)).2 =
          .FunctionCall node name arguments) ∧
    (analyze SemanticAnalyzer.new Examples.callUndeclaredArgument true).result = true ∧
    (analyze SemanticAnalyzer.new Examples.callUndeclaredArgument true).analyzer.errors = [] ∧
    SemanticAnalyzer.new.symbolTable.lookup "y" = none := by
  refine ⟨?_, by decide, by decide, by decide⟩
  intro a node name arguments
  simp only [visitExpression]
  split
  · exact ⟨rfl, rfl⟩
  · split <;> exact ⟨rfl, rfl⟩

/-- C17: a return statement without a value records an error exactly when the return
type of the enclosing function is not void; with a value it records an error of its
own exactly when the type of the value is not assignable to that return type; so in a
void function a returned value is an error unless its type is the valid type void. -/
theorem return_statement_errors (a : SemanticAnalyzer) (node : ASTNode) :
    (a.currentFunctionReturnType = "void" →
        (visitStatement a (.ReturnStatement node none)).1.errors = a.errors) ∧
    (a.currentFunctionReturnType ≠ "void" →
        (visitStatement a (.ReturnStatement node none)).1.errors =
          a.errors ++
            [{ message := "非void函数必须返回值", errorType := "语义错误", line := a.currentLine,
               column := 0, context := a.currentContext }]) ∧
    (∀ value : Expression,
        let g := getExpressionType { a with hasReturnStatement := true } value
        let r := visitStatement a (.ReturnStatement node (some value))
        (g.1.canAssignTo (TypeInfo.ofType a.currentFunctionReturnType) = true →
            r.1.errors = g.2.1.errors) ∧
        (g.1.canAssignTo (TypeInfo.ofType a.currentFunctionReturnType) = false →
            r.1.errors = g.2.1.errors ++
              [{ message := "返回类型不匹配: 期望 " ++ a.currentFunctionReturnType
                   ++ ", 实际 " ++ g.1.baseType,
                 errorType := "语义错误", line := g.2.1.currentLine, column := 0,
                 context := g.2.1.currentContext }]) ∧
        (a.currentFunctionReturnType = "void" →
            (g.1.canAssignTo (TypeInfo.ofType a.currentFunctionReturnType) = true ↔
              g.1.isValid = true ∧ g.1.baseType = "void"))) := by
  refine ⟨?_, ?_, ?_⟩
  · intro h
    simp [visitStatement, h]
  · intro h
    simp [visitStatement, h, addErrorDefault, addError, (by decide : "".isEmpty = true)]
  · intro value g r
    have hrt : g.2.1.currentFunctionReturnType = a.currentFunctionReturnType :=
      (getExpressionType_frame { a with hasReturnStatement := true } value).1
    have hr : r = visitStatement a (.ReturnStatement node (some value)) := rfl
    simp only [visitStatement] at hr
    refine ⟨?_, ?_, ?_⟩
    · intro hc
      rw [← hrt] at hc
      have hc' : TypeInfo.canAssignTo
          (getExpressionType { a with hasReturnStatement := true } value).1
          (TypeInfo.ofType (getExpressionType { a with hasReturnStatement := true }
            value).2.1.currentFunctionReturnType) = true := hc
      simp only [hc', Bool.not_true, Bool.false_eq_true, if_false] at hr
      rw [hr]
    · intro hc
      rw [← hrt] at hc
      have hc' : TypeInfo.canAssignTo
          (getExpressionType { a with hasReturnStatement := true } value).1
          (TypeInfo.ofType (getExpressionType { a with hasReturnStatement := true }
            value).2.1.currentFunctionReturnType) = false := hc
      simp only [hc', Bool.not_false, if_true] at hr
      rw [hr]
      have hrt' : (getExpressionType { a with hasReturnStatement := true }
          value).2.1.currentFunctionReturnType = a.currentFunctionReturnType := hrt
      simp only [addErrorDefault_errors, TypeInfo.ofType, hrt']
    · intro hv
      rw [hv]
      cases hval : g.1.isValid <;>
        simp [TypeInfo.canAssignTo, TypeInfo.ofType, TypeInfo.isNumeric, hval]

/-- Witness for C17: `return;` and `return f();` (with `void f`) in a function
returning `int`, and `return;` under the fresh analyzer's empty return type. -/
theorem return_statement_errors_witness :
    (visitStatement Examples.withVoidFunction (.ReturnStatement (ASTNode.atLine 1) none)).1.errors
      = Examples.withVoidFunction.errors ++
          [{ message := "非void函数必须返回值", errorType := "语义错误",
             line := Examples.withVoidFunction.currentLine, column := 0,
             context := Examples.withVoidFunction.currentContext }] ∧
    (visitStatement { Examples.withVoidFunction with currentFunctionReturnType := "void" }
        (.ReturnStatement (ASTNode.atLine 1) none)).1.errors = [] ∧
    (visitStatement { Examples.withVoidFunction with currentFunctionReturnType := "void" }
        Examples.returnCall).1.errors = [] ∧
    (visitStatement Examples.withVoidFunction Examples.returnCall).1.errors.length = 1 :=
  ⟨(return_statement_errors Examples.withVoidFunction (ASTNode.atLine 1)).2.1 (by decide),
   (return_statement_errors { Examples.withVoidFunction with currentFunctionReturnType := "void" }
      (ASTNode.atLine 1)).1 rfl,
   ((return_statement_errors { Examples.withVoidFunction with currentFunctionReturnType := "void" }
      (ASTNode.atLine 1)).2.2 Examples.callF).1 (by decide),
   (congrArg List.length
     (((return_statement_errors Examples.withVoidFunction (ASTNode.atLine 1)).2.2
        Examples.callF).2.1 (by decide))).trans (by decide)⟩

/-- C18: after the body of a function definition has been analyzed, the warning
"function may not return a value" is added exactly when the return type is not void and
no `ReturnStatement` node occurs in the body at any depth; a return in one branch of an
`if` is enough to suppress it. -/
theorem missing_return_warning (a : SemanticAnalyzer) (f : FunctionDefinition) :
    (visitFunctionDefinition a f).1.warnings =
      (visitStatement (enterFunction a f)
          (.CompoundStatement f.bodyNode f.bodyStatements)).1.warnings ++
        (if f.returnType ≠ "void" ∧ Statement.containsReturnList f.bodyStatements = false
         then ["函数 '" ++ f.name ++ "' 可能没有返回值"] else []) ∧
    Statement.containsReturnList Examples.returnInBranch.bodyStatements = true ∧
    (visitFunctionDefinition SemanticAnalyzer.new Examples.returnInBranch).1.warnings = [] ∧
    Statement.containsReturnList Examples.noReturn.bodyStatements = false ∧
    (visitFunctionDefinition SemanticAnalyzer.new Examples.noReturn).1.warnings =
      ["函数 'h' 可能没有返回值"] := by
  refine ⟨?_, by decide, by decide, by decide, by decide⟩
  have hflag := visitStatement_hasReturn (enterFunction a f)
    (.CompoundStatement f.bodyNode f.bodyStatements)
  rw [(enterFunction_frame a f).2, Bool.false_or] at hflag
  simp only [Statement.containsReturn] at hflag
  have hbody : (visitFunctionDefinition a f).1.warnings =
      (if (f.returnType != "void" &&
            !(visitStatement (enterFunction a f)
              (.CompoundStatement f.bodyNode f.bodyStatements)).1.hasReturnStatement) = true
       then
         (visitStatement (enterFunction a f)
            (.CompoundStatement f.bodyNode f.bodyStatements)).1.addWarning
            ("函数 '" ++ f.name ++ "' 可能没有返回值")
       else (visitStatement (enterFunction a f)
            (.CompoundStatement f.bodyNode f.bodyStatements)).1).warnings := rfl
  rw [hbody, hflag]
  by_cases hv : f.returnType = "void"
  · simp [hv]
  · cases hc : Statement.containsReturnList f.bodyStatements <;> simp [hv, hc]

end SemanticAnalyzer

/-! ## Error kinds and type strings: C19, C20 -/

namespace SemanticAnalyzer

/-- C19 as stated fails: with `int x` declared, the call `x()` of a variable records one
error, and its kind is the type-error kind, not the assignment-error kind. -/
theorem error_kind_counterexample :
    (visitExpression Examples.withVoidFunction Examples.callVariable).1.errors =
      [{ message := "'x' 不是函数", errorType := "类型错误", line := 1, column := 0,
         context := "函数调用" }] ∧
    ∀ e ∈ (visitExpression Examples.withVoidFunction Examples.callVariable).1.errors,
      e.errorType ≠ "赋值错误" := by
  decide

/-- C19, amended to the kinds the visitors pass to `addError`.  An assignment type
mismatch and an initializer type mismatch are recorded with the type-error kind, and so
is a call whose target is not a function; the assignment-error kind is the kind of an
assignment to a symbol that is neither variable nor parameter.  Each of them is the one
error its visitor appends. -/
theorem error_kinds :
    (∀ (a : SemanticAnalyzer) (node : ASTNode) (left : Identifier) (right : Expression)
        (i : Nat) (symbol : SymbolInfo),
        let g := getExpressionType
          { a with currentLine := node.lineNumber, currentContext := "赋值表达式" } right
        a.symbolTable.lookupEntry left.name = some (i, symbol) →
        symbol.kind = "variable" ∨ symbol.kind = "parameter" →
        g.1.canAssignTo (TypeInfo.ofType symbol.type) = false →
          (visitExpression a (.AssignmentExpression node left right)).1.errors =
            g.2.1.errors ++
              [{ message := "类型不匹配: 不能将 " ++ g.1.baseType ++ " 赋值给 " ++ symbol.type,
                 errorType := "类型错误", line := g.2.1.currentLine, column := 0,
                 context := "赋值表达式" }]) ∧
    (∀ (a : SemanticAnalyzer) (node : ASTNode) (left : Identifier) (right : Expression)
        (i : Nat) (symbol : SymbolInfo),
        a.symbolTable.lookupEntry left.name = some (i, symbol) →
        symbol.kind ≠ "variable" → symbol.kind ≠ "parameter" →
          (visitExpression a (.AssignmentExpression node left right)).1.errors =
            a.errors ++
              [{ message := "不能给非变量 '" ++ left.name ++ "' 赋值", errorType := "赋值错误",
                 line := node.lineNumber, column := 0, context := "赋值表达式" }]) ∧
    (∀ (a : SemanticAnalyzer) (node : ASTNode) (type name : String) (e : Expression),
        let g := getExpressionType
          { a with currentLine := node.lineNumber, currentContext := "变量声明",
                   symbolTable := (a.symbolTable.declare name type "variable").2 } e
        (a.symbolTable.declare name type "variable").1 = true →
        g.1.canAssignTo (TypeInfo.ofType type) = false →
          (visitStatement a (.VariableDeclaration node type [] [(name, some e)])).1.errors =
            g.2.1.errors ++
              [{ message := "初始化类型不匹配: 不能将 " ++ g.1.baseType ++ " 赋值给 " ++ type,
                 errorType := "类型错误", line := g.2.1.currentLine, column := 0,
                 context := "变量初始化" }]) ∧
    (∀ (a : SemanticAnalyzer) (node : ASTNode) (name : String) (arguments : List Expression)
        (symbol : SymbolInfo),
        a.symbolTable.lookup name = some symbol → symbol.kind ≠ "function" →
          (visitExpression a (.FunctionCall node name arguments)).1.errors =
            a.errors ++
              [{ message := "'" ++ name ++ "' 不是函数", errorType := "类型错误",
                 line := node.lineNumber, column := 0, context := "函数调用" }]) := by
  refine ⟨?_, ?_, ?_, ?_⟩
  · intro a node left right i symbol g hl hk hno
    have hk' : (symbol.kind != "variable" && symbol.kind != "parameter") = false := by
      rcases hk with h1 | h1 <;> simp [h1]
    have h0 : ({ a with currentLine := node.lineNumber, currentContext := "赋值表达式" }
        : SemanticAnalyzer).symbolTable.lookupEntry left.name = some (i, symbol) := hl
    have hno' : TypeInfo.canAssignTo
        (visitExpression { a with currentLine := node.lineNumber,
                                  currentContext := "赋值表达式" } right).1.currentExpressionType
        { baseType := symbol.type, isValid := true } = false := hno
    simp [visitExpression, h0, hk', hno', g, getExpressionType, addError, restoreType,
      TypeInfo.ofType, (by decide : "赋值表达式".isEmpty = false)]
  · intro a node left right i symbol hl hv hp
    have hk' : (symbol.kind != "variable" && symbol.kind != "parameter") = true := by
      simp [hv, hp]
    have h0 : ({ a with currentLine := node.lineNumber, currentContext := "赋值表达式" }
        : SemanticAnalyzer).symbolTable.lookupEntry left.name = some (i, symbol) := hl
    simp [visitExpression, h0, hk', addError, (by decide : "赋值表达式".isEmpty = false)]
  · intro a node type name e g hd hno
    have hno' : TypeInfo.canAssignTo
        (getExpressionType
          { a with currentLine := node.lineNumber, currentContext := "变量声明",
                   symbolTable := (a.symbolTable.declare name type "variable").2 } e).1
        { baseType := type, isValid := true } = false := hno
    simp [visitStatement, declareNames, visitInitDeclarators, hd, hno', g, addError,
      TypeInfo.ofType, (by decide : "变量初始化".isEmpty = false)]
  · intro a node name arguments symbol hl hk
    have h0 : ({ a with currentLine := node.lineNumber,
                        currentContext := "函数调用 '" ++ name ++ "'" }
        : SemanticAnalyzer).symbolTable.lookup name = some symbol := hl
    simp [visitExpression, h0, hk, addError, (by decide : "函数调用".isEmpty = false)]

/-- Witness for C19 (amended): `x = f()`, `f = 1`, `int z = f();` and `x()` with `void f`
and `int x` declared. -/
theorem error_kinds_witness :
    (visitExpression Examples.withVoidFunction Examples.assignCall).1.errors =
      [{ message := "类型不匹配: 不能将 void 赋值给 int", errorType := "类型错误", line := 1,
         column := 0, context := "赋值表达式" }] ∧
    (visitExpression Examples.withVoidFunction
        (.AssignmentExpression (ASTNode.atLine 1) ⟨ASTNode.atLine 1, "f"⟩
          (.IntegerLiteral (ASTNode.atLine 1) 1))).1.errors =
      [{ message := "不能给非变量 'f' 赋值", errorType := "赋值错误", line := 1, column := 0,
         context := "赋值表达式" }] ∧
    (visitStatement Examples.withVoidFunction Examples.declareFromCall).1.errors =
      [{ message := "初始化类型不匹配: 不能将 void 赋值给 int", errorType := "类型错误",
         line := 1, column := 0, context := "变量初始化" }] ∧
    (visitExpression Examples.withVoidFunction Examples.callVariable).1.errors =
      [{ message := "'x' 不是函数", errorType := "类型错误", line := 1, column := 0,
         context := "函数调用" }] :=
  ⟨(error_kinds.1 Examples.withVoidFunction (ASTNode.atLine 1) ⟨ASTNode.atLine 1, "x"⟩
      Examples.callF 0
      { name := "x", type := "int", kind := "variable", scopeLevel := 0,
        isInitialized := true } (by decide) (Or.inl rfl) (by decide)).trans (by decide),
   (error_kinds.2.1 Examples.withVoidFunction (ASTNode.atLine 1) ⟨ASTNode.atLine 1, "f"⟩
      (.IntegerLiteral (ASTNode.atLine 1) 1) 0 (SymbolInfo.new "f" "void" "function" 0)
      (by decide) (by decide) (by decide)).trans (by decide),
   (error_kinds.2.2.1 Examples.withVoidFunction (ASTNode.atLine 1) "int" "z" Examples.callF
      (by decide) (by decide)).trans (by decide),
   (error_kinds.2.2.2 Examples.withVoidFunction (ASTNode.atLine 1) "x" []
      { name := "x", type := "int", kind := "variable", scopeLevel := 0,
        isInitialized := true } (by decide) (by decide)).trans (by decide)⟩

/-- C20: when every type name written in the program (declaration types, parameter types,
function return types) is one of int, char, float, double, void, and the analysis starts
from a table whose declared types are in that set and from a tree whose type strings are
in that set or empty (as the default `SemanticInfo` leaves them), then after `analyze`
the type string of every node of the tree is one of the five names or empty. -/
theorem annotated_types_closed (a : SemanticAnalyzer) (program : Program) (silent : Bool)
    (hty : typeNamesClosed program.typeNames) (ht : a.symbolTable.typesClosed)
    (hn : nodesClosed program.nodes) :
    nodesClosed (analyze a program silent).program.nodes := by
  simp only [Program.nodes, nodesClosed_cons] at hn
  have h := visitDeclarations_closed program.declarations
    { a with errors := [], warnings := [] } ht hty hn.2
  simp only [analyze, visitProgram, Program.nodes, nodesClosed_cons]
  exact ⟨hn.1, h.2⟩

theorem annotated_types_closed_witness :
    typeNamesClosed Examples.assignProgram.typeNames ∧
    SemanticAnalyzer.new.symbolTable.typesClosed ∧
    nodesClosed Examples.assignProgram.nodes ∧
    nodesClosed (analyze SemanticAnalyzer.new Examples.assignProgram true).program.nodes ∧
    (analyze SemanticAnalyzer.new Examples.assignProgram true).program.nodes.map
        (fun n => n.semanticInfo.type)
      = ["", "", "", "", "", "", "", "int", "", "int"] :=
  have h1 : typeNamesClosed Examples.assignProgram.typeNames := by
    unfold typeNamesClosed; decide
  have h2 : SemanticAnalyzer.new.symbolTable.typesClosed := by
    unfold SymbolTable.typesClosed; decide
  have h3 : nodesClosed Examples.assignProgram.nodes := by
    unfold nodesClosed; decide
  ⟨h1, h2, h3, annotated_types_closed SemanticAnalyzer.new Examples.assignProgram true h1 h2 h3,
    by decide⟩

end SemanticAnalyzer

/-! ## Lemmas on the code generator -/

theorem toInt32_of_range (x : Int) (h1 : -2147483648 ≤ x) (h2 : x < 2147483648) :
    toInt32 x = x := by
  unfold toInt32
  omega

theorem Frame.find_assign (f : Frame) (n m : String) (v : Int) :
    Frame.find (Frame.assign f n v) m = if n = m then some v else Frame.find f m := by
  induction f with
  | nil =>
    simp only [Frame.assign, Frame.find]
  | cons e rest ih =>
    obtain ⟨k, w⟩ := e
    simp only [Frame.assign]
    by_cases hk : k = n
    · subst hk
      simp only [if_true, Frame.find]
      split <;> rfl
    · simp only [hk, if_false, Frame.find, ih]
      by_cases hm : k = m
      · subst hm
        have : ¬ n = k := fun h => hk h.symm
        simp [this]
      · simp [hm]

/-- A name the frame map has stays in it when a name is assigned. -/
theorem Frame.find_assign_isSome (f : Frame) (n m : String) (v : Int)
    (h : (Frame.find f m).isSome = true ∨ m = n) :
    (Frame.find (Frame.assign f n v) m).isSome = true := by
  rw [Frame.find_assign]
  by_cases hn : n = m
  · simp [hn]
  · simp only [hn, if_false]
    rcases h with h | h
    · exact h
    · exact absurd h.symm hn

theorem arithmeticRun_zero (s d : Int) : arithmeticRun s d 0 = [] := rfl

theorem arithmeticRun_length (s d : Int) (n : Nat) : (arithmeticRun s d n).length = n := by
  simp [arithmeticRun]

theorem arithmeticRun_succ (s d : Int) (n : Nat) :
    arithmeticRun s d (n + 1) = s :: arithmeticRun (s + d) d n := by
  simp only [arithmeticRun, List.range_succ_eq_map, List.map_cons, List.map_map]
  refine congrArg₂ _ (by simp) ?_
  apply List.map_congr_left
  intro i _
  simp only [Function.comp, Nat.cast_succ]
  ring_nf

theorem arithmeticRun_append (s d : Int) (m n : Nat) :
    arithmeticRun s d (m + n) = arithmeticRun s d m ++ arithmeticRun (s + d * m) d n := by
  induction m generalizing s with
  | zero => simp [arithmeticRun_zero]
  | succ k ih =>
    have hs : s + d + d * (k : Int) = s + d * ((k + 1 : Nat) : Int) := by
      push_cast
      ring
    rw [Nat.add_right_comm, arithmeticRun_succ, arithmeticRun_succ, ih, List.cons_append, hs]

theorem arithmeticRun_mem {s d : Int} {n : Nat} {x : Int} (h : x ∈ arithmeticRun s d n) :
    ∃ i : Nat, i < n ∧ x = s + d * i := by
  simp only [arithmeticRun, List.mem_map, List.mem_range] at h
  obtain ⟨i, hi, rfl⟩ := h
  exact ⟨i, hi, rfl⟩

theorem arithmeticRun_nodup (s d : Int) (n : Nat) (hd : d ≠ 0) :
    (arithmeticRun s d n).Nodup := by
  unfold arithmeticRun
  refine List.Nodup.map ?_ (List.nodup_range n)
  intro i j hij
  have h : d * (i : Int) = d * (j : Int) := by
    simp only at hij
    linarith
  exact_mod_cast mul_left_cancel₀ hd h

theorem Event.labelNumbers_append (a b : List Event) :
    Event.labelNumbers (a ++ b) = Event.labelNumbers a ++ Event.labelNumbers b := by
  induction a with
  | nil => rfl
  | cons e rest ih =>
    cases e <;> simp [Event.labelNumbers, ih]

theorem Event.slots_append (a b : List Event) :
    Event.slots (a ++ b) = Event.slots a ++ Event.slots b := by
  induction a with
  | nil => rfl
  | cons e rest ih =>
    cases e <;> simp [Event.slots, ih]

theorem CounterRun.nil (first step c c' : Int) (h : c' = c) : CounterRun first step c c' [] := by
  refine ⟨rfl, ?_⟩
  simp [h]

theorem CounterRun.single (first step c : Int) :
    CounterRun first step c (c + step) [c + first] := by
  refine ⟨?_, ?_⟩
  · simp [arithmeticRun, List.range_succ]
  · simp

theorem CounterRun.append {first step c c1 c2 : Int} {a b : List Int}
    (h1 : CounterRun first step c c1 a) (h2 : CounterRun first step c1 c2 b) :
    CounterRun first step c c2 (a ++ b) := by
  obtain ⟨ha, hc1⟩ := h1
  obtain ⟨hb, hc2⟩ := h2
  refine ⟨?_, ?_⟩
  · rw [List.length_append, arithmeticRun_append, ← ha]
    congr 1
    rw [hb, arithmeticRun_length]
    congr 1
    rw [hc1]
    ring
  · rw [hc2, hc1, List.length_append]
    push_cast
    ring

theorem CounterRange.left {step c : Int} {m n : Nat} (hs : 0 ≤ step)
    (h : CounterRange step c (m + n)) : CounterRange step c m := by
  obtain ⟨h0, h1⟩ := h
  refine ⟨h0, ?_⟩
  push_cast at h1
  nlinarith [Int.natCast_nonneg n, Int.natCast_nonneg m]

theorem CounterRange.right {first step c c1 : Int} {a : List Int} {n : Nat} (hs : 0 ≤ step)
    (h : CounterRange step c (a.length + n)) (hr : CounterRun first step c c1 a) :
    CounterRange step c1 n := by
  obtain ⟨h0, h1⟩ := h
  obtain ⟨_, hc1⟩ := hr
  refine ⟨?_, ?_⟩
  · rw [hc1]
    nlinarith [Int.natCast_nonneg a.length]
  · rw [hc1]
    push_cast at h1
    linarith

theorem Event.variable_mem_slots :
    ∀ (T : List Event) (name : String) (k : Int), Event.variable name k ∈ T → k ∈ Event.slots T
  | [], _, _, h => by simp at h
  | e :: rest, name, k, h => by
    simp only [List.mem_cons] at h
    rcases h with h | h
    · subst h
      simp [Event.slots]
    · have ih := Event.variable_mem_slots rest name k h
      cases e <;> simp [Event.slots, ih]

theorem Event.label_mem_labelNumbers :
    ∀ (T : List Event) (p : String) (c : Int), Event.label p c ∈ T → c ∈ Event.labelNumbers T
  | [], _, _, h => by simp at h
  | e :: rest, p, c, h => by
    simp only [List.mem_cons] at h
    rcases h with h | h
    · subst h
      simp [Event.labelNumbers]
    · have ih := Event.label_mem_labelNumbers rest p c h
      cases e <;> simp [Event.labelNumbers, ih]

namespace CodeGenerator

@[simp] theorem emit_output (g : CodeGenerator) (l : String) :
    (g.emit l).output = g.output ++ [l] := rfl

@[simp] theorem emit_errorOutput (g : CodeGenerator) (l : String) :
    (g.emit l).errorOutput = g.errorOutput := rfl

@[simp] theorem emit_symbolTable (g : CodeGenerator) (l : String) :
    (g.emit l).symbolTable = g.symbolTable := rfl

@[simp] theorem emit_stackOffset (g : CodeGenerator) (l : String) :
    (g.emit l).stackOffset = g.stackOffset := rfl

@[simp] theorem emit_labelCounter (g : CodeGenerator) (l : String) :
    (g.emit l).labelCounter = g.labelCounter := rfl

@[simp] theorem emit_currentFunction (g : CodeGenerator) (l : String) :
    (g.emit l).currentFunction = g.currentFunction := rfl

@[simp] theorem emitLines_output (g : CodeGenerator) (l : List String) :
    (g.emitLines l).output = g.output ++ l := rfl

@[simp] theorem emitLines_errorOutput (g : CodeGenerator) (l : List String) :
    (g.emitLines l).errorOutput = g.errorOutput := rfl

@[simp] theorem emitLines_symbolTable (g : CodeGenerator) (l : List String) :
    (g.emitLines l).symbolTable = g.symbolTable := rfl

@[simp] theorem emitLines_stackOffset (g : CodeGenerator) (l : List String) :
    (g.emitLines l).stackOffset = g.stackOffset := rfl

@[simp] theorem emitLines_labelCounter (g : CodeGenerator) (l : List String) :
    (g.emitLines l).labelCounter = g.labelCounter := rfl

@[simp] theorem emitLines_currentFunction (g : CodeGenerator) (l : List String) :
    (g.emitLines l).currentFunction = g.currentFunction := rfl

@[simp] theorem generateLabel_fst (g : CodeGenerator) (p : String) :
    (g.generateLabel p).1 = p ++ toString g.labelCounter := rfl

@[simp] theorem generateLabel_output (g : CodeGenerator) (p : String) :
    (g.generateLabel p).2.output = g.output := rfl

@[simp] theorem generateLabel_errorOutput (g : CodeGenerator) (p : String) :
    (g.generateLabel p).2.errorOutput = g.errorOutput := rfl

@[simp] theorem generateLabel_symbolTable (g : CodeGenerator) (p : String) :
    (g.generateLabel p).2.symbolTable = g.symbolTable := rfl

@[simp] theorem generateLabel_stackOffset (g : CodeGenerator) (p : String) :
    (g.generateLabel p).2.stackOffset = g.stackOffset := rfl

@[simp] theorem generateLabel_currentFunction (g : CodeGenerator) (p : String) :
    (g.generateLabel p).2.currentFunction = g.currentFunction := rfl

theorem generateLabel_labelCounter (g : CodeGenerator) (p : String) :
    (g.generateLabel p).2.labelCounter = toInt32 (g.labelCounter + 1) := rfl

@[simp] theorem allocateVariable_output (g : CodeGenerator) (n : String) :
    (g.allocateVariable n).output = g.output := rfl

@[simp] theorem allocateVariable_errorOutput (g : CodeGenerator) (n : String) :
    (g.allocateVariable n).errorOutput = g.errorOutput := rfl

@[simp] theorem allocateVariable_labelCounter (g : CodeGenerator) (n : String) :
    (g.allocateVariable n).labelCounter = g.labelCounter := rfl

@[simp] theorem allocateVariable_currentFunction (g : CodeGenerator) (n : String) :
    (g.allocateVariable n).currentFunction = g.currentFunction := rfl

theorem allocateVariable_stackOffset (g : CodeGenerator) (n : String) :
    (g.allocateVariable n).stackOffset = toInt32 (g.stackOffset + 8) := rfl

theorem allocateVariable_symbolTable (g : CodeGenerator) (n : String) :
    (g.allocateVariable n).symbolTable =
      Frame.assign g.symbolTable n (toInt32 (g.stackOffset + 8)) := rfl

@[simp] theorem getVariableAddress_output (g : CodeGenerator) (n : String) :
    (g.getVariableAddress n).2.output = g.output := by
  unfold getVariableAddress; split <;> rfl

@[simp] theorem getVariableAddress_symbolTable (g : CodeGenerator) (n : String) :
    (g.getVariableAddress n).2.symbolTable = g.symbolTable := by
  unfold getVariableAddress; split <;> rfl

@[simp] theorem getVariableAddress_stackOffset (g : CodeGenerator) (n : String) :
    (g.getVariableAddress n).2.stackOffset = g.stackOffset := by
  unfold getVariableAddress; split <;> rfl

@[simp] theorem getVariableAddress_labelCounter (g : CodeGenerator) (n : String) :
    (g.getVariableAddress n).2.labelCounter = g.labelCounter := by
  unfold getVariableAddress; split <;> rfl

@[simp] theorem getVariableAddress_currentFunction (g : CodeGenerator) (n : String) :
    (g.getVariableAddress n).2.currentFunction = g.currentFunction := by
  unfold getVariableAddress; split <;> rfl

@[simp] theorem storeVariable_symbolTable (g : CodeGenerator) (n : String) :
    (g.storeVariable n).symbolTable = g.symbolTable := by
  simp only [storeVariable]; split <;> simp

@[simp] theorem storeVariable_stackOffset (g : CodeGenerator) (n : String) :
    (g.storeVariable n).stackOffset = g.stackOffset := by
  simp only [storeVariable]; split <;> simp

@[simp] theorem storeVariable_labelCounter (g : CodeGenerator) (n : String) :
    (g.storeVariable n).labelCounter = g.labelCounter := by
  simp only [storeVariable]; split <;> simp

@[simp] theorem storeVariable_currentFunction (g : CodeGenerator) (n : String) :
    (g.storeVariable n).currentFunction = g.currentFunction := by
  simp only [storeVariable]; split <;> simp

@[simp] theorem spillRight_symbolTable (g : CodeGenerator) :
    g.spillRight.symbolTable = g.symbolTable := rfl

@[simp] theorem spillRight_labelCounter (g : CodeGenerator) :
    g.spillRight.labelCounter = g.labelCounter := rfl

@[simp] theorem spillRight_currentFunction (g : CodeGenerator) :
    g.spillRight.currentFunction = g.currentFunction := rfl

@[simp] theorem spillRight_errorOutput (g : CodeGenerator) :
    g.spillRight.errorOutput = g.errorOutput := rfl

theorem spillRight_stackOffset (g : CodeGenerator) :
    g.spillRight.stackOffset = toInt32 (g.stackOffset + 8) := rfl

theorem spillRight_output (g : CodeGenerator) :
    g.spillRight.output =
      g.output ++ ["    movq %rax, -" ++ toString (toInt32 (g.stackOffset + 8)) ++ "(%rbp)"] :=
  rfl

mutual

/-- An expression visit leaves the frame map, the label counter and the function name
as they are. -/
theorem visitExpression_keeps :
    ∀ (g : CodeGenerator) (e : Expression),
      (visitExpression g e).symbolTable = g.symbolTable ∧
      (visitExpression g e).labelCounter = g.labelCounter ∧
      (visitExpression g e).currentFunction = g.currentFunction
  | g, .IntegerLiteral _ _ => by simp [visitExpression]
  | g, .Identifier id => by
    simp only [visitExpression]
    split <;> simp
  | g, .BinaryExpression _ left op right => by
    have h1 := visitExpression_keeps g right
    have h2 := visitExpression_keeps (spillRight (visitExpression g right)) left
    simp only [visitExpression, emitLines_symbolTable, emitLines_labelCounter,
      emitLines_currentFunction, emit_symbolTable, emit_labelCounter, emit_currentFunction]
    simp only [spillRight_symbolTable, spillRight_labelCounter, spillRight_currentFunction]
      at h2
    exact ⟨h2.1.trans h1.1, h2.2.1.trans h1.2.1, h2.2.2.trans h1.2.2⟩
  | g, .UnaryExpression _ op operand => by
    have h1 := visitExpression_keeps g operand
    simp only [visitExpression, emitLines_symbolTable, emitLines_labelCounter,
      emitLines_currentFunction]
    exact h1
  | g, .AssignmentExpression _ left right => by
    have h1 := visitExpression_keeps g right
    simp only [visitExpression, storeVariable_symbolTable, storeVariable_labelCounter,
      storeVariable_currentFunction]
    exact h1
  | g, .FunctionCall _ name arguments => by
    have h1 := visitArguments_keeps g arguments
    simp only [visitExpression]
    split
    · simp
    · split <;> simpa using h1

theorem visitArguments_keeps :
    ∀ (g : CodeGenerator) (l : List Expression),
      (visitArguments g l).symbolTable = g.symbolTable ∧
      (visitArguments g l).labelCounter = g.labelCounter ∧
      (visitArguments g l).currentFunction = g.currentFunction
  | g, [] => by simp [visitArguments]
  | g, a :: rest => by
    have h1 := visitArguments_keeps g rest
    have h2 := visitExpression_keeps (visitArguments g rest) a
    simp only [visitArguments, emit_symbolTable, emit_labelCounter, emit_currentFunction]
    exact ⟨h2.1.trans h1.1, h2.2.1.trans h1.2.1, h2.2.2.trans h1.2.2⟩

end

mutual

/-- An expression visit only appends to the output. -/
theorem visitExpression_output :
    ∀ (g : CodeGenerator) (e : Expression),
      ∃ code, (visitExpression g e).output = g.output ++ code
  | g, .IntegerLiteral _ _ => ⟨_, rfl⟩
  | g, .Identifier id => by
    simp only [visitExpression]
    split
    · simp only [emit_output, getVariableAddress_output]
      exact ⟨_, rfl⟩
    · exact ⟨[], by simp⟩
  | g, .BinaryExpression _ left op right => by
    obtain ⟨c1, h1⟩ := visitExpression_output g right
    obtain ⟨c2, h2⟩ := visitExpression_output (spillRight (visitExpression g right)) left
    simp only [visitExpression, emitLines_output, emit_output, h2, spillRight_output, h1,
      List.append_assoc]
    exact ⟨_, rfl⟩
  | g, .UnaryExpression _ op operand => by
    obtain ⟨c1, h1⟩ := visitExpression_output g operand
    simp only [visitExpression, emitLines_output, h1, List.append_assoc]
    exact ⟨_, rfl⟩
  | g, .AssignmentExpression _ left right => by
    obtain ⟨c1, h1⟩ := visitExpression_output g right
    simp only [visitExpression, storeVariable]
    split
    · simp only [emit_output, getVariableAddress_output, h1, List.append_assoc]
      exact ⟨_, rfl⟩
    · exact ⟨c1, by simp only [getVariableAddress_output, h1]⟩
  | g, .FunctionCall _ name arguments => by
    obtain ⟨c1, h1⟩ := visitArguments_output g arguments
    simp only [visitExpression]
    split
    · exact ⟨_, rfl⟩
    · split
      · simp only [emit_output, h1, List.append_assoc]
        exact ⟨_, rfl⟩
      · simp only [emit_output, h1, List.append_assoc]
        exact ⟨_, rfl⟩

theorem visitArguments_output :
    ∀ (g : CodeGenerator) (l : List Expression),
      ∃ code, (visitArguments g l).output = g.output ++ code
  | g, [] => ⟨[], by simp [visitArguments]⟩
  | g, a :: rest => by
    obtain ⟨c1, h1⟩ := visitArguments_output g rest
    obtain ⟨c2, h2⟩ := visitExpression_output (visitArguments g rest) a
    simp only [visitArguments, emit_output, h2, h1, List.append_assoc]
    exact ⟨_, rfl⟩

end

theorem SlotRun.nilSlots {g g' : CodeGenerator} {T : List Event}
    (h : g'.stackOffset = g.stackOffset) (hT : Event.slots T = []) : SlotRun g g' T := by
  unfold SlotRun
  rw [hT]
  exact CounterRun.nil 8 8 _ _ h

theorem SlotRun.appendSlots {g g1 g2 : CodeGenerator} {A B : List Event}
    (h1 : SlotRun g g1 A) (h2 : SlotRun g1 g2 B) : SlotRun g g2 (A ++ B) := by
  unfold SlotRun at *
  rw [Event.slots_append]
  exact CounterRun.append h1 h2

theorem SlotRun.congrSlots {g g1 g2 : CodeGenerator} {T : List Event}
    (h1 : SlotRun g g1 T) (h : g2.stackOffset = g1.stackOffset) : SlotRun g g2 T := by
  unfold SlotRun at *
  rw [h]
  exact h1

theorem SlotRun.congrLeftSlots {g g0 g1 : CodeGenerator} {T : List Event}
    (h1 : SlotRun g0 g1 T) (h : g0.stackOffset = g.stackOffset) : SlotRun g g1 T := by
  unfold SlotRun at *
  rw [← h]
  exact h1

theorem SlotRange.leftSlots {g : CodeGenerator} {A B : List Event} (h : SlotRange g (A ++ B)) :
    SlotRange g A := by
  unfold SlotRange at *
  rw [Event.slots_append, List.length_append] at h
  exact CounterRange.left (by decide) h

theorem SlotRange.rightSlots {g g1 : CodeGenerator} {A B : List Event}
    (h : SlotRange g (A ++ B)) (hr : SlotRun g g1 A) : SlotRange g1 B := by
  unfold SlotRange SlotRun at *
  rw [Event.slots_append, List.length_append] at h
  exact CounterRange.right (by decide) h hr

theorem SlotRange.sameSlots {g g' : CodeGenerator} {T : List Event} (h : SlotRange g T)
    (he : g'.stackOffset = g.stackOffset) : SlotRange g' T := by
  unfold SlotRange at *
  rw [he]
  exact h

/-- One allocation in range: the slot is the old offset plus 8. -/
theorem SlotRun.stepSlot {g g1 : CodeGenerator} {T : List Event}
    (hT : Event.slots T = [g1.stackOffset]) (hr : SlotRange g T)
    (h : g1.stackOffset = toInt32 (g.stackOffset + 8)) : SlotRun g g1 T := by
  unfold SlotRange CounterRange at hr
  rw [hT] at hr
  simp only [List.length_singleton, Nat.cast_one, mul_one] at hr
  have hv : g1.stackOffset = g.stackOffset + 8 := by
    rw [h]
    exact toInt32_of_range _ (by omega) (by omega)
  unfold SlotRun
  rw [hT, hv]
  exact CounterRun.single 8 8 _

theorem LabelRun.nilLabels {g g' : CodeGenerator} {T : List Event}
    (h : g'.labelCounter = g.labelCounter) (hT : Event.labelNumbers T = []) :
    LabelRun g g' T := by
  unfold LabelRun
  rw [hT]
  exact CounterRun.nil 0 1 _ _ h

theorem LabelRun.appendLabels {g g1 g2 : CodeGenerator} {A B : List Event}
    (h1 : LabelRun g g1 A) (h2 : LabelRun g1 g2 B) : LabelRun g g2 (A ++ B) := by
  unfold LabelRun at *
  rw [Event.labelNumbers_append]
  exact CounterRun.append h1 h2

theorem LabelRun.congrLabels {g g1 g2 : CodeGenerator} {T : List Event}
    (h1 : LabelRun g g1 T) (h : g2.labelCounter = g1.labelCounter) : LabelRun g g2 T := by
  unfold LabelRun at *
  rw [h]
  exact h1

theorem LabelRun.congrLeftLabels {g g0 g1 : CodeGenerator} {T : List Event}
    (h1 : LabelRun g0 g1 T) (h : g0.labelCounter = g.labelCounter) : LabelRun g g1 T := by
  unfold LabelRun at *
  rw [← h]
  exact h1

theorem LabelRange.leftLabels {g : CodeGenerator} {A B : List Event} (h : LabelRange g (A ++ B)) :
    LabelRange g A := by
  unfold LabelRange at *
  rw [Event.labelNumbers_append, List.length_append] at h
  exact CounterRange.left (by decide) h

theorem LabelRange.rightLabels {g g1 : CodeGenerator} {A B : List Event}
    (h : LabelRange g (A ++ B)) (hr : LabelRun g g1 A) : LabelRange g1 B := by
  unfold LabelRange LabelRun at *
  rw [Event.labelNumbers_append, List.length_append] at h
  exact CounterRange.right (by decide) h hr

theorem LabelRange.sameLabels {g g' : CodeGenerator} {T : List Event} (h : LabelRange g T)
    (he : g'.labelCounter = g.labelCounter) : LabelRange g' T := by
  unfold LabelRange at *
  rw [he]
  exact h

/-- One call of `generateLabel` in range: the label carries the old counter. -/
theorem LabelRun.stepLabel {g : CodeGenerator} (p : String)
    (hr : LabelRange g [.label p g.labelCounter]) :
    LabelRun g (g.generateLabel p).2 [.label p g.labelCounter] := by
  unfold LabelRange CounterRange at hr
  simp only [Event.labelNumbers, List.length_singleton, Nat.cast_one, mul_one] at hr
  have hv : (g.generateLabel p).2.labelCounter = g.labelCounter + 1 := by
    rw [generateLabel_labelCounter]
    exact toInt32_of_range _ (by omega) (by omega)
  unfold LabelRun
  rw [hv]
  simpa [Event.labelNumbers] using CounterRun.single 0 1 g.labelCounter

mutual

/-- An expression visit generates no label. -/
theorem expressionEvents_labelNumbers :
    ∀ (g : CodeGenerator) (e : Expression), Event.labelNumbers (expressionEvents g e) = []
  | g, .IntegerLiteral _ _ => rfl
  | g, .Identifier _ => rfl
  | g, .BinaryExpression _ left op right => by
    simp only [expressionEvents, Event.labelNumbers_append,
      expressionEvents_labelNumbers g right,
      expressionEvents_labelNumbers (spillRight (visitExpression g right)) left]
    rfl
  | g, .UnaryExpression _ op operand => by
    simp only [expressionEvents]
    exact expressionEvents_labelNumbers g operand
  | g, .AssignmentExpression _ left right => by
    simp only [expressionEvents]
    exact expressionEvents_labelNumbers g right
  | g, .FunctionCall _ name arguments => by
    simp only [expressionEvents]
    split
    · rfl
    · exact argumentsEvents_labelNumbers g arguments

theorem argumentsEvents_labelNumbers :
    ∀ (g : CodeGenerator) (l : List Expression), Event.labelNumbers (argumentsEvents g l) = []
  | g, [] => rfl
  | g, a :: rest => by
    simp only [argumentsEvents, Event.labelNumbers_append, argumentsEvents_labelNumbers g rest,
      expressionEvents_labelNumbers (visitArguments g rest) a]
    rfl

end

mutual

/-- In range, the spill slots of an expression are consecutive multiples of 8 above the
stack offset, which ends at the last of them. -/
theorem visitExpression_slots :
    ∀ (g : CodeGenerator) (e : Expression), SlotRange g (expressionEvents g e) →
      SlotRun g (visitExpression g e) (expressionEvents g e)
  | g, .IntegerLiteral _ _, _ => SlotRun.nilSlots rfl rfl
  | g, .Identifier id, _ => by
    refine SlotRun.nilSlots ?_ rfl
    simp only [visitExpression]
    split <;> simp
  | g, .BinaryExpression _ left op right, hr => by
    simp only [expressionEvents] at hr
    have run1 := visitExpression_slots g right hr.leftSlots.leftSlots
    have run2 : SlotRun (visitExpression g right) (spillRight (visitExpression g right))
        [.spill (spillRight (visitExpression g right)).stackOffset] :=
      SlotRun.stepSlot rfl (hr.leftSlots.rightSlots run1) (spillRight_stackOffset _)
    have run12 := run1.appendSlots run2
    have run3 := visitExpression_slots (spillRight (visitExpression g right)) left
      (hr.rightSlots run12)
    simp only [expressionEvents, visitExpression]
    exact (run12.appendSlots run3).congrSlots rfl
  | g, .UnaryExpression _ op operand, hr => by
    simp only [expressionEvents] at hr
    simp only [expressionEvents, visitExpression]
    exact (visitExpression_slots g operand hr).congrSlots rfl
  | g, .AssignmentExpression _ left right, hr => by
    simp only [expressionEvents] at hr
    simp only [expressionEvents, visitExpression]
    exact (visitExpression_slots g right hr).congrSlots (storeVariable_stackOffset _ _)
  | g, .FunctionCall _ name arguments, hr => by
    simp only [expressionEvents] at hr
    simp only [expressionEvents, visitExpression]
    split
    · exact SlotRun.nilSlots rfl rfl
    · rename_i hn
      simp only [hn, if_false] at hr
      have run := visitArguments_slots g arguments hr
      split <;> exact run.congrSlots rfl

theorem visitArguments_slots :
    ∀ (g : CodeGenerator) (l : List Expression), SlotRange g (argumentsEvents g l) →
      SlotRun g (visitArguments g l) (argumentsEvents g l)
  | g, [], _ => SlotRun.nilSlots rfl rfl
  | g, a :: rest, hr => by
    simp only [argumentsEvents] at hr
    have run1 := visitArguments_slots g rest hr.leftSlots
    have run2 := visitExpression_slots (visitArguments g rest) a (hr.rightSlots run1)
    simp only [argumentsEvents, visitArguments]
    exact (run1.appendSlots run2).congrSlots rfl

end

theorem declareName_stackOffset (g : CodeGenerator) (type name : String) :
    (declareName g type name).stackOffset = toInt32 (g.stackOffset + 8) := rfl

theorem declareInitialized_stackOffset (g : CodeGenerator) (type name : String) :
    (declareInitialized g type name).stackOffset = toInt32 (g.stackOffset + 8) := rfl

@[simp] theorem declareName_labelCounter (g : CodeGenerator) (type name : String) :
    (declareName g type name).labelCounter = g.labelCounter := rfl

@[simp] theorem declareInitialized_labelCounter (g : CodeGenerator) (type name : String) :
    (declareInitialized g type name).labelCounter = g.labelCounter := rfl

theorem declareNames_slots (type : String) :
    ∀ (names : List String) (g : CodeGenerator), SlotRange g (declareNamesEvents g type names) →
      SlotRun g (declareNames g type names) (declareNamesEvents g type names)
  | [], _, _ => SlotRun.nilSlots rfl rfl
  | name :: rest, g, hr => by
    have hr' : SlotRange g ([.variable name (g.allocateVariable name).stackOffset] ++
        declareNamesEvents (declareName g type name) type rest) := hr
    have run1 : SlotRun g (declareName g type name)
        [.variable name (g.allocateVariable name).stackOffset] :=
      SlotRun.stepSlot rfl hr'.leftSlots (declareName_stackOffset g type name)
    have run2 := declareNames_slots type rest (declareName g type name) (hr'.rightSlots run1)
    exact run1.appendSlots run2

theorem visitInitDeclarators_slots (type : String) :
    ∀ (inits : List (String × Option Expression)) (g : CodeGenerator),
      SlotRange g (initDeclaratorsEvents g type inits) →
      SlotRun g (visitInitDeclarators g type inits) (initDeclaratorsEvents g type inits)
  | [], _, _ => SlotRun.nilSlots rfl rfl
  | (name, none) :: rest, g, hr => by
    have hr' : SlotRange g ([.variable name (g.allocateVariable name).stackOffset] ++
        initDeclaratorsEvents (declareInitialized g type name) type rest) := hr
    have run1 : SlotRun g (declareInitialized g type name)
        [.variable name (g.allocateVariable name).stackOffset] :=
      SlotRun.stepSlot rfl hr'.leftSlots (declareInitialized_stackOffset g type name)
    have run2 := visitInitDeclarators_slots type rest (declareInitialized g type name)
      (hr'.rightSlots run1)
    exact run1.appendSlots run2
  | (name, some e) :: rest, g, hr => by
    have hr' : SlotRange g (([.variable name (g.allocateVariable name).stackOffset] ++
        expressionEvents (declareInitialized g type name) e) ++
        initDeclaratorsEvents
          (storeVariable (visitExpression (declareInitialized g type name) e) name)
          type rest) := by
      simp only [initDeclaratorsEvents] at hr
      simpa only [List.singleton_append, List.cons_append] using hr
    have run1 : SlotRun g (declareInitialized g type name)
        [.variable name (g.allocateVariable name).stackOffset] :=
      SlotRun.stepSlot rfl hr'.leftSlots.leftSlots (declareInitialized_stackOffset g type name)
    have run2 := visitExpression_slots (declareInitialized g type name) e
      (hr'.leftSlots.rightSlots run1)
    have run12 := (run1.appendSlots run2).congrSlots
      (storeVariable_stackOffset (visitExpression (declareInitialized g type name) e) name)
    have run3 := visitInitDeclarators_slots type rest _ (hr'.rightSlots run12)
    have := run12.appendSlots run3
    simp only [initDeclaratorsEvents, visitInitDeclarators]
    simpa only [List.singleton_append, List.cons_append] using this

theorem visitOptionalExpression_slots (g : CodeGenerator) (e : Option Expression)
    (hr : SlotRange g (optionalExpressionEvents g e)) :
    SlotRun g (visitOptionalExpression g e) (optionalExpressionEvents g e) := by
  cases e with
  | none => exact SlotRun.nilSlots rfl rfl
  | some e => exact visitExpression_slots g e hr

theorem ifHead_slots (g : CodeGenerator) (c : Expression)
    (hr : SlotRange g (ifHeadEvents g c)) :
    SlotRun g (ifHead g c).2.2 (ifHeadEvents g c) := by
  unfold ifHeadEvents at hr ⊢
  have run1 : SlotRun g (generateLabel (generateLabel g "if_false").2 "if_end").2
      [.label "if_false" g.labelCounter,
       .label "if_end" (generateLabel g "if_false").2.labelCounter] :=
    SlotRun.nilSlots rfl rfl
  have run2 := visitExpression_slots _ c (hr.rightSlots run1)
  exact (run1.appendSlots run2).congrSlots rfl

theorem whileHead_slots (g : CodeGenerator) (c : Expression)
    (hr : SlotRange g (whileHeadEvents g c)) :
    SlotRun g (whileHead g c).2.2 (whileHeadEvents g c) := by
  unfold whileHeadEvents at hr ⊢
  have run1 : SlotRun g
      ((generateLabel (generateLabel g "while_loop").2 "while_end").2.emit
        ((generateLabel g "while_loop").1 ++ ":"))
      [.label "while_loop" g.labelCounter,
       .label "while_end" (generateLabel g "while_loop").2.labelCounter] :=
    SlotRun.nilSlots rfl rfl
  have run2 := visitExpression_slots _ c (hr.rightSlots run1)
  exact (run1.appendSlots run2).congrSlots rfl

theorem forLabels_slots (g : CodeGenerator) :
    SlotRun g (forLabels g).2.2.2 (forLabelsEvents g) :=
  SlotRun.nilSlots rfl rfl

theorem forTest_slots (g : CodeGenerator) (l e : String) (c : Option Expression)
    (hr : SlotRange g (forTestEvents g l c)) :
    SlotRun g (forTest g l e c) (forTestEvents g l c) := by
  cases c with
  | none => exact SlotRun.nilSlots rfl rfl
  | some c =>
    have run := visitExpression_slots (g.emit (l ++ ":")) c hr
    exact (run.congrLeftSlots rfl).congrSlots rfl

theorem forTail_slots (g : CodeGenerator) (l u e : String) (c : Option Expression)
    (hr : SlotRange g (forTailEvents g u c)) :
    SlotRun g (forTail g l u e c) (forTailEvents g u c) := by
  have run := visitOptionalExpression_slots (g.emit (u ++ ":")) c hr
  exact (run.congrLeftSlots rfl).congrSlots rfl

mutual

/-- In range, the slots taken during a statement visit are consecutive multiples of 8
above the stack offset, which ends at the last of them. -/
theorem visitStatement_slots :
    ∀ (g : CodeGenerator) (s : Statement) (g' : CodeGenerator),
      SlotRange g (statementEvents g s) → visitStatement g s = some g' →
        SlotRun g g' (statementEvents g s)
  | g, .ExpressionStatement _ none, g', _, hv => by
    simp [visitStatement] at hv
  | g, .ExpressionStatement _ (some e), g', hr, hv => by
    simp only [visitStatement, Option.some.injEq] at hv
    subst hv
    exact visitExpression_slots g e hr
  | g, .VariableDeclaration _ type names inits, g', hr, hv => by
    simp only [visitStatement, Option.some.injEq] at hv
    subst hv
    simp only [statementEvents] at hr ⊢
    have run1 := declareNames_slots type names g hr.leftSlots
    have run2 := visitInitDeclarators_slots type inits _ (hr.rightSlots run1)
    exact run1.appendSlots run2
  | g, .CompoundStatement _ statements, g', hr, hv => by
    simp only [visitStatement] at hv
    simp only [statementEvents] at hr ⊢
    exact visitStatements_slots g statements g' hr hv
  | g, .IfStatement _ c t none, g', hr, hv => by
    simp only [visitStatement, Option.map_eq_some'] at hv
    obtain ⟨g1, h1, rfl⟩ := hv
    simp only [statementEvents] at hr ⊢
    have run1 := ifHead_slots g c hr.leftSlots
    have run2 := visitStatement_slots _ t g1 (hr.rightSlots run1) h1
    exact (run1.appendSlots run2).congrSlots rfl
  | g, .IfStatement _ c t (some e), g', hr, hv => by
    simp only [visitStatement, Option.bind_eq_some, Option.map_eq_some'] at hv
    obtain ⟨g1, h1, g2, h2, rfl⟩ := hv
    simp only [statementEvents, h1] at hr ⊢
    have run1 := ifHead_slots g c hr.leftSlots.leftSlots
    have run2 := visitStatement_slots _ t g1 (hr.leftSlots.rightSlots run1) h1
    have run12 := run1.appendSlots run2
    have run3 := visitStatement_slots _ e g2
      ((hr.rightSlots run12).sameSlots rfl) h2
    exact (run12.appendSlots (run3.congrLeftSlots rfl)).congrSlots rfl
  | g, .WhileStatement _ c b, g', hr, hv => by
    simp only [visitStatement, Option.map_eq_some'] at hv
    obtain ⟨g1, h1, rfl⟩ := hv
    simp only [statementEvents] at hr ⊢
    have run1 := whileHead_slots g c hr.leftSlots
    have run2 := visitStatement_slots _ b g1 (hr.rightSlots run1) h1
    exact (run1.appendSlots run2).congrSlots rfl
  | g, .ForStatement _ none c u b, g', hr, hv => by
    simp only [visitStatement, Option.map_eq_some'] at hv
    obtain ⟨g1, h1, rfl⟩ := hv
    simp only [statementEvents, h1] at hr ⊢
    have run1 := forLabels_slots g
    have run2 := forTest_slots (forLabels g).2.2.2 (forLabels g).1 (forLabels g).2.2.1 c
      (hr.leftSlots.leftSlots.rightSlots run1)
    have run12 := run1.appendSlots run2
    have run3 := visitStatement_slots _ b g1 (hr.leftSlots.rightSlots run12) h1
    have run123 := run12.appendSlots run3
    have run4 := forTail_slots g1 (forLabels g).1 (forLabels g).2.1 (forLabels g).2.2.1 u
      (hr.rightSlots run123)
    exact run123.appendSlots run4
  | g, .ForStatement _ (some i) c u b, g', hr, hv => by
    simp only [visitStatement, Option.bind_eq_some, Option.map_eq_some'] at hv
    obtain ⟨g0, h0, g1, h1, rfl⟩ := hv
    simp only [statementEvents, h0, h1] at hr ⊢
    have run1 := forLabels_slots g
    have run2 := visitStatement_slots _ i g0 (hr.leftSlots.rightSlots run1) h0
    have run12 := run1.appendSlots run2
    have hrest := hr.rightSlots run12
    have run3 := forTest_slots g0 (forLabels g).1 (forLabels g).2.2.1 c hrest.leftSlots.leftSlots
    have run4 := visitStatement_slots _ b g1 (hrest.leftSlots.rightSlots run3) h1
    have run34 := run3.appendSlots run4
    have run5 := forTail_slots g1 (forLabels g).1 (forLabels g).2.1 (forLabels g).2.2.1 u
      (hrest.rightSlots run34)
    exact run12.appendSlots (run34.appendSlots run5)
  | g, .ReturnStatement _ none, g', _, hv => by
    simp only [visitStatement, Option.some.injEq] at hv
    subst hv
    exact SlotRun.nilSlots rfl rfl
  | g, .ReturnStatement _ (some v), g', hr, hv => by
    simp only [visitStatement, Option.some.injEq] at hv
    subst hv
    exact (visitExpression_slots g v hr).congrSlots rfl

theorem visitStatements_slots :
    ∀ (g : CodeGenerator) (l : List Statement) (g' : CodeGenerator),
      SlotRange g (statementsEvents g l) → visitStatements g l = some g' →
        SlotRun g g' (statementsEvents g l)
  | g, [], g', _, hv => by
    simp only [visitStatements, Option.some.injEq] at hv
    subst hv
    exact SlotRun.nilSlots rfl rfl
  | g, s :: rest, g', hr, hv => by
    simp only [visitStatements, Option.bind_eq_some] at hv
    obtain ⟨g1, h1, h2⟩ := hv
    simp only [statementsEvents, h1] at hr ⊢
    have run1 := visitStatement_slots g s g1 hr.leftSlots h1
    have run2 := visitStatements_slots g1 rest g' (hr.rightSlots run1) h2
    exact run1.appendSlots run2

end

theorem visitExpression_labels (g : CodeGenerator) (e : Expression) :
    LabelRun g (visitExpression g e) (expressionEvents g e) :=
  LabelRun.nilLabels (visitExpression_keeps g e).2.1 (expressionEvents_labelNumbers g e)

theorem visitOptionalExpression_labels (g : CodeGenerator) (e : Option Expression) :
    LabelRun g (visitOptionalExpression g e) (optionalExpressionEvents g e) := by
  cases e with
  | none => exact LabelRun.nilLabels rfl rfl
  | some e => exact visitExpression_labels g e

theorem declareNames_labels (type : String) :
    ∀ (names : List String) (g : CodeGenerator),
      LabelRun g (declareNames g type names) (declareNamesEvents g type names)
  | [], _ => LabelRun.nilLabels rfl rfl
  | name :: rest, g => by
    have run1 : LabelRun g (declareName g type name)
        [.variable name (g.allocateVariable name).stackOffset] := LabelRun.nilLabels rfl rfl
    exact run1.appendLabels (declareNames_labels type rest (declareName g type name))

theorem visitInitDeclarators_labels (type : String) :
    ∀ (inits : List (String × Option Expression)) (g : CodeGenerator),
      LabelRun g (visitInitDeclarators g type inits) (initDeclaratorsEvents g type inits)
  | [], _ => LabelRun.nilLabels rfl rfl
  | (name, none) :: rest, g => by
    have run1 : LabelRun g (declareInitialized g type name)
        [.variable name (g.allocateVariable name).stackOffset] := LabelRun.nilLabels rfl rfl
    exact run1.appendLabels (visitInitDeclarators_labels type rest (declareInitialized g type name))
  | (name, some e) :: rest, g => by
    have run1 : LabelRun g (declareInitialized g type name)
        [.variable name (g.allocateVariable name).stackOffset] := LabelRun.nilLabels rfl rfl
    have run2 := visitExpression_labels (declareInitialized g type name) e
    have run12 := (run1.appendLabels run2).congrLabels
      (storeVariable_labelCounter (visitExpression (declareInitialized g type name) e) name)
    have run3 := visitInitDeclarators_labels type rest
      (storeVariable (visitExpression (declareInitialized g type name) e) name)
    have := run12.appendLabels run3
    simp only [initDeclaratorsEvents, visitInitDeclarators]
    simpa only [List.singleton_append, List.cons_append] using this

/-- Two calls of `generateLabel` in a row, in range. -/
theorem LabelRun.two {g : CodeGenerator} (p q : String) {T : List Event}
    (hr : LabelRange g
      ([.label p g.labelCounter, .label q (generateLabel g p).2.labelCounter] ++ T)) :
    LabelRun g (generateLabel (generateLabel g p).2 q).2
      [.label p g.labelCounter, .label q (generateLabel g p).2.labelCounter] := by
  have hr' : LabelRange g (([.label p g.labelCounter] ++
      [.label q (generateLabel g p).2.labelCounter]) ++ T) := hr
  have run1 := LabelRun.stepLabel p hr'.leftLabels.leftLabels
  have run2 := LabelRun.stepLabel q (hr'.leftLabels.rightLabels run1)
  exact run1.appendLabels run2

theorem ifHead_labels (g : CodeGenerator) (c : Expression)
    (hr : LabelRange g (ifHeadEvents g c)) :
    LabelRun g (ifHead g c).2.2 (ifHeadEvents g c) := by
  unfold ifHeadEvents at hr ⊢
  have run1 := LabelRun.two "if_false" "if_end" hr
  have run2 := visitExpression_labels (generateLabel (generateLabel g "if_false").2 "if_end").2 c
  exact (run1.appendLabels run2).congrLabels rfl

theorem whileHead_labels (g : CodeGenerator) (c : Expression)
    (hr : LabelRange g (whileHeadEvents g c)) :
    LabelRun g (whileHead g c).2.2 (whileHeadEvents g c) := by
  unfold whileHeadEvents at hr ⊢
  have run1 := LabelRun.two "while_loop" "while_end" hr
  have run2 := visitExpression_labels
    ((generateLabel (generateLabel g "while_loop").2 "while_end").2.emit
      ((generateLabel g "while_loop").1 ++ ":")) c
  exact (run1.appendLabels (run2.congrLeftLabels rfl)).congrLabels rfl

theorem forLabels_labels (g : CodeGenerator) (hr : LabelRange g (forLabelsEvents g)) :
    LabelRun g (forLabels g).2.2.2 (forLabelsEvents g) := by
  unfold forLabelsEvents at hr ⊢
  have hr' : LabelRange g
      ([.label "for_loop" g.labelCounter,
        .label "for_update" (generateLabel g "for_loop").2.labelCounter] ++
       [.label "for_end"
          (generateLabel (generateLabel g "for_loop").2 "for_update").2.labelCounter]) := hr
  have run1 := LabelRun.two "for_loop" "for_update" hr'
  have run2 := LabelRun.stepLabel "for_end" (hr'.rightLabels run1)
  exact run1.appendLabels run2

theorem forTest_labels (g : CodeGenerator) (l e : String) (c : Option Expression) :
    LabelRun g (forTest g l e c) (forTestEvents g l c) := by
  cases c with
  | none => exact LabelRun.nilLabels rfl rfl
  | some c =>
    exact ((visitExpression_labels (g.emit (l ++ ":")) c).congrLeftLabels rfl).congrLabels rfl

theorem forTail_labels (g : CodeGenerator) (l u e : String) (c : Option Expression) :
    LabelRun g (forTail g l u e c) (forTailEvents g u c) :=
  ((visitOptionalExpression_labels (g.emit (u ++ ":")) c).congrLeftLabels rfl).congrLabels rfl

mutual

/-- In range, the labels generated during a statement visit carry consecutive counter
values, starting at the counter the visit starts with and ending below the counter it
ends with. -/
theorem visitStatement_labels :
    ∀ (g : CodeGenerator) (s : Statement) (g' : CodeGenerator),
      LabelRange g (statementEvents g s) → visitStatement g s = some g' →
        LabelRun g g' (statementEvents g s)
  | g, .ExpressionStatement _ none, g', _, hv => by
    simp [visitStatement] at hv
  | g, .ExpressionStatement _ (some e), g', _, hv => by
    simp only [visitStatement, Option.some.injEq] at hv
    subst hv
    exact visitExpression_labels g e
  | g, .VariableDeclaration _ type names inits, g', _, hv => by
    simp only [visitStatement, Option.some.injEq] at hv
    subst hv
    simp only [statementEvents]
    exact (declareNames_labels type names g).appendLabels (visitInitDeclarators_labels type inits _)
  | g, .CompoundStatement _ statements, g', hr, hv => by
    simp only [visitStatement] at hv
    simp only [statementEvents] at hr ⊢
    exact visitStatements_labels g statements g' hr hv
  | g, .IfStatement _ c t none, g', hr, hv => by
    simp only [visitStatement, Option.map_eq_some'] at hv
    obtain ⟨g1, h1, rfl⟩ := hv
    simp only [statementEvents] at hr ⊢
    have run1 := ifHead_labels g c hr.leftLabels
    have run2 := visitStatement_labels _ t g1 (hr.rightLabels run1) h1
    exact (run1.appendLabels run2).congrLabels rfl
  | g, .IfStatement _ c t (some e), g', hr, hv => by
    simp only [visitStatement, Option.bind_eq_some, Option.map_eq_some'] at hv
    obtain ⟨g1, h1, g2, h2, rfl⟩ := hv
    simp only [statementEvents, h1] at hr ⊢
    have run1 := ifHead_labels g c hr.leftLabels.leftLabels
    have run2 := visitStatement_labels _ t g1 (hr.leftLabels.rightLabels run1) h1
    have run12 := run1.appendLabels run2
    have run3 := visitStatement_labels _ e g2
      ((hr.rightLabels run12).sameLabels rfl) h2
    exact (run12.appendLabels (run3.congrLeftLabels rfl)).congrLabels rfl
  | g, .WhileStatement _ c b, g', hr, hv => by
    simp only [visitStatement, Option.map_eq_some'] at hv
    obtain ⟨g1, h1, rfl⟩ := hv
    simp only [statementEvents] at hr ⊢
    have run1 := whileHead_labels g c hr.leftLabels
    have run2 := visitStatement_labels _ b g1 (hr.rightLabels run1) h1
    exact (run1.appendLabels run2).congrLabels rfl
  | g, .ForStatement _ none c u b, g', hr, hv => by
    simp only [visitStatement, Option.map_eq_some'] at hv
    obtain ⟨g1, h1, rfl⟩ := hv
    simp only [statementEvents, h1] at hr ⊢
    have run1 := forLabels_labels g hr.leftLabels.leftLabels.leftLabels
    have run2 := forTest_labels (forLabels g).2.2.2 (forLabels g).1 (forLabels g).2.2.1 c
    have run12 := run1.appendLabels run2
    have run3 := visitStatement_labels _ b g1 (hr.leftLabels.rightLabels run12) h1
    have run123 := run12.appendLabels run3
    have run4 := forTail_labels g1 (forLabels g).1 (forLabels g).2.1 (forLabels g).2.2.1 u
    exact run123.appendLabels run4
  | g, .ForStatement _ (some i) c u b, g', hr, hv => by
    simp only [visitStatement, Option.bind_eq_some, Option.map_eq_some'] at hv
    obtain ⟨g0, h0, g1, h1, rfl⟩ := hv
    simp only [statementEvents, h0, h1] at hr ⊢
    have run1 := forLabels_labels g hr.leftLabels.leftLabels
    have run2 := visitStatement_labels _ i g0 (hr.leftLabels.rightLabels run1) h0
    have run12 := run1.appendLabels run2
    have hrest := hr.rightLabels run12
    have run3 := forTest_labels g0 (forLabels g).1 (forLabels g).2.2.1 c
    have run4 := visitStatement_labels _ b g1 (hrest.leftLabels.rightLabels run3) h1
    have run34 := run3.appendLabels run4
    have run5 := forTail_labels g1 (forLabels g).1 (forLabels g).2.1 (forLabels g).2.2.1 u
    exact run12.appendLabels (run34.appendLabels run5)
  | g, .ReturnStatement _ none, g', _, hv => by
    simp only [visitStatement, Option.some.injEq] at hv
    subst hv
    exact LabelRun.nilLabels rfl rfl
  | g, .ReturnStatement _ (some v), g', _, hv => by
    simp only [visitStatement, Option.some.injEq] at hv
    subst hv
    exact (visitExpression_labels g v).congrLabels rfl

theorem visitStatements_labels :
    ∀ (g : CodeGenerator) (l : List Statement) (g' : CodeGenerator),
      LabelRange g (statementsEvents g l) → visitStatements g l = some g' →
        LabelRun g g' (statementsEvents g l)
  | g, [], g', _, hv => by
    simp only [visitStatements, Option.some.injEq] at hv
    subst hv
    exact LabelRun.nilLabels rfl rfl
  | g, s :: rest, g', hr, hv => by
    simp only [visitStatements, Option.bind_eq_some] at hv
    obtain ⟨g1, h1, h2⟩ := hv
    simp only [statementsEvents, h1] at hr ⊢
    have run1 := visitStatement_labels g s g1 hr.leftLabels h1
    have run2 := visitStatements_labels g1 rest g' (hr.rightLabels run1) h2
    exact run1.appendLabels run2

end

@[simp] theorem registerParameters_labelCounter :
    ∀ (params : List (String × String)) (g : CodeGenerator) (o : Int),
      (registerParameters g o params).labelCounter = g.labelCounter
  | [], _, _ => rfl
  | (_, _) :: rest, g, o => by
    simp only [registerParameters]
    exact registerParameters_labelCounter rest _ _

@[simp] theorem registerParameters_stackOffset :
    ∀ (params : List (String × String)) (g : CodeGenerator) (o : Int),
      (registerParameters g o params).stackOffset = g.stackOffset
  | [], _, _ => rfl
  | (_, _) :: rest, g, o => by
    simp only [registerParameters]
    exact registerParameters_stackOffset rest _ _

@[simp] theorem registerParameters_output :
    ∀ (params : List (String × String)) (g : CodeGenerator) (o : Int),
      (registerParameters g o params).output = g.output
  | [], _, _ => rfl
  | (_, _) :: rest, g, o => by
    simp only [registerParameters]
    exact registerParameters_output rest _ _

@[simp] theorem enterFunction_labelCounter (g : CodeGenerator) (f : FunctionDefinition) :
    (enterFunction g f).labelCounter = g.labelCounter := by
  simp [enterFunction]

@[simp] theorem enterFunction_stackOffset (g : CodeGenerator) (f : FunctionDefinition) :
    (enterFunction g f).stackOffset = 0 := by
  simp [enterFunction]

@[simp] theorem stackComment_labelCounter (g : CodeGenerator) :
    (stackComment g).labelCounter = g.labelCounter := by
  unfold stackComment; split <;> rfl

theorem leaveFunction_labelCounter (g : CodeGenerator) (f : FunctionDefinition) :
    (leaveFunction g f).labelCounter = toInt32 (g.labelCounter + 1) := by
  simp only [leaveFunction]
  split <;> simp [generateLabel_labelCounter]

theorem visitFunctionDefinition_labels (g : CodeGenerator) (f : FunctionDefinition)
    (g' : CodeGenerator) (hr : LabelRange g (functionEvents g f))
    (hv : visitFunctionDefinition g f = some g') : LabelRun g g' (functionEvents g f) := by
  simp only [visitFunctionDefinition, visitStatement, Option.map_eq_some'] at hv
  obtain ⟨g1, h1, rfl⟩ := hv
  simp only [functionEvents, bodyEvents, h1] at hr ⊢
  have hr0 : LabelRange (enterFunction g f)
      (statementsEvents (enterFunction g f) f.bodyStatements ++
        [.label "func_end" (stackComment g1).labelCounter]) :=
    hr.sameLabels (enterFunction_labelCounter g f)
  have run1 := visitStatements_labels _ f.bodyStatements g1 hr0.leftLabels h1
  have hr1 : LabelRange (stackComment g1) [.label "func_end" (stackComment g1).labelCounter] :=
    (hr0.rightLabels run1).sameLabels (stackComment_labelCounter g1)
  have run2 := LabelRun.stepLabel "func_end" hr1
  have run2' : LabelRun g1 (leaveFunction g1 f)
      [.label "func_end" (stackComment g1).labelCounter] :=
    (run2.congrLeftLabels (stackComment_labelCounter g1)).congrLabels
      ((leaveFunction_labelCounter g1 f).trans (by
        rw [generateLabel_labelCounter, stackComment_labelCounter]))
  exact (run1.appendLabels run2').congrLeftLabels (enterFunction_labelCounter g f)

theorem visitTopLevel_labels (g : CodeGenerator) (d : TopLevel) (g' : CodeGenerator)
    (hr : LabelRange g (topLevelEvents g d)) (hv : visitTopLevel g d = some g') :
    LabelRun g g' (topLevelEvents g d) := by
  cases d with
  | FunctionDefinition f => exact visitFunctionDefinition_labels g f g' hr hv
  | Statement s => exact visitStatement_labels g s g' hr hv

theorem visitDeclarations_labels :
    ∀ (l : List TopLevel) (g g' : CodeGenerator),
      LabelRange g (declarationsEvents g l) → visitDeclarations g l = some g' →
        LabelRun g g' (declarationsEvents g l)
  | [], g, g', _, hv => by
    simp only [visitDeclarations, Option.some.injEq] at hv
    subst hv
    exact LabelRun.nilLabels rfl rfl
  | d :: rest, g, g', hr, hv => by
    simp only [visitDeclarations, Option.bind_eq_some] at hv
    obtain ⟨g1, h1, h2⟩ := hv
    simp only [declarationsEvents, h1] at hr ⊢
    have run1 := visitTopLevel_labels g d g1 hr.leftLabels h1
    have run2 := visitDeclarations_labels rest g1 g' (hr.rightLabels run1) h2
    exact run1.appendLabels run2

theorem visitProgram_labels (g : CodeGenerator) (program : Program) (g' : CodeGenerator)
    (hr : LabelRange g (programEvents g program)) (hv : visitProgram g program = some g') :
    LabelRun g g' (programEvents g program) :=
  (visitDeclarations_labels program.declarations _ g' (hr.sameLabels rfl) hv).congrLeftLabels rfl

mutual

/-- A statement all of whose expression statements have an expression is emitted to
the end. -/
theorem visitStatement_complete :
    ∀ (g : CodeGenerator) (s : Statement), s.complete = true →
      ∃ g', visitStatement g s = some g'
  | g, .ExpressionStatement _ none, hc => by
    simp [Statement.complete] at hc
  | g, .ExpressionStatement _ (some e), _ => ⟨_, rfl⟩
  | g, .VariableDeclaration _ type names inits, _ => ⟨_, rfl⟩
  | g, .CompoundStatement _ statements, hc => by
    simp only [Statement.complete] at hc
    simp only [visitStatement]
    exact visitStatements_complete g statements hc
  | g, .IfStatement _ c t none, hc => by
    simp only [Statement.complete] at hc
    obtain ⟨g1, h1⟩ := visitStatement_complete (ifHead g c).2.2 t hc
    simp only [visitStatement, h1, Option.map_some']
    exact ⟨_, rfl⟩
  | g, .IfStatement _ c t (some e), hc => by
    simp only [Statement.complete, Bool.and_eq_true] at hc
    obtain ⟨g1, h1⟩ := visitStatement_complete (ifHead g c).2.2 t hc.1
    obtain ⟨g2, h2⟩ := visitStatement_complete
      ((g1.emit ("    jmp " ++ (ifHead g c).2.1)).emit ((ifHead g c).1 ++ ":")) e hc.2
    simp only [visitStatement, h1, Option.some_bind, h2, Option.map_some']
    exact ⟨_, rfl⟩
  | g, .WhileStatement _ c b, hc => by
    simp only [Statement.complete] at hc
    obtain ⟨g1, h1⟩ := visitStatement_complete (whileHead g c).2.2 b hc
    simp only [visitStatement, h1, Option.map_some']
    exact ⟨_, rfl⟩
  | g, .ForStatement _ none c u b, hc => by
    simp only [Statement.complete] at hc
    obtain ⟨g1, h1⟩ := visitStatement_complete
      (forTest (forLabels g).2.2.2 (forLabels g).1 (forLabels g).2.2.1 c) b hc
    simp only [visitStatement, h1, Option.map_some']
    exact ⟨_, rfl⟩
  | g, .ForStatement _ (some i) c u b, hc => by
    simp only [Statement.complete, Bool.and_eq_true] at hc
    obtain ⟨g0, h0⟩ := visitStatement_complete (forLabels g).2.2.2 i hc.1
    obtain ⟨g1, h1⟩ := visitStatement_complete
      (forTest g0 (forLabels g).1 (forLabels g).2.2.1 c) b hc.2
    simp only [visitStatement, h0, Option.some_bind, h1, Option.map_some']
    exact ⟨_, rfl⟩
  | g, .ReturnStatement _ none, _ => ⟨_, rfl⟩
  | g, .ReturnStatement _ (some v), _ => ⟨_, rfl⟩

theorem visitStatements_complete :
    ∀ (g : CodeGenerator) (l : List Statement), Statement.completeList l = true →
      ∃ g', visitStatements g l = some g'
  | g, [], _ => ⟨g, rfl⟩
  | g, s :: rest, hc => by
    simp only [Statement.completeList, Bool.and_eq_true] at hc
    obtain ⟨g1, h1⟩ := visitStatement_complete g s hc.1
    obtain ⟨g2, h2⟩ := visitStatements_complete g1 rest hc.2
    simp only [visitStatements, h1, Option.some_bind, h2]
    exact ⟨_, rfl⟩

end

theorem visitFunctionDefinition_complete (g : CodeGenerator) (f : FunctionDefinition)
    (hc : Statement.completeList f.bodyStatements = true) :
    ∃ g', visitFunctionDefinition g f = some g' := by
  obtain ⟨g1, h1⟩ := visitStatements_complete (enterFunction g f) f.bodyStatements hc
  simp only [visitFunctionDefinition, visitStatement, h1, Option.map_some']
  exact ⟨_, rfl⟩

theorem visitTopLevel_complete (g : CodeGenerator) (d : TopLevel) (hc : d.complete = true) :
    ∃ g', visitTopLevel g d = some g' := by
  cases d with
  | FunctionDefinition f => exact visitFunctionDefinition_complete g f hc
  | Statement s => exact visitStatement_complete g s hc

theorem visitDeclarations_complete :
    ∀ (l : List TopLevel) (g : CodeGenerator), l.all TopLevel.complete = true →
      ∃ g', visitDeclarations g l = some g'
  | [], g, _ => ⟨g, rfl⟩
  | d :: rest, g, hc => by
    simp only [List.all_cons, Bool.and_eq_true] at hc
    obtain ⟨g1, h1⟩ := visitTopLevel_complete g d hc.1
    obtain ⟨g2, h2⟩ := visitDeclarations_complete rest g1 hc.2
    simp only [visitDeclarations, h1, Option.some_bind, h2]
    exact ⟨_, rfl⟩

theorem visitProgram_complete (g : CodeGenerator) (program : Program)
    (hc : program.complete = true) : ∃ g', visitProgram g program = some g' :=
  visitDeclarations_complete program.declarations _ hc

theorem declareNames_keys (type : String) :
    ∀ (names : List String) (g : CodeGenerator) (m : String),
      (Frame.find g.symbolTable m).isSome = true ∨ m ∈ names →
        (Frame.find (declareNames g type names).symbolTable m).isSome = true
  | [], g, m, h => by
    rcases h with h | h
    · exact h
    · simp at h
  | name :: rest, g, m, h => by
    simp only [declareNames]
    apply declareNames_keys type rest
    simp only [List.mem_cons] at h
    rcases h with h | h | h
    · exact Or.inl (Frame.find_assign_isSome _ _ _ _ (Or.inl h))
    · exact Or.inl (Frame.find_assign_isSome _ _ _ _ (Or.inr h))
    · exact Or.inr h

theorem visitInitDeclarators_keys (type : String) :
    ∀ (inits : List (String × Option Expression)) (g : CodeGenerator) (m : String),
      (Frame.find g.symbolTable m).isSome = true ∨ m ∈ inits.map Prod.fst →
        (Frame.find (visitInitDeclarators g type inits).symbolTable m).isSome = true
  | [], g, m, h => by
    rcases h with h | h
    · exact h
    · simp at h
  | (name, none) :: rest, g, m, h => by
    simp only [visitInitDeclarators]
    apply visitInitDeclarators_keys type rest
    simp only [List.map_cons, List.mem_cons] at h
    rcases h with h | h | h
    · exact Or.inl (Frame.find_assign_isSome _ _ _ _ (Or.inl h))
    · exact Or.inl (Frame.find_assign_isSome _ _ _ _ (Or.inr h))
    · exact Or.inr h
  | (name, some e) :: rest, g, m, h => by
    simp only [visitInitDeclarators]
    apply visitInitDeclarators_keys type rest
    simp only [List.map_cons, List.mem_cons] at h
    rw [storeVariable_symbolTable, (visitExpression_keeps _ e).1]
    rcases h with h | h | h
    · exact Or.inl (Frame.find_assign_isSome _ _ _ _ (Or.inl h))
    · exact Or.inl (Frame.find_assign_isSome _ _ _ _ (Or.inr h))
    · exact Or.inr h

@[simp] theorem ifHead_symbolTable (g : CodeGenerator) (c : Expression) :
    (ifHead g c).2.2.symbolTable = g.symbolTable := by
  simp [ifHead, (visitExpression_keeps _ c).1]

@[simp] theorem whileHead_symbolTable (g : CodeGenerator) (c : Expression) :
    (whileHead g c).2.2.symbolTable = g.symbolTable := by
  simp [whileHead, (visitExpression_keeps _ c).1]

@[simp] theorem forLabels_symbolTable (g : CodeGenerator) :
    (forLabels g).2.2.2.symbolTable = g.symbolTable := rfl

@[simp] theorem forTest_symbolTable (g : CodeGenerator) (l e : String) (c : Option Expression) :
    (forTest g l e c).symbolTable = g.symbolTable := by
  cases c with
  | none => rfl
  | some c => simp [forTest, (visitExpression_keeps _ c).1]

@[simp] theorem forTail_symbolTable (g : CodeGenerator) (l u e : String)
    (c : Option Expression) : (forTail g l u e c).symbolTable = g.symbolTable := by
  cases c with
  | none => rfl
  | some c => simp [forTail, visitOptionalExpression, (visitExpression_keeps _ c).1]

mutual

/-- No statement visit removes a name from the frame map, and every name declared below
the statement is in the map afterwards. -/
theorem visitStatement_keys :
    ∀ (g : CodeGenerator) (s : Statement) (g' : CodeGenerator) (m : String),
      visitStatement g s = some g' →
      (Frame.find g.symbolTable m).isSome = true ∨ m ∈ s.declaredNames →
        (Frame.find g'.symbolTable m).isSome = true
  | g, .ExpressionStatement _ none, g', m, hv, _ => by
    simp [visitStatement] at hv
  | g, .ExpressionStatement _ (some e), g', m, hv, h => by
    simp only [visitStatement, Option.some.injEq] at hv
    subst hv
    rw [(visitExpression_keeps g e).1]
    simpa [Statement.declaredNames] using h
  | g, .VariableDeclaration _ type names inits, g', m, hv, h => by
    simp only [visitStatement, Option.some.injEq] at hv
    subst hv
    simp only [Statement.declaredNames, List.mem_append] at h
    apply visitInitDeclarators_keys
    rcases h with h | h | h
    · exact Or.inl (declareNames_keys type names g m (Or.inl h))
    · exact Or.inl (declareNames_keys type names g m (Or.inr h))
    · exact Or.inr h
  | g, .CompoundStatement _ statements, g', m, hv, h => by
    simp only [visitStatement] at hv
    exact visitStatements_keys g statements g' m hv h
  | g, .IfStatement _ c t none, g', m, hv, h => by
    simp only [visitStatement, Option.map_eq_some'] at hv
    obtain ⟨g1, h1, rfl⟩ := hv
    simp only [emit_symbolTable]
    exact visitStatement_keys _ t g1 m h1 (by simpa [Statement.declaredNames] using h)
  | g, .IfStatement _ c t (some e), g', m, hv, h => by
    simp only [visitStatement, Option.bind_eq_some, Option.map_eq_some'] at hv
    obtain ⟨g1, h1, g2, h2, rfl⟩ := hv
    simp only [Statement.declaredNames, List.mem_append] at h
    simp only [emit_symbolTable]
    apply visitStatement_keys _ e g2 m h2
    simp only [emit_symbolTable]
    rcases h with h | h | h
    · exact Or.inl (visitStatement_keys _ t g1 m h1 (Or.inl (by simpa using h)))
    · exact Or.inl (visitStatement_keys _ t g1 m h1 (Or.inr h))
    · exact Or.inr h
  | g, .WhileStatement _ c b, g', m, hv, h => by
    simp only [visitStatement, Option.map_eq_some'] at hv
    obtain ⟨g1, h1, rfl⟩ := hv
    simp only [emit_symbolTable]
    exact visitStatement_keys _ b g1 m h1 (by simpa [Statement.declaredNames] using h)
  | g, .ForStatement _ none c u b, g', m, hv, h => by
    simp only [visitStatement, Option.map_eq_some'] at hv
    obtain ⟨g1, h1, rfl⟩ := hv
    simp only [forTail_symbolTable]
    exact visitStatement_keys _ b g1 m h1 (by simpa [Statement.declaredNames] using h)
  | g, .ForStatement _ (some i) c u b, g', m, hv, h => by
    simp only [visitStatement, Option.bind_eq_some, Option.map_eq_some'] at hv
    obtain ⟨g0, h0, g1, h1, rfl⟩ := hv
    simp only [Statement.declaredNames, List.mem_append] at h
    simp only [forTail_symbolTable]
    apply visitStatement_keys _ b g1 m h1
    simp only [forTest_symbolTable]
    rcases h with h | h | h
    · exact Or.inl (visitStatement_keys _ i g0 m h0 (Or.inl (by simpa using h)))
    · exact Or.inl (visitStatement_keys _ i g0 m h0 (Or.inr h))
    · exact Or.inr h
  | g, .ReturnStatement _ none, g', m, hv, h => by
    simp only [visitStatement, Option.some.injEq] at hv
    subst hv
    simpa [Statement.declaredNames] using h
  | g, .ReturnStatement _ (some v), g', m, hv, h => by
    simp only [visitStatement, Option.some.injEq] at hv
    subst hv
    simp only [emit_symbolTable, (visitExpression_keeps g v).1]
    simpa [Statement.declaredNames] using h

theorem visitStatements_keys :
    ∀ (g : CodeGenerator) (l : List Statement) (g' : CodeGenerator) (m : String),
      visitStatements g l = some g' →
      (Frame.find g.symbolTable m).isSome = true ∨ m ∈ Statement.declaredNamesOfList l →
        (Frame.find g'.symbolTable m).isSome = true
  | g, [], g', m, hv, h => by
    simp only [visitStatements, Option.some.injEq] at hv
    subst hv
    simpa [Statement.declaredNamesOfList] using h
  | g, s :: rest, g', m, hv, h => by
    simp only [visitStatements, Option.bind_eq_some] at hv
    obtain ⟨g1, h1, h2⟩ := hv
    simp only [Statement.declaredNamesOfList, List.mem_append] at h
    apply visitStatements_keys g1 rest g' m h2
    rcases h with h | h | h
    · exact Or.inl (visitStatement_keys g s g1 m h1 (Or.inl h))
    · exact Or.inl (visitStatement_keys g s g1 m h1 (Or.inr h))
    · exact Or.inr h

end

theorem declareName_output (g : CodeGenerator) (type name : String) :
    (declareName g type name).output =
      g.output ++ ["    # Variable declaration: " ++ type ++ " " ++ name] := rfl

theorem declareInitialized_output (g : CodeGenerator) (type name : String) :
    (declareInitialized g type name).output =
      g.output ++ ["    # Variable declaration with initialization: " ++ type ++ " " ++ name] :=
  rfl

theorem declareNames_output (type : String) :
    ∀ (names : List String) (g : CodeGenerator),
      ∃ code, (declareNames g type names).output = g.output ++ code
  | [], g => ⟨[], by simp [declareNames]⟩
  | name :: rest, g => by
    obtain ⟨c, h⟩ := declareNames_output type rest (declareName g type name)
    simp only [declareNames]
    rw [h, declareName_output, List.append_assoc]
    exact ⟨_, rfl⟩

theorem storeVariable_output (g : CodeGenerator) (n : String) :
    ∃ code, (storeVariable g n).output = g.output ++ code := by
  simp only [storeVariable]
  split
  · simp only [emit_output, getVariableAddress_output]
    exact ⟨_, rfl⟩
  · exact ⟨[], by simp⟩

theorem visitInitDeclarators_output (type : String) :
    ∀ (inits : List (String × Option Expression)) (g : CodeGenerator),
      ∃ code, (visitInitDeclarators g type inits).output = g.output ++ code
  | [], g => ⟨[], by simp [visitInitDeclarators]⟩
  | (name, none) :: rest, g => by
    obtain ⟨c, h⟩ := visitInitDeclarators_output type rest (declareInitialized g type name)
    simp only [visitInitDeclarators]
    rw [h, declareInitialized_output, List.append_assoc]
    exact ⟨_, rfl⟩
  | (name, some e) :: rest, g => by
    obtain ⟨c1, h1⟩ := visitExpression_output (declareInitialized g type name) e
    obtain ⟨c2, h2⟩ := storeVariable_output
      (visitExpression (declareInitialized g type name) e) name
    obtain ⟨c3, h3⟩ := visitInitDeclarators_output type rest
      (storeVariable (visitExpression (declareInitialized g type name) e) name)
    simp only [visitInitDeclarators]
    rw [h3, h2, h1, declareInitialized_output]
    simp only [List.append_assoc]
    exact ⟨_, rfl⟩

theorem visitOptionalExpression_output (g : CodeGenerator) (e : Option Expression) :
    ∃ code, (visitOptionalExpression g e).output = g.output ++ code := by
  cases e with
  | none => exact ⟨[], by simp [visitOptionalExpression]⟩
  | some e => exact visitExpression_output g e

theorem ifHead_output (g : CodeGenerator) (c : Expression) :
    ∃ code, (ifHead g c).2.2.output = g.output ++ code := by
  obtain ⟨c1, h1⟩ := visitExpression_output
    (generateLabel (generateLabel g "if_false").2 "if_end").2 c
  simp only [ifHead, emit_output, h1, generateLabel_output, List.append_assoc]
  exact ⟨_, rfl⟩

theorem whileHead_output (g : CodeGenerator) (c : Expression) :
    ∃ code, (whileHead g c).2.2.output = g.output ++ code := by
  obtain ⟨c1, h1⟩ := visitExpression_output
    ((generateLabel (generateLabel g "while_loop").2 "while_end").2.emit
      ((generateLabel g "while_loop").1 ++ ":")) c
  simp only [whileHead, emit_output, h1, generateLabel_output, List.append_assoc]
  exact ⟨_, rfl⟩

theorem forTest_output (g : CodeGenerator) (l e : String) (c : Option Expression) :
    ∃ code, (forTest g l e c).output = g.output ++ code := by
  cases c with
  | none => exact ⟨_, rfl⟩
  | some c =>
    obtain ⟨c1, h1⟩ := visitExpression_output (g.emit (l ++ ":")) c
    simp only [forTest, emit_output, h1, List.append_assoc]
    exact ⟨_, rfl⟩

theorem forTail_output (g : CodeGenerator) (l u e : String) (c : Option Expression) :
    ∃ code, (forTail g l u e c).output = g.output ++ code := by
  obtain ⟨c1, h1⟩ := visitOptionalExpression_output (g.emit (u ++ ":")) c
  simp only [forTail, emit_output, h1, List.append_assoc]
  exact ⟨_, rfl⟩

mutual

/-- A statement visit only appends to the output. -/
theorem visitStatement_output :
    ∀ (g : CodeGenerator) (s : Statement) (g' : CodeGenerator),
      visitStatement g s = some g' → ∃ code, g'.output = g.output ++ code
  | g, .ExpressionStatement _ none, g', hv => by
    simp [visitStatement] at hv
  | g, .ExpressionStatement _ (some e), g', hv => by
    simp only [visitStatement, Option.some.injEq] at hv
    subst hv
    exact visitExpression_output g e
  | g, .VariableDeclaration _ type names inits, g', hv => by
    simp only [visitStatement, Option.some.injEq] at hv
    subst hv
    obtain ⟨c1, h1⟩ := declareNames_output type names g
    obtain ⟨c2, h2⟩ := visitInitDeclarators_output type inits (declareNames g type names)
    rw [h2, h1, List.append_assoc]
    exact ⟨_, rfl⟩
  | g, .CompoundStatement _ statements, g', hv => by
    simp only [visitStatement] at hv
    exact visitStatements_output g statements g' hv
  | g, .IfStatement _ c t none, g', hv => by
    simp only [visitStatement, Option.map_eq_some'] at hv
    obtain ⟨g1, h1, rfl⟩ := hv
    obtain ⟨c1, e1⟩ := ifHead_output g c
    obtain ⟨c2, e2⟩ := visitStatement_output _ t g1 h1
    simp only [emit_output, e2, e1, List.append_assoc]
    exact ⟨_, rfl⟩
  | g, .IfStatement _ c t (some e), g', hv => by
    simp only [visitStatement, Option.bind_eq_some, Option.map_eq_some'] at hv
    obtain ⟨g1, h1, g2, h2, rfl⟩ := hv
    obtain ⟨c1, e1⟩ := ifHead_output g c
    obtain ⟨c2, e2⟩ := visitStatement_output _ t g1 h1
    obtain ⟨c3, e3⟩ := visitStatement_output _ e g2 h2
    simp only [emit_output, e3, e2, e1, List.append_assoc]
    exact ⟨_, rfl⟩
  | g, .WhileStatement _ c b, g', hv => by
    simp only [visitStatement, Option.map_eq_some'] at hv
    obtain ⟨g1, h1, rfl⟩ := hv
    obtain ⟨c1, e1⟩ := whileHead_output g c
    obtain ⟨c2, e2⟩ := visitStatement_output _ b g1 h1
    simp only [emit_output, e2, e1, List.append_assoc]
    exact ⟨_, rfl⟩
  | g, .ForStatement _ none c u b, g', hv => by
    simp only [visitStatement, Option.map_eq_some'] at hv
    obtain ⟨g1, h1, rfl⟩ := hv
    obtain ⟨c1, e1⟩ := forTest_output (forLabels g).2.2.2 (forLabels g).1 (forLabels g).2.2.1 c
    obtain ⟨c2, e2⟩ := visitStatement_output _ b g1 h1
    obtain ⟨c3, e3⟩ := forTail_output g1 (forLabels g).1 (forLabels g).2.1
      (forLabels g).2.2.1 u
    have e0 : (forLabels g).2.2.2.output = g.output := rfl
    rw [e3, e2, e1, e0]
    simp only [List.append_assoc]
    exact ⟨_, rfl⟩
  | g, .ForStatement _ (some i) c u b, g', hv => by
    simp only [visitStatement, Option.bind_eq_some, Option.map_eq_some'] at hv
    obtain ⟨g0, h0, g1, h1, rfl⟩ := hv
    obtain ⟨c0, e0⟩ := visitStatement_output _ i g0 h0
    obtain ⟨c1, e1⟩ := forTest_output g0 (forLabels g).1 (forLabels g).2.2.1 c
    obtain ⟨c2, e2⟩ := visitStatement_output _ b g1 h1
    obtain ⟨c3, e3⟩ := forTail_output g1 (forLabels g).1 (forLabels g).2.1
      (forLabels g).2.2.1 u
    have el : (forLabels g).2.2.2.output = g.output := rfl
    rw [e3, e2, e1, e0, el]
    simp only [List.append_assoc]
    exact ⟨_, rfl⟩
  | g, .ReturnStatement _ none, g', hv => by
    simp only [visitStatement, Option.some.injEq] at hv
    subst hv
    simp only [emit_output, List.append_assoc]
    exact ⟨_, rfl⟩
  | g, .ReturnStatement _ (some v), g', hv => by
    simp only [visitStatement, Option.some.injEq] at hv
    subst hv
    obtain ⟨c1, e1⟩ := visitExpression_output g v
    simp only [emit_output, e1, List.append_assoc]
    exact ⟨_, rfl⟩

theorem visitStatements_output :
    ∀ (g : CodeGenerator) (l : List Statement) (g' : CodeGenerator),
      visitStatements g l = some g' → ∃ code, g'.output = g.output ++ code
  | g, [], g', hv => by
    simp only [visitStatements, Option.some.injEq] at hv
    subst hv
    exact ⟨[], by simp⟩
  | g, s :: rest, g', hv => by
    simp only [visitStatements, Option.bind_eq_some] at hv
    obtain ⟨g1, h1, h2⟩ := hv
    obtain ⟨c1, e1⟩ := visitStatement_output g s g1 h1
    obtain ⟨c2, e2⟩ := visitStatements_output g1 rest g' h2
    rw [e2, e1, List.append_assoc]
    exact ⟨_, rfl⟩

end

/-- The address text of a name the frame map has is not empty. -/
theorem address_nonempty (s t : String) : ("-" ++ s ++ t).isEmpty = false := by
  rw [Bool.eq_false_iff]
  intro h
  rw [String.isEmpty_iff] at h
  have hd := congrArg String.data h
  rw [String.data_append, String.data_append] at hd
  exact absurd hd (by simp)

theorem getVariableAddress_found (g : CodeGenerator) (name : String) (k : Int)
    (h : Frame.find g.symbolTable name = some k) :
    g.getVariableAddress name = ("-" ++ toString k ++ "(%rbp)", g) := by
  simp only [getVariableAddress, h]

/-- A reference to a name the frame map has is one load from its address. -/
theorem visitExpression_identifier_found (g : CodeGenerator) (id : Identifier) (k : Int)
    (h : Frame.find g.symbolTable id.name = some k) :
    visitExpression g (.Identifier id) =
      g.emit ("    movq " ++ ("-" ++ toString k ++ "(%rbp)") ++ ", %rax") := by
  simp only [visitExpression, getVariableAddress_found g id.name k h, address_nonempty,
    Bool.not_false, if_true]

/-- A store to a name the frame map has is one store to its address. -/
theorem storeVariable_found (g : CodeGenerator) (name : String) (k : Int)
    (h : Frame.find g.symbolTable name = some k) :
    storeVariable g name = g.emit ("    movq %rax, " ++ ("-" ++ toString k ++ "(%rbp)")) := by
  simp only [storeVariable, getVariableAddress_found g name k h, address_nonempty,
    Bool.not_false, if_true]

/-- The decimal text of a negative `int` is a minus sign before the text of its
absolute value. -/
theorem toString_neg (n : Nat) (h : 0 < n) :
    toString (-(n : Int)) = "-" ++ toString (n : Int) := by
  cases n with
  | zero => exact absurd h (by decide)
  | succ m => rfl

/-- The parameter loop leaves names that are not parameters as they are. -/
theorem registerParameters_find_other :
    ∀ (params : List (String × String)) (g : CodeGenerator) (o : Int) (m : String),
      m ∉ params.map Prod.snd →
        Frame.find (registerParameters g o params).symbolTable m = Frame.find g.symbolTable m
  | [], _, _, _, _ => rfl
  | (_, name) :: rest, g, o, m, h => by
    simp only [List.map_cons, List.mem_cons, not_or] at h
    simp only [registerParameters]
    rw [registerParameters_find_other rest _ _ m h.2]
    show Frame.find (Frame.assign g.symbolTable name (toInt32 (-o))) m = _
    rw [Frame.find_assign, if_neg (fun e => h.1 e.symm)]

/-- In range, the parameter at index `i` of a list of distinct parameters is mapped to
minus the offset the loop started with plus `8 * i`. -/
theorem registerParameters_find :
    ∀ (params : List (String × String)) (g : CodeGenerator) (o : Int) (i : Nat)
      (type name : String),
      (params.map Prod.snd).Nodup → params[i]? = some (type, name) → 0 ≤ o →
      o + 8 * params.length < 2147483648 →
        Frame.find (registerParameters g o params).symbolTable name = some (-(o + 8 * i))
  | [], _, _, _, _, _, _, hi, _, _ => by simp at hi
  | (t, n) :: rest, g, o, 0, type, name, hd, hi, ho, hr => by
    simp only [List.getElem?_cons_zero, Option.some.injEq, Prod.mk.injEq] at hi
    obtain ⟨_, rfl⟩ := hi
    simp only [List.map_cons, List.nodup_cons] at hd
    simp only [registerParameters]
    rw [registerParameters_find_other rest _ _ n hd.1]
    show Frame.find (Frame.assign g.symbolTable n (toInt32 (-o))) n = _
    rw [Frame.find_assign, if_pos rfl]
    simp only [List.length_cons, Nat.cast_succ] at hr
    have hl := Int.natCast_nonneg rest.length
    rw [toInt32_of_range _ (by omega) (by omega)]
    simp
  | (t, n) :: rest, g, o, i + 1, type, name, hd, hi, ho, hr => by
    simp only [List.getElem?_cons_succ] at hi
    simp only [List.map_cons, List.nodup_cons] at hd
    simp only [List.length_cons, Nat.cast_succ] at hr
    have hl := Int.natCast_nonneg rest.length
    simp only [registerParameters]
    rw [toInt32_of_range (o + 8) (by omega) (by omega)]
    rw [registerParameters_find rest _ (o + 8) i type name hd.2 hi (by omega) (by omega)]
    congr 1
    push_cast
    ring

theorem expressionEvents_no_label (g : CodeGenerator) (e : Expression) (p : String) (c : Int) :
    Event.label p c ∉ expressionEvents g e := by
  intro h
  have := Event.label_mem_labelNumbers _ p c h
  rw [expressionEvents_labelNumbers] at this
  simp at this

theorem declareNamesEvents_no_label (type : String) (p : String) (c : Int) :
    ∀ (names : List String) (g : CodeGenerator),
      Event.label p c ∉ declareNamesEvents g type names
  | [], _ => by simp [declareNamesEvents]
  | name :: rest, g => by
    simp only [declareNamesEvents, List.mem_cons, not_or]
    exact ⟨by simp, declareNamesEvents_no_label type p c rest _⟩

theorem initDeclaratorsEvents_no_label (type : String) (p : String) (c : Int) :
    ∀ (inits : List (String × Option Expression)) (g : CodeGenerator),
      Event.label p c ∉ initDeclaratorsEvents g type inits
  | [], _ => by simp [initDeclaratorsEvents]
  | (name, none) :: rest, g => by
    simp only [initDeclaratorsEvents, List.mem_cons, not_or]
    exact ⟨by simp, initDeclaratorsEvents_no_label type p c rest _⟩
  | (name, some e) :: rest, g => by
    simp only [initDeclaratorsEvents, List.mem_cons, List.mem_append, not_or]
    exact ⟨by simp, expressionEvents_no_label _ e p c,
      initDeclaratorsEvents_no_label type p c rest _⟩

theorem optionalExpressionEvents_no_label (g : CodeGenerator) (e : Option Expression)
    (p : String) (c : Int) : Event.label p c ∉ optionalExpressionEvents g e := by
  cases e with
  | none => simp [optionalExpressionEvents]
  | some e => exact expressionEvents_no_label g e p c

/-- A line of the output stays in the output when lines are appended. -/
theorem mem_output_of_append {g g' : CodeGenerator} {line : String}
    (h : ∃ code, g'.output = g.output ++ code) (hm : line ∈ g.output) : line ∈ g'.output := by
  obtain ⟨code, hc⟩ := h
  rw [hc]
  exact List.mem_append_left _ hm

mutual

/-- Every label generated during a statement visit is defined in the output: the line
`<prefix><counter>:` is written. -/
theorem visitStatement_labels_defined :
    ∀ (g : CodeGenerator) (s : Statement) (g' : CodeGenerator) (p : String) (c : Int),
      visitStatement g s = some g' → Event.label p c ∈ statementEvents g s →
        (p ++ toString c ++ ":") ∈ g'.output
  | g, .ExpressionStatement _ none, g', p, c, hv, _ => by
    simp [visitStatement] at hv
  | g, .ExpressionStatement _ (some e), g', p, c, _, hm => by
    simp only [statementEvents] at hm
    exact absurd hm (expressionEvents_no_label g e p c)
  | g, .VariableDeclaration _ type names inits, g', p, c, _, hm => by
    simp only [statementEvents, List.mem_append] at hm
    rcases hm with hm | hm
    · exact absurd hm (declareNamesEvents_no_label type p c names g)
    · exact absurd hm (initDeclaratorsEvents_no_label type p c inits _)
  | g, .CompoundStatement _ statements, g', p, c, hv, hm => by
    simp only [visitStatement] at hv
    simp only [statementEvents] at hm
    exact visitStatements_labels_defined g statements g' p c hv hm
  | g, .IfStatement _ cond t none, g', p, c, hv, hm => by
    simp only [visitStatement, Option.map_eq_some'] at hv
    obtain ⟨g1, h1, rfl⟩ := hv
    simp only [statementEvents, ifHeadEvents, List.mem_append, List.mem_cons,
      List.mem_singleton, List.not_mem_nil, or_false] at hm
    simp only [emit_output, List.mem_append, List.mem_singleton]
    rcases hm with ((hm | hm) | hm) | hm
    · injection hm with hp hcn
      subst hp hcn
      exact Or.inl (Or.inr rfl)
    · injection hm with hp hcn
      subst hp hcn
      exact Or.inr rfl
    · exact absurd hm (expressionEvents_no_label _ cond p c)
    · exact Or.inl (Or.inl (Or.inl (visitStatement_labels_defined _ t g1 p c h1 hm)))
  | g, .IfStatement _ cond t (some e), g', p, c, hv, hm => by
    simp only [visitStatement, Option.bind_eq_some, Option.map_eq_some'] at hv
    obtain ⟨g1, h1, g2, h2, rfl⟩ := hv
    simp only [statementEvents, h1, ifHeadEvents, List.mem_append, List.mem_cons,
      List.mem_singleton, List.not_mem_nil, or_false] at hm
    have hout := visitStatement_output _ e g2 h2
    simp only [emit_output, List.mem_append, List.mem_singleton]
    rcases hm with (((hm | hm) | hm) | hm) | hm
    · injection hm with hp hcn
      subst hp hcn
      refine Or.inl (mem_output_of_append hout ?_)
      simp only [emit_output, List.mem_append, List.mem_singleton]
      exact Or.inr rfl
    · injection hm with hp hcn
      subst hp hcn
      exact Or.inr rfl
    · exact absurd hm (expressionEvents_no_label _ cond p c)
    · refine Or.inl (mem_output_of_append hout ?_)
      simp only [emit_output, List.mem_append, List.mem_singleton]
      exact Or.inl (Or.inl (visitStatement_labels_defined _ t g1 p c h1 hm))
    · exact Or.inl (visitStatement_labels_defined _ e g2 p c h2 hm)
  | g, .WhileStatement _ cond b, g', p, c, hv, hm => by
    simp only [visitStatement, Option.map_eq_some'] at hv
    obtain ⟨g1, h1, rfl⟩ := hv
    simp only [statementEvents, whileHeadEvents, List.mem_append, List.mem_cons,
      List.mem_singleton, List.not_mem_nil, or_false] at hm
    have hout := visitStatement_output _ b g1 h1
    obtain ⟨cc, hcc⟩ := visitExpression_output
      ((generateLabel (generateLabel g "while_loop").2 "while_end").2.emit
        ((generateLabel g "while_loop").1 ++ ":")) cond
    simp only [emit_output, List.mem_append, List.mem_singleton]
    rcases hm with ((hm | hm) | hm) | hm
    · injection hm with hp hcn
      subst hp hcn
      refine Or.inl (Or.inl (mem_output_of_append hout ?_))
      simp only [whileHead, emit_output, hcc, List.mem_append, List.mem_singleton]
      exact Or.inl (Or.inl (Or.inl (Or.inr rfl)))
    · injection hm with hp hcn
      subst hp hcn
      exact Or.inr rfl
    · exact absurd hm (expressionEvents_no_label _ cond p c)
    · exact Or.inl (Or.inl (visitStatement_labels_defined _ b g1 p c h1 hm))
  | g, .ForStatement _ none cond u b, g', p, c, hv, hm => by
    simp only [visitStatement, Option.map_eq_some'] at hv
    obtain ⟨g1, h1, rfl⟩ := hv
    simp only [statementEvents, h1, forLabelsEvents, List.mem_append, List.mem_cons,
      List.mem_singleton, List.not_mem_nil, or_false] at hm
    have hout := visitStatement_output _ b g1 h1
    obtain ⟨cu, hcu⟩ := visitOptionalExpression_output
      (g1.emit ((forLabels g).2.1 ++ ":")) u
    have htest : ((forLabels g).1 ++ ":") ∈
        (forTest (forLabels g).2.2.2 (forLabels g).1 (forLabels g).2.2.1 cond).output := by
      cases cond with
      | none => simp [forTest]
      | some ce =>
        obtain ⟨cc, hcc⟩ := visitExpression_output
          ((forLabels g).2.2.2.emit ((forLabels g).1 ++ ":")) ce
        simp [forTest, hcc]
    simp only [forTail, emit_output, hcu, List.mem_append, List.mem_singleton]
    rcases hm with (((hm | hm | hm) | hm) | hm) | hm
    · injection hm with hp hcn
      subst hp hcn
      exact Or.inl (Or.inl (Or.inl (Or.inl (mem_output_of_append hout htest))))
    · injection hm with hp hcn
      subst hp hcn
      exact Or.inl (Or.inl (Or.inl (Or.inr rfl)))
    · injection hm with hp hcn
      subst hp hcn
      exact Or.inr rfl
    · cases cond with
      | none => simp [forTestEvents] at hm
      | some ce => exact absurd hm (expressionEvents_no_label _ ce p c)
    · exact Or.inl (Or.inl (Or.inl (Or.inl (visitStatement_labels_defined _ b g1 p c h1 hm))))
    · exact absurd hm (optionalExpressionEvents_no_label _ u p c)
  | g, .ForStatement _ (some i) cond u b, g', p, c, hv, hm => by
    simp only [visitStatement, Option.bind_eq_some, Option.map_eq_some'] at hv
    obtain ⟨g0, h0, g1, h1, rfl⟩ := hv
    simp only [statementEvents, h0, h1, forLabelsEvents, List.mem_append, List.mem_cons,
      List.mem_singleton, List.not_mem_nil, or_false] at hm
    have hout := visitStatement_output _ b g1 h1
    obtain ⟨cu, hcu⟩ := visitOptionalExpression_output
      (g1.emit ((forLabels g).2.1 ++ ":")) u
    have htest : ((forLabels g).1 ++ ":") ∈
        (forTest g0 (forLabels g).1 (forLabels g).2.2.1 cond).output := by
      cases cond with
      | none => simp [forTest]
      | some ce =>
        obtain ⟨cc, hcc⟩ := visitExpression_output (g0.emit ((forLabels g).1 ++ ":")) ce
        simp [forTest, hcc]
    have hkeep : ∀ line, line ∈ g0.output → line ∈ g1.output := by
      intro line hl
      refine mem_output_of_append hout ?_
      exact mem_output_of_append (forTest_output g0 _ _ cond) hl
    simp only [forTail, emit_output, hcu, List.mem_append, List.mem_singleton]
    rcases hm with ((hm | hm | hm) | hm) | (hm | hm) | hm
    · injection hm with hp hcn
      subst hp hcn
      exact Or.inl (Or.inl (Or.inl (Or.inl (mem_output_of_append hout htest))))
    · injection hm with hp hcn
      subst hp hcn
      exact Or.inl (Or.inl (Or.inl (Or.inr rfl)))
    · injection hm with hp hcn
      subst hp hcn
      exact Or.inr rfl
    · exact Or.inl (Or.inl (Or.inl (Or.inl
        (hkeep _ (visitStatement_labels_defined _ i g0 p c h0 hm)))))
    · cases cond with
      | none => simp [forTestEvents] at hm
      | some ce => exact absurd hm (expressionEvents_no_label _ ce p c)
    · exact Or.inl (Or.inl (Or.inl (Or.inl (visitStatement_labels_defined _ b g1 p c h1 hm))))
    · exact absurd hm (optionalExpressionEvents_no_label _ u p c)
  | g, .ReturnStatement _ none, g', p, c, _, hm => by
    simp [statementEvents] at hm
  | g, .ReturnStatement _ (some v), g', p, c, _, hm => by
    simp only [statementEvents] at hm
    exact absurd hm (expressionEvents_no_label g v p c)

theorem visitStatements_labels_defined :
    ∀ (g : CodeGenerator) (l : List Statement) (g' : CodeGenerator) (p : String) (c : Int),
      visitStatements g l = some g' → Event.label p c ∈ statementsEvents g l →
        (p ++ toString c ++ ":") ∈ g'.output
  | g, [], g', p, c, _, hm => by
    simp [statementsEvents] at hm
  | g, s :: rest, g', p, c, hv, hm => by
    simp only [visitStatements, Option.bind_eq_some] at hv
    obtain ⟨g1, h1, h2⟩ := hv
    simp only [statementsEvents, h1, List.mem_append] at hm
    rcases hm with hm | hm
    · exact mem_output_of_append (visitStatements_output g1 rest g' h2)
        (visitStatement_labels_defined g s g1 p c h1 hm)
    · exact visitStatements_labels_defined g1 rest g' p c h2 hm

end

theorem leaveFunction_output (g : CodeGenerator) (f : FunctionDefinition) :
    ∃ code, (leaveFunction g f).output =
      g.output ++ code ++ [(generateLabel (stackComment g) "func_end").1 ++ ":"] ++
        ["    # Default return (if no explicit return)"] ++
        (if f.returnType = "void" then [] else ["    movq $0, %rax"]) ++
        ["    leave", "    ret", ""] := by
  have hs : ∃ code, (stackComment g).output = g.output ++ code := by
    unfold stackComment
    split
    · exact ⟨_, rfl⟩
    · exact ⟨[], by simp⟩
  obtain ⟨code, hcode⟩ := hs
  refine ⟨code, ?_⟩
  by_cases hvoid : f.returnType = "void"
  · simp [leaveFunction, hcode, hvoid]
  · simp [leaveFunction, hcode, hvoid]

theorem visitFunctionDefinition_output (g : CodeGenerator) (f : FunctionDefinition)
    (g' : CodeGenerator) (hv : visitFunctionDefinition g f = some g') :
    ∃ code, g'.output = g.output ++ code := by
  simp only [visitFunctionDefinition, visitStatement, Option.map_eq_some'] at hv
  obtain ⟨g1, h1, rfl⟩ := hv
  obtain ⟨c1, e1⟩ := visitStatements_output _ f.bodyStatements g1 h1
  obtain ⟨c2, e2⟩ := leaveFunction_output g1 f
  have e0 : (enterFunction g f).output =
      g.output ++ [".section .text", ".globl " ++ f.name, f.name ++ ":", "    pushq %rbp",
        "    movq %rsp, %rbp"] := by
    simp [enterFunction]
  rw [e2, e1, e0]
  simp only [List.append_assoc]
  exact ⟨_, rfl⟩

theorem visitTopLevel_output (g : CodeGenerator) (d : TopLevel) (g' : CodeGenerator)
    (hv : visitTopLevel g d = some g') : ∃ code, g'.output = g.output ++ code := by
  cases d with
  | FunctionDefinition f => exact visitFunctionDefinition_output g f g' hv
  | Statement s => exact visitStatement_output g s g' hv

theorem visitDeclarations_output :
    ∀ (l : List TopLevel) (g g' : CodeGenerator), visitDeclarations g l = some g' →
      ∃ code, g'.output = g.output ++ code
  | [], g, g', hv => by
    simp only [visitDeclarations, Option.some.injEq] at hv
    subst hv
    exact ⟨[], by simp⟩
  | d :: rest, g, g', hv => by
    simp only [visitDeclarations, Option.bind_eq_some] at hv
    obtain ⟨g1, h1, h2⟩ := hv
    obtain ⟨c1, e1⟩ := visitTopLevel_output g d g1 h1
    obtain ⟨c2, e2⟩ := visitDeclarations_output rest g1 g' h2
    rw [e2, e1, List.append_assoc]
    exact ⟨_, rfl⟩

theorem visitFunctionDefinition_labels_defined (g : CodeGenerator) (f : FunctionDefinition)
    (g' : CodeGenerator) (p : String) (c : Int) (hv : visitFunctionDefinition g f = some g')
    (hm : Event.label p c ∈ functionEvents g f) : (p ++ toString c ++ ":") ∈ g'.output := by
  simp only [visitFunctionDefinition, visitStatement, Option.map_eq_some'] at hv
  obtain ⟨g1, h1, rfl⟩ := hv
  obtain ⟨code, hout⟩ := leaveFunction_output g1 f
  simp only [functionEvents, bodyEvents, h1, List.mem_append, List.mem_singleton] at hm
  rw [hout]
  simp only [List.mem_append, List.mem_singleton]
  rcases hm with hm | hm
  · exact Or.inl (Or.inl (Or.inl (Or.inl (Or.inl
      (visitStatements_labels_defined _ f.bodyStatements g1 p c h1 hm)))))
  · injection hm with hp hcn
    subst hp hcn
    exact Or.inl (Or.inl (Or.inl (Or.inr rfl)))

theorem visitTopLevel_labels_defined (g : CodeGenerator) (d : TopLevel) (g' : CodeGenerator)
    (p : String) (c : Int) (hv : visitTopLevel g d = some g')
    (hm : Event.label p c ∈ topLevelEvents g d) : (p ++ toString c ++ ":") ∈ g'.output := by
  cases d with
  | FunctionDefinition f => exact visitFunctionDefinition_labels_defined g f g' p c hv hm
  | Statement s => exact visitStatement_labels_defined g s g' p c hv hm

theorem visitDeclarations_labels_defined :
    ∀ (l : List TopLevel) (g g' : CodeGenerator) (p : String) (c : Int),
      visitDeclarations g l = some g' → Event.label p c ∈ declarationsEvents g l →
        (p ++ toString c ++ ":") ∈ g'.output
  | [], g, g', p, c, _, hm => by
    simp [declarationsEvents] at hm
  | d :: rest, g, g', p, c, hv, hm => by
    simp only [visitDeclarations, Option.bind_eq_some] at hv
    obtain ⟨g1, h1, h2⟩ := hv
    simp only [declarationsEvents, h1, List.mem_append] at hm
    rcases hm with hm | hm
    · exact mem_output_of_append (visitDeclarations_output rest g1 g' h2)
        (visitTopLevel_labels_defined g d g1 p c h1 hm)
    · exact visitDeclarations_labels_defined rest g1 g' p c h2 hm

/-- Every label generated while a program is emitted is defined in the output. -/
theorem visitProgram_labels_defined (g : CodeGenerator) (program : Program)
    (g' : CodeGenerator) (p : String) (c : Int) (hv : visitProgram g program = some g')
    (hm : Event.label p c ∈ programEvents g program) : (p ++ toString c ++ ":") ∈ g'.output :=
  visitDeclarations_labels_defined program.declarations _ g' p c hv hm

theorem for_labels_differ (a b : String) : "for_loop" ++ a ≠ "for_end" ++ b := by
  intro h
  have hd := congrArg String.data h
  rw [String.data_append, String.data_append] at hd
  have e1 : "for_loop".data = ['f', 'o', 'r', '_', 'l', 'o', 'o', 'p'] := rfl
  have e2 : "for_end".data = ['f', 'o', 'r', '_', 'e', 'n', 'd'] := rfl
  rw [e1, e2] at hd
  simp at hd

theorem visitStatements_append :
    ∀ (a b : List Statement) (g : CodeGenerator),
      visitStatements g (a ++ b) =
        (visitStatements g a).bind fun g1 => visitStatements g1 b
  | [], b, g => by simp [visitStatements]
  | s :: rest, b, g => by
    simp only [List.cons_append, visitStatements]
    cases hs : visitStatement g s with
    | none => rfl
    | some g1 =>
      simp only [Option.some_bind]
      exact visitStatements_append rest b g1

end CodeGenerator

/-! ## Labels and stack slots: C21, C22 -/

namespace CodeGenerator

/-- C21: `generateLabel` returns the prefix followed by the decimal value of the counter
and increments the counter by one; for a program all of whose expression statements have
an expression, started from a counter that the labels of the program do not take to
`2^31`, the program is emitted to the end, the counter values of the generated labels
are `c, c + 1, c + 2, ...` in the order of generation, across all functions, so pairwise
distinct, and the counter ends at `c` plus the number of labels: it is never reset or
decreased.  Each generated label is defined in the output, by the line
`<prefix><counter>:`. -/
theorem generated_labels_distinct (g : CodeGenerator) (program : Program)
    (hc : program.complete = true) (hr : LabelRange g (programEvents g program)) :
    (∀ p : String, (g.generateLabel p).1 = p ++ toString g.labelCounter ∧
      (g.labelCounter + 1 < 2147483648 →
        (g.generateLabel p).2.labelCounter = g.labelCounter + 1)) ∧
    ∃ g', visitProgram g program = some g' ∧
      Event.labelNumbers (programEvents g program) =
        arithmeticRun g.labelCounter 1
          (Event.labelNumbers (programEvents g program)).length ∧
      (Event.labelNumbers (programEvents g program)).Nodup ∧
      g'.labelCounter =
        g.labelCounter + (Event.labelNumbers (programEvents g program)).length ∧
      g.labelCounter ≤ g'.labelCounter ∧
      ∀ (p : String) (c : Int), Event.label p c ∈ programEvents g program →
        (p ++ toString c ++ ":") ∈ g'.output := by
  refine ⟨?_, ?_⟩
  · intro p
    refine ⟨rfl, ?_⟩
    intro h
    rw [generateLabel_labelCounter]
    exact toInt32_of_range _ (by have := hr.1; omega) h
  · obtain ⟨g', hv⟩ := visitProgram_complete g program hc
    have run := visitProgram_labels g program g' hr hv
    obtain ⟨h1, h2⟩ := run
    simp only [zero_add, add_zero, one_mul] at h1 h2
    refine ⟨g', hv, h1, ?_, h2, ?_, ?_⟩
    · rw [h1]
      exact arithmeticRun_nodup _ _ _ (by decide)
    · rw [h2]
      exact le_add_of_nonneg_right (Int.natCast_nonneg _)
    · intro p c hm
      exact visitProgram_labels_defined g program g' p c hv hm

/-- Witness for C21: the program
`int f(int a) { if (a) return 1; while (a) a = a - 1; return 0; }
int main() { for (;;) return 2; }` from a fresh generator generates nine labels with
the counter values 0 to 8. -/
theorem generated_labels_distinct_witness :
    Examples.labelProgram.complete = true ∧
    LabelRange CodeGenerator.new (programEvents CodeGenerator.new Examples.labelProgram) ∧
    Event.labelNumbers (programEvents CodeGenerator.new Examples.labelProgram) =
      [0, 1, 2, 3, 4, 5, 6, 7, 8] ∧
    (Event.labelNumbers (programEvents CodeGenerator.new Examples.labelProgram)).Nodup ∧
    (visitProgram CodeGenerator.new Examples.labelProgram).map
        (fun g' => g'.output.filter
          (fun line => decide (line ∈ ["if_false0:", "if_end1:", "while_loop2:",
            "while_end3:", "func_end4:", "for_loop5:", "for_update6:", "for_end7:",
            "func_end8:"]))) =
      some ["if_false0:", "if_end1:", "while_loop2:", "while_end3:", "func_end4:",
            "for_loop5:", "for_update6:", "for_end7:", "func_end8:"] :=
  have hc : Examples.labelProgram.complete = true := by decide
  have hr : LabelRange CodeGenerator.new
      (programEvents CodeGenerator.new Examples.labelProgram) := by
    unfold LabelRange CounterRange
    decide
  ⟨hc, hr, by decide,
    (generated_labels_distinct CodeGenerator.new Examples.labelProgram hc hr).2.elim
      fun _ h => h.2.2.1,
    by decide⟩

/-- C22: `allocateVariable` maps the name to the new stack offset; and within the
emission of one function, whose body has an expression in every expression statement
and takes fewer than `2^28` slots, the offsets of the slots taken (by `allocateVariable`
for a variable or by a binary expression for its spill) are `8, 16, 24, ...` in the order
in which they are taken: each is a positive multiple of 8, and no two are equal. -/
theorem slot_offsets_distinct (g : CodeGenerator) (f : FunctionDefinition)
    (hc : Statement.completeList f.bodyStatements = true)
    (hr : 8 * ((Event.slots (bodyEvents g f)).length : Int) < 2147483648) :
    (∀ (g0 : CodeGenerator) (name : String),
      Frame.find (g0.allocateVariable name).symbolTable name =
        some (g0.allocateVariable name).stackOffset) ∧
    ∃ g1, visitStatements (enterFunction g f) f.bodyStatements = some g1 ∧
      Event.slots (bodyEvents g f) =
        arithmeticRun 8 8 (Event.slots (bodyEvents g f)).length ∧
      (∀ k ∈ Event.slots (bodyEvents g f), 0 < k ∧ 8 ∣ k) ∧
      (∀ (name : String) (k : Int), Event.variable name k ∈ bodyEvents g f → 0 < k ∧ 8 ∣ k) ∧
      (Event.slots (bodyEvents g f)).Nodup ∧
      g1.stackOffset = 8 * (Event.slots (bodyEvents g f)).length := by
  refine ⟨?_, ?_⟩
  · intro g0 name
    rw [allocateVariable_symbolTable, Frame.find_assign, if_pos rfl]
    rfl
  · obtain ⟨g1, hv⟩ := visitStatements_complete (enterFunction g f) f.bodyStatements hc
    have hrange : SlotRange (enterFunction g f) (bodyEvents g f) := by
      unfold SlotRange CounterRange
      rw [enterFunction_stackOffset]
      exact ⟨le_refl 0, by omega⟩
    have run := visitStatements_slots (enterFunction g f) f.bodyStatements g1 hrange hv
    obtain ⟨h1, h2⟩ := run
    rw [enterFunction_stackOffset] at h1 h2
    simp only [zero_add] at h1 h2
    have hall : ∀ k ∈ Event.slots (bodyEvents g f), 0 < k ∧ 8 ∣ k := by
      intro k hk
      have hk' : k ∈ Event.slots (statementsEvents (enterFunction g f) f.bodyStatements) := hk
      rw [h1] at hk'
      obtain ⟨i, _, rfl⟩ := arithmeticRun_mem hk'
      exact ⟨by omega, ⟨1 + i, by ring⟩⟩
    refine ⟨g1, hv, h1, hall, ?_, ?_, h2⟩
    · intro name k hk
      exact hall k (Event.variable_mem_slots _ name k hk)
    · have h1' : Event.slots (bodyEvents g f) =
          arithmeticRun 8 8 (Event.slots (bodyEvents g f)).length := h1
      rw [h1']
      exact arithmeticRun_nodup _ _ _ (by decide)

/-- Witness for C22: `int h() { int a; int b = 1 + 2; return a * b; }` takes the slots
8 and 16 for `a` and `b` and the spill slots 24 and 32. -/
theorem slot_offsets_distinct_witness :
    Statement.completeList Examples.slotFunction.bodyStatements = true ∧
    8 * ((Event.slots (bodyEvents CodeGenerator.new Examples.slotFunction)).length : Int)
      < 2147483648 ∧
    bodyEvents CodeGenerator.new Examples.slotFunction =
      [.variable "a" 8, .variable "b" 16, .spill 24, .spill 32] ∧
    (Event.slots (bodyEvents CodeGenerator.new Examples.slotFunction)).Nodup :=
  have hc : Statement.completeList Examples.slotFunction.bodyStatements = true := by decide
  have hr : 8 * ((Event.slots (bodyEvents CodeGenerator.new Examples.slotFunction)).length
      : Int) < 2147483648 := by decide
  ⟨hc, hr, by decide,
    (slot_offsets_distinct CodeGenerator.new Examples.slotFunction hc hr).2.elim
      fun _ h => h.2.2.2.2.1⟩

end CodeGenerator

/-! ## Addresses, binary expressions and calls: C23, C24, C25 -/

namespace CodeGenerator

/-- C23 as stated fails: in `int f(int a, int b) { ... }` a reference to the first
parameter is emitted as `    movq --16(%rbp), %rax`, with two minus signs, not as
`    movq 16(%rbp), %rax`. -/
theorem parameter_address_counterexample :
    (visitExpression (enterFunction CodeGenerator.new Examples.addFunction)
        (.Identifier ⟨ASTNode.atLine 1, "a"⟩)).output =
      (enterFunction CodeGenerator.new Examples.addFunction).output ++
        ["    movq --16(%rbp), %rax"] ∧
    "    movq --16(%rbp), %rax" ≠ "    movq 16(%rbp), %rax" := by
  decide

/-- C23, amended: for a function with distinct parameters (fewer than `2^28` of them),
when the body is reached the parameter at index `i` is mapped to `-(16 + 8 * i)`; where
a name is mapped to that value, a reference to it is emitted as the line
`    movq --<16+8i>(%rbp), %rax` (the minus sign that `getVariableAddress` writes,
followed by the decimal text of the negative value), and an assignment to it stores
`%rax` to the same address text, `--<16+8i>(%rbp)`. -/
theorem parameter_address (g : CodeGenerator) (f : FunctionDefinition) (i : Nat)
    (type name : String) (hd : (f.parameters.map Prod.snd).Nodup)
    (hi : f.parameters[i]? = some (type, name))
    (hr : 16 + 8 * (f.parameters.length : Int) < 2147483648) :
    Frame.find (enterFunction g f).symbolTable name = some (-(16 + 8 * (i : Int))) ∧
    (∀ (g1 : CodeGenerator) (node : ASTNode),
      Frame.find g1.symbolTable name = some (-(16 + 8 * (i : Int))) →
        visitExpression g1 (.Identifier ⟨node, name⟩) =
          g1.emit ("    movq " ++ ("--" ++ toString (16 + 8 * (i : Int)) ++ "(%rbp)")
            ++ ", %rax") ∧
        ∀ (node1 node2 : ASTNode) (right : Expression),
          visitExpression g1 (.AssignmentExpression node1 ⟨node2, name⟩ right) =
            (visitExpression g1 right).emit
              ("    movq %rax, " ++ ("--" ++ toString (16 + 8 * (i : Int)) ++ "(%rbp)"))) := by
  have htext : "-" ++ toString (-(16 + 8 * (i : Int))) = "--" ++ toString (16 + 8 * (i : Int)) := by
    have h := toString_neg (16 + 8 * i) (by omega)
    push_cast at h
    rw [h, ← String.append_assoc]
    rfl
  refine ⟨?_, ?_⟩
  · exact registerParameters_find f.parameters _ 16 i type name hd hi (by decide) hr
  · intro g1 node h
    refine ⟨?_, ?_⟩
    · rw [visitExpression_identifier_found g1 ⟨node, name⟩ _ h, htext]
    · intro node1 node2 right
      have h' : Frame.find (visitExpression g1 right).symbolTable name =
          some (-(16 + 8 * (i : Int))) := by
        rw [(visitExpression_keeps g1 right).1]
        exact h
      simp only [visitExpression]
      rw [storeVariable_found _ name _ h', htext]

/-- Witness for C23 (amended): the second parameter of `int f(int a, int b)`. -/
theorem parameter_address_witness :
    (Examples.addFunction.parameters.map Prod.snd).Nodup ∧
    Examples.addFunction.parameters[1]? = some ("int", "b") ∧
    Frame.find (enterFunction CodeGenerator.new Examples.addFunction).symbolTable "b" =
      some (-(16 + 8 * ((1 : Nat) : Int))) ∧
    (visitExpression (enterFunction CodeGenerator.new Examples.addFunction)
        (.Identifier ⟨ASTNode.atLine 1, "b"⟩)).output =
      (enterFunction CodeGenerator.new Examples.addFunction).output ++
        ["    movq --24(%rbp), %rax"] :=
  ⟨by decide, by decide,
   (parameter_address CodeGenerator.new Examples.addFunction 1 "int" "b" (by decide)
      (by decide) (by decide)).1,
   by decide⟩

/-- C24: the text of a binary expression is the code of the right operand, a store of
`%rax` to the slot `-k(%rbp)` with `k` the stack offset after the right operand plus 8
(in the range of `int`), the code of the left operand, a load of `-k(%rbp)` into `%rbx`,
and the instructions of the operator: `subq %rbx, %rax` for `-`; `cqto`, `idivq %rbx`
for `/`, and the same followed by `movq %rdx, %rax` for `%`; `cmpq %rbx, %rax`, a
`set<cc> %al` and `movzbq %al, %rax` for the six comparisons, with `cc` one of `e`,
`ne`, `l`, `g`, `le`, `ge`. -/
theorem binary_expression_text (g : CodeGenerator) (node : ASTNode) (left right : Expression)
    (op : String) (h0 : 0 ≤ (visitExpression g right).stackOffset)
    (h1 : (visitExpression g right).stackOffset + 8 < 2147483648) :
    (∃ rightCode leftCode : List String,
      (visitExpression g right).output = g.output ++ rightCode ∧
      (visitExpression (spillRight (visitExpression g right)) left).output =
        (spillRight (visitExpression g right)).output ++ leftCode ∧
      (spillRight (visitExpression g right)).stackOffset =
        (visitExpression g right).stackOffset + 8 ∧
      (visitExpression g (.BinaryExpression node left op right)).output =
        g.output ++ rightCode ++
          ["    movq %rax, -" ++ toString ((visitExpression g right).stackOffset + 8)
            ++ "(%rbp)"] ++
          leftCode ++
          ["    movq -" ++ toString ((visitExpression g right).stackOffset + 8)
            ++ "(%rbp), %rbx"] ++
          binaryInstructions op) ∧
    binaryInstructions "-" = ["    subq %rbx, %rax"] ∧
    binaryInstructions "/" = ["    cqto", "    idivq %rbx"] ∧
    binaryInstructions "%" = ["    cqto", "    idivq %rbx", "    movq %rdx, %rax"] ∧
    binaryInstructions "==" = ["    cmpq %rbx, %rax", "    sete %al", "    movzbq %al, %rax"] ∧
    binaryInstructions "!=" = ["    cmpq %rbx, %rax", "    setne %al", "    movzbq %al, %rax"] ∧
    binaryInstructions "<" = ["    cmpq %rbx, %rax", "    setl %al", "    movzbq %al, %rax"] ∧
    binaryInstructions ">" = ["    cmpq %rbx, %rax", "    setg %al", "    movzbq %al, %rax"] ∧
    binaryInstructions "<=" = ["    cmpq %rbx, %rax", "    setle %al", "    movzbq %al, %rax"] ∧
    binaryInstructions ">=" = ["    cmpq %rbx, %rax", "    setge %al", "    movzbq %al, %rax"] := by
  refine ⟨?_, by decide, by decide, by decide, by decide, by decide, by decide, by decide,
    by decide, by decide⟩
  obtain ⟨rightCode, hright⟩ := visitExpression_output g right
  obtain ⟨leftCode, hleft⟩ := visitExpression_output (spillRight (visitExpression g right)) left
  have hk : toInt32 ((visitExpression g right).stackOffset + 8) =
      (visitExpression g right).stackOffset + 8 :=
    toInt32_of_range _ (by omega) h1
  have hs : (spillRight (visitExpression g right)).stackOffset =
      (visitExpression g right).stackOffset + 8 := by
    rw [spillRight_stackOffset, hk]
  refine ⟨rightCode, leftCode, hright, hleft, hs, ?_⟩
  simp only [visitExpression, emitLines_output, emit_output]
  rw [hleft, spillRight_output, hright, hs, hk]

/-- Witness for C24: `7 - 1` from a fresh generator. -/
theorem binary_expression_text_witness :
    0 ≤ (visitExpression CodeGenerator.new (.IntegerLiteral (ASTNode.atLine 1) 1)).stackOffset ∧
    (visitExpression CodeGenerator.new
        (.BinaryExpression (ASTNode.atLine 1) (.IntegerLiteral (ASTNode.atLine 1) 7) "-"
          (.IntegerLiteral (ASTNode.atLine 1) 1))).output =
      ["    movq $1, %rax", "    movq %rax, -8(%rbp)", "    movq $7, %rax",
       "    movq -8(%rbp), %rbx", "    subq %rbx, %rax"] ∧
    binaryInstructions "-" = ["    subq %rbx, %rax"] :=
  ⟨by decide, by decide,
   (binary_expression_text CodeGenerator.new (ASTNode.atLine 1)
      (.IntegerLiteral (ASTNode.atLine 1) 7) (.IntegerLiteral (ASTNode.atLine 1) 1) "-"
      (by decide) (by decide)).2.1⟩

/-- C25: for a call of a function other than `printf` with fewer than `2^31` arguments,
the text is the code of the arguments from the last to the first, each followed by
`push %rax`, then `call <name>`, then `add $<8n>, %rsp` exactly when there is an
argument; for `return f(1,2);` this is the push of 2, the push of 1, `call f` and
`add $16, %rsp`. -/
theorem function_call_text (g : CodeGenerator) (node : ASTNode) (name : String)
    (arguments : List Expression) (hn : name ≠ "printf")
    (hl : arguments.length < 2147483648) :
    visitArguments g arguments =
      arguments.reverse.foldl (fun st a => (visitExpression st a).emit "    push %rax") g ∧
    (visitExpression g (.FunctionCall node name arguments)).output =
      (visitArguments g arguments).output ++ ["    call " ++ name] ++
        (if arguments.length = 0 then []
         else ["    add $" ++ toString (8 * arguments.length) ++ ", %rsp"]) ∧
    (visitStatement CodeGenerator.new
        (.ReturnStatement (ASTNode.atLine 2) (some Examples.callWithTwo))).map
        (fun g' => g'.output) =
      some ["    movq $2, %rax", "    push %rax", "    movq $1, %rax", "    push %rax",
            "    call f", "    add $16, %rsp", "    leave", "    ret"] := by
  refine ⟨?_, ?_, by decide⟩
  · clear hl
    induction arguments with
    | nil => rfl
    | cons a rest ih =>
      simp only [visitArguments, List.reverse_cons, List.foldl_append, List.foldl_cons,
        List.foldl_nil, ih]
  · have hp : (name == "printf") = false := by simpa using hn
    have hm : arguments.length * 8 % 18446744073709551616 = 8 * arguments.length := by
      omega
    simp only [visitExpression, hp, Bool.false_eq_true, if_false, hm]
    cases arguments with
    | nil => simp
    | cons a rest => simp

/-- Witness for C25: the call `f(1, 2)`. -/
theorem function_call_text_witness :
    "f" ≠ "printf" ∧
    (visitExpression CodeGenerator.new Examples.callWithTwo).output =
      (visitArguments CodeGenerator.new
          [.IntegerLiteral (ASTNode.atLine 2) 1, .IntegerLiteral (ASTNode.atLine 2) 2]).output
        ++ ["    call " ++ "f"] ++
        (if [Expression.IntegerLiteral (ASTNode.atLine 2) 1,
              Expression.IntegerLiteral (ASTNode.atLine 2) 2].length = 0 then []
         else ["    add $" ++ toString (8 * [Expression.IntegerLiteral (ASTNode.atLine 2) 1,
              Expression.IntegerLiteral (ASTNode.atLine 2) 2].length) ++ ", %rsp"]) ∧
    (visitExpression CodeGenerator.new Examples.callWithTwo).output =
      ["    movq $2, %rax", "    push %rax", "    movq $1, %rax", "    push %rax",
       "    call f", "    add $16, %rsp"] :=
  ⟨by decide,
   (function_call_text CodeGenerator.new (ASTNode.atLine 2) "f"
      [.IntegerLiteral (ASTNode.atLine 2) 1, .IntegerLiteral (ASTNode.atLine 2) 2]
      (by decide) (by decide)).2.1,
   by decide⟩

end CodeGenerator

/-! ## Control flow and function frames: C26, C27, C28 -/

namespace CodeGenerator

/-- C26: an `if` without `else` whose then-branch has an expression in every expression
statement is emitted to the end, as: the code of the condition, `testq %rax, %rax`, a
`je` to the false label, the code of the then-branch, a `jmp` to the end label, the
definition of the false label and, as the very next line, the definition of the end
label. -/
theorem if_without_else_text (g : CodeGenerator) (node : ASTNode) (condition : Expression)
    (thenStmt : Statement) (hc : thenStmt.complete = true) :
    ∃ (conditionCode thenCode : List String) (g' : CodeGenerator),
      (ifHead g condition).1 = (generateLabel g "if_false").1 ∧
      (ifHead g condition).2.1 =
        (generateLabel (generateLabel g "if_false").2 "if_end").1 ∧
      visitStatement g (.IfStatement node condition thenStmt none) = some g' ∧
      g'.output =
        g.output ++ conditionCode ++
          ["    testq %rax, %rax", "    je " ++ (ifHead g condition).1] ++
          thenCode ++
          ["    jmp " ++ (ifHead g condition).2.1, (ifHead g condition).1 ++ ":",
           (ifHead g condition).2.1 ++ ":"] ∧
      (visitExpression (generateLabel (generateLabel g "if_false").2 "if_end").2
          condition).output = g.output ++ conditionCode ∧
      ∃ g1, visitStatement (ifHead g condition).2.2 thenStmt = some g1 ∧
        g1.output = (ifHead g condition).2.2.output ++ thenCode := by
  obtain ⟨conditionCode, hcond⟩ := visitExpression_output
    (generateLabel (generateLabel g "if_false").2 "if_end").2 condition
  obtain ⟨g1, h1⟩ := visitStatement_complete (ifHead g condition).2.2 thenStmt hc
  obtain ⟨thenCode, hthen⟩ := visitStatement_output _ thenStmt g1 h1
  have hhead : (ifHead g condition).2.2.output =
      g.output ++ conditionCode ++
        ["    testq %rax, %rax", "    je " ++ (ifHead g condition).1] := by
    simp only [ifHead, emit_output, hcond, generateLabel_output, List.append_assoc,
      List.singleton_append]
  have hcond' : (visitExpression (generateLabel (generateLabel g "if_false").2 "if_end").2
      condition).output = g.output ++ conditionCode := hcond
  refine ⟨conditionCode, thenCode,
    ((g1.emit ("    jmp " ++ (ifHead g condition).2.1)).emit
      ((ifHead g condition).1 ++ ":")).emit ((ifHead g condition).2.1 ++ ":"),
    rfl, rfl, ?_, ?_, hcond', g1, h1, hthen⟩
  · simp only [visitStatement, h1, Option.map_some']
  · simp only [emit_output, hthen, hhead, List.append_assoc, List.singleton_append,
      List.cons_append, List.nil_append]

/-- Witness for C26: `if (a) return 1;` from a fresh generator. -/
theorem if_without_else_text_witness :
    (Statement.ReturnStatement (ASTNode.atLine 1)
      (some (.IntegerLiteral (ASTNode.atLine 1) 1))).complete = true ∧
    (visitStatement CodeGenerator.new Examples.ifReturn).map (fun g' => g'.output) =
      some ["    testq %rax, %rax", "    je if_false0", "    movq $1, %rax", "    leave",
            "    ret", "    jmp if_end1", "if_false0:", "if_end1:"] ∧
    ∃ (conditionCode thenCode : List String) (g' : CodeGenerator),
      visitStatement CodeGenerator.new Examples.ifReturn = some g' ∧
      g'.output =
        CodeGenerator.new.output ++ conditionCode ++
          ["    testq %rax, %rax",
           "    je " ++ (ifHead CodeGenerator.new (.Identifier ⟨ASTNode.atLine 1, "a"⟩)).1] ++
          thenCode ++
          ["    jmp " ++ (ifHead CodeGenerator.new (.Identifier ⟨ASTNode.atLine 1, "a"⟩)).2.1,
           (ifHead CodeGenerator.new (.Identifier ⟨ASTNode.atLine 1, "a"⟩)).1 ++ ":",
           (ifHead CodeGenerator.new (.Identifier ⟨ASTNode.atLine 1, "a"⟩)).2.1 ++ ":"] :=
  ⟨by decide, by decide,
   (if_without_else_text CodeGenerator.new (ASTNode.atLine 1)
      (.Identifier ⟨ASTNode.atLine 1, "a"⟩)
      (.ReturnStatement (ASTNode.atLine 1) (some (.IntegerLiteral (ASTNode.atLine 1) 1)))
      (by decide)).elim
    fun cc h => h.elim fun tc h => h.elim fun g' h => ⟨cc, tc, g', h.2.2.1, h.2.2.2.1⟩⟩

/-- C27: a `for` without init, condition and update whose body has an expression in
every expression statement is emitted to the end, as exactly: the definition of the loop
label, the code of the body, the definition of the update label, `jmp <loop label>`, the
definition of the end label.  The lines outside the body hold no test and no conditional
jump, and their one jump goes to the loop label, which is not the end label. -/
theorem bare_for_text (g : CodeGenerator) (node : ASTNode) (body : Statement)
    (hc : body.complete = true) :
    ∃ (bodyCode : List String) (g1 g' : CodeGenerator),
      (forLabels g).1 = "for_loop" ++ toString g.labelCounter ∧
      (forLabels g).2.1 = (generateLabel (generateLabel g "for_loop").2 "for_update").1 ∧
      (forLabels g).2.2.1 =
        "for_end" ++
          toString (generateLabel (generateLabel g "for_loop").2 "for_update").2.labelCounter ∧
      visitStatement ((forLabels g).2.2.2.emit ((forLabels g).1 ++ ":")) body = some g1 ∧
      g1.output = g.output ++ [(forLabels g).1 ++ ":"] ++ bodyCode ∧
      visitStatement g (.ForStatement node none none none body) = some g' ∧
      g'.output =
        g.output ++ [(forLabels g).1 ++ ":"] ++ bodyCode ++
          [(forLabels g).2.1 ++ ":", "    jmp " ++ (forLabels g).1,
           (forLabels g).2.2.1 ++ ":"] ∧
      (forLabels g).1 ≠ (forLabels g).2.2.1 := by
  obtain ⟨g1, h1⟩ := visitStatement_complete
    ((forLabels g).2.2.2.emit ((forLabels g).1 ++ ":")) body hc
  obtain ⟨bodyCode, hbody⟩ := visitStatement_output _ body g1 h1
  have hstart : ((forLabels g).2.2.2.emit ((forLabels g).1 ++ ":")).output =
      g.output ++ [(forLabels g).1 ++ ":"] := rfl
  rw [hstart] at hbody
  have hv : visitStatement g (.ForStatement node none none none body) =
      some (forTail g1 (forLabels g).1 (forLabels g).2.1 (forLabels g).2.2.1 none) := by
    have h1' : visitStatement
        (forTest (forLabels g).2.2.2 (forLabels g).1 (forLabels g).2.2.1 none) body =
        some g1 := h1
    simp only [visitStatement, h1', Option.map_some']
  refine ⟨bodyCode, g1,
    forTail g1 (forLabels g).1 (forLabels g).2.1 (forLabels g).2.2.1 none,
    rfl, rfl, rfl, h1, hbody, hv, ?_, for_labels_differ _ _⟩
  simp only [forTail, visitOptionalExpression, emit_output, hbody, List.append_assoc,
    List.singleton_append, List.cons_append, List.nil_append]

/-- Witness for C27: `for (;;) return 2;` from a fresh generator. -/
theorem bare_for_text_witness :
    (Statement.ReturnStatement (ASTNode.atLine 1)
      (some (.IntegerLiteral (ASTNode.atLine 1) 2))).complete = true ∧
    (visitStatement CodeGenerator.new Examples.bareFor).map (fun g' => g'.output) =
      some ["for_loop0:", "    movq $2, %rax", "    leave", "    ret", "for_update1:",
            "    jmp for_loop0", "for_end2:"] ∧
    (forLabels CodeGenerator.new).1 ≠ (forLabels CodeGenerator.new).2.2.1 :=
  ⟨by decide, by decide,
   (bare_for_text CodeGenerator.new (ASTNode.atLine 1)
      (.ReturnStatement (ASTNode.atLine 1) (some (.IntegerLiteral (ASTNode.atLine 1) 2)))
      (by decide)).elim
    fun _ h => h.elim fun _ h => h.elim fun _ h => h.2.2.2.2.2.2.2⟩

/-- C28: a function definition with an empty body is emitted as the section and `.globl`
directives, the label of the function, `pushq %rbp`, `movq %rsp, %rbp`, the function-end
label, its comment, `movq $0, %rax` exactly when the return type is not `void`, `leave`,
`ret` and an empty line; nothing else is written. -/
theorem empty_function_text (g : CodeGenerator) (f : FunctionDefinition)
    (hb : f.bodyStatements = []) :
    ∃ g', visitFunctionDefinition g f = some g' ∧
      g'.output =
        g.output ++
          [".section .text", ".globl " ++ f.name, f.name ++ ":", "    pushq %rbp",
           "    movq %rsp, %rbp", "func_end" ++ toString g.labelCounter ++ ":",
           "    # Default return (if no explicit return)"] ++
          (if f.returnType = "void" then [] else ["    movq $0, %rax"]) ++
          ["    leave", "    ret", ""] := by
  have hv : visitFunctionDefinition g f = some (leaveFunction (enterFunction g f) f) := by
    simp only [visitFunctionDefinition, visitStatement, hb, visitStatements, Option.map_some']
  refine ⟨leaveFunction (enterFunction g f) f, hv, ?_⟩
  have hs : stackComment (enterFunction g f) = enterFunction g f := by
    simp [stackComment]
  have ho : (enterFunction g f).output =
      g.output ++ [".section .text", ".globl " ++ f.name, f.name ++ ":", "    pushq %rbp",
        "    movq %rsp, %rbp"] := by
    simp [enterFunction]
  by_cases hvoid : f.returnType = "void"
  · simp [leaveFunction, hs, ho, hvoid]
  · simp [leaveFunction, hs, ho, hvoid]

/-- Witness for C28: `void e() { }` and `int z(int a) { }`. -/
theorem empty_function_text_witness :
    Examples.emptyVoid.bodyStatements = [] ∧
    (visitFunctionDefinition CodeGenerator.new Examples.emptyVoid).map (fun g' => g'.output) =
      some [".section .text", ".globl e", "e:", "    pushq %rbp", "    movq %rsp, %rbp",
            "func_end0:", "    # Default return (if no explicit return)", "    leave",
            "    ret", ""] ∧
    (visitFunctionDefinition CodeGenerator.new Examples.emptyInt).map (fun g' => g'.output) =
      some [".section .text", ".globl z", "z:", "    pushq %rbp", "    movq %rsp, %rbp",
            "func_end0:", "    # Default return (if no explicit return)",
            "    movq $0, %rax", "    leave", "    ret", ""] ∧
    ∃ g', visitFunctionDefinition CodeGenerator.new Examples.emptyInt = some g' :=
  ⟨rfl, by decide, by decide,
   (empty_function_text CodeGenerator.new Examples.emptyInt rfl).elim
    fun g' h => ⟨g', h.1⟩⟩

end CodeGenerator

/-! ## Assignments and the frame map: C29, C30 -/

namespace CodeGenerator

/-- C29: for `int main() { int x; x = 5; return x; }` the generator takes exactly one
slot, offset 8, for `x`, and writes for the body the comment of the declaration followed
by `movq $5, %rax`, `movq %rax, -8(%rbp)`, `movq -8(%rbp), %rax`, `leave`, `ret`.  In
general `allocateVariable` maps the name to its new slot, and where a name is mapped to
`k` an assignment to it stores `%rax` to `-k(%rbp)`, the address from which a reference
to the name loads as long as the name is mapped to `k`. -/
theorem assignment_address (g : CodeGenerator) (name : String) (k : Int)
    (h : Frame.find g.symbolTable name = some k) :
    (∀ (node1 node2 : ASTNode) (right : Expression),
      visitExpression g (.AssignmentExpression node1 ⟨node2, name⟩ right) =
        (visitExpression g right).emit
          ("    movq %rax, " ++ ("-" ++ toString k ++ "(%rbp)")) ∧
      Frame.find
        (visitExpression g (.AssignmentExpression node1 ⟨node2, name⟩ right)).symbolTable
        name = some k) ∧
    (∀ (g1 : CodeGenerator) (node : ASTNode), Frame.find g1.symbolTable name = some k →
      visitExpression g1 (.Identifier ⟨node, name⟩) =
        g1.emit ("    movq " ++ ("-" ++ toString k ++ "(%rbp)") ++ ", %rax")) ∧
    (∀ (g0 : CodeGenerator),
      Frame.find (g0.allocateVariable name).symbolTable name =
        some (toInt32 (g0.stackOffset + 8))) ∧
    programEvents CodeGenerator.new Examples.assignProgram =
      [.variable "x" 8, .label "func_end" 0] ∧
    (visitStatements CodeGenerator.new
        [.VariableDeclaration (ASTNode.atLine 1) "int" ["x"] [],
         .ExpressionStatement (ASTNode.atLine 1)
           (some (.AssignmentExpression (ASTNode.atLine 1) ⟨ASTNode.atLine 1, "x"⟩
             (.IntegerLiteral (ASTNode.atLine 1) 5))),
         .ReturnStatement (ASTNode.atLine 1)
           (some (.Identifier ⟨ASTNode.atLine 1, "x"⟩))]).map (fun g' => g'.output) =
      some (["    # Variable declaration: int x"] ++
        ["    movq $5, %rax", "    movq %rax, -8(%rbp)", "    movq -8(%rbp), %rax",
         "    leave", "    ret"]) ∧
    (generateAssembly CodeGenerator.new (some Examples.assignProgram)).map
        (fun g' => g'.output) =
      some ["# Generated by C Compiler", "", ".section .text", ".globl main", "main:",
            "    pushq %rbp", "    movq %rsp, %rbp", "    # Variable declaration: int x",
            "    movq $5, %rax", "    movq %rax, -8(%rbp)", "    movq -8(%rbp), %rax",
            "    leave", "    ret", "    # Stack space allocated: 8 bytes", "func_end0:",
            "    # Default return (if no explicit return)", "    movq $0, %rax", "    leave",
            "    ret", ""] := by
  refine ⟨?_, ?_, ?_, by decide, by decide, by decide⟩
  · intro node1 node2 right
    have h' : Frame.find (visitExpression g right).symbolTable name = some k := by
      rw [(visitExpression_keeps g right).1]
      exact h
    refine ⟨?_, ?_⟩
    · simp only [visitExpression]
      rw [storeVariable_found _ name _ h']
    · rw [(visitExpression_keeps g _).1]
      exact h
  · intro g1 node h1
    exact visitExpression_identifier_found g1 ⟨node, name⟩ k h1
  · intro g0
    rw [allocateVariable_symbolTable, Frame.find_assign, if_pos rfl]

/-- Witness for C29: `x = 5` and `x` once `int x;` has been declared by a fresh
generator. -/
theorem assignment_address_witness :
    Frame.find (CodeGenerator.new.allocateVariable "x").symbolTable "x" = some 8 ∧
    visitExpression (CodeGenerator.new.allocateVariable "x")
        (.AssignmentExpression (ASTNode.atLine 1) ⟨ASTNode.atLine 1, "x"⟩
          (.IntegerLiteral (ASTNode.atLine 1) 5)) =
      (visitExpression (CodeGenerator.new.allocateVariable "x")
          (.IntegerLiteral (ASTNode.atLine 1) 5)).emit
        ("    movq %rax, " ++ ("-" ++ toString (8 : Int) ++ "(%rbp)")) ∧
    (visitExpression (CodeGenerator.new.allocateVariable "x")
        (.Identifier ⟨ASTNode.atLine 1, "x"⟩)).output = ["    movq -8(%rbp), %rax"] :=
  ⟨by decide,
   ((assignment_address (CodeGenerator.new.allocateVariable "x") "x" 8 (by decide)).1
      (ASTNode.atLine 1) (ASTNode.atLine 1) (.IntegerLiteral (ASTNode.atLine 1) 5)).1,
   by decide⟩

/-- C30: a compound statement is emitted as the loop over its statements, with nothing
saved or restored; so after a block that was emitted, every name declared in it, at
any depth, is still in the frame map and a reference to it is one load from its slot,
with nothing written to the error stream; and after a block that ends with a
declaration of `x`, `x` is mapped to the slot that declaration took, whatever it was
mapped to before, as in `int x; { int x; } x;`, where the reference loads from the
inner slot 16 and not from the outer slot 8. -/
theorem frame_not_rolled_back (g : CodeGenerator) (node : ASTNode)
    (statements : List Statement) (g' : CodeGenerator)
    (hv : visitStatement g (.CompoundStatement node statements) = some g') :
    visitStatements g statements = some g' ∧
    (∀ name : String,
      (Frame.find g.symbolTable name).isSome = true ∨
          name ∈ Statement.declaredNamesOfList statements →
        ∃ k, Frame.find g'.symbolTable name = some k ∧
          ∀ idNode : ASTNode,
            visitExpression g' (.Identifier ⟨idNode, name⟩) =
              g'.emit ("    movq " ++ ("-" ++ toString k ++ "(%rbp)") ++ ", %rax")) ∧
    (∀ (declNode blockNode : ASTNode) (type x : String),
      visitStatement g
          (.CompoundStatement blockNode
            (statements ++ [.VariableDeclaration declNode type [x] []])) =
        some (declareName g' type x) ∧
      Frame.find (declareName g' type x).symbolTable x =
        some (toInt32 (g'.stackOffset + 8))) ∧
    (visitStatements CodeGenerator.new Examples.shadowBody).map
        (fun g1 => (g1.output, g1.errorOutput, g1.symbolTable)) =
      some (["    # Variable declaration: int x", "    # Variable declaration: int x",
             "    movq -16(%rbp), %rax"], [], [("x", 16)]) ∧
    (visitStatements CodeGenerator.new (Examples.shadowBody.take 1)).map
        (fun g1 => g1.symbolTable) = some [("x", 8)] := by
  have hv' : visitStatements g statements = some g' := by
    simpa only [visitStatement] using hv
  refine ⟨hv', ?_, ?_, by decide, by decide⟩
  · intro name hname
    have hsome := visitStatements_keys g statements g' name hv' hname
    obtain ⟨k, hk⟩ := Option.isSome_iff_exists.1 hsome
    exact ⟨k, hk, fun idNode => visitExpression_identifier_found g' ⟨idNode, name⟩ k hk⟩
  · intro declNode blockNode type x
    refine ⟨?_, ?_⟩
    · simp only [visitStatement, visitStatements_append, hv', Option.some_bind,
        visitStatements, declareNames, visitInitDeclarators]
    · show Frame.find (g'.allocateVariable x).symbolTable x = _
      rw [allocateVariable_symbolTable, Frame.find_assign, if_pos rfl]

/-- Witness for C30: the block `{ int y; }` followed by a reference to `y`. -/
theorem frame_not_rolled_back_witness :
    visitStatement CodeGenerator.new
        (.CompoundStatement (ASTNode.atLine 1)
          [.VariableDeclaration (ASTNode.atLine 1) "int" ["y"] []]) =
      some (declareName CodeGenerator.new "int" "y") ∧
    visitStatements CodeGenerator.new
        [.VariableDeclaration (ASTNode.atLine 1) "int" ["y"] []] =
      some (declareName CodeGenerator.new "int" "y") ∧
    (visitStatements CodeGenerator.new Examples.escapeBody).map
        (fun g1 => (g1.output, g1.errorOutput)) =
      some (["    # Variable declaration: int y", "    movq -8(%rbp), %rax"], []) :=
  ⟨by decide,
   (frame_not_rolled_back CodeGenerator.new (ASTNode.atLine 1)
      [.VariableDeclaration (ASTNode.atLine 1) "int" ["y"] []]
      (declareName CodeGenerator.new "int" "y") (by decide)).1,
   by decide⟩

end CodeGenerator

/-! ## Lemmas on the keys of the scopes -/

theorem Scope.find_assign_keeps : ∀ (s : Scope) (n m : String) (v : SymbolInfo),
    (Scope.find s m).isSome = true → (Scope.find (Scope.assign s n v) m).isSome = true
  | [], _, _, _, h => by simp [Scope.find] at h
  | (k, w) :: rest, n, m, v, h => by
    simp only [Scope.assign]
    by_cases hk : k = n
    · simp only [hk, if_true, Scope.find] at h ⊢
      by_cases hm : n = m
      · simp [hm]
      · simp only [hm, if_false] at h ⊢
        exact h
    · simp only [hk, if_false, Scope.find] at h ⊢
      by_cases hm : k = m
      · simp [hm]
      · simp only [hm, if_false] at h ⊢
        exact Scope.find_assign_keeps rest n m v h

theorem Scope.assign_entries : ∀ (s : Scope) (n : String) (v : SymbolInfo)
    (e : String × SymbolInfo), e ∈ Scope.assign s n v → e ∈ s ∨ e.2 = v ∧ e.1 = n
  | [], n, v, e, h => by
    simp only [Scope.assign, List.mem_singleton] at h
    exact Or.inr (by rw [h]; exact ⟨rfl, rfl⟩)
  | (k, w) :: rest, n, v, e, h => by
    simp only [Scope.assign] at h
    by_cases hk : k = n
    · simp only [hk, if_true, List.mem_cons] at h
      rcases h with h | h
      · exact Or.inr (by rw [h]; exact ⟨rfl, rfl⟩)
      · exact Or.inl (List.mem_cons_of_mem _ h)
    · simp only [hk, if_false, List.mem_cons] at h
      rcases h with h | h
      · exact Or.inl (by rw [h]; exact List.mem_cons_self _ _)
      · rcases Scope.assign_entries rest n v e h with h1 | h1
        · exact Or.inl (List.mem_cons_of_mem _ h1)
        · exact Or.inr h1

theorem Scope.setInitialized_entries : ∀ (s : Scope) (n : String) (e : String × SymbolInfo),
    e ∈ Scope.setInitialized s n →
      ∃ e' ∈ s, e'.1 = e.1 ∧ e'.2.name = e.2.name ∧ e'.2.scopeLevel = e.2.scopeLevel ∧
        e'.2.kind = e.2.kind
  | [], _, _, h => by simp [Scope.setInitialized] at h
  | (k, w) :: rest, n, e, h => by
    simp only [Scope.setInitialized] at h
    by_cases hk : k = n
    · simp only [hk, if_true, List.mem_cons] at h
      rcases h with h | h
      · exact ⟨(k, w), List.mem_cons_self _ _, by rw [h, hk], by rw [h], by rw [h], by rw [h]⟩
      · exact ⟨e, List.mem_cons_of_mem _ h, rfl, rfl, rfl, rfl⟩
    · simp only [hk, if_false, List.mem_cons] at h
      rcases h with h | h
      · exact ⟨(k, w), List.mem_cons_self _ _, by rw [h], by rw [h], by rw [h], by rw [h]⟩
      · obtain ⟨e', he', h1⟩ := Scope.setInitialized_entries rest n e h
        exact ⟨e', List.mem_cons_of_mem _ he', h1⟩

theorem SymbolTable.getD_enterScope (t : SymbolTable) (i : Nat) :
    t.enterScope.scopes.getD i [] = t.scopes.getD i [] := by
  simp only [SymbolTable.enterScope, List.getD_eq_getElem?_getD]
  by_cases hi : i < t.scopes.length
  · rw [List.getElem?_append_left hi]
  · have h1 : t.scopes.length ≤ i := by omega
    rw [List.getElem?_eq_none h1]
    by_cases h2 : i = t.scopes.length
    · subst h2
      simp
    · rw [List.getElem?_eq_none]
      simp only [List.length_append, List.length_singleton]
      omega

theorem SymbolTable.hasKey_enterScope (t : SymbolTable) (j : Nat) (m : String) :
    t.enterScope.hasKey j m = t.hasKey j m := by
  simp only [SymbolTable.hasKey, SymbolTable.scopeAt, SymbolTable.getD_enterScope]

theorem SymbolTable.hasKey_exitScope (t : SymbolTable) (j : Nat) (m : String) (h : t.WF)
    (hj : (j : Int) < t.currentScope) : t.exitScope.hasKey j m = t.hasKey j m := by
  obtain ⟨h0, h1⟩ := h
  have hpos : t.currentScope > 0 := by omega
  have hlt : j < t.scopes.length - 1 := by omega
  simp only [SymbolTable.hasKey, SymbolTable.scopeAt, SymbolTable.exitScope, hpos, if_true,
    List.getD_eq_getElem?_getD]
  rw [List.getElem?_eq_getElem (by simpa using hlt), List.getElem_dropLast,
    List.getElem?_eq_getElem (by omega)]

theorem SymbolTable.hasKey_declare (t : SymbolTable) (j : Nat) (m n ty k : String)
    (h : t.hasKey j m = true) : (t.declare n ty k).2.hasKey j m = true := by
  unfold SymbolTable.declare
  split
  · exact h
  · simp only [SymbolTable.hasKey, SymbolTable.scopeAt, List.getD_eq_getElem?_getD,
      List.getElem?_modify] at h ⊢
    cases hs : t.scopes[j]? with
    | none => rw [hs] at h; simp [Scope.find] at h
    | some s =>
      rw [hs] at h
      simp only [Option.getD_some] at h
      by_cases hij : t.currentScope.toNat = j
      · simp only [hij, if_true, Option.map_some', Option.getD_some]
        exact Scope.find_assign_keeps s n m _ h
      · simp only [hij, if_false, Option.map_some', Option.getD_some, id]
        exact h

theorem SymbolTable.hasKey_setInitialized (t : SymbolTable) (i j : Nat) (n m : String) :
    (t.setInitialized i n).hasKey j m = t.hasKey j m := by
  simp only [SymbolTable.hasKey, SymbolTable.scopeAt, SymbolTable.setInitialized]
  rw [SymbolTable.getD_modify_setInitialized]
  split
  · rw [Scope.find_setInitialized]
    simp
  · rfl

/-- A key of scope `j` hides every entry of that name in the scopes below `j`. -/
theorem SymbolTable.lookupEntry_of_hasKey (t : SymbolTable) (j : Nat) (m : String)
    (h : t.WF) (hj : (j : Int) ≤ t.currentScope) (hk : t.hasKey j m = true) :
    ∃ i sym, t.lookupEntry m = some (i, sym) ∧ j ≤ i := by
  obtain ⟨h0, _⟩ := h
  have hge : t.currentScope ≥ 0 := h0
  cases hl : t.lookupEntry m with
  | none =>
    simp only [SymbolTable.lookupEntry, hge, if_true] at hl
    rw [SymbolTable.lookupFrom_eq_none] at hl
    have := hl j (by omega)
    simp only [SymbolTable.hasKey, SymbolTable.scopeAt] at hk
    rw [this] at hk
    simp at hk
  | some p =>
    obtain ⟨i, sym⟩ := p
    refine ⟨i, sym, rfl, ?_⟩
    simp only [SymbolTable.lookupEntry, hge, if_true] at hl
    rw [SymbolTable.lookupFrom_eq_some] at hl
    obtain ⟨_, _, h3⟩ := hl
    by_contra hlt
    have := h3 j (by omega) (by omega)
    simp only [SymbolTable.hasKey, SymbolTable.scopeAt] at hk
    rw [this] at hk
    simp at hk

theorem SymbolTable.hasKey_declare_self (t : SymbolTable) (n ty k : String) (h : t.WF) :
    (t.declare n ty k).2.hasKey t.currentScope.toNat n = true := by
  obtain ⟨outer, top, hs, hc⟩ := h.split
  obtain ⟨scopes, cur⟩ := t
  simp only at hs hc
  subst hs hc
  rw [SymbolTable.declare_split]
  cases hf : Scope.find top n with
  | some sym =>
    simp [SymbolTable.hasKey, SymbolTable.scopeAt, List.getD_eq_getElem?_getD, hf]
  | none =>
    simp only [Option.isSome_none, Bool.false_eq_true, if_false, SymbolTable.hasKey,
      SymbolTable.scopeAt, Int.toNat_ofNat, List.getD_eq_getElem?_getD]
    simp [Scope.find_append_of_none _ _ _ hf]

namespace SemanticAnalyzer

theorem visitExpression_hasKey :
    ∀ (a : SemanticAnalyzer) (e : Expression) (j : Nat) (m : String),
      (visitExpression a e).1.symbolTable.hasKey j m = a.symbolTable.hasKey j m
  | a, .IntegerLiteral node value, j, m => by
    simp only [visitExpression]
  | a, .Identifier id, j, m => by
    simp only [visitExpression, visitIdentifier]
    split
    · rfl
    · split <;> rfl
  | a, .BinaryExpression node left op right, j, m => by
    have hl := visitExpression_hasKey
      { a with currentLine := node.lineNumber, currentContext := "二元表达式 '" ++ op ++ "'" }
      left j m
    have hr := visitExpression_hasKey
      ((visitExpression { a with currentLine := node.lineNumber,
                                 currentContext := "二元表达式 '" ++ op ++ "'" } left).1.restoreType
        a.currentExpressionType) right j m
    simp only [restoreType_symbolTable] at hl hr
    simp only [visitExpression]
    split <;> simp [hr, hl]
  | a, .UnaryExpression node op operand, j, m => by
    have ho := visitExpression_hasKey a operand j m
    simp only [visitExpression]
    split <;> simp [ho]
  | a, .AssignmentExpression node left right, j, m => by
    have hr := visitExpression_hasKey
      { a with currentLine := node.lineNumber, currentContext := "赋值表达式" } right j m
    simp only at hr
    simp only [visitExpression]
    split
    · rfl
    · split
      · rfl
      · split
        · simp [hr]
        · simp [SymbolTable.hasKey_setInitialized, hr]
  | a, .FunctionCall node name arguments, j, m => by
    simp only [visitExpression]
    split
    · rfl
    · split <;> rfl

theorem getExpressionType_hasKey (a : SemanticAnalyzer) (e : Expression) (j : Nat)
    (m : String) :
    (getExpressionType a e).2.1.symbolTable.hasKey j m = a.symbolTable.hasKey j m := by
  simp only [getExpressionType, restoreType_symbolTable]
  exact visitExpression_hasKey a e j m

theorem visitOptionalExpression_hasKey (a : SemanticAnalyzer) (e : Option Expression)
    (j : Nat) (m : String) :
    (visitOptionalExpression a e).1.symbolTable.hasKey j m = a.symbolTable.hasKey j m := by
  cases e with
  | none => rfl
  | some e => exact visitExpression_hasKey a e j m

theorem markInitialized_hasKey (a : SemanticAnalyzer) (n : String) (j : Nat) (m : String) :
    (a.markInitialized n).symbolTable.hasKey j m = a.symbolTable.hasKey j m := by
  unfold markInitialized
  split
  · exact SymbolTable.hasKey_setInitialized _ _ _ _ _
  · rfl

theorem declareNames_hasKey (type : String) (j : Nat) (m : String) :
    ∀ (names : List String) (a : SemanticAnalyzer), a.symbolTable.hasKey j m = true →
      (declareNames a type names).symbolTable.hasKey j m = true
  | [], a, h => h
  | name :: rest, a, h => by
    simp only [declareNames]
    apply declareNames_hasKey type j m rest
    split <;> exact SymbolTable.hasKey_declare _ _ _ _ _ _ h

theorem visitInitDeclarators_hasKey (type : String) (j : Nat) (m : String) :
    ∀ (inits : List (String × Option Expression)) (a : SemanticAnalyzer),
      a.symbolTable.hasKey j m = true →
        (visitInitDeclarators a type inits).1.symbolTable.hasKey j m = true
  | [], a, h => h
  | (name, none) :: rest, a, h => by
    simp only [visitInitDeclarators]
    split <;> apply visitInitDeclarators_hasKey type j m rest <;>
      exact SymbolTable.hasKey_declare _ _ _ _ _ _ h
  | (name, some e) :: rest, a, h => by
    simp only [visitInitDeclarators]
    split
    · apply visitInitDeclarators_hasKey type j m rest
      exact SymbolTable.hasKey_declare _ _ _ _ _ _ h
    · apply visitInitDeclarators_hasKey type j m rest
      have hd : ({ a with symbolTable := (a.symbolTable.declare name type "variable").2 } :
          SemanticAnalyzer).symbolTable.hasKey j m = true :=
        SymbolTable.hasKey_declare _ _ _ _ _ _ h
      have hg := getExpressionType_hasKey
        { a with symbolTable := (a.symbolTable.declare name type "variable").2 } e j m
      split
      · simp only [addError_symbolTable]
        rw [hg]; exact hd
      · rw [markInitialized_hasKey, hg]; exact hd

end SemanticAnalyzer

namespace SemanticAnalyzer


theorem Holds.step {j : Nat} {m : String} {a b : SemanticAnalyzer} (h : Holds j m a)
    (hs : Step a b) (hk : b.symbolTable.hasKey j m = true) : Holds j m b :=
  ⟨hs.WF h.wf, by rw [hs.currentScope]; exact h.le, hk⟩

theorem Holds.expression {j : Nat} {m : String} {a : SemanticAnalyzer} (h : Holds j m a)
    (e : Expression) : Holds j m (visitExpression a e).1 :=
  h.step (visitExpression_step a e) (by rw [visitExpression_hasKey]; exact h.key)

theorem Holds.optionalExpression {j : Nat} {m : String} {a : SemanticAnalyzer}
    (h : Holds j m a) (e : Option Expression) : Holds j m (visitOptionalExpression a e).1 :=
  h.step (visitOptionalExpression_step a e)
    (by rw [visitOptionalExpression_hasKey]; exact h.key)

theorem Holds.enter {j : Nat} {m : String} {a : SemanticAnalyzer} (h : Holds j m a) :
    Holds j m { a with symbolTable := a.symbolTable.enterScope } :=
  ⟨SymbolTable.WF_enterScope h.wf,
    by have := h.le; simp only [SymbolTable.enterScope]; omega,
    by rw [SymbolTable.hasKey_enterScope]; exact h.key⟩

mutual

theorem visitStatement_holds {j : Nat} {m : String} :
    ∀ (a : SemanticAnalyzer) (s : Statement), Holds j m a → Holds j m (visitStatement a s).1
  | a, .ExpressionStatement node expression, h => by
    simp only [visitStatement]
    exact h.optionalExpression expression
  | a, .VariableDeclaration node type names initDeclarators, h => by
    refine h.step (visitStatement_step a _ h.wf.1) ?_
    simp only [visitStatement]
    exact visitInitDeclarators_hasKey type j m _ _ (declareNames_hasKey type j m _ _ h.key)
  | a, .CompoundStatement node statements, h => by
    refine h.step (visitStatement_step a _ h.wf.1) ?_
    have hr := visitStatements_holds _ statements h.enter
    have hs := visitStatements_step { a with symbolTable := a.symbolTable.enterScope }
      statements (SymbolTable.WF_enterScope h.wf).1
    simp only [visitStatement]
    rw [SymbolTable.hasKey_exitScope _ _ _ hr.wf]
    · exact hr.key
    · rw [hs.currentScope]
      have := h.le
      simp only [SymbolTable.enterScope]
      omega
  | a, .IfStatement node condition thenStmt none, h => by
    simp only [visitStatement]
    exact visitStatement_holds _ thenStmt (h.expression condition)
  | a, .IfStatement node condition thenStmt (some elseStmt), h => by
    simp only [visitStatement]
    exact visitStatement_holds _ elseStmt
      (visitStatement_holds _ thenStmt (h.expression condition))
  | a, .WhileStatement node condition body, h => by
    simp only [visitStatement]
    exact visitStatement_holds _ body (h.expression condition)
  | a, .ForStatement node none condition update body, h => by
    simp only [visitStatement]
    exact visitStatement_holds _ body
      ((h.optionalExpression condition).optionalExpression update)
  | a, .ForStatement node (some init) condition update body, h => by
    simp only [visitStatement]
    exact visitStatement_holds _ body
      (((visitStatement_holds _ init h).optionalExpression condition).optionalExpression
        update)
  | a, .ReturnStatement node none, h => by
    refine h.step (visitStatement_step a _ h.wf.1) ?_
    simp only [visitStatement]
    split <;> exact h.key
  | a, .ReturnStatement node (some value), h => by
    refine h.step (visitStatement_step a _ h.wf.1) ?_
    have hg := getExpressionType_hasKey { a with hasReturnStatement := true } value j m
    simp only [visitStatement]
    split
    · simp only [addErrorDefault_symbolTable]
      rw [hg]; exact h.key
    · rw [hg]; exact h.key

theorem visitStatements_holds {j : Nat} {m : String} :
    ∀ (a : SemanticAnalyzer) (l : List Statement), Holds j m a →
      Holds j m (visitStatements a l).1
  | a, [], h => by
    simp only [visitStatements]
    exact h
  | a, stmt :: rest, h => by
    simp only [visitStatements]
    exact visitStatements_holds _ rest (visitStatement_holds a stmt h)

end

mutual

theorem statementVisits_holds {j : Nat} {m : String} :
    ∀ (a : SemanticAnalyzer) (s : Statement), Holds j m a →
      ∀ p ∈ statementVisits a s, Holds j m p.1
  | a, .ExpressionStatement node expression, h, p, hp => by
    simp only [statementVisits, List.mem_singleton] at hp
    subst hp
    exact h
  | a, .VariableDeclaration node type names initDeclarators, h, p, hp => by
    simp only [statementVisits, List.mem_singleton] at hp
    subst hp
    exact h
  | a, .CompoundStatement node statements, h, p, hp => by
    simp only [statementVisits, List.mem_cons] at hp
    rcases hp with hp | hp
    · subst hp
      exact h
    · exact statementsVisits_holds _ statements h.enter p hp
  | a, .IfStatement node condition thenStmt none, h, p, hp => by
    simp only [statementVisits, List.mem_cons] at hp
    rcases hp with hp | hp
    · subst hp
      exact h
    · exact statementVisits_holds _ thenStmt (h.expression condition) p hp
  | a, .IfStatement node condition thenStmt (some elseStmt), h, p, hp => by
    simp only [statementVisits, List.mem_cons, List.mem_append] at hp
    rcases hp with hp | hp | hp
    · subst hp
      exact h
    · exact statementVisits_holds _ thenStmt (h.expression condition) p hp
    · exact statementVisits_holds _ elseStmt
        (visitStatement_holds _ thenStmt (h.expression condition)) p hp
  | a, .WhileStatement node condition body, h, p, hp => by
    simp only [statementVisits, List.mem_cons] at hp
    rcases hp with hp | hp
    · subst hp
      exact h
    · exact statementVisits_holds _ body (h.expression condition) p hp
  | a, .ForStatement node none condition update body, h, p, hp => by
    simp only [statementVisits, List.mem_cons] at hp
    rcases hp with hp | hp
    · subst hp
      exact h
    · exact statementVisits_holds _ body
        ((h.optionalExpression condition).optionalExpression update) p hp
  | a, .ForStatement node (some init) condition update body, h, p, hp => by
    simp only [statementVisits, List.mem_cons, List.mem_append] at hp
    rcases hp with hp | hp | hp
    · subst hp
      exact h
    · exact statementVisits_holds _ init h p hp
    · exact statementVisits_holds _ body
        (((visitStatement_holds _ init h).optionalExpression condition).optionalExpression
          update) p hp
  | a, .ReturnStatement node value, h, p, hp => by
    simp only [statementVisits, List.mem_singleton] at hp
    subst hp
    exact h

theorem statementsVisits_holds {j : Nat} {m : String} :
    ∀ (a : SemanticAnalyzer) (l : List Statement), Holds j m a →
      ∀ p ∈ statementsVisits a l, Holds j m p.1
  | a, [], _, p, hp => by
    simp only [statementsVisits, List.not_mem_nil] at hp
  | a, stmt :: rest, h, p, hp => by
    simp only [statementsVisits, List.mem_append] at hp
    rcases hp with hp | hp
    · exact statementVisits_holds a stmt h p hp
    · exact statementsVisits_holds _ rest (visitStatement_holds a stmt h) p hp

end

end SemanticAnalyzer

theorem String.quoted_injective (p s n m : String) (h : p ++ n ++ s = p ++ m ++ s) : n = m := by
  have hd := congrArg String.data h
  simp only [String.data_append] at hd
  exact String.ext (List.append_cancel_left (List.append_cancel_right hd))

namespace SemanticAnalyzer

theorem NoUndeclaredCall.same {m : String} {a b : SemanticAnalyzer} (h : b.errors = a.errors) :
    NoUndeclaredCall m a b := ⟨[], by simp [h], by simp⟩

theorem NoUndeclaredCall.chain {m : String} {a b c : SemanticAnalyzer}
    (h1 : NoUndeclaredCall m a b) (h2 : NoUndeclaredCall m b c) : NoUndeclaredCall m a c := by
  obtain ⟨x, hx, px⟩ := h1
  obtain ⟨y, hy, py⟩ := h2
  refine ⟨x ++ y, by rw [hy, hx, List.append_assoc], ?_⟩
  intro e he
  rcases List.mem_append.mp he with h | h
  · exact px e h
  · exact py e h

theorem NoUndeclaredCall.one {m : String} {a b : SemanticAnalyzer} (e : SemanticError)
    (h : b.errors = a.errors ++ [e]) (he : e.isUndeclaredFunction m = false) :
    NoUndeclaredCall m a b :=
  ⟨[e], h, by simpa using he⟩

theorem lookup_ne_none_of_holds {j : Nat} {m : String} {a : SemanticAnalyzer}
    (h : Holds j m a) : a.symbolTable.lookup m ≠ none := by
  obtain ⟨i, sym, hl, _⟩ := SymbolTable.lookupEntry_of_hasKey _ j m h.wf h.le h.key
  simp [SymbolTable.lookup, hl]

theorem Holds.table {j : Nat} {m : String} {a b : SemanticAnalyzer} (h : Holds j m a)
    (hb : b.symbolTable = a.symbolTable) : Holds j m b :=
  ⟨by rw [hb]; exact h.wf, by rw [hb]; exact h.le, by rw [hb]; exact h.key⟩

theorem visitExpression_undeclaredCall {j : Nat} {m : String} :
    ∀ (a : SemanticAnalyzer) (e : Expression), Holds j m a →
      NoUndeclaredCall m a (visitExpression a e).1
  | a, .IntegerLiteral node value, _ => by
    simp only [visitExpression]
    exact .same rfl
  | a, .Identifier id, _ => by
    simp only [visitExpression, visitIdentifier]
    split
    · refine .one _ rfl ?_
      simp [SemanticError.isUndeclaredFunction, (by decide : "标识符使用".isEmpty = false)]
    · split <;> exact .same rfl
  | a, .BinaryExpression node left op right, h => by
    have h0 : Holds j m { a with currentLine := node.lineNumber,
                                 currentContext := "二元表达式 '" ++ op ++ "'" } := h.table rfl
    have hl := visitExpression_undeclaredCall _ left h0
    have h1 : Holds j m ((visitExpression { a with currentLine := node.lineNumber,
                                                   currentContext := "二元表达式 '" ++ op ++ "'" }
        left).1.restoreType a.currentExpressionType) := (h0.expression left).table rfl
    have hr := visitExpression_undeclaredCall _ right h1
    have hlr : NoUndeclaredCall m a (visitExpression
        ((visitExpression { a with currentLine := node.lineNumber,
                                   currentContext := "二元表达式 '" ++ op ++ "'" }
          left).1.restoreType a.currentExpressionType) right).1 := by
      refine NoUndeclaredCall.chain ?_ hr
      obtain ⟨x, hx, px⟩ := hl
      exact ⟨x, hx, px⟩
    simp only [visitExpression]
    split
    · refine hlr.chain (.one _ rfl ?_)
      simp [SemanticError.isUndeclaredFunction]
    · obtain ⟨x, hx, px⟩ := hlr
      exact ⟨x, hx, px⟩
  | a, .UnaryExpression node op operand, h => by
    have ho := visitExpression_undeclaredCall _ operand h
    simp only [visitExpression]
    split
    · refine ho.chain (.one _ rfl ?_)
      simp [SemanticError.isUndeclaredFunction]
    · obtain ⟨x, hx, px⟩ := ho
      exact ⟨x, hx, px⟩
  | a, .AssignmentExpression node left right, h => by
    have h0 : Holds j m { a with currentLine := node.lineNumber,
                                 currentContext := "赋值表达式" } := h.table rfl
    have hr := visitExpression_undeclaredCall _ right h0
    have hr' : NoUndeclaredCall m a
        (visitExpression { a with currentLine := node.lineNumber,
                                  currentContext := "赋值表达式" } right).1 := by
      obtain ⟨x, hx, px⟩ := hr
      exact ⟨x, hx, px⟩
    simp only [visitExpression]
    split
    · refine .one _ rfl ?_
      simp [SemanticError.isUndeclaredFunction, (by decide : "赋值表达式左值".isEmpty = false)]
    · split
      · refine .one _ rfl ?_
        simp [SemanticError.isUndeclaredFunction]
      · split
        · refine hr'.chain (.one _ rfl ?_)
          simp [SemanticError.isUndeclaredFunction]
        · obtain ⟨x, hx, px⟩ := hr'
          exact ⟨x, hx, px⟩
  | a, .FunctionCall node name arguments, h => by
    simp only [visitExpression]
    split
    · rename_i hnone
      have hne : name ≠ m := by
        rintro rfl
        exact lookup_ne_none_of_holds h hnone
      refine .one _ rfl ?_
      have hmsg : ("未声明的函数 '" ++ name ++ "'" : String) ≠ "未声明的函数 '" ++ m ++ "'" :=
        fun he => hne (String.quoted_injective _ _ _ _ he)
      simp [SemanticError.isUndeclaredFunction, hmsg]
    · split
      · refine .one _ rfl ?_
        simp [SemanticError.isUndeclaredFunction]
      · exact .same rfl

theorem getExpressionType_undeclaredCall {j : Nat} {m : String} (a : SemanticAnalyzer)
    (e : Expression) (h : Holds j m a) :
    NoUndeclaredCall m a (getExpressionType a e).2.1 ∧ Holds j m (getExpressionType a e).2.1 := by
  refine ⟨?_, (h.expression e).table rfl⟩
  obtain ⟨x, hx, px⟩ := visitExpression_undeclaredCall a e h
  exact ⟨x, hx, px⟩

theorem visitOptionalExpression_undeclaredCall {j : Nat} {m : String} (a : SemanticAnalyzer)
    (e : Option Expression) (h : Holds j m a) :
    NoUndeclaredCall m a (visitOptionalExpression a e).1 := by
  cases e with
  | none => exact .same rfl
  | some e => exact visitExpression_undeclaredCall a e h

theorem Holds.declare {j : Nat} {m : String} {a : SemanticAnalyzer} (h : Holds j m a)
    (n ty k : String) :
    Holds j m { a with symbolTable := (a.symbolTable.declare n ty k).2 } :=
  ⟨by
      obtain ⟨h0, h1⟩ := h.wf
      exact ⟨by simp only [declare_currentScope]; exact h0,
        by simp only [declare_currentScope, declare_length]; exact h1⟩,
    by simp only [declare_currentScope]; exact h.le,
    SymbolTable.hasKey_declare _ _ _ _ _ _ h.key⟩

theorem Holds.mark {j : Nat} {m : String} {a : SemanticAnalyzer} (h : Holds j m a)
    (n : String) : Holds j m (a.markInitialized n) :=
  h.step (markInitialized_step a n) (by rw [markInitialized_hasKey]; exact h.key)

theorem declareNames_undeclaredCall {j : Nat} {m : String} (type : String) :
    ∀ (names : List String) (a : SemanticAnalyzer), Holds j m a →
      NoUndeclaredCall m a (declareNames a type names) ∧
        Holds j m (declareNames a type names)
  | [], a, h => ⟨.same rfl, h⟩
  | name :: rest, a, h => by
    have hd := h.declare name type "variable"
    simp only [declareNames]
    split
    · have h2 : Holds j m (({ a with symbolTable :=
          (a.symbolTable.declare name type "variable").2 } : SemanticAnalyzer).addError
          ("重复声明变量 '" ++ name ++ "'") "重复声明错误" "变量声明") := hd.table rfl
      obtain ⟨r1, r2⟩ := declareNames_undeclaredCall type rest _ h2
      refine ⟨NoUndeclaredCall.chain (.one _ rfl ?_) r1, r2⟩
      simp [SemanticError.isUndeclaredFunction]
    · obtain ⟨r1, r2⟩ := declareNames_undeclaredCall type rest _ hd
      exact ⟨NoUndeclaredCall.chain (.same rfl) r1, r2⟩

theorem visitInitDeclarators_undeclaredCall {j : Nat} {m : String} (type : String) :
    ∀ (inits : List (String × Option Expression)) (a : SemanticAnalyzer), Holds j m a →
      NoUndeclaredCall m a (visitInitDeclarators a type inits).1 ∧
        Holds j m (visitInitDeclarators a type inits).1
  | [], a, h => ⟨.same rfl, h⟩
  | (name, none) :: rest, a, h => by
    have hd := h.declare name type "variable"
    simp only [visitInitDeclarators]
    split
    · have h2 : Holds j m (({ a with symbolTable :=
          (a.symbolTable.declare name type "variable").2 } : SemanticAnalyzer).addError
          ("重复声明变量 '" ++ name ++ "'") "重复声明错误" "变量声明") := hd.table rfl
      obtain ⟨r1, r2⟩ := visitInitDeclarators_undeclaredCall type rest _ h2
      refine ⟨NoUndeclaredCall.chain (.one _ rfl ?_) r1, r2⟩
      simp [SemanticError.isUndeclaredFunction]
    · obtain ⟨r1, r2⟩ := visitInitDeclarators_undeclaredCall type rest _ hd
      exact ⟨NoUndeclaredCall.chain (.same rfl) r1, r2⟩
  | (name, some e) :: rest, a, h => by
    have hd := h.declare name type "variable"
    simp only [visitInitDeclarators]
    split
    · have h2 : Holds j m (({ a with symbolTable :=
          (a.symbolTable.declare name type "variable").2 } : SemanticAnalyzer).addError
          ("重复声明变量 '" ++ name ++ "'") "重复声明错误" "变量声明") := hd.table rfl
      obtain ⟨r1, r2⟩ := visitInitDeclarators_undeclaredCall type rest _ h2
      refine ⟨NoUndeclaredCall.chain (.one _ rfl ?_) r1, r2⟩
      simp [SemanticError.isUndeclaredFunction]
    · obtain ⟨g1, g2⟩ := getExpressionType_undeclaredCall _ e hd
      have g1' : NoUndeclaredCall m a (getExpressionType
          { a with symbolTable := (a.symbolTable.declare name type "variable").2 } e).2.1 :=
        NoUndeclaredCall.chain (.same rfl) g1
      split
      · have h3 : Holds j m ((getExpressionType
            { a with symbolTable := (a.symbolTable.declare name type "variable").2 } e).2.1.addError
            ("初始化类型不匹配: 不能将 " ++ (getExpressionType
              { a with symbolTable := (a.symbolTable.declare name type "variable").2 }
              e).1.baseType ++ " 赋值给 " ++ (TypeInfo.ofType type).baseType)
            "类型错误" "变量初始化") := g2.table rfl
        obtain ⟨r1, r2⟩ := visitInitDeclarators_undeclaredCall type rest _ h3
        refine ⟨(g1'.chain (.one _ rfl ?_)).chain r1, r2⟩
        simp [SemanticError.isUndeclaredFunction]
      · obtain ⟨r1, r2⟩ := visitInitDeclarators_undeclaredCall type rest _ (g2.mark name)
        refine ⟨(g1'.chain (.same ?_)).chain r1, r2⟩
        exact (markInitialized_frame _ _).2.2.1

end SemanticAnalyzer

namespace SemanticAnalyzer

mutual

theorem visitStatement_undeclaredCall {j : Nat} {m : String} :
    ∀ (a : SemanticAnalyzer) (s : Statement), Holds j m a →
      NoUndeclaredCall m a (visitStatement a s).1
  | a, .ExpressionStatement node expression, h => by
    simp only [visitStatement]
    exact visitOptionalExpression_undeclaredCall a expression h
  | a, .VariableDeclaration node type names initDeclarators, h => by
    have h0 : Holds j m { a with currentLine := node.lineNumber,
                                 currentContext := "变量声明" } := h.table rfl
    obtain ⟨n1, n2⟩ := declareNames_undeclaredCall type names _ h0
    obtain ⟨i1, _⟩ := visitInitDeclarators_undeclaredCall type initDeclarators _ n2
    simp only [visitStatement]
    exact NoUndeclaredCall.chain (NoUndeclaredCall.chain (.same rfl) n1) i1
  | a, .CompoundStatement node statements, h => by
    have hr := visitStatements_undeclaredCall _ statements h.enter
    simp only [visitStatement]
    obtain ⟨x, hx, px⟩ := hr
    exact ⟨x, hx, px⟩
  | a, .IfStatement node condition thenStmt none, h => by
    simp only [visitStatement]
    exact (visitExpression_undeclaredCall a condition h).chain
      (visitStatement_undeclaredCall _ thenStmt (h.expression condition))
  | a, .IfStatement node condition thenStmt (some elseStmt), h => by
    simp only [visitStatement]
    exact ((visitExpression_undeclaredCall a condition h).chain
      (visitStatement_undeclaredCall _ thenStmt (h.expression condition))).chain
      (visitStatement_undeclaredCall _ elseStmt
        (visitStatement_holds _ thenStmt (h.expression condition)))
  | a, .WhileStatement node condition body, h => by
    simp only [visitStatement]
    exact (visitExpression_undeclaredCall a condition h).chain
      (visitStatement_undeclaredCall _ body (h.expression condition))
  | a, .ForStatement node none condition update body, h => by
    simp only [visitStatement]
    exact ((visitOptionalExpression_undeclaredCall a condition h).chain
      (visitOptionalExpression_undeclaredCall _ update (h.optionalExpression condition))).chain
      (visitStatement_undeclaredCall _ body
        ((h.optionalExpression condition).optionalExpression update))
  | a, .ForStatement node (some init) condition update body, h => by
    have hi := visitStatement_holds a init h
    simp only [visitStatement]
    exact (((visitStatement_undeclaredCall a init h).chain
      (visitOptionalExpression_undeclaredCall _ condition hi)).chain
      (visitOptionalExpression_undeclaredCall _ update (hi.optionalExpression condition))).chain
      (visitStatement_undeclaredCall _ body
        ((hi.optionalExpression condition).optionalExpression update))
  | a, .ReturnStatement node none, h => by
    simp only [visitStatement]
    split
    · refine .one _ rfl ?_
      simp [SemanticError.isUndeclaredFunction]
    · exact .same rfl
  | a, .ReturnStatement node (some value), h => by
    have h0 : Holds j m { a with hasReturnStatement := true } := h.table rfl
    obtain ⟨g1, _⟩ := getExpressionType_undeclaredCall _ value h0
    have g1' : NoUndeclaredCall m a
        (getExpressionType { a with hasReturnStatement := true } value).2.1 :=
      NoUndeclaredCall.chain (.same rfl) g1
    simp only [visitStatement]
    split
    · refine g1'.chain (.one _ rfl ?_)
      simp [SemanticError.isUndeclaredFunction]
    · exact g1'

theorem visitStatements_undeclaredCall {j : Nat} {m : String} :
    ∀ (a : SemanticAnalyzer) (l : List Statement), Holds j m a →
      NoUndeclaredCall m a (visitStatements a l).1
  | a, [], _ => by
    simp only [visitStatements]
    exact .same rfl
  | a, stmt :: rest, h => by
    simp only [visitStatements]
    exact (visitStatement_undeclaredCall a stmt h).chain
      (visitStatements_undeclaredCall _ rest (visitStatement_holds a stmt h))

end

theorem declareParameters_undeclaredCall {j : Nat} {m : String} :
    ∀ (params : List (String × String)) (a : SemanticAnalyzer), Holds j m a →
      NoUndeclaredCall m a (declareParameters a params) ∧
        Holds j m (declareParameters a params)
  | [], a, h => ⟨.same rfl, h⟩
  | (type, name) :: rest, a, h => by
    have hd := h.declare name type "parameter"
    simp only [declareParameters]
    split
    · have h2 : Holds j m (({ a with symbolTable :=
          (a.symbolTable.declare name type "parameter").2 } : SemanticAnalyzer).addError
          ("重复声明参数 '" ++ name ++ "'") "重复声明错误" "函数参数") := hd.table rfl
      obtain ⟨r1, r2⟩ := declareParameters_undeclaredCall rest _ h2
      refine ⟨NoUndeclaredCall.chain (.one _ rfl ?_) r1, r2⟩
      simp [SemanticError.isUndeclaredFunction]
    · obtain ⟨r1, r2⟩ := declareParameters_undeclaredCall rest _ (hd.mark name)
      refine ⟨NoUndeclaredCall.chain (.same ?_) r1, r2⟩
      exact (markInitialized_frame _ _).2.2.1

/-- The state of `visit(FunctionDefinition*)` after the function name is declared. -/
theorem enterFunction_undeclaredCall {j : Nat} {m : String} (a : SemanticAnalyzer)
    (f : FunctionDefinition) (hw : a.symbolTable.WF) (hj : (j : Int) ≤ a.symbolTable.currentScope)
    (hk : (a.symbolTable.declare f.name f.returnType "function").2.hasKey j m = true) :
    NoUndeclaredCall m a (enterFunction a f) ∧ Holds j m (enterFunction a f) := by
  have hd : Holds j m ({ a with
      currentLine := f.node.lineNumber, currentContext := "函数定义 '" ++ f.name ++ "'",
      symbolTable := (a.symbolTable.declare f.name f.returnType "function").2 } :
      SemanticAnalyzer) := by
    obtain ⟨h0, h1⟩ := hw
    exact ⟨⟨by simp only [declare_currentScope]; exact h0,
      by simp only [declare_currentScope, declare_length]; exact h1⟩,
      by simp only [declare_currentScope]; exact hj, hk⟩
  unfold enterFunction
  lift_lets
  extract_lets a0 d a1 a2 a3
  have h2 : Holds j m a2 ∧ NoUndeclaredCall m a a2 := by
    simp only [a2]
    split
    · refine ⟨hd.table rfl, .one _ rfl ?_⟩
      simp [SemanticError.isUndeclaredFunction]
    · exact ⟨hd, .same rfl⟩
  have h3 : Holds j m a3 := h2.1.enter.table rfl
  obtain ⟨r1, r2⟩ := declareParameters_undeclaredCall f.parameters a3 h3
  exact ⟨h2.2.chain (NoUndeclaredCall.chain (.same rfl) r1), r2⟩

theorem enterFunction_currentScope (a : SemanticAnalyzer) (f : FunctionDefinition) :
    (enterFunction a f).symbolTable.currentScope = a.symbolTable.currentScope + 1 := by
  unfold enterFunction
  lift_lets
  extract_lets a0 d a1 a2 a3
  rw [(declareParameters_step f.parameters a3).currentScope]
  show a2.symbolTable.currentScope + 1 = _
  have h2 : a2.symbolTable.currentScope = a.symbolTable.currentScope := by
    simp only [a2]
    split <;> simp [a1, a0, d, declare_currentScope]
  rw [h2]

theorem ite_errors (c : Prop) [Decidable c] (x y : SemanticAnalyzer)
    (h : x.errors = y.errors) : (if c then x else y).errors = y.errors := by
  split
  · exact h
  · rfl

theorem visitFunctionDefinition_errors (a : SemanticAnalyzer) (f : FunctionDefinition) :
    (visitFunctionDefinition a f).1.errors =
      (visitStatements (enterBody a f) f.bodyStatements).1.errors := by
  unfold visitFunctionDefinition
  show (ite _ (addWarning _ _) _ : SemanticAnalyzer).errors = _
  rw [ite_errors _ _ _ (addWarning_errors _ _)]
  rfl

theorem visitFunctionDefinition_undeclaredCall {j : Nat} {m : String} (a : SemanticAnalyzer)
    (f : FunctionDefinition) (hw : a.symbolTable.WF)
    (hj : (j : Int) ≤ a.symbolTable.currentScope)
    (hk : (a.symbolTable.declare f.name f.returnType "function").2.hasKey j m = true) :
    NoUndeclaredCall m a (visitFunctionDefinition a f).1 ∧
      Holds j m (visitFunctionDefinition a f).1 := by
  obtain ⟨e1, e2⟩ := enterFunction_undeclaredCall a f hw hj hk
  have hb : Holds j m (enterBody a f) := e2.enter
  have hv := visitStatements_undeclaredCall _ f.bodyStatements hb
  have hs := visitFunctionDefinition_step a f hw.1
  constructor
  · obtain ⟨x, hx, px⟩ := e1.chain (NoUndeclaredCall.chain (.same rfl) hv)
    exact ⟨x, by rw [visitFunctionDefinition_errors]; exact hx, px⟩
  · refine ⟨hs.WF hw, by rw [hs.currentScope]; exact hj, ?_⟩
    rw [(visitFunctionDefinition_eq a f).1]
    have hc := visitStatement_holds _ (.CompoundStatement f.bodyNode f.bodyStatements) e2
    have hcs := visitStatement_step (enterFunction a f)
      (.CompoundStatement f.bodyNode f.bodyStatements) e2.wf.1
    rw [SymbolTable.hasKey_exitScope _ _ _ hc.wf]
    · exact hc.key
    · rw [hcs.currentScope, enterFunction_currentScope]
      omega

theorem visitTopLevel_undeclaredCall {j : Nat} {m : String} (a : SemanticAnalyzer)
    (d : TopLevel) (h : Holds j m a) :
    NoUndeclaredCall m a (visitTopLevel a d).1 ∧ Holds j m (visitTopLevel a d).1 := by
  cases d with
  | FunctionDefinition f =>
    exact visitFunctionDefinition_undeclaredCall a f h.wf h.le
      (SymbolTable.hasKey_declare _ _ _ _ _ _ h.key)
  | Statement s =>
    exact ⟨visitStatement_undeclaredCall a s h, visitStatement_holds a s h⟩

theorem visitDeclarations_undeclaredCall {j : Nat} {m : String} :
    ∀ (l : List TopLevel) (a : SemanticAnalyzer), Holds j m a →
      NoUndeclaredCall m a (visitDeclarations a l).1 ∧ Holds j m (visitDeclarations a l).1
  | [], a, h => ⟨.same rfl, h⟩
  | d :: rest, a, h => by
    obtain ⟨t1, t2⟩ := visitTopLevel_undeclaredCall a d h
    obtain ⟨r1, r2⟩ := visitDeclarations_undeclaredCall rest _ t2
    simp only [visitDeclarations]
    exact ⟨t1.chain r1, r2⟩

end SemanticAnalyzer

namespace SemanticAnalyzer

/-! ## Lemmas on parameters and locals -/

theorem statementStarts_currentScope :
    ∀ (l : List Statement) (a : SemanticAnalyzer), 0 ≤ a.symbolTable.currentScope →
      ∀ p ∈ statementStarts a l, p.1.symbolTable.currentScope = a.symbolTable.currentScope
  | [], _, _, p, hp => by simp [statementStarts] at hp
  | stmt :: rest, a, h, p, hp => by
    simp only [statementStarts, List.mem_cons] at hp
    have hs := visitStatement_step a stmt h
    rcases hp with hp | hp
    · rw [hp]
    · rw [statementStarts_currentScope rest _ (by rw [hs.currentScope]; exact h) p hp,
        hs.currentScope]

/-- The entries of the current scope are parameters declared at its level. -/
theorem declareParameters_top :
    ∀ (params : List (String × String)) (a : SemanticAnalyzer), a.symbolTable.WF →
      (∀ e ∈ a.symbolTable.scopeAt a.symbolTable.currentScope.toNat,
        e.2.kind = "parameter" ∧ e.2.scopeLevel = a.symbolTable.currentScope) →
        (∀ e ∈ (declareParameters a params).symbolTable.scopeAt a.symbolTable.currentScope.toNat,
          e.2.kind = "parameter" ∧ e.2.scopeLevel = a.symbolTable.currentScope) ∧
        ∀ p ∈ params,
          (declareParameters a params).symbolTable.hasKey a.symbolTable.currentScope.toNat p.2
            = true
  | [], a, _, hq => ⟨hq, by simp⟩
  | (type, name) :: rest, a, hw, hq => by
    have hwd : (a.symbolTable.declare name type "parameter").2.WF := by
      obtain ⟨h0, h1⟩ := hw
      exact ⟨by simp only [declare_currentScope]; exact h0,
        by simp only [declare_currentScope, declare_length]; exact h1⟩
    have hqd : ∀ e ∈ (a.symbolTable.declare name type "parameter").2.scopeAt
        a.symbolTable.currentScope.toNat,
        e.2.kind = "parameter" ∧ e.2.scopeLevel = a.symbolTable.currentScope := by
      intro e he
      unfold SymbolTable.declare at he
      split at he
      · exact hq e he
      · simp only [SymbolTable.scopeAt, List.getD_eq_getElem?_getD, List.getElem?_modify,
          if_true] at he
        cases hs : a.symbolTable.scopes[a.symbolTable.currentScope.toNat]? with
        | none => rw [hs] at he; simp at he
        | some s =>
          rw [hs] at he
          simp only [Option.map_eq_map, Option.map_some', Option.getD_some] at he
          rcases Scope.assign_entries _ _ _ _ he with h1 | ⟨h1, _⟩
          · apply hq
            simp only [SymbolTable.scopeAt, List.getD_eq_getElem?_getD, hs, Option.getD_some]
            exact h1
          · rw [h1]
            exact ⟨rfl, rfl⟩
    have hkd := SymbolTable.hasKey_declare_self a.symbolTable name type "parameter" hw
    have hc : (a.symbolTable.declare name type "parameter").2.currentScope =
        a.symbolTable.currentScope := declare_currentScope _ _ _ _
    simp only [declareParameters]
    split
    · have ih := declareParameters_top rest
        (({ a with symbolTable := (a.symbolTable.declare name type "parameter").2 } :
          SemanticAnalyzer).addError ("重复声明参数 '" ++ name ++ "'") "重复声明错误" "函数参数")
        hwd (by rw [addError_symbolTable]; simp only [hc]; exact hqd)
      simp only [addError_symbolTable, hc] at ih
      refine ⟨ih.1, ?_⟩
      intro p hp
      rcases List.mem_cons.mp hp with h | h
      · rw [h]
        exact (declareParameters_undeclaredCall rest _
          (⟨hwd, by simp only [addError_symbolTable, hc, Int.toNat_of_nonneg hw.1, le_refl],
            hkd⟩ : Holds a.symbolTable.currentScope.toNat name _)).2.key
      · exact ih.2 p h
    · have hm := markInitialized_step
        ({ a with symbolTable := (a.symbolTable.declare name type "parameter").2 } :
          SemanticAnalyzer) name
      have hwm := hm.WF hwd
      have hcm := hm.currentScope
      simp only [hc] at hcm
      have hqm : ∀ e ∈ (markInitialized
          ({ a with symbolTable := (a.symbolTable.declare name type "parameter").2 } :
            SemanticAnalyzer) name).symbolTable.scopeAt a.symbolTable.currentScope.toNat,
          e.2.kind = "parameter" ∧ e.2.scopeLevel = a.symbolTable.currentScope := by
        intro e he
        unfold markInitialized at he
        split at he
        · simp only [SymbolTable.setInitialized, SymbolTable.scopeAt] at he
          rw [SymbolTable.getD_modify_setInitialized] at he
          split at he
          · obtain ⟨e', he', _, _, h3, h4⟩ := Scope.setInitialized_entries _ _ _ he
            have := hqd e' he'
            rw [← h3, ← h4]
            exact this
          · exact hqd e he
        · exact hqd e he
      have ih := declareParameters_top rest _ hwm (by rw [hcm]; exact hqm)
      rw [hcm] at ih
      refine ⟨ih.1, ?_⟩
      intro p hp
      rcases List.mem_cons.mp hp with h | h
      · rw [h]
        exact (declareParameters_undeclaredCall rest _
          ((⟨hwd, by simp only [hc, Int.toNat_of_nonneg hw.1, le_refl], hkd⟩ :
            Holds a.symbolTable.currentScope.toNat name
              ({ a with symbolTable := (a.symbolTable.declare name type "parameter").2 } :
                SemanticAnalyzer)).mark name)).2.key
      · exact ih.2 p h

/-- A key of the current scope is what `lookup` resolves to. -/
theorem SymbolTable.lookupEntry_current (t : SymbolTable) (n : String) (h : t.WF)
    (hk : t.hasKey t.currentScope.toNat n = true) :
    ∃ sym, t.lookupEntry n = some (t.currentScope.toNat, sym) ∧
      (n, sym) ∈ t.scopeAt t.currentScope.toNat := by
  obtain ⟨i, sym, hl, hi⟩ := SymbolTable.lookupEntry_of_hasKey t _ n h
    (by rw [Int.toNat_of_nonneg h.1]) hk
  have hge : t.currentScope ≥ 0 := h.1
  have hl' := hl
  simp only [SymbolTable.lookupEntry, hge, if_true] at hl'
  rw [SymbolTable.lookupFrom_eq_some] at hl'
  have hi2 : i = t.currentScope.toNat := by omega
  subst hi2
  exact ⟨sym, hl, Scope.find_mem _ _ _ hl'.2.1⟩

end SemanticAnalyzer

namespace SemanticAnalyzer

theorem SymbolTable.lookupEntry_enterScope (t : SymbolTable) (n : String) (h : t.WF) :
    t.enterScope.lookupEntry n = t.lookupEntry n := by
  obtain ⟨h0, h1⟩ := h
  have hge : t.currentScope ≥ 0 := h0
  have hge1 : t.currentScope + 1 ≥ 0 := by omega
  have hn : (t.currentScope + 1).toNat = t.scopes.length := by omega
  have hn0 : t.currentScope.toNat + 1 = t.scopes.length := by omega
  simp only [SymbolTable.lookupEntry, SymbolTable.enterScope, hge, hge1, if_true, hn, hn0]
  rw [SymbolTable.lookupFrom_top]
  simp [Scope.find]

theorem SymbolTable.scopeAt_enterScope_top (t : SymbolTable) (h : t.WF) :
    t.enterScope.scopeAt t.enterScope.currentScope.toNat = [] := by
  obtain ⟨h0, h1⟩ := h
  have hn : (t.currentScope + 1).toNat = t.scopes.length := by omega
  simp [SymbolTable.scopeAt, SymbolTable.enterScope, hn, List.getD_eq_getElem?_getD]

theorem enterFunction_parameters (a : SemanticAnalyzer) (f : FunctionDefinition)
    (hw : a.symbolTable.WF) :
    (enterFunction a f).symbolTable.WF ∧
    ∀ p ∈ f.parameters, ∃ sym,
      (enterFunction a f).symbolTable.lookupEntry p.2 =
        some ((a.symbolTable.currentScope + 1).toNat, sym) ∧
      sym.kind = "parameter" ∧ sym.scopeLevel = a.symbolTable.currentScope + 1 := by
  have hwf : (enterFunction a f).symbolTable.WF :=
    (enterFunction_undeclaredCall a f hw (by rw [Int.toNat_of_nonneg hw.1])
      (SymbolTable.hasKey_declare_self a.symbolTable f.name f.returnType "function" hw)).2.wf
  refine ⟨hwf, ?_⟩
  have hcur := enterFunction_currentScope a f
  have key : ∀ (a3 : SemanticAnalyzer), a3.symbolTable.WF →
      a3.symbolTable.currentScope = a.symbolTable.currentScope + 1 →
      a3.symbolTable.scopeAt a3.symbolTable.currentScope.toNat = [] →
      enterFunction a f = declareParameters a3 f.parameters →
      ∀ p ∈ f.parameters, ∃ sym,
        (enterFunction a f).symbolTable.lookupEntry p.2 =
          some ((a.symbolTable.currentScope + 1).toNat, sym) ∧
        sym.kind = "parameter" ∧ sym.scopeLevel = a.symbolTable.currentScope + 1 := by
    intro a3 hw3 hc3 htop he p hp
    obtain ⟨t1, t2⟩ := declareParameters_top f.parameters a3 hw3
      (by rw [htop]; intro e he; simp at he)
    rw [← he] at t1 t2
    have hk := t2 p hp
    rw [hc3, ← hcur] at hk
    obtain ⟨sym, hl, hm⟩ := SymbolTable.lookupEntry_current _ p.2 hwf hk
    rw [hcur] at hl hm
    rw [← hc3] at hm
    have := t1 _ hm
    rw [hc3] at this
    exact ⟨sym, hl, this⟩
  have hd : (a.symbolTable.declare f.name f.returnType "function").2.WF := by
    obtain ⟨h0, h1⟩ := hw
    exact ⟨by simp only [declare_currentScope]; exact h0,
      by simp only [declare_currentScope, declare_length]; exact h1⟩
  have hdc : (a.symbolTable.declare f.name f.returnType "function").2.currentScope =
      a.symbolTable.currentScope := declare_currentScope _ _ _ _
  by_cases hdup : (!(a.symbolTable.declare f.name f.returnType "function").1) = true
  · refine key
      { (({ a with currentLine := f.node.lineNumber,
                   currentContext := "函数定义 '" ++ f.name ++ "'",
                   symbolTable := (a.symbolTable.declare f.name f.returnType
                     "function").2 } : SemanticAnalyzer).addError
          ("重复声明函数 '" ++ f.name ++ "'") "重复声明错误" "函数定义") with
        symbolTable := (a.symbolTable.declare f.name f.returnType "function").2.enterScope,
        currentFunctionReturnType := f.returnType, hasReturnStatement := false }
      ?_ ?_ ?_ ?_
    · exact SymbolTable.WF_enterScope hd
    · simp only [SymbolTable.enterScope, hdc]
    · exact SymbolTable.scopeAt_enterScope_top _ hd
    · unfold enterFunction
      simp only [hdup, if_true]
      rfl
  · refine key
      { ({ a with currentLine := f.node.lineNumber,
                  currentContext := "函数定义 '" ++ f.name ++ "'",
                  symbolTable := (a.symbolTable.declare f.name f.returnType
                    "function").2 } : SemanticAnalyzer) with
        symbolTable := (a.symbolTable.declare f.name f.returnType "function").2.enterScope,
        currentFunctionReturnType := f.returnType, hasReturnStatement := false }
      ?_ ?_ ?_ ?_
    · exact SymbolTable.WF_enterScope hd
    · simp only [SymbolTable.enterScope, hdc]
    · exact SymbolTable.scopeAt_enterScope_top _ hd
    · unfold enterFunction
      simp only [hdup, if_false]
      rfl

end SemanticAnalyzer

namespace CodeGenerator

/-! ## Lemmas on the slots of a function body -/

theorem Event.slots_length_append (a b : List Event) :
    (Event.slots (a ++ b)).length = (Event.slots a).length + (Event.slots b).length := by
  rw [Event.slots_append, List.length_append]

mutual

theorem expressionEvents_count :
    ∀ (g : CodeGenerator) (e : Expression),
      (Event.slots (expressionEvents g e)).length = e.binaryCount
  | g, .IntegerLiteral _ _ => rfl
  | g, .Identifier _ => rfl
  | g, .BinaryExpression _ left op right => by
    simp only [expressionEvents, Expression.binaryCount, Event.slots_length_append,
      expressionEvents_count g right, expressionEvents_count _ left]
    rfl
  | g, .UnaryExpression _ _ operand => by
    simp only [expressionEvents, Expression.binaryCount, expressionEvents_count g operand]
  | g, .AssignmentExpression _ _ right => by
    simp only [expressionEvents, Expression.binaryCount, expressionEvents_count g right]
  | g, .FunctionCall _ name arguments => by
    simp only [expressionEvents, Expression.binaryCount]
    split
    · rfl
    · exact argumentsEvents_count g arguments

theorem argumentsEvents_count :
    ∀ (g : CodeGenerator) (l : List Expression),
      (Event.slots (argumentsEvents g l)).length = Expression.binaryCountOfList l
  | g, [] => rfl
  | g, e :: rest => by
    simp only [argumentsEvents, Expression.binaryCountOfList, Event.slots_length_append,
      argumentsEvents_count g rest, expressionEvents_count _ e]

end

theorem optionalExpressionEvents_count (g : CodeGenerator) (e : Option Expression) :
    (Event.slots (optionalExpressionEvents g e)).length = Expression.binaryCountOfOption e := by
  cases e with
  | none => rfl
  | some e => exact expressionEvents_count g e

theorem declareNamesEvents_count (type : String) :
    ∀ (names : List String) (g : CodeGenerator),
      (Event.slots (declareNamesEvents g type names)).length = names.length
  | [], g => rfl
  | name :: rest, g => by
    simp only [declareNamesEvents, Event.slots, List.length_cons,
      declareNamesEvents_count type rest]

theorem initDeclaratorsEvents_count (type : String) :
    ∀ (inits : List (String × Option Expression)) (g : CodeGenerator),
      (Event.slots (initDeclaratorsEvents g type inits)).length =
        inits.length + Expression.binaryCountOfInit inits
  | [], g => rfl
  | (name, none) :: rest, g => by
    simp only [initDeclaratorsEvents, Event.slots, List.length_cons,
      initDeclaratorsEvents_count type rest, Expression.binaryCountOfInit,
      Expression.binaryCountOfOption]
    omega
  | (name, some e) :: rest, g => by
    simp only [initDeclaratorsEvents, Event.slots, List.length_cons,
      Event.slots_length_append, expressionEvents_count,
      initDeclaratorsEvents_count type rest, Expression.binaryCountOfInit,
      Expression.binaryCountOfOption]
    omega

theorem ifHeadEvents_count (g : CodeGenerator) (c : Expression) :
    (Event.slots (ifHeadEvents g c)).length = c.binaryCount := by
  simp only [ifHeadEvents, Event.slots_length_append, expressionEvents_count]
  simp [Event.slots]

theorem whileHeadEvents_count (g : CodeGenerator) (c : Expression) :
    (Event.slots (whileHeadEvents g c)).length = c.binaryCount := by
  simp only [whileHeadEvents, Event.slots_length_append, expressionEvents_count]
  simp [Event.slots]

theorem forLabelsEvents_count (g : CodeGenerator) :
    (Event.slots (forLabelsEvents g)).length = 0 := rfl

theorem forTestEvents_count (g : CodeGenerator) (l : String) (c : Option Expression) :
    (Event.slots (forTestEvents g l c)).length = Expression.binaryCountOfOption c := by
  cases c with
  | none => rfl
  | some c => exact expressionEvents_count _ c

theorem forTailEvents_count (g : CodeGenerator) (u : String) (c : Option Expression) :
    (Event.slots (forTailEvents g u c)).length = Expression.binaryCountOfOption c :=
  optionalExpressionEvents_count _ c

mutual

theorem statementEvents_count :
    ∀ (g : CodeGenerator) (s : Statement), s.complete = true →
      (Event.slots (statementEvents g s)).length = s.slotCount
  | g, .ExpressionStatement _ none, h => by simp [Statement.complete] at h
  | g, .ExpressionStatement _ (some e), _ => by
    simp only [statementEvents, Statement.slotCount, Expression.binaryCountOfOption,
      expressionEvents_count]
  | g, .VariableDeclaration _ type names inits, _ => by
    simp only [statementEvents, Statement.slotCount, Event.slots_length_append,
      declareNamesEvents_count, initDeclaratorsEvents_count]
  | g, .CompoundStatement _ statements, h => by
    simp only [Statement.complete] at h
    simp only [statementEvents, Statement.slotCount]
    exact statementsEvents_count g statements h
  | g, .IfStatement _ c t none, h => by
    simp only [Statement.complete] at h
    simp only [statementEvents, Statement.slotCount, Event.slots_length_append,
      ifHeadEvents_count, statementEvents_count _ t h]
  | g, .IfStatement _ c t (some e), h => by
    simp only [Statement.complete, Bool.and_eq_true] at h
    obtain ⟨g1, h1⟩ := visitStatement_complete (ifHead g c).2.2 t h.1
    simp only [statementEvents, Statement.slotCount, Event.slots_length_append,
      ifHeadEvents_count, statementEvents_count _ t h.1, h1, statementEvents_count _ e h.2]
  | g, .WhileStatement _ c b, h => by
    simp only [Statement.complete] at h
    simp only [statementEvents, Statement.slotCount, Event.slots_length_append,
      whileHeadEvents_count, statementEvents_count _ b h]
  | g, .ForStatement _ none c u b, h => by
    simp only [Statement.complete] at h
    obtain ⟨g1, h1⟩ := visitStatement_complete
      (forTest (forLabels g).2.2.2 (forLabels g).1 (forLabels g).2.2.1 c) b h
    simp only [statementEvents, Statement.slotCount, Event.slots_length_append,
      forLabelsEvents_count, forTestEvents_count, statementEvents_count _ b h, h1,
      forTailEvents_count]
    omega
  | g, .ForStatement _ (some i) c u b, h => by
    simp only [Statement.complete, Bool.and_eq_true] at h
    obtain ⟨g0, h0⟩ := visitStatement_complete (forLabels g).2.2.2 i h.1
    obtain ⟨g1, h1⟩ := visitStatement_complete
      (forTest g0 (forLabels g).1 (forLabels g).2.2.1 c) b h.2
    simp only [statementEvents, Statement.slotCount, Event.slots_length_append,
      forLabelsEvents_count, forTestEvents_count, statementEvents_count _ i h.1, h0,
      statementEvents_count _ b h.2, h1, forTailEvents_count]
    omega
  | g, .ReturnStatement _ none, _ => rfl
  | g, .ReturnStatement _ (some v), _ => by
    simp only [statementEvents, Statement.slotCount, Expression.binaryCountOfOption,
      expressionEvents_count]

theorem statementsEvents_count :
    ∀ (g : CodeGenerator) (l : List Statement), Statement.completeList l = true →
      (Event.slots (statementsEvents g l)).length = Statement.slotCountOfList l
  | g, [], _ => rfl
  | g, s :: rest, h => by
    simp only [Statement.completeList, Bool.and_eq_true] at h
    obtain ⟨g1, h1⟩ := visitStatement_complete g s h.1
    simp only [statementsEvents, Statement.slotCountOfList, Event.slots_length_append,
      statementEvents_count g s h.1, h1, statementsEvents_count g1 rest h.2]

end

end CodeGenerator

namespace CodeGenerator

/-! ## Lemmas on the stores of assignments -/

mutual

/-- An assignment below an expression stores to an offset the frame map held for some
name before the expression: expressions do not change the map. -/
theorem assignmentOffsets_mapped :
    ∀ (g : CodeGenerator) (e : Expression) (v : Int), v ∈ assignmentOffsets g e →
      ∃ name, Frame.find g.symbolTable name = some v
  | g, .IntegerLiteral _ _, v, h => by simp [assignmentOffsets] at h
  | g, .Identifier _, v, h => by simp [assignmentOffsets] at h
  | g, .BinaryExpression _ left op right, v, h => by
    simp only [assignmentOffsets, List.mem_append] at h
    rcases h with h | h
    · exact assignmentOffsets_mapped g right v h
    · obtain ⟨name, hn⟩ := assignmentOffsets_mapped _ left v h
      rw [spillRight_symbolTable, (visitExpression_keeps g right).1] at hn
      exact ⟨name, hn⟩
  | g, .UnaryExpression _ _ operand, v, h => by
    simp only [assignmentOffsets] at h
    exact assignmentOffsets_mapped g operand v h
  | g, .AssignmentExpression _ left right, v, h => by
    simp only [assignmentOffsets, List.mem_append, Option.mem_toList, Option.mem_def] at h
    rcases h with h | h
    · exact assignmentOffsets_mapped g right v h
    · rw [(visitExpression_keeps g right).1] at h
      exact ⟨left.name, h⟩
  | g, .FunctionCall _ name arguments, v, h => by
    simp only [assignmentOffsets] at h
    split at h
    · simp at h
    · exact argumentsAssignmentOffsets_mapped g arguments v h

theorem argumentsAssignmentOffsets_mapped :
    ∀ (g : CodeGenerator) (l : List Expression) (v : Int),
      v ∈ argumentsAssignmentOffsets g l → ∃ name, Frame.find g.symbolTable name = some v
  | g, [], v, h => by simp [argumentsAssignmentOffsets] at h
  | g, a :: rest, v, h => by
    simp only [argumentsAssignmentOffsets, List.mem_append] at h
    rcases h with h | h
    · exact argumentsAssignmentOffsets_mapped g rest v h
    · obtain ⟨name, hn⟩ := assignmentOffsets_mapped _ a v h
      rw [(visitArguments_keeps g rest).1] at hn
      exact ⟨name, hn⟩

end

mutual

/-- Every offset of `assignmentOffsets` is the address of a store line in the output. -/
theorem assignmentOffsets_emitted :
    ∀ (g : CodeGenerator) (e : Expression) (v : Int), v ∈ assignmentOffsets g e →
      ("    movq %rax, " ++ ("-" ++ toString v ++ "(%rbp)")) ∈ (visitExpression g e).output
  | g, .IntegerLiteral _ _, v, h => by simp [assignmentOffsets] at h
  | g, .Identifier _, v, h => by simp [assignmentOffsets] at h
  | g, .BinaryExpression _ left op right, v, h => by
    simp only [assignmentOffsets, List.mem_append] at h
    simp only [visitExpression, emitLines_output, emit_output, List.mem_append]
    rcases h with h | h
    · refine Or.inl (Or.inl ?_)
      have h1 := assignmentOffsets_emitted g right v h
      have h2 : ∃ code, (spillRight (visitExpression g right)).output =
          (visitExpression g right).output ++ code := ⟨_, spillRight_output _⟩
      exact mem_output_of_append (visitExpression_output _ left) (mem_output_of_append h2 h1)
    · exact Or.inl (Or.inl (assignmentOffsets_emitted _ left v h))
  | g, .UnaryExpression _ _ operand, v, h => by
    simp only [assignmentOffsets] at h
    simp only [visitExpression, emitLines_output, List.mem_append]
    exact Or.inl (assignmentOffsets_emitted g operand v h)
  | g, .AssignmentExpression _ left right, v, h => by
    simp only [assignmentOffsets, List.mem_append, Option.mem_toList, Option.mem_def] at h
    simp only [visitExpression]
    rcases h with h | h
    · exact mem_output_of_append (storeVariable_output _ _)
        (assignmentOffsets_emitted g right v h)
    · rw [storeVariable_found _ _ v h]
      simp
  | g, .FunctionCall _ name arguments, v, h => by
    simp only [assignmentOffsets] at h
    simp only [visitExpression]
    split
    · rename_i hn
      simp [hn] at h
    · rename_i hn
      simp only [hn, if_false] at h
      have h1 := argumentsAssignmentOffsets_emitted g arguments v h
      split
      · simp only [emit_output, List.mem_append]
        exact Or.inl (Or.inl h1)
      · simp only [emit_output, List.mem_append]
        exact Or.inl h1

theorem argumentsAssignmentOffsets_emitted :
    ∀ (g : CodeGenerator) (l : List Expression) (v : Int),
      v ∈ argumentsAssignmentOffsets g l →
        ("    movq %rax, " ++ ("-" ++ toString v ++ "(%rbp)")) ∈ (visitArguments g l).output
  | g, [], v, h => by simp [argumentsAssignmentOffsets] at h
  | g, a :: rest, v, h => by
    simp only [argumentsAssignmentOffsets, List.mem_append] at h
    simp only [visitArguments, emit_output, List.mem_append]
    rcases h with h | h
    · exact Or.inl (mem_output_of_append (visitExpression_output _ a)
        (argumentsAssignmentOffsets_emitted g rest v h))
    · exact Or.inl (assignmentOffsets_emitted _ a v h)

end

end CodeGenerator

namespace CodeGenerator

@[simp] theorem stackComment_stackOffset (g : CodeGenerator) :
    (stackComment g).stackOffset = g.stackOffset := by
  unfold stackComment; split <;> rfl

theorem leaveFunction_stackOffset (g : CodeGenerator) (f : FunctionDefinition) :
    (leaveFunction g f).stackOffset = g.stackOffset := by
  simp only [leaveFunction]
  split <;> simp

end CodeGenerator

/-! ## Driver: C31, C32 -/

/-- The flags of the default mode: no mode option was given. -/
theorem runMode_default (env : Environment) (o : Options) (hf : o.inputFile.isEmpty = false)
    (h1 : o.tokensOnly = false) (h2 : o.tokensDFA = false) (h3 : o.astOnly = false)
    (h4 : o.semanticOnly = false) (h5 : o.allPhases = false) :
    runMode env o =
      match performSyntaxAnalysisQuiet env o.inputFile with
      | none => some { exitCode := 1, generator := none }
      | some program =>
        if !(SemanticAnalyzer.analyze SemanticAnalyzer.new program true).result then
          some { exitCode := 1, generator := none }
        else
          (CodeGenerator.generateAssembly CodeGenerator.new
            (some (SemanticAnalyzer.analyze SemanticAnalyzer.new program true).program)).map
            fun g => { exitCode := 0, generator := some g } := by
  unfold runMode
  simp only [hf, h1, h2, h3, h4, h5, Bool.false_eq_true, if_false]

/-- A run constructs the code generator only in the default mode, after an analysis
that returned true. -/
theorem runMode_generator (env : Environment) (o : Options) :
    (runMode env o = none ∨ ∃ r g, runMode env o = some r ∧ r.generator = some g) →
      o.tokensOnly = false ∧ o.tokensDFA = false ∧ o.astOnly = false ∧
      o.semanticOnly = false ∧ o.allPhases = false ∧
      ∃ program, performSyntaxAnalysisQuiet env o.inputFile = some program ∧
        (SemanticAnalyzer.analyze SemanticAnalyzer.new program true).result = true := by
  intro h
  unfold runMode at h
  split at h
  · rcases h with h | ⟨r, g, h, hg⟩
    · exact absurd h (by simp)
    · simp only [Option.some.injEq] at h; subst h; exact absurd hg (by simp)
  split at h
  · rcases h with h | ⟨r, g, h, hg⟩
    · exact absurd h (by simp)
    · simp only [Option.some.injEq] at h; subst h; exact absurd hg (by simp)
  split at h
  · rcases h with h | ⟨r, g, h, hg⟩
    · exact absurd h (by simp)
    · simp only [Option.some.injEq] at h; subst h; exact absurd hg (by simp)
  split at h
  · split at h <;>
    · rcases h with h | ⟨r, g, h, hg⟩
      · exact absurd h (by simp)
      · simp only [Option.some.injEq] at h; subst h; exact absurd hg (by simp)
  split at h
  · split at h <;>
    · rcases h with h | ⟨r, g, h, hg⟩
      · exact absurd h (by simp)
      · simp only [Option.some.injEq] at h; subst h; exact absurd hg (by simp)
  split at h
  · split at h <;>
    · rcases h with h | ⟨r, g, h, hg⟩
      · exact absurd h (by simp)
      · simp only [Option.some.injEq] at h; subst h; exact absurd hg (by simp)
  rename_i n1 n2 n3 n4 n5 n6
  refine ⟨by simpa using n2, by simpa using n3, by simpa using n4, by simpa using n5,
    by simpa using n6, ?_⟩
  split at h
  · rcases h with h | ⟨r, g, h, hg⟩
    · exact absurd h (by simp)
    · simp only [Option.some.injEq] at h; subst h; exact absurd hg (by simp)
  · rename_i program hp
    refine ⟨program, hp, ?_⟩
    cases hres : (SemanticAnalyzer.analyze SemanticAnalyzer.new program true).result with
    | true => rfl
    | false =>
      simp only [hres, Bool.not_false, if_true] at h
      rcases h with h | ⟨r, g, h, hg⟩
      · exact absurd h (by simp)
      · simp only [Option.some.injEq] at h; subst h; exact absurd hg (by simp)

/-- C31: in the default mode (an input file and no mode option) with a file that opens
and parses, the driver returns 1 without constructing the code generator when `analyze`
returns false, which is exactly when the analyzer recorded an error, and the silent
analysis writes nothing to standard output either; when `analyze` returns true the
driver runs `generateAssembly` on the tree and returns 0.  In no mode does a run
construct the code generator unless `analyze` returned true.  For
`int main() { return y; }` the run returns 1 and there is no code generator. -/
theorem codegen_only_after_analysis (env : Environment) (o : Options) (program : Program)
    (hf : o.inputFile.isEmpty = false)
    (h1 : o.tokensOnly = false) (h2 : o.tokensDFA = false) (h3 : o.astOnly = false)
    (h4 : o.semanticOnly = false) (h5 : o.allPhases = false)
    (hp : performSyntaxAnalysisQuiet env o.inputFile = some program) :
    ((SemanticAnalyzer.analyze SemanticAnalyzer.new program true).result = false ↔
      (SemanticAnalyzer.analyze SemanticAnalyzer.new program true).analyzer.errors ≠ []) ∧
    ((SemanticAnalyzer.analyze SemanticAnalyzer.new program true).result = false →
      runMode env o = some { exitCode := 1, generator := none } ∧
      (SemanticAnalyzer.analyze SemanticAnalyzer.new program true).output = "") ∧
    ((SemanticAnalyzer.analyze SemanticAnalyzer.new program true).result = true →
      runMode env o =
        (CodeGenerator.generateAssembly CodeGenerator.new
          (some (SemanticAnalyzer.analyze SemanticAnalyzer.new program true).program)).map
          fun g => { exitCode := 0, generator := some g }) ∧
    (∀ (env' : Environment) (argv : List String),
      (main env' argv = none ∨ ∃ r g, main env' argv = some r ∧ r.generator = some g) →
        ∃ o' program', parseArguments argv.tail Options.initial = .options o' ∧
          performSyntaxAnalysisQuiet env' o'.inputFile = some program' ∧
          (SemanticAnalyzer.analyze SemanticAnalyzer.new program' true).result = true) ∧
    main Examples.undeclaredSource ["cc", "test.c"] = some { exitCode := 1, generator := none } := by
  have hrun := runMode_default env o hf h1 h2 h3 h4 h5
  rw [hp] at hrun
  simp only at hrun
  refine ⟨?_, ?_, ?_, ?_, by decide⟩
  · simp [SemanticAnalyzer.analyze, SemanticAnalyzer.hasErrors]
  · intro hres
    rw [hrun, hres]
    exact ⟨rfl, rfl⟩
  · intro hres
    rw [hrun, hres]
    rfl
  · intro env' argv h
    unfold main at h
    split at h
    · rcases h with h | ⟨r, g, h, hg⟩
      · exact absurd h (by simp)
      · simp only [Option.some.injEq] at h; subst h; exact absurd hg (by simp)
    · rename_i o' ho'
      obtain ⟨_, _, _, _, _, program', hq, hr⟩ := runMode_generator env' o' h
      exact ⟨o', program', ho', hq, hr⟩

/-- Witness for C31: the default mode on `int main() { int x; x = 5; return x; }`. -/
theorem codegen_only_after_analysis_witness :
    runMode Examples.assignSource
        { Options.initial with inputFile := "test.c", outputFile := "test.s" } =
      (CodeGenerator.generateAssembly CodeGenerator.new
        (some (SemanticAnalyzer.analyze SemanticAnalyzer.new Examples.assignProgram
          true).program)).map fun g => { exitCode := 0, generator := some g } :=
  (codegen_only_after_analysis Examples.assignSource
    { Options.initial with inputFile := "test.c", outputFile := "test.s" }
    Examples.assignProgram (by decide) rfl rfl rfl rfl rfl rfl).2.2.1 (by decide)

/-- C32, the code at the failing inputs.  In the modes `--tokens` and `--tokens-dfa` the
driver returns 0 whatever `performLexicalAnalysis` met: its return type is `void`, and
`main` returns 0 right after the call.  So the run returns 0 when the input file cannot
be opened, and when the scanner returns the error token.  In the other modes the value
is as claimed: with `--ast` it is 0 exactly when the file opens, `yyparse` returns 0 and
a tree was built; with `--semantic`, with `--all-phases` and in the default mode it is 0
exactly when, in addition, `analyze` returns true (in the default mode, provided the
generator runs to its end); what the lexical phase of `--all-phases` reports does not
enter the value; and a run that stops at its arguments returns 1, a request for help or
for the version 0. -/
theorem token_modes_return_zero :
    (∀ (env : Environment) (o : Options), o.inputFile.isEmpty = false →
        o.tokensOnly = true ∨ o.tokensDFA = true →
          runMode env o = some { exitCode := 0, generator := none }) ∧
    ((performLexicalAnalysis Examples.noFile "missing.c" false).opened = false ∧
      main Examples.noFile ["cc", "missing.c", "--tokens"] =
        some { exitCode := 0, generator := none }) ∧
    ((performLexicalAnalysis Examples.lexicalError "bad.c" true).errorCount = 1 ∧
      main Examples.lexicalError ["cc", "--tokens-dfa", "bad.c"] =
        some { exitCode := 0, generator := none }) ∧
    (∀ (env : Environment) (inputFile : String) (printAST afterScan : Bool),
        (performSyntaxAnalysis env inputFile printAST afterScan).isSome = true ↔
          env.opens inputFile = true ∧ env.parseResult inputFile afterScan = 0 ∧
            (env.programRoot inputFile afterScan).isSome = true) ∧
    (∀ (env : Environment) (o : Options), o.inputFile.isEmpty = false →
        o.tokensOnly = false → o.tokensDFA = false → o.astOnly = true →
          runMode env o =
            some { exitCode :=
                     if (performSyntaxAnalysis env o.inputFile true false).isSome then 0 else 1,
                   generator := none }) ∧
    (∀ (env : Environment) (o : Options), o.inputFile.isEmpty = false →
        o.tokensOnly = false → o.tokensDFA = false → o.astOnly = false →
        o.semanticOnly = true →
          runMode env o =
            some { exitCode :=
                     match performSyntaxAnalysis env o.inputFile false false with
                     | some program =>
                       if (SemanticAnalyzer.analyze SemanticAnalyzer.new program false).result
                       then 0 else 1
                     | none => 1,
                   generator := none }) ∧
    (∀ (env : Environment) (o : Options), o.inputFile.isEmpty = false →
        o.tokensOnly = false → o.tokensDFA = false → o.astOnly = false →
        o.semanticOnly = false → o.allPhases = true →
          runMode env o =
            some { exitCode :=
                     match performSyntaxAnalysis env o.inputFile true true with
                     | some program =>
                       if (SemanticAnalyzer.analyze SemanticAnalyzer.new program false).result
                       then 0 else 1
                     | none => 1,
                   generator := none }) ∧
    (∀ (env : Environment) (o : Options) (r : Run), o.inputFile.isEmpty = false →
        o.tokensOnly = false → o.tokensDFA = false → o.astOnly = false →
        o.semanticOnly = false → o.allPhases = false → runMode env o = some r →
          (r.exitCode = 0 ↔
            ∃ program, performSyntaxAnalysisQuiet env o.inputFile = some program ∧
              (SemanticAnalyzer.analyze SemanticAnalyzer.new program true).result = true) ∧
          (r.exitCode = 0 ∨ r.exitCode = 1)) ∧
    (∀ (env : Environment) (o : Options), o.inputFile.isEmpty = true →
        runMode env o = some { exitCode := 1, generator := none }) ∧
    (main Examples.assignSource ["cc", "-o"] = some { exitCode := 1, generator := none } ∧
      main Examples.assignSource ["cc", "a.c", "b.c"] =
        some { exitCode := 1, generator := none } ∧
      main Examples.assignSource ["cc", "--fast", "a.c"] =
        some { exitCode := 1, generator := none } ∧
      main Examples.assignSource ["cc"] = some { exitCode := 1, generator := none } ∧
      main Examples.noFile ["cc", "--help"] = some { exitCode := 0, generator := none } ∧
      main Examples.noFile ["cc", "missing.c"] = some { exitCode := 1, generator := none } ∧
      main Examples.undeclaredSource ["cc", "test.c", "--semantic"] =
        some { exitCode := 1, generator := none } ∧
      main Examples.assignSource ["cc", "test.c", "--all-phases"] =
        some { exitCode := 0, generator := none }) := by
  refine ⟨?_, by decide, by decide, ?_, ?_, ?_, ?_, ?_, ?_, by decide⟩
  · intro env o hf h
    unfold runMode
    rcases h with h | h
    · simp [hf, h]
    · by_cases h1 : o.tokensOnly = true
      · simp [hf, h1]
      · simp [hf, h1, h]
  · intro env inputFile printAST afterScan
    unfold performSyntaxAnalysis
    cases ho : env.opens inputFile
    · simp
    · by_cases hp : env.parseResult inputFile afterScan = 0
      · simp [hp]
      · simp [hp]
  · intro env o hf h1 h2 h3
    unfold runMode
    simp only [hf, h1, h2, h3, Bool.false_eq_true, if_false, if_true]
    cases performSyntaxAnalysis env o.inputFile true false <;> rfl
  · intro env o hf h1 h2 h3 h4
    unfold runMode
    simp only [hf, h1, h2, h3, h4, Bool.false_eq_true, if_false, if_true]
    cases performSyntaxAnalysis env o.inputFile false false <;> rfl
  · intro env o hf h1 h2 h3 h4 h5
    unfold runMode
    simp only [hf, h1, h2, h3, h4, h5, Bool.false_eq_true, if_false, if_true]
    cases performSyntaxAnalysis env o.inputFile true true <;> rfl
  · intro env o r hf h1 h2 h3 h4 h5 hr
    unfold runMode at hr
    simp only [hf, h1, h2, h3, h4, h5, Bool.false_eq_true, if_false] at hr
    cases hq : performSyntaxAnalysisQuiet env o.inputFile with
    | none =>
      rw [hq] at hr
      simp only [Option.some.injEq] at hr
      subst hr
      simp
    | some program =>
      rw [hq] at hr
      simp only at hr
      cases hres : (SemanticAnalyzer.analyze SemanticAnalyzer.new program true).result with
      | false =>
        simp only [hres, Bool.not_false, if_true, Option.some.injEq] at hr
        subst hr
        simp [hres]
      | true =>
        simp only [hres, Bool.not_true, Bool.false_eq_true, if_false,
          Option.map_eq_some'] at hr
        obtain ⟨g, _, rfl⟩ := hr
        simp [hres]
  · intro env o hf
    unfold runMode
    simp [hf]

namespace CodeGenerator

/-! ## Code generation after analysis: C33, C34, C35 -/

/-- C33, the code at the failing inputs.  `visit(FunctionDefinition*)` clears the frame
map and registers the parameters only, so when the body is reached the map has no name
that is not a parameter, whatever was declared before the function; a reference to such
a name writes the line `Error: Undefined variable '<name>'` to `std::cerr` and no load,
and an assignment to it writes the same line and no store.  The analyzer accepts
`int g; int main() { g = 1; return g; }` with no error, and the generator then reaches
the undefined-variable branch twice and emits neither the store nor the load; it accepts
`int f() { return 0; } int main() { return f; }`, where the identifier resolves to a
function, and `int f() { return 0; } int main() { return f(y); }`, where the argument
is never analyzed, and the generator reaches the branch for `f` and for `y`. -/
theorem undefined_variable_reached :
    (∀ (g : CodeGenerator) (f : FunctionDefinition) (name : String),
        name ∉ f.parameters.map Prod.snd →
          Frame.find (enterFunction g f).symbolTable name = none) ∧
    (∀ (g : CodeGenerator) (id : Identifier),
        Frame.find g.symbolTable id.name = none →
          (visitExpression g (.Identifier id)).output = g.output ∧
          (visitExpression g (.Identifier id)).errorOutput =
            g.errorOutput ++ ["Error: Undefined variable '" ++ id.name ++ "'"]) ∧
    (∀ (g : CodeGenerator) (name : String),
        Frame.find g.symbolTable name = none →
          (storeVariable g name).output = g.output ∧
          (storeVariable g name).errorOutput =
            g.errorOutput ++ ["Error: Undefined variable '" ++ name ++ "'"]) ∧
    ((SemanticAnalyzer.analyze SemanticAnalyzer.new Examples.globalVariable true).result
        = true ∧
      (SemanticAnalyzer.analyze SemanticAnalyzer.new Examples.globalVariable
        true).analyzer.errors = [] ∧
      (generateAssembly CodeGenerator.new
          (some (SemanticAnalyzer.analyze SemanticAnalyzer.new Examples.globalVariable
            true).program)).map (fun g => (g.output, g.errorOutput)) =
        some (["# Generated by C Compiler", "", "    # Variable declaration: int g",
               ".section .text", ".globl main", "main:", "    pushq %rbp",
               "    movq %rsp, %rbp", "    movq $1, %rax", "    leave", "    ret",
               "func_end0:", "    # Default return (if no explicit return)",
               "    movq $0, %rax", "    leave", "    ret", ""],
              ["Error: Undefined variable 'g'", "Error: Undefined variable 'g'"])) ∧
    ((SemanticAnalyzer.analyze SemanticAnalyzer.new Examples.functionAsValue true).result
        = true ∧
      (generateAssembly CodeGenerator.new
          (some (SemanticAnalyzer.analyze SemanticAnalyzer.new Examples.functionAsValue
            true).program)).map (fun g => g.errorOutput) =
        some ["Error: Undefined variable 'f'"]) ∧
    ((SemanticAnalyzer.analyze SemanticAnalyzer.new Examples.callUndeclaredArgument
        true).result = true ∧
      (generateAssembly CodeGenerator.new
          (some (SemanticAnalyzer.analyze SemanticAnalyzer.new
            Examples.callUndeclaredArgument true).program)).map (fun g => g.errorOutput) =
        some ["Error: Undefined variable 'y'"]) := by
  refine ⟨?_, ?_, ?_, by decide, by decide, by decide⟩
  · intro g f name hn
    unfold enterFunction
    simp only
    rw [registerParameters_find_other f.parameters _ _ name hn]
    rfl
  · intro g id h
    simp [visitExpression, getVariableAddress, h, (by decide : "".isEmpty = true)]
  · intro g name h
    simp [storeVariable, getVariableAddress, h, (by decide : "".isEmpty = true)]

/-- C34, what holds and the code at the failing input.  Within the range of `int`, and
with a frame map whose offsets are at most `stackOffset` (locals) or negative
(parameters), the slot a binary expression takes for its right operand lies above
`stackOffset`; every slot taken inside the left operand has a strictly greater offset;
the left operand leaves the frame map as it is, and every offset an assignment inside
it stores to is smaller than the slot, each such store being a line of the output.  But
a call in the left operand writes `push %rax` and `call` between the store to the slot
and the reload: in the code of `return f(1) + 2;` the store `movq %rax, -8(%rbp)` is
followed by `push %rax` while no line since `movq %rsp, %rbp` has moved `%rsp`. -/
theorem spill_slot_overwritten :
    (∀ (g : CodeGenerator) (node : ASTNode) (left right : Expression) (op : String),
        SlotRange g (expressionEvents g (.BinaryExpression node left op right)) →
        (∀ (name : String) (v : Int), Frame.find g.symbolTable name = some v →
          v ≤ g.stackOffset) →
          g.stackOffset < (spillRight (visitExpression g right)).stackOffset ∧
          (∀ k ∈ Event.slots (expressionEvents (spillRight (visitExpression g right)) left),
            (spillRight (visitExpression g right)).stackOffset < k) ∧
          (visitExpression (spillRight (visitExpression g right)) left).symbolTable =
            g.symbolTable ∧
          (∀ v ∈ assignmentOffsets (spillRight (visitExpression g right)) left,
            v < (spillRight (visitExpression g right)).stackOffset ∧
            ("    movq %rax, " ++ ("-" ++ toString v ++ "(%rbp)")) ∈
              (visitExpression (spillRight (visitExpression g right)) left).output)) ∧
    (SemanticAnalyzer.analyze SemanticAnalyzer.new Examples.callInLeftOperand true).result
      = true ∧
    (generateAssembly CodeGenerator.new
        (some (SemanticAnalyzer.analyze SemanticAnalyzer.new Examples.callInLeftOperand
          true).program)).map (fun g => (g.output, g.errorOutput)) =
      some (["# Generated by C Compiler", "",
             ".section .text", ".globl f", "f:", "    pushq %rbp", "    movq %rsp, %rbp",
             "    movq --16(%rbp), %rax", "    leave", "    ret", "func_end0:",
             "    # Default return (if no explicit return)", "    movq $0, %rax",
             "    leave", "    ret", "",
             ".section .text", ".globl main", "main:", "    pushq %rbp",
             "    movq %rsp, %rbp", "    movq $2, %rax", "    movq %rax, -8(%rbp)",
             "    movq $1, %rax", "    push %rax", "    call f", "    add $8, %rsp",
             "    movq -8(%rbp), %rbx", "    addq %rbx, %rax", "    leave", "    ret",
             "    # Stack space allocated: 8 bytes", "func_end1:",
             "    # Default return (if no explicit return)", "    movq $0, %rax",
             "    leave", "    ret", ""], []) := by
  refine ⟨?_, by decide, by decide⟩
  intro g node left right op hr hb
  simp only [expressionEvents] at hr
  have run1 := visitExpression_slots g right hr.leftSlots.leftSlots
  have run2 : SlotRun (visitExpression g right) (spillRight (visitExpression g right))
      [.spill (spillRight (visitExpression g right)).stackOffset] :=
    SlotRun.stepSlot rfl (hr.leftSlots.rightSlots run1) (spillRight_stackOffset _)
  have run12 := run1.appendSlots run2
  have run3 := visitExpression_slots (spillRight (visitExpression g right)) left
    (hr.rightSlots run12)
  have hown : g.stackOffset < (spillRight (visitExpression g right)).stackOffset := by
    have := run12.2
    simp only [Event.slots_append, List.length_append] at this
    have hl : (Event.slots [Event.spill (spillRight (visitExpression g right)).stackOffset]).length
        = 1 := rfl
    rw [hl] at this
    push_cast at this
    omega
  have hmap : (visitExpression (spillRight (visitExpression g right)) left).symbolTable =
      g.symbolTable := by
    rw [(visitExpression_keeps _ left).1, spillRight_symbolTable,
      (visitExpression_keeps g right).1]
  refine ⟨hown, ?_, hmap, ?_⟩
  · intro k hk
    rw [run3.1] at hk
    obtain ⟨i, _, hi⟩ := arithmeticRun_mem hk
    have : (0 : Int) ≤ 8 * (i : Int) := by positivity
    omega
  · intro v hv
    obtain ⟨name, hn⟩ := assignmentOffsets_mapped _ left v hv
    rw [spillRight_symbolTable, (visitExpression_keeps g right).1] at hn
    have := hb name v hn
    exact ⟨by omega, assignmentOffsets_emitted _ left v hv⟩

/-- C35: for a function whose body has no statement with a null expression and whose
count stays in the range of `int`, the visit of the function definition returns, and
`stackOffset` is then 8 times the number of variable declarators (plain and initialized)
plus `BinaryExpression` nodes of the body, where binary expressions inside the arguments
of a call of `printf` are not counted.  The line
`    # Stack space allocated: <stackOffset> bytes` is written right after the code of
the body exactly when this number is positive; the label `func_end<n>` follows. -/
theorem stack_offset_count (g : CodeGenerator) (f : FunctionDefinition)
    (hc : Statement.completeList f.bodyStatements = true)
    (hr : 8 * (Statement.slotCountOfList f.bodyStatements : Int) < 2147483648) :
    ∃ g1 g', visitStatements (enterFunction g f) f.bodyStatements = some g1 ∧
      visitFunctionDefinition g f = some g' ∧
      g1.stackOffset = 8 * (Statement.slotCountOfList f.bodyStatements : Int) ∧
      g'.stackOffset = 8 * (Statement.slotCountOfList f.bodyStatements : Int) ∧
      g'.output =
        g1.output ++
          (if 0 < Statement.slotCountOfList f.bodyStatements then
            ["    # Stack space allocated: "
              ++ toString (8 * (Statement.slotCountOfList f.bodyStatements : Int)) ++ " bytes"]
           else []) ++
          ["func_end" ++ toString g1.labelCounter ++ ":",
           "    # Default return (if no explicit return)"] ++
          (if f.returnType = "void" then [] else ["    movq $0, %rax"]) ++
          ["    leave", "    ret", ""] := by
  obtain ⟨g1, h1⟩ := visitStatements_complete (enterFunction g f) f.bodyStatements hc
  have hcount := statementsEvents_count (enterFunction g f) f.bodyStatements hc
  have hrange : SlotRange (enterFunction g f)
      (statementsEvents (enterFunction g f) f.bodyStatements) := by
    unfold SlotRange CounterRange
    rw [hcount, enterFunction_stackOffset]
    exact ⟨le_refl _, by omega⟩
  have hrun := visitStatements_slots _ _ g1 hrange h1
  have hoff : g1.stackOffset = 8 * (Statement.slotCountOfList f.bodyStatements : Int) := by
    have := hrun.2
    rw [hcount, enterFunction_stackOffset] at this
    omega
  have hv : visitFunctionDefinition g f = some (leaveFunction g1 f) := by
    simp only [visitFunctionDefinition, visitStatement, h1, Option.map_some']
  refine ⟨g1, leaveFunction g1 f, h1, hv, hoff, ?_, ?_⟩
  · rw [leaveFunction_stackOffset, hoff]
  · by_cases hpos : 0 < Statement.slotCountOfList f.bodyStatements
    · have hp : g1.stackOffset > 0 := by rw [hoff]; omega
      by_cases hvoid : f.returnType = "void"
      · simp [leaveFunction, stackComment, hp, hpos, hvoid, hoff]
      · simp [leaveFunction, stackComment, hp, hpos, hvoid, hoff]
    · have hp : ¬ g1.stackOffset > 0 := by rw [hoff]; omega
      by_cases hvoid : f.returnType = "void"
      · simp [leaveFunction, stackComment, hp, hpos, hvoid]
      · simp [leaveFunction, stackComment, hp, hpos, hvoid]

/-- Witness for C35: a body with two declarators and three counted binary expressions,
one more inside the arguments of `printf`. -/
theorem stack_offset_count_witness :
    Statement.slotCountOfList Examples.slotCounting.bodyStatements = 5 ∧
    ∃ g1 g', visitStatements (enterFunction CodeGenerator.new Examples.slotCounting)
        Examples.slotCounting.bodyStatements = some g1 ∧
      visitFunctionDefinition CodeGenerator.new Examples.slotCounting = some g' ∧
      g1.stackOffset = 8 * (Statement.slotCountOfList Examples.slotCounting.bodyStatements : Int) ∧
      g'.stackOffset = 8 * (Statement.slotCountOfList Examples.slotCounting.bodyStatements : Int) ∧
      g'.output =
        g1.output ++
          (if 0 < Statement.slotCountOfList Examples.slotCounting.bodyStatements then
            ["    # Stack space allocated: "
              ++ toString (8 * (Statement.slotCountOfList
                  Examples.slotCounting.bodyStatements : Int)) ++ " bytes"]
           else []) ++
          ["func_end" ++ toString g1.labelCounter ++ ":",
           "    # Default return (if no explicit return)"] ++
          (if Examples.slotCounting.returnType = "void" then [] else ["    movq $0, %rax"]) ++
          ["    leave", "    ret", ""] :=
  ⟨by decide, stack_offset_count CodeGenerator.new Examples.slotCounting (by decide)
    (by decide)⟩

end CodeGenerator

/-! ## Shape of the symbol table: C36 -/

theorem SymbolTable.scopeAt_enterScope (t : SymbolTable) (i : Nat) :
    t.enterScope.scopeAt i = t.scopeAt i := by
  simp only [SymbolTable.scopeAt, SymbolTable.enterScope, List.getD_eq_getElem?_getD]
  by_cases hi : i < t.scopes.length
  · rw [List.getElem?_append_left hi]
  · have h1 : t.scopes.length ≤ i := by omega
    rw [List.getElem?_eq_none h1]
    by_cases h2 : i = t.scopes.length
    · subst h2
      simp
    · rw [List.getElem?_eq_none]
      simp only [List.length_append, List.length_singleton]
      omega

theorem SymbolTable.scopeAt_exitScope_mem (t : SymbolTable) (i : Nat)
    (e : String × SymbolInfo) (h : e ∈ t.exitScope.scopeAt i) : e ∈ t.scopeAt i := by
  unfold SymbolTable.exitScope at h
  split at h
  · simp only [SymbolTable.scopeAt, List.getD_eq_getElem?_getD] at h ⊢
    by_cases hi : i < t.scopes.length - 1
    · rw [List.getElem?_eq_getElem (by simpa using hi)] at h
      rw [List.getElem_dropLast] at h
      rw [List.getElem?_eq_getElem (by omega)]
      exact h
    · rw [List.getElem?_eq_none (by simpa using Nat.le_of_not_lt hi)] at h
      simp at h
  · exact h

theorem SymbolTable.WF_exitScope {t : SymbolTable} (h : t.WF) : t.exitScope.WF := by
  obtain ⟨h0, h1⟩ := h
  unfold SymbolTable.exitScope
  split
  · refine ⟨?_, ?_⟩
    · simp only; omega
    · simp only [List.length_dropLast]
      omega
  · exact ⟨h0, h1⟩

theorem SymbolTable.WF_declare {t : SymbolTable} (h : t.WF) (n ty k : String) :
    (t.declare n ty k).2.WF := by
  obtain ⟨h0, h1⟩ := h
  unfold SymbolTable.declare
  split
  · exact ⟨h0, h1⟩
  · refine ⟨h0, ?_⟩
    simp only [List.length_modify]
    exact h1

theorem SymbolTable.WF_setInitialized {t : SymbolTable} (h : t.WF) (i : Nat) (n : String) :
    (t.setInitialized i n).WF := by
  obtain ⟨h0, h1⟩ := h
  refine ⟨h0, ?_⟩
  simp only [SymbolTable.setInitialized, List.length_modify]
  exact h1

theorem SymbolTable.scopeAt_modify (t : List Scope) (f : Scope → Scope) (i j : Nat)
    (hf : f [] = []) :
    (List.modify f i t).getD j [] = if i = j then f (t.getD j []) else t.getD j [] := by
  simp only [List.getD_eq_getElem?_getD, List.getElem?_modify]
  cases h : t[j]? with
  | none =>
    by_cases hij : i = j <;> simp [hij, hf]
  | some s =>
    by_cases hij : i = j <;> simp [hij]

theorem SymbolTable.scopeAt_modify_lt (t : List Scope) (f : Scope → Scope) (i j : Nat)
    (hi : i < t.length) :
    (List.modify f i t).getD j [] = if i = j then f (t.getD j []) else t.getD j [] := by
  simp only [List.getD_eq_getElem?_getD, List.getElem?_modify]
  cases h : t[j]? with
  | none =>
    have hj : t.length ≤ j := by
      by_contra hlt
      rw [List.getElem?_eq_getElem (by omega)] at h
      exact Option.noConfusion h
    have hij : i ≠ j := by omega
    simp [hij]
  | some s =>
    by_cases hij : i = j <;> simp [hij]

theorem SymbolTable.Invariant_new : SymbolTable.new.Invariant := by
  refine ⟨SymbolTable.WF_new, fun i entry h => ?_⟩
  cases i with
  | zero => simp [SymbolTable.new, SymbolTable.enterScope, SymbolTable.scopeAt] at h
  | succ i => simp [SymbolTable.new, SymbolTable.enterScope, SymbolTable.scopeAt] at h

theorem SymbolTable.Invariant_enterScope {t : SymbolTable} (h : t.Invariant) :
    t.enterScope.Invariant := by
  refine ⟨SymbolTable.WF_enterScope h.1, fun i entry he => ?_⟩
  rw [SymbolTable.scopeAt_enterScope] at he
  exact h.2 i entry he

theorem SymbolTable.Invariant_exitScope {t : SymbolTable} (h : t.Invariant) :
    t.exitScope.Invariant :=
  ⟨SymbolTable.WF_exitScope h.1,
    fun i entry he => h.2 i entry (SymbolTable.scopeAt_exitScope_mem t i entry he)⟩

theorem SymbolTable.Invariant_declare {t : SymbolTable} (h : t.Invariant)
    (n ty k : String) : (t.declare n ty k).2.Invariant := by
  refine ⟨SymbolTable.WF_declare h.1 n ty k, fun i entry he => ?_⟩
  obtain ⟨⟨h0, h1⟩, hentries⟩ := h
  unfold SymbolTable.declare at he
  split at he
  · exact hentries i entry he
  · have hlt : t.currentScope.toNat < t.scopes.length := by omega
    simp only [SymbolTable.scopeAt] at he
    rw [SymbolTable.scopeAt_modify_lt _ _ _ _ hlt] at he
    split at he
    · rename_i hij
      rcases Scope.assign_entries _ _ _ _ he with h2 | ⟨h2, h3⟩
      · exact hentries i entry h2
      · rw [h2, h3]
        refine ⟨rfl, ?_⟩
        simp only [SymbolInfo.new]
        omega
    · exact hentries i entry he

theorem SymbolTable.Invariant_setInitialized {t : SymbolTable} (h : t.Invariant)
    (j : Nat) (n : String) : (t.setInitialized j n).Invariant := by
  refine ⟨SymbolTable.WF_setInitialized h.1 j n, fun i entry he => ?_⟩
  simp only [SymbolTable.setInitialized, SymbolTable.scopeAt] at he
  rw [SymbolTable.getD_modify_setInitialized] at he
  split at he
  · obtain ⟨e', he', h1, h2, h3, _⟩ := Scope.setInitialized_entries _ _ _ he
    have := h.2 i e' he'
    rw [← h1, ← h2, ← h3]
    exact this
  · exact h.2 i entry he

/-- C36: the table the constructor builds has the shape `Invariant` (the current scope
index is the number of scopes minus one and not negative, and every entry stored in
scope `i` under key `n` has name `n` and scope level `i`); `enterScope`, `exitScope` and
`declare` preserve it, and so does the write of an initialization flag; hence every
table that can be reached by these steps has it. -/
theorem SymbolTable.invariant_preserved :
    SymbolTable.new.Invariant ∧
    (∀ t : SymbolTable, t.Invariant →
      t.enterScope.Invariant ∧ t.exitScope.Invariant ∧
      (∀ name type kind : String, (t.declare name type kind).2.Invariant) ∧
      (∀ (i : Nat) (name : String), (t.setInitialized i name).Invariant)) ∧
    (∀ t : SymbolTable, t.Reachable → t.Invariant) := by
  refine ⟨SymbolTable.Invariant_new, fun t h =>
    ⟨SymbolTable.Invariant_enterScope h, SymbolTable.Invariant_exitScope h,
      fun n ty k => SymbolTable.Invariant_declare h n ty k,
      fun i n => SymbolTable.Invariant_setInitialized h i n⟩, ?_⟩
  intro t hr
  induction hr with
  | new => exact SymbolTable.Invariant_new
  | enterScope _ ih => exact SymbolTable.Invariant_enterScope ih
  | exitScope _ ih => exact SymbolTable.Invariant_exitScope ih
  | declare n ty k _ ih => exact SymbolTable.Invariant_declare ih n ty k
  | setInitialized i n _ ih => exact SymbolTable.Invariant_setInitialized ih i n

/-- Witness for C36: a table reached by entering a scope, declaring, leaving the scope
and declaring again. -/
theorem SymbolTable.invariant_preserved_witness :
    ((SymbolTable.new.enterScope.declare "x" "int" "variable").2.exitScope.declare
      "f" "int" "function").2.Invariant :=
  SymbolTable.invariant_preserved.2.2 _
    (.declare "f" "int" "function" (.exitScope (.declare "x" "int" "variable"
      (.enterScope .new))))

/-! ## Assignability as a relation: C37 -/

theorem TypeInfo.isNumeric_congr {a b : TypeInfo} (h : a.baseType = b.baseType) :
    a.isNumeric = b.isNumeric := by
  simp only [TypeInfo.isNumeric, h]

theorem TypeInfo.canAssignTo_iff (a b : TypeInfo) :
    a.canAssignTo b = true ↔
      a.isValid = true ∧ b.isValid = true ∧
        (a.baseType = b.baseType ∨ (a.isNumeric = true ∧ b.isNumeric = true)) := by
  unfold TypeInfo.canAssignTo
  cases ha : a.isValid <;> cases hb : b.isValid <;> simp

/-- C37: on valid types `canAssignTo` is an equivalence relation.  It is reflexive on
valid types, symmetric as a Boolean function and transitive; a numeric type (int, char,
float, double) can be assigned exactly to the numeric types, and a type with any other
base name exactly to the types with that same base name. -/
theorem TypeInfo.canAssignTo_equivalence :
    Equivalence (fun (a b : { t : TypeInfo // t.isValid = true }) =>
      a.1.canAssignTo b.1 = true) ∧
    (∀ a : TypeInfo, a.isValid = true → a.canAssignTo a = true) ∧
    (∀ a b : TypeInfo, a.canAssignTo b = b.canAssignTo a) ∧
    (∀ a b c : TypeInfo, a.canAssignTo b = true → b.canAssignTo c = true →
      a.canAssignTo c = true) ∧
    (∀ a : TypeInfo, a.isNumeric = true ↔
      a.baseType = "int" ∨ a.baseType = "char" ∨ a.baseType = "float"
        ∨ a.baseType = "double") ∧
    (∀ a b : TypeInfo, a.isValid = true → b.isValid = true → a.isNumeric = true →
      (a.canAssignTo b = true ↔ b.isNumeric = true)) ∧
    (∀ a b : TypeInfo, a.isValid = true → b.isValid = true → a.isNumeric = false →
      (a.canAssignTo b = true ↔ b.baseType = a.baseType)) := by
  have hrefl : ∀ a : TypeInfo, a.isValid = true → a.canAssignTo a = true := by
    intro a ha
    rw [TypeInfo.canAssignTo_iff]
    exact ⟨ha, ha, Or.inl rfl⟩
  have hsymm : ∀ a b : TypeInfo, a.canAssignTo b = b.canAssignTo a := by
    intro a b
    rw [Bool.eq_iff_iff, TypeInfo.canAssignTo_iff, TypeInfo.canAssignTo_iff]
    constructor
    · rintro ⟨h1, h2, h3⟩
      exact ⟨h2, h1, h3.imp Eq.symm And.symm⟩
    · rintro ⟨h1, h2, h3⟩
      exact ⟨h2, h1, h3.imp Eq.symm And.symm⟩
  have htrans : ∀ a b c : TypeInfo, a.canAssignTo b = true → b.canAssignTo c = true →
      a.canAssignTo c = true := by
    intro a b c hab hbc
    rw [TypeInfo.canAssignTo_iff] at hab hbc ⊢
    obtain ⟨ha, _, h1⟩ := hab
    obtain ⟨_, hc, h2⟩ := hbc
    refine ⟨ha, hc, ?_⟩
    rcases h1 with h1 | ⟨h1a, h1b⟩
    · rcases h2 with h2 | ⟨h2b, h2c⟩
      · exact Or.inl (h1.trans h2)
      · exact Or.inr ⟨by rw [TypeInfo.isNumeric_congr h1]; exact h2b, h2c⟩
    · rcases h2 with h2 | ⟨_, h2c⟩
      · exact Or.inr ⟨h1a, by rw [← TypeInfo.isNumeric_congr h2]; exact h1b⟩
      · exact Or.inr ⟨h1a, h2c⟩
  refine ⟨⟨fun a => hrefl a.1 a.2, ?_, ?_⟩, hrefl, hsymm, htrans, ?_, ?_, ?_⟩
  · intro a b h
    rw [hsymm]
    exact h
  · intro a b c h1 h2
    exact htrans _ _ _ h1 h2
  · intro a
    simp [TypeInfo.isNumeric, or_assoc]
  · intro a b ha hb hn
    rw [TypeInfo.canAssignTo_iff]
    constructor
    · rintro ⟨_, _, h | ⟨_, h⟩⟩
      · rw [← TypeInfo.isNumeric_congr h]; exact hn
      · exact h
    · intro h
      exact ⟨ha, hb, Or.inr ⟨hn, h⟩⟩
  · intro a b ha hb hn
    rw [TypeInfo.canAssignTo_iff]
    constructor
    · rintro ⟨_, _, h | ⟨h, _⟩⟩
      · exact h.symm
      · rw [hn] at h; exact absurd h (by decide)
    · intro h
      exact ⟨ha, hb, Or.inl h.symm⟩

/-- Witness for C37: char to int to double, and void against int. -/
theorem TypeInfo.canAssignTo_equivalence_witness :
    (TypeInfo.ofType "char").canAssignTo (TypeInfo.ofType "double") = true ∧
    ((TypeInfo.ofType "void").canAssignTo (TypeInfo.ofType "int") = true ↔
      (TypeInfo.ofType "int").baseType = (TypeInfo.ofType "void").baseType) :=
  ⟨TypeInfo.canAssignTo_equivalence.2.2.2.1 (TypeInfo.ofType "char") (TypeInfo.ofType "int")
      (TypeInfo.ofType "double") (by decide) (by decide),
   TypeInfo.canAssignTo_equivalence.2.2.2.2.2.2 (TypeInfo.ofType "void") (TypeInfo.ofType "int")
      (by decide) (by decide) (by decide)⟩

namespace SemanticAnalyzer

/-! ## Scopes of functions and declarations: C38, C39, C40 -/

/-- C38: in a function definition analyzed at the global scope (scope index 0, the state
of every top-level visit), the parameters are entries of scope 1 with scope level 1 and
the statements directly in the body are visited at scope 2.  A declaration `T n;` that is
the first statement of the body is accepted with no error, whether or not `n` names a
parameter: it makes `n` resolve to a new variable of scope level 2, and at every later
statement visit in the body `lookup` resolves `n` in a scope of index at least 2, never
to the parameter entry of scope 1.  For `int f(int a) { int a; a = 1; return a; }` there
is no error and no warning, and the `a` returned is annotated as a variable of scope
level 2. -/
theorem parameter_shadowed_by_local (a : SemanticAnalyzer) (f : FunctionDefinition)
    (hw : a.symbolTable.WF) (h0 : a.symbolTable.currentScope = 0) :
    (enterFunction a f).symbolTable.currentScope = 1 ∧
    (∀ p ∈ f.parameters, ∃ sym,
      (enterBody a f).symbolTable.lookupEntry p.2 = some (1, sym) ∧
        sym.kind = "parameter" ∧ sym.scopeLevel = 1) ∧
    (∀ p ∈ statementStarts (enterBody a f) f.bodyStatements,
      p.1.symbolTable.currentScope = 2) ∧
    (∀ (node : ASTNode) (type n : String) (rest : List Statement),
      f.bodyStatements = .VariableDeclaration node type [n] [] :: rest →
        (visitStatement (enterBody a f) (.VariableDeclaration node type [n] [])).1.errors =
          (enterFunction a f).errors ∧
        (visitStatement (enterBody a f)
            (.VariableDeclaration node type [n] [])).1.symbolTable.lookupEntry n =
          some (2, SymbolInfo.new n type "variable" 2) ∧
        ∀ p ∈ statementsVisits
            (visitStatement (enterBody a f) (.VariableDeclaration node type [n] [])).1 rest,
          ∃ i sym, p.1.symbolTable.lookupEntry n = some (i, sym) ∧ 2 ≤ i) ∧
    ((visitFunctionDefinition SemanticAnalyzer.new Examples.shadowParameter).1.errors = [] ∧
      (visitFunctionDefinition SemanticAnalyzer.new Examples.shadowParameter).1.warnings = [] ∧
      Statement.identifiersOfList
          (visitFunctionDefinition SemanticAnalyzer.new
            Examples.shadowParameter).2.bodyStatements =
        [⟨ASTNode.atLine 2, "a"⟩,
         { node := { semanticInfo := { type := "int", isInitialized := true, scopeLevel := 2,
                                       symbolKind := "variable", hasSemanticError := false,
                                       errorMessage := "" },
                     lineNumber := 3 },
           name := "a" }]) := by
  have hcur := enterFunction_currentScope a f
  obtain ⟨hwf, hparams⟩ := enterFunction_parameters a f hw
  have hwb : (enterBody a f).symbolTable.WF := SymbolTable.WF_enterScope hwf
  have hcb : (enterBody a f).symbolTable.currentScope = 2 := by
    show (enterFunction a f).symbolTable.enterScope.currentScope = 2
    simp only [SymbolTable.enterScope, hcur, h0]
    rfl
  refine ⟨by rw [hcur, h0]; rfl, ?_, ?_, ?_, by decide⟩
  · intro p hp
    obtain ⟨sym, h1, h2, h3⟩ := hparams p hp
    refine ⟨sym, ?_, h2, by rw [h3, h0]; rfl⟩
    show (enterFunction a f).symbolTable.enterScope.lookupEntry p.2 = _
    rw [SymbolTable.lookupEntry_enterScope _ _ hwf, h1, h0]
    rfl
  · intro p hp
    rw [statementStarts_currentScope _ _ hwb.1 p hp, hcb]
  · intro node type n rest _
    have hd1 : ((enterFunction a f).symbolTable.enterScope.declare n type "variable").1 = true :=
      SymbolTable.declare_enterScope_fst _ _ _ _ hwf
    have hd1' : ((enterBody a f).symbolTable.declare n type "variable").1 = true := hd1
    have hkey := SymbolTable.hasKey_declare_self (enterBody a f).symbolTable n type "variable" hwb
    have hlk := SymbolTable.lookup_declare (enterBody a f).symbolTable n type "variable" hwb hd1'
    have hwd : ((enterBody a f).symbolTable.declare n type "variable").2.WF := by
      obtain ⟨q0, q1⟩ := hwb
      exact ⟨by simp only [declare_currentScope]; exact q0,
        by simp only [declare_currentScope, declare_length]; exact q1⟩
    have hcd : ((enterBody a f).symbolTable.declare n type "variable").2.currentScope = 2 := by
      rw [declare_currentScope, hcb]
    have hv : (visitStatement (enterBody a f) (.VariableDeclaration node type [n] [])).1 =
        { enterBody a f with
          currentLine := node.lineNumber, currentContext := "变量声明",
          symbolTable := ((enterBody a f).symbolTable.declare n type "variable").2 } := by
      simp [visitStatement, declareNames, visitInitDeclarators, hd1']
    rw [hv]
    have hcur2 : (enterBody a f).symbolTable.currentScope.toNat = 2 := by rw [hcb]; rfl
    rw [hcur2] at hkey
    rw [hcb] at hlk
    have hold : Holds 2 n ({ enterBody a f with
        currentLine := node.lineNumber, currentContext := "变量声明",
        symbolTable := ((enterBody a f).symbolTable.declare n type "variable").2 } :
        SemanticAnalyzer) := ⟨hwd, by rw [hcd]; rfl, hkey⟩
    refine ⟨rfl, ?_, ?_⟩
    · have hk2 : ((enterBody a f).symbolTable.declare n type "variable").2.hasKey
          ((enterBody a f).symbolTable.declare n type "variable").2.currentScope.toNat n
            = true := by
        rw [hcd]; exact hkey
      obtain ⟨sym, hl, _⟩ := SymbolTable.lookupEntry_current _ n hwd hk2
      rw [hcd] at hl
      have hsym : sym = SymbolInfo.new n type "variable" 2 := by
        simp only [SymbolTable.lookup, hl, Option.map_some', Option.some.injEq] at hlk
        exact hlk
      rw [← hsym]
      exact hl
    · intro p hp
      have hh := statementsVisits_holds _ rest hold p hp
      exact SymbolTable.lookupEntry_of_hasKey _ 2 n hh.wf hh.le hh.key

/-- Witness for C38: `int f(int a) { int a; a = 1; return a; }` analyzed by a fresh
analyzer. -/
theorem parameter_shadowed_by_local_witness :
    (enterFunction SemanticAnalyzer.new Examples.shadowParameter).symbolTable.currentScope = 1 ∧
    ∃ sym, (enterBody SemanticAnalyzer.new Examples.shadowParameter).symbolTable.lookupEntry
        ("int", "a").2 = some (1, sym) ∧ sym.kind = "parameter" ∧ sym.scopeLevel = 1 :=
  ⟨(parameter_shadowed_by_local SemanticAnalyzer.new Examples.shadowParameter
      (by decide) (by decide)).1,
   (parameter_shadowed_by_local SemanticAnalyzer.new Examples.shadowParameter
      (by decide) (by decide)).2.1 ("int", "a") (by decide)⟩

end SemanticAnalyzer

namespace SemanticAnalyzer

theorem TypeInfo.canAssignTo_ofType_self (type : String) :
    (TypeInfo.ofType type).canAssignTo (TypeInfo.ofType type) = true := by
  simp [TypeInfo.canAssignTo, TypeInfo.ofType]

theorem declareNames_declares (type : String) (n : String) :
    ∀ (names : List String) (a : SemanticAnalyzer), a.symbolTable.WF → n ∈ names →
      (declareNames a type names).symbolTable.hasKey a.symbolTable.currentScope.toNat n = true
  | [], _, _, h => by simp at h
  | name :: rest, a, hw, h => by
    have hwd : (a.symbolTable.declare name type "variable").2.WF := by
      obtain ⟨h0, h1⟩ := hw
      exact ⟨by simp only [declare_currentScope]; exact h0,
        by simp only [declare_currentScope, declare_length]; exact h1⟩
    simp only [declareNames]
    rcases List.mem_cons.mp h with h1 | h1
    · subst h1
      apply declareNames_hasKey
      split <;> exact SymbolTable.hasKey_declare_self _ _ _ _ hw
    · have hc : a.symbolTable.currentScope =
          (a.symbolTable.declare name type "variable").2.currentScope := by
        simp only [declare_currentScope]
      rw [hc]
      split
      · exact declareNames_declares type n rest _ hwd h1
      · exact declareNames_declares type n rest _ hwd h1

theorem declareNames_errorKinds (type : String) :
    ∀ (names : List String) (a : SemanticAnalyzer),
      ∃ added, (declareNames a type names).errors = a.errors ++ added ∧
        ∀ e ∈ added, e.errorType = "重复声明错误"
  | [], a => ⟨[], by simp [declareNames], by simp⟩
  | name :: rest, a => by
    simp only [declareNames]
    split
    · obtain ⟨x, hx, px⟩ := declareNames_errorKinds type rest
        (({ a with symbolTable := (a.symbolTable.declare name type "variable").2 } :
          SemanticAnalyzer).addError ("重复声明变量 '" ++ name ++ "'") "重复声明错误" "变量声明")
      refine ⟨{ message := "重复声明变量 '" ++ name ++ "'", errorType := "重复声明错误",
                line := a.currentLine, column := 0,
                context := if "变量声明".isEmpty = true then a.currentContext
                           else "变量声明" } :: x,
        by rw [hx]; simp only [addError_errors, List.append_assoc, List.singleton_append], ?_⟩
      intro e he
      rcases List.mem_cons.mp he with h | h
      · rw [h]
      · exact px e h
    · obtain ⟨x, hx, px⟩ := declareNames_errorKinds type rest
        { a with symbolTable := (a.symbolTable.declare name type "variable").2 }
      exact ⟨x, hx, px⟩

/-- C39: a declaration declares each name before it analyzes that name's initializer,
and all plain names before any initialized declarator.  For a name `x` the current scope
does not have, `T x = x;` records no error and exactly one warning, the use of the
uninitialized `x`, and leaves `x` declared and initialized.  An initializer that is a
name from the plain-name list of the same declaration is resolved: no error of the
undeclared kind is recorded.  An initialized declarator whose name the current scope
already has records exactly one redeclaration error, and its initializer is not analyzed:
the node comes back as it was and the rest of the list is analyzed from the analyzer
with that one error added.  `int x = x;` analyzed by a fresh analyzer gives no error and
one warning; `int x; int x = y;` with `y` declared nowhere gives one redeclaration error
and no undeclared error. -/
theorem initializer_after_declaration :
    (∀ (a : SemanticAnalyzer) (node idNode : ASTNode) (type x : String),
        a.symbolTable.WF → a.symbolTable.lookupInCurrentScope x = none →
          (visitStatement a (.VariableDeclaration node type []
              [(x, some (.Identifier ⟨idNode, x⟩))])).1.errors = a.errors ∧
          (visitStatement a (.VariableDeclaration node type []
              [(x, some (.Identifier ⟨idNode, x⟩))])).1.warnings =
            a.warnings ++ ["使用了未初始化的变量 '" ++ x ++ "'"] ∧
          (visitStatement a (.VariableDeclaration node type []
              [(x, some (.Identifier ⟨idNode, x⟩))])).1.symbolTable.lookup x =
            some { SymbolInfo.new x type "variable" a.symbolTable.currentScope with
                   isInitialized := true }) ∧
    (∀ (a : SemanticAnalyzer) (node idNode : ASTNode) (type n y : String)
        (names : List String), a.symbolTable.WF → n ∈ names →
          ∃ added,
            (visitStatement a (.VariableDeclaration node type names
                [(y, some (.Identifier ⟨idNode, n⟩))])).1.errors = a.errors ++ added ∧
            ∀ e ∈ added, e.errorType ≠ "未声明错误") ∧
    (∀ (a : SemanticAnalyzer) (type x : String) (e : Option Expression)
        (rest : List (String × Option Expression)) (symbol : SymbolInfo),
        a.symbolTable.lookupInCurrentScope x = some symbol →
          visitInitDeclarators a type ((x, e) :: rest) =
            ((visitInitDeclarators
                (a.addError ("重复声明变量 '" ++ x ++ "'") "重复声明错误" "变量声明")
                type rest).1,
             (x, e) :: (visitInitDeclarators
                (a.addError ("重复声明变量 '" ++ x ++ "'") "重复声明错误" "变量声明")
                type rest).2) ∧
          (a.addError ("重复声明变量 '" ++ x ++ "'") "重复声明错误" "变量声明").errors =
            a.errors ++
              [{ message := "重复声明变量 '" ++ x ++ "'", errorType := "重复声明错误",
                 line := a.currentLine, column := 0, context := "变量声明" }] ∧
          (a.addError ("重复声明变量 '" ++ x ++ "'") "重复声明错误" "变量声明").warnings =
            a.warnings ∧
          (a.addError ("重复声明变量 '" ++ x ++ "'") "重复声明错误" "变量声明").symbolTable =
            a.symbolTable) ∧
    ((visitStatement SemanticAnalyzer.new Examples.selfInitialized).1.errors = [] ∧
      (visitStatement SemanticAnalyzer.new Examples.selfInitialized).1.warnings =
        ["使用了未初始化的变量 'x'"]) ∧
    ((visitStatement SemanticAnalyzer.new Examples.plainAfterInitialized).1.errors = [] ∧
      (visitStatement SemanticAnalyzer.new Examples.plainAfterInitialized).1.warnings =
        ["使用了未初始化的变量 'x'"]) ∧
    ((visitStatements SemanticAnalyzer.new Examples.duplicateInitialized).1.errors =
        [{ message := "重复声明变量 'x'", errorType := "重复声明错误", line := 2, column := 0,
           context := "变量声明" }] ∧
      (visitStatements SemanticAnalyzer.new Examples.duplicateInitialized).1.warnings =
        []) := by
  refine ⟨?_, ?_, ?_, by decide, by decide, by decide⟩
  · intro a node idNode type x hw hx
    have hd1 : (a.symbolTable.declare x type "variable").1 = true := by
      simp [SymbolTable.declare, hx]
    have hl := SymbolTable.lookup_declare a.symbolTable x type "variable" hw hd1
    have hle : ∃ i, (a.symbolTable.declare x type "variable").2.lookupEntry x =
        some (i, SymbolInfo.new x type "variable" a.symbolTable.currentScope) := by
      simp only [SymbolTable.lookup] at hl
      cases hq : (a.symbolTable.declare x type "variable").2.lookupEntry x with
      | none => rw [hq] at hl; simp at hl
      | some p =>
        rw [hq] at hl
        simp only [Option.map_some', Option.some.injEq] at hl
        exact ⟨p.1, by rw [← hl]⟩
    obtain ⟨i, hle⟩ := hle
    have hfound := SymbolTable.lookup_setInitialized_found _ i x _ hle
    simp only [visitStatement, declareNames, visitInitDeclarators, hd1, getExpressionType,
      visitExpression, visitIdentifier, hl, SymbolInfo.new, TypeInfo.canAssignTo_ofType_self,
      markInitialized, restoreType, addWarning]
    simp only [SymbolInfo.new] at hfound hle
    simp [hle, hfound]
  · intro a node idNode type n y names hw hn
    have hk := declareNames_declares type n names
      { a with currentLine := node.lineNumber, currentContext := "变量声明" } hw hn
    obtain ⟨x, hx, px⟩ := declareNames_errorKinds type names
      { a with currentLine := node.lineNumber, currentContext := "变量声明" }
    have hs := declareNames_step type names
      { a with currentLine := node.lineNumber, currentContext := "变量声明" }
    have hold : Holds a.symbolTable.currentScope.toNat n
        (declareNames { a with currentLine := node.lineNumber, currentContext := "变量声明" }
          type names) :=
      ⟨hs.WF hw, by rw [hs.currentScope]; have := hw.1; simp only; omega, hk⟩
    have hd := hold.declare y type "variable"
    have hlk := lookup_ne_none_of_holds hd
    have hx0 : (declareNames { a with currentLine := node.lineNumber, currentContext := "变量声明" }
        type names).errors = a.errors ++ x := hx
    have hpx : ∀ e ∈ x, e.errorType ≠ "未声明错误" := by
      intro e he
      rw [px e he]; decide
    have key : ∀ (c : SemanticAnalyzer),
        (∃ e, c.errors = (declareNames { a with currentLine := node.lineNumber,
                                                currentContext := "变量声明" } type names).errors
            ++ [e] ∧ e.errorType ≠ "未声明错误") →
          ∃ added, c.errors = a.errors ++ added ∧ ∀ e ∈ added, e.errorType ≠ "未声明错误" := by
      rintro c ⟨e, hc, he⟩
      refine ⟨x ++ [e], by rw [hc, hx0, List.append_assoc], ?_⟩
      intro e' he'
      rcases List.mem_append.mp he' with h | h
      · exact hpx e' h
      · rw [List.mem_singleton.mp h]; exact he
    have hid : ∀ (b : SemanticAnalyzer), b.symbolTable.lookup n ≠ none →
        (visitIdentifier b ⟨idNode, n⟩).1.errors = b.errors := by
      intro b hb
      simp only [visitIdentifier]
      split
      · rename_i hnone
        exact absurd hnone hb
      · split <;> rfl
    simp only [visitStatement, visitInitDeclarators]
    split
    · apply key
      simp only [addError_errors]
      exact ⟨_, rfl, by simp⟩
    · simp only [getExpressionType, visitExpression]
      split
      · apply key
        simp only [addError_errors, restoreType_errors, hid _ hlk]
        exact ⟨_, rfl, by simp⟩
      · refine ⟨x, ?_, hpx⟩
        rw [(markInitialized_frame _ _).2.2.1, restoreType_errors, hid _ hlk]
        exact hx0
  · intro a type x e rest symbol hx
    have hd : a.symbolTable.declare x type "variable" = (false, a.symbolTable) := by
      simp [SymbolTable.declare, hx]
    refine ⟨?_, ?_, rfl, rfl⟩
    · cases e with
      | none => simp [visitInitDeclarators, hd]
      | some e => simp [visitInitDeclarators, hd]
    · simp [(by decide : "变量声明".isEmpty = false)]

/-- Witness for C39: `int z = z;` and a second `x` with the initializer `q`, where the
global scope has `x` and `c`. -/
theorem initializer_after_declaration_witness :
    ((visitStatement Examples.withGlobals (.VariableDeclaration (ASTNode.atLine 3) "int" []
        [("z", some (.Identifier ⟨ASTNode.atLine 3, "z"⟩))])).1.errors =
      Examples.withGlobals.errors) ∧
    ((visitInitDeclarators Examples.withGlobals "char"
        [("x", some (.Identifier ⟨ASTNode.atLine 3, "q"⟩))]).2 =
      [("x", some (.Identifier ⟨ASTNode.atLine 3, "q"⟩))]) :=
  ⟨(initializer_after_declaration.1 Examples.withGlobals (ASTNode.atLine 3) (ASTNode.atLine 3)
      "int" "z" (by decide) (by decide)).1,
   by
    have h := (initializer_after_declaration.2.2.1 Examples.withGlobals "char" "x"
      (some (.Identifier ⟨ASTNode.atLine 3, "q"⟩)) []
      { name := "x", type := "int", kind := "variable", scopeLevel := 0,
        isInitialized := true } (by decide)).1
    rw [h]
    rfl⟩

end SemanticAnalyzer

namespace SemanticAnalyzer

theorem declareParameters_errorContext :
    ∀ (params : List (String × String)) (a : SemanticAnalyzer),
      ∃ added, (declareParameters a params).errors = a.errors ++ added ∧
        ∀ e ∈ added, e.context = "函数参数"
  | [], a => ⟨[], by simp [declareParameters], by simp⟩
  | (type, name) :: rest, a => by
    simp only [declareParameters]
    split
    · obtain ⟨x, hx, px⟩ := declareParameters_errorContext rest
        (({ a with symbolTable := (a.symbolTable.declare name type "parameter").2 } :
          SemanticAnalyzer).addError ("重复声明参数 '" ++ name ++ "'") "重复声明错误" "函数参数")
      refine ⟨{ message := "重复声明参数 '" ++ name ++ "'", errorType := "重复声明错误",
                line := a.currentLine, column := 0, context := "函数参数" } :: x, ?_, ?_⟩
      · rw [hx]
        simp [(by decide : "函数参数".isEmpty = false)]
      · intro e he
        rcases List.mem_cons.mp he with h | h
        · rw [h]
        · exact px e h
    · obtain ⟨x, hx, px⟩ := declareParameters_errorContext rest
        (markInitialized
          ({ a with symbolTable := (a.symbolTable.declare name type "parameter").2 } :
            SemanticAnalyzer) name)
      refine ⟨x, ?_, px⟩
      rw [hx, (markInitialized_frame _ _).2.2.1]

/-- C40: `visit(FunctionDefinition*)` declares the function name in the scope it is
visited in before anything else, and the name stays a key of that scope through the
body and through every later top-level declaration.  So, among the errors recorded
while the function and the declarations after it are analyzed, none is the
undeclared-function error for that name, wherever the calls are.  A call of a name that
`lookup` does not find records exactly the undeclared-function error and makes the type
invalid; in particular a program whose first function calls in its body a name other
than its own records that error first, also when a later declaration defines the name.
A function definition whose name the current scope already has records exactly one
redeclaration error for the function (followed only by errors of its parameters) before
the body, and the body is analyzed all the same. -/
theorem function_name_declared :
    (∀ (a : SemanticAnalyzer) (f : FunctionDefinition) (rest : List TopLevel),
        a.symbolTable.WF →
          (enterBody a f).symbolTable.hasKey a.symbolTable.currentScope.toNat f.name = true ∧
          NoUndeclaredCall f.name a (visitFunctionDefinition a f).1 ∧
          (visitFunctionDefinition a f).1.symbolTable.hasKey
            a.symbolTable.currentScope.toNat f.name = true ∧
          NoUndeclaredCall f.name a (visitDeclarations a (.FunctionDefinition f :: rest)).1 ∧
          ((visitDeclarations a (.FunctionDefinition f :: rest)).1.symbolTable.lookup
            f.name).isSome = true) ∧
    (∀ (a : SemanticAnalyzer) (node : ASTNode) (name : String) (arguments : List Expression),
        a.symbolTable.lookup name = none →
          (visitExpression a (.FunctionCall node name arguments)).1.errors =
            a.errors ++ [undeclaredFunction name node.lineNumber] ∧
          (visitExpression a (.FunctionCall node name arguments)).1.currentExpressionType =
            TypeInfo.invalid) ∧
    (∀ (f : FunctionDefinition) (node callNode programNode : ASTNode) (name : String)
        (arguments : List Expression) (rest : List TopLevel) (silent : Bool),
        f.parameters = [] →
        f.bodyStatements =
          [.ExpressionStatement node (some (.FunctionCall callNode name arguments))] →
        name ≠ f.name →
          (∃ more, (analyze SemanticAnalyzer.new
              { node := programNode, declarations := .FunctionDefinition f :: rest }
              silent).analyzer.errors = undeclaredFunction name callNode.lineNumber :: more) ∧
          (analyze SemanticAnalyzer.new
              { node := programNode, declarations := .FunctionDefinition f :: rest }
              silent).result = false) ∧
    (∀ (a : SemanticAnalyzer) (f : FunctionDefinition) (symbol : SymbolInfo),
        a.symbolTable.lookupInCurrentScope f.name = some symbol →
          (∃ fromParameters,
            (enterFunction a f).errors =
              a.errors ++ redeclaredFunction f.name f.node.lineNumber :: fromParameters ∧
            ∀ e ∈ fromParameters, e.context = "函数参数") ∧
          (visitFunctionDefinition a f).1.errors =
            (visitStatements (enterBody a f) f.bodyStatements).1.errors ∧
          (visitFunctionDefinition a f).2.bodyStatements =
            (visitStatements (enterBody a f) f.bodyStatements).2) ∧
    ((analyze SemanticAnalyzer.new Examples.recursiveProgram true).analyzer.errors = [] ∧
      (analyze SemanticAnalyzer.new Examples.forwardCallProgram true).analyzer.errors =
        [undeclaredFunction "g" 1] ∧
      (analyze SemanticAnalyzer.new Examples.duplicateFunctionProgram true).analyzer.errors =
        [redeclaredFunction "f" 2,
         { message := "重复声明变量 'x'", errorType := "重复声明错误", line := 3, column := 0,
           context := "变量声明" }]) := by
  refine ⟨?_, ?_, ?_, ?_, by decide⟩
  · intro a f rest hw
    have hj : ((a.symbolTable.currentScope.toNat : Nat) : Int) ≤ a.symbolTable.currentScope := by
      rw [Int.toNat_of_nonneg hw.1]
    have hk := SymbolTable.hasKey_declare_self a.symbolTable f.name f.returnType "function" hw
    obtain ⟨_, e2⟩ := enterFunction_undeclaredCall a f hw hj hk
    obtain ⟨v1, v2⟩ := visitFunctionDefinition_undeclaredCall a f hw hj hk
    obtain ⟨d1, d2⟩ := visitDeclarations_undeclaredCall rest _ v2
    refine ⟨e2.enter.key, v1, v2.key, ?_, ?_⟩
    · simp only [visitDeclarations, visitTopLevel]
      exact v1.chain d1
    · simp only [visitDeclarations, visitTopLevel]
      have := lookup_ne_none_of_holds d2
      cases hq : (visitDeclarations (visitFunctionDefinition a f).1 rest).1.symbolTable.lookup
          f.name with
      | none => exact absurd hq this
      | some s => rfl
  · intro a node name arguments h
    have h' : ({ a with currentLine := node.lineNumber,
                        currentContext := "函数调用 '" ++ name ++ "'" } :
        SemanticAnalyzer).symbolTable.lookup name = none := h
    simp [visitExpression, h', undeclaredFunction, (by decide : "函数调用".isEmpty = false)]
  · intro f node callNode programNode name arguments rest silent hp hb hne
    have hne' : ¬ f.name = name := fun h => hne h.symm
    have hfirst : (visitFunctionDefinition SemanticAnalyzer.new f).1.errors =
        [undeclaredFunction name callNode.lineNumber] := by
      rw [visitFunctionDefinition_errors]
      simp [enterBody, enterFunction, hp, hb, declareParameters, SemanticAnalyzer.new,
        SymbolTable.new, SymbolTable.enterScope, SymbolTable.declare,
        SymbolTable.lookupInCurrentScope, SymbolTable.scopeAt, Scope.find, Scope.assign,
        visitStatements, visitStatement, visitOptionalExpression, visitExpression,
        SymbolTable.lookup, SymbolTable.lookupEntry, SymbolTable.lookupFrom, List.modify,
        SymbolInfo.new, hne', undeclaredFunction, (by decide : "函数调用".isEmpty = false)]
    have hs := visitFunctionDefinition_step SemanticAnalyzer.new f (by decide)
    have hrest := visitDeclarations_step rest (visitFunctionDefinition SemanticAnalyzer.new f).1
      (by rw [hs.currentScope]; decide)
    obtain ⟨more, hmore⟩ := hrest.errors
    have herr : (analyze SemanticAnalyzer.new
        { node := programNode, declarations := .FunctionDefinition f :: rest }
        silent).analyzer.errors = undeclaredFunction name callNode.lineNumber :: more := by
      show (visitDeclarations _ (.FunctionDefinition f :: rest)).1.errors = _
      simp only [visitDeclarations, visitTopLevel]
      show (visitDeclarations (visitFunctionDefinition SemanticAnalyzer.new f).1 rest).1.errors
        = _
      rw [hmore, hfirst]
      rfl
    refine ⟨⟨more, herr⟩, ?_⟩
    show (!(hasErrors _)) = false
    simp only [hasErrors]
    have : (analyze SemanticAnalyzer.new
        { node := programNode, declarations := .FunctionDefinition f :: rest }
        silent).analyzer.errors.isEmpty = false := by
      rw [herr]; rfl
    simpa using this
  · intro a f symbol h
    have hd : a.symbolTable.declare f.name f.returnType "function" = (false, a.symbolTable) := by
      simp [SymbolTable.declare, h]
    refine ⟨?_, visitFunctionDefinition_errors a f,
      by rw [(visitFunctionDefinition_eq a f).2]; rfl⟩
    obtain ⟨x, hx, px⟩ := declareParameters_errorContext f.parameters
      { (({ a with currentLine := f.node.lineNumber,
                   currentContext := "函数定义 '" ++ f.name ++ "'" } :
            SemanticAnalyzer).addError
          ("重复声明函数 '" ++ f.name ++ "'") "重复声明错误" "函数定义") with
        symbolTable := a.symbolTable.enterScope,
        currentFunctionReturnType := f.returnType, hasReturnStatement := false }
    refine ⟨x, ?_, px⟩
    have he : enterFunction a f = declareParameters
        { (({ a with currentLine := f.node.lineNumber,
                     currentContext := "函数定义 '" ++ f.name ++ "'" } :
              SemanticAnalyzer).addError
            ("重复声明函数 '" ++ f.name ++ "'") "重复声明错误" "函数定义") with
          symbolTable := a.symbolTable.enterScope,
          currentFunctionReturnType := f.returnType, hasReturnStatement := false }
        f.parameters := by
      unfold enterFunction
      simp only [hd, Bool.not_false, if_true]
      rfl
    rw [he, hx]
    simp [redeclaredFunction, (by decide : "函数定义".isEmpty = false)]

/-- Witness for C40: the recursive `f` followed by `main`, and a call of the undeclared
`h`. -/
theorem function_name_declared_witness :
    NoUndeclaredCall "f" SemanticAnalyzer.new
      (visitDeclarations SemanticAnalyzer.new Examples.recursiveProgram.declarations).1 ∧
    (visitExpression Examples.withGlobals (.FunctionCall (ASTNode.atLine 4) "h" [])).1.errors =
      Examples.withGlobals.errors ++ [undeclaredFunction "h" (ASTNode.atLine 4).lineNumber] :=
  ⟨(function_name_declared.1 SemanticAnalyzer.new
      { node := ASTNode.atLine 1, returnType := "int", name := "f",
        parameters := [("int", "n")], bodyNode := ASTNode.atLine 1,
        bodyStatements :=
          [.ReturnStatement (ASTNode.atLine 1)
             (some (.FunctionCall (ASTNode.atLine 1) "f"
               [.Identifier ⟨ASTNode.atLine 1, "n"⟩]))] }
      Examples.recursiveProgram.declarations.tail (by decide)).2.2.2.1,
   (function_name_declared.2.1 Examples.withGlobals (ASTNode.atLine 4) "h" []
      (by decide)).1⟩

end SemanticAnalyzer

end CCompiler
